import Mathlib

/-! # Sentinel-2 mapping service: the event store and the worker loop

A shallow embedding of `core_service/database/event_collection.go` and
`core_service/worker/worker_client.go`.

* The `event` collection is a list of documents in the store's natural order.
  MongoDB keeps `_id` unique inside a collection; theorems that need this take
  it as a hypothesis on the initial store (`StoreOK`).
* `time.Now()` and `primitive.NewObjectID()` are inputs of the functions that
  call them: a `Time` is a number of nanoseconds since the epoch, a `DateTime`
  a number of milliseconds since the epoch.
* Go's `int` is a 64-bit two's complement integer: `event.Attempts += 1` wraps.
* Store operations succeed whenever the server semantics says they do; network
  failures of the store are not part of the model.
-/

namespace Sentinel

/-! ## Primitive types -/

/-- A `primitive.ObjectID`, twelve bytes read as one number. -/
abbrev ObjectID := Nat

/-- The value `primitive.NilObjectID`: twelve zero bytes. -/
def NilObjectID : ObjectID := 0

/-- A `time.Time` as nanoseconds since the Unix epoch. -/
abbrev Time := Int

/-- A `primitive.DateTime`: milliseconds since the Unix epoch. -/
abbrev DateTime := Int

/-- The function `primitive.NewDateTimeFromTime`: `t.Unix()*1e3 + t.Nanosecond()/1e6`,
the number of whole milliseconds of `t` (rounded towards minus infinity). -/
def NewDateTimeFromTime (t : Time) : DateTime := t / 1000000

/-- The duration `time.Hour` in nanoseconds. -/
def Hour : Int := 3600000000000

/-- A Go string whose length in bytes matters (error texts): its bytes. -/
abbrev Bytes := List UInt8

/-- The bytes of a string of the source text (Go source files are UTF-8). -/
def stringBytes (s : String) : Bytes := s.data.flatMap String.utf8EncodeChar

/-- Two's complement wrap-around of a Go `int` (64 bits). -/
def wrapInt64 (x : Int) : Int :=
  (x + 9223372036854775808) % 18446744073709551616 - 9223372036854775808

/-! ## The event document (`event_collection.go`, lines 14-28) -/

/-- The struct `Event`; the field names are the source's (`MaxAttemps` included). -/
structure Event where
  ID : ObjectID
  UpdatedDate : DateTime
  EventType : String
  StartAfterDate : DateTime
  StartedDate : DateTime
  Started : Bool
  Attempts : Int
  MaxAttemps : Int
  Priority : Int
  Data : List (String × String)
  Errors : List Bytes
  Passed : Bool
  Failed : Bool
  deriving DecidableEq, Repr

/-- The zero value of the struct, what a Go literal leaves in the fields it does not name. -/
def Event.zero : Event :=
  { ID := NilObjectID, UpdatedDate := 0, EventType := "", StartAfterDate := 0,
    StartedDate := 0, Started := false, Attempts := 0, MaxAttemps := 0, Priority := 0,
    Data := [], Errors := [], Passed := false, Failed := false }

/-- Indexing a Go `map[string]string`: the zero value `""` for a missing key. -/
def mapIndex (m : List (String × String)) (key : String) : String :=
  (m.lookup key).getD ""

/-- Errors that the modelled store operations can return. -/
inductive GoError where
  | ErrNoDocuments
  | DuplicateKey
  /-- the value of `errors.New(text)` -/
  | New (text : String)
  /-- the `*strconv.NumError` of `strconv.Atoi` with `Err = ErrSyntax` -/
  | ErrSyntax (num : Bytes)
  /-- the `*strconv.NumError` of `strconv.Atoi` with `Err = ErrRange` -/
  | ErrRange (num : Bytes)
  /-- an error of the file system, of the object store or of `json.Unmarshal` -/
  | External (text : String)
  deriving DecidableEq, Repr

deriving instance DecidableEq for Except

/-! ## Store primitives of the MongoDB collection -/

/-- The call `coll.InsertOne`: appends the document; a document whose `_id` is already in
the collection is refused with a duplicate-key error. -/
def InsertOne (store : List Event) (doc : Event) : List Event × Option GoError :=
  if store.any (fun d => d.ID == doc.ID) then (store, some GoError.DuplicateKey)
  else (store ++ [doc], none)

/-- The call `coll.UpdateOne(filter, {$set: ...})`: the first document that matches the
filter is changed, a collection without a match is left as it is (and no error is
returned). -/
def UpdateOne (filter : Event → Bool) (set : Event → Event) : List Event → List Event
  | [] => []
  | d :: ds => if filter d then set d :: ds else d :: UpdateOne filter set ds

/-- The first document in the order of `SetSort({priority: -1})`: a document of the
greatest priority; among equal priorities the store's natural order decides. -/
def firstByPriority : List Event → Option Event
  | [] => none
  | d :: ds =>
    match firstByPriority ds with
    | none => some d
    | some b => if d.Priority < b.Priority then some b else some d

/-- The option `ReturnDocument` of `FindOneAndUpdate`. -/
inductive ReturnDocument where
  | Before
  | After
  deriving DecidableEq, Repr

/-- The call `coll.FindOneAndUpdate(filter, {$set: ...}, opts)` with `upsert=false` and a
priority sort: the first matching document in sort order is updated. The driver returns
the document as it was before the update unless `SetReturnDocument(options.After)` was
called (`returnDocument = none` is the driver's default, `Before`). No match: the
collection is unchanged and `Decode` returns `mongo.ErrNoDocuments`. -/
def FindOneAndUpdate (filter : Event → Bool) (set : Event → Event)
    (returnDocument : Option ReturnDocument) (store : List Event) :
    Option Event × List Event :=
  match firstByPriority (store.filter filter) with
  | none => (none, store)
  | some d =>
    let store1 := UpdateOne (fun x => x.ID == d.ID) set store
    match returnDocument with
    | some ReturnDocument.After => (some (set d), store1)
    | _ => (some d, store1)

/-- The call `coll.CountDocuments(filter)`. -/
def CountEvents (store : List Event) (filter : Event → Bool) : Nat :=
  (store.filter filter).length

/-- The method `RefreshFromDb`: `FindOne({_id: obj.ID})`. -/
def RefreshFromDb (store : List Event) (obj : Event) : Option Event :=
  store.find? (fun d => d.ID == obj.ID)

/-! ## `SaveEvent` (`event_collection.go`, lines 60-78) -/

/-- What one call of `SaveEvent` reads from its environment. -/
structure SaveEnv where
  /-- the result of `primitive.NewObjectID()` (read by the insert branch only) -/
  newID : ObjectID
  /-- the result of `time.Now()` -/
  now : Time

/-- The result of `SaveEvent`: the event behind the pointer, the collection, the error. -/
structure SaveResult where
  event : Event
  store : List Event
  err : Option GoError

/-- The method `ToBson(false)` under `$set`: every field but `_id` is overwritten. -/
def Event.setFrom (event : Event) (doc : Event) : Event :=
  { event with ID := doc.ID }

/-- The function `SaveEvent`. -/
def SaveEvent (env : SaveEnv) (store : List Event) (event : Event) : SaveResult :=
  if event.ID = NilObjectID then
    let event := { event with ID := env.newID }
    let event := { event with UpdatedDate := NewDateTimeFromTime env.now }
    let r := InsertOne store event
    { event := event, store := r.1, err := r.2 }
  else
    let event := { event with UpdatedDate := NewDateTimeFromTime env.now }
    { event := event,
      store := UpdateOne (fun d => d.ID == event.ID) (Event.setFrom event) store,
      err := none }

/-! ## `FindNextEvent` (`event_collection.go`, lines 108-139) -/

/-- The three readings of `time.Now()` in `FindNextEvent`, in source order. -/
structure ClaimTimes where
  /-- line 122, the time the filter compares `start_after_date` with -/
  filterNow : Time
  /-- line 126, stored in `updated_date` -/
  updatedNow : Time
  /-- line 127, stored in `started_date` -/
  startedNow : Time

/-- The filter document of `FindNextEvent`: all five conditions must hold. -/
def claimFilter (now : DateTime) (e : Event) : Bool :=
  (e.Started == false) && (e.Passed == false) && (e.Failed == false)
    && decide (e.Attempts < e.MaxAttemps) && decide (now > e.StartAfterDate)

/-- The update document of `FindNextEvent`. -/
def claimUpdate (t : ClaimTimes) (e : Event) : Event :=
  { e with UpdatedDate := NewDateTimeFromTime t.updatedNow,
           StartedDate := NewDateTimeFromTime t.startedNow,
           Started := true }

/-- The function `FindNextEvent`: the options are `SetUpsert(false)` and `SetSort`, no
`SetReturnDocument`. The first component is `none` when `Decode` returns
`mongo.ErrNoDocuments`. -/
def FindNextEvent (t : ClaimTimes) (store : List Event) : Option Event × List Event :=
  FindOneAndUpdate (claimFilter (NewDateTimeFromTime t.filterNow)) (claimUpdate t) none store

/-! ## The worker (`worker_client.go`) -/

/-- What a task handler does that the event store can observe: the error it returns
(its text under `fmt.Sprintf("%v", err)`) and the documents it inserted through
`SaveEvent`, in order. None of the handlers assigns to the event it is given. -/
structure TaskOutcome where
  err : Option Bytes
  published : List Event

/-- The struct `TaskDefinition`; a handler reads the event and the event collection. -/
structure TaskDefinition where
  TaskFunc : Event → List Event → TaskOutcome
  MaxDuration : Int

/-- The handler `FailableTask`. -/
def FailableTask (event : Event) (_store : List Event) : TaskOutcome :=
  if mapIndex event.Data "fail" = "true" then
    { err := some (stringBytes "failed task!"), published := [] }
  else
    { err := none, published := [] }

/-- The map `TaskDefinitions`; the three pipeline handlers are parameters. -/
def TaskDefinitions
    (RequestCurrentIndexFilesTask RequestMapTask BuildBoundaryMapTask :
      Event → List Event → TaskOutcome) (eventType : String) : Option TaskDefinition :=
  if eventType = "RequestCurrentIndexFilesTask" then
    some { TaskFunc := RequestCurrentIndexFilesTask, MaxDuration := 1 * Hour }
  else if eventType = "RequestMapTask" then
    some { TaskFunc := RequestMapTask, MaxDuration := 5 * (60 * 1000000000) }
  else if eventType = "BuildBoundaryMapTask" then
    some { TaskFunc := BuildBoundaryMapTask, MaxDuration := 5 * (60 * 1000000000) }
  else if eventType = "FailableTask" then
    some { TaskFunc := FailableTask, MaxDuration := 5 * 1000000000 }
  else none

/-- How a call of `ProcessNextEvent` ends: it returns an error value (or `nil`), or the
goroutine panics. -/
inductive Completion where
  | returned (err : Option GoError)
  | panicked
  deriving DecidableEq, Repr

/-- The result of one call of `ProcessNextEvent`: the collection afterwards, how the call
ended, and the call of a handler, if there was one: the event passed to it and the error
it returned. -/
structure Iteration where
  store : List Event
  completion : Completion
  handled : Option (Event × Option Bytes)
  deriving DecidableEq

/-- The insertions of a handler, one `InsertOne` each. -/
def publishAll (store : List Event) (published : List Event) : List Event :=
  published.foldl (fun s d => (InsertOne s d).1) store

/-- The settlement of `ProcessNextEvent`, lines 86-99, on the event behind the pointer. -/
def settle (event : Event) (err : Option Bytes) : Event :=
  let event := { event with Attempts := wrapInt64 (event.Attempts + 1) }
  match err with
  | some text =>
    let errorData := if text.length > 250 then text.take 250 else text
    let event := { event with Errors := event.Errors ++ [errorData] }
    let event := { event with Started := false }
    if event.Attempts ≥ event.MaxAttemps then { event with Failed := true } else event
  | none => { event with Passed := true }

/-- The function `ProcessNextEvent`. When the event type has no entry in the map, `task`
is the zero `TaskDefinition`; the branch at line 74 does not return, so line 85 calls the
nil `TaskFunc`, which panics. -/
def ProcessNextEvent (defs : String → Option TaskDefinition) (t : ClaimTimes)
    (env : SaveEnv) (store : List Event) : Iteration :=
  match FindNextEvent t store with
  | (none, store1) =>
    { store := store1, completion := .returned (some GoError.ErrNoDocuments), handled := none }
  | (some event, store1) =>
    match defs event.EventType with
    | none =>
      let event := { event with Failed := true }
      let r := SaveEvent env store1 event
      match r.err with
      | some e => { store := r.store, completion := .returned (some e), handled := none }
      | none => { store := r.store, completion := .panicked, handled := none }
    | some task =>
      let out := task.TaskFunc event store1
      let store2 := publishAll store1 out.published
      let r := SaveEvent env store2 (settle event out.err)
      { store := r.store, completion := .returned r.err, handled := some (event, out.err) }

/-- The filter document of `PublishPeriodicIndexEvent`, lines 128-136. -/
def activeIndexFilter (e : Event) : Bool :=
  (e.EventType == "RequestCurrentIndexFilesTask") && (e.Started == false)
    && (e.Passed == false) && (e.Failed == false)
    && decide (e.Attempts < e.MaxAttemps)

/-- The function `PublishPeriodicIndexEvent`; `now` is the `time.Now()` of line 145. -/
def PublishPeriodicIndexEvent (now : Time) (env : SaveEnv) (store : List Event) :
    List Event × Option GoError :=
  let activeIndexEventCount := CountEvents store activeIndexFilter
  if activeIndexEventCount = 0 then
    let indexFileEvent : Event :=
      { Event.zero with
        EventType := "RequestCurrentIndexFilesTask",
        MaxAttemps := 1,
        StartAfterDate := NewDateTimeFromTime (now + 7 * 24 * Hour) }
    let r := SaveEvent env store indexFileEvent
    (r.store, r.err)
  else
    (store, none)

/-- What one iteration of the worker loop reads from its environment: the behaviour of
the handlers during the iteration (a handler depends on the other collections and on the
network) and the readings of the clock and of the id generator. -/
structure StepInput where
  defs : String → Option TaskDefinition
  times : ClaimTimes
  env : SaveEnv

/-- The `for` loop of `WorkerClient`, cut after finitely many iterations: the iterations
it performs, in order. An error of `ProcessNextEvent` is logged and the loop goes on; a
panic ends the process. -/
def WorkerClient : List StepInput → List Event → List Iteration
  | [], _ => []
  | i :: rest, store =>
    let it := ProcessNextEvent i.defs i.times i.env store
    it :: (match it.completion with
           | .panicked => []
           | .returned _ => WorkerClient rest it.store)

/-- The document that `ProcessNextEvent` stores for the event it ran a handler on. -/
def settled (event : Event) (err : Option Bytes) (env : SaveEnv) : Event :=
  { settle event err with UpdatedDate := NewDateTimeFromTime env.now }

/-- The document that `ProcessNextEvent` stores for an event of an unknown type. -/
def poisoned (event : Event) (env : SaveEnv) : Event :=
  { event with Failed := true, UpdatedDate := NewDateTimeFromTime env.now }

/-- A document as `SaveEvent` inserts it for a struct literal that names neither a flag
nor the attempt counter (the events that the handlers and the observer publish). -/
def NewEvent (p : Event) : Prop :=
  p.ID ≠ NilObjectID ∧ p.Started = false ∧ p.Passed = false ∧ p.Failed = false ∧
    p.Attempts = 0 ∧ 0 ≤ p.MaxAttemps ∧ p.MaxAttemps < 9223372036854775808

instance (p : Event) : Decidable (NewEvent p) := by unfold NewEvent; infer_instance

/-- The handlers of the table insert new events only. -/
def PublishesNewEvents (defs : String → Option TaskDefinition) : Prop :=
  ∀ (eventType : String) (task : TaskDefinition) (event : Event) (store : List Event)
    (p : Event), defs eventType = some task →
      p ∈ (task.TaskFunc event store).published → NewEvent p

/-- The number of the flags `Started`, `Passed`, `Failed` that are set. -/
def flagsSet (e : Event) : Nat := e.Started.toNat + e.Passed.toNat + e.Failed.toNat

/-- The collection after the iterations of a run (the initial one if there was none). -/
def finalStore (store : List Event) (iterations : List Iteration) : List Event :=
  match iterations.getLast? with
  | some it => it.store
  | none => store

/-- The number of iterations that passed the event of the given id to a handler. -/
def timesHandled (id : ObjectID) (iterations : List Iteration) : Nat :=
  (iterations.filter (fun it =>
    match it.handled with
    | some (event, _) => event.ID == id
    | none => false)).length

/-- An event of `n` allowed attempts that waits after `c` failed attempts: not started,
not passed, and failed exactly when the attempts are used up. -/
def Released (n c : Nat) (d : Event) : Prop :=
  c ≤ n ∧ d.MaxAttemps = n ∧ d.Attempts = c ∧ d.Started = false ∧ d.Passed = false ∧
    (d.Failed = true ↔ c = n)

/-! ## Concrete inputs used by the examples -/

/-- A handler that does nothing, for table entries that an example does not reach. -/
def idleTask (_event : Event) (_store : List Event) : TaskOutcome :=
  { err := none, published := [] }

/-- The handler table with `FailableTask` as in the source. -/
def exampleDefinitions : String → Option TaskDefinition :=
  TaskDefinitions idleTask idleTask idleTask

/-- The event of `TestProcessNextEventWithFailingEvent`, as stored (id 1, saved at 10 ms). -/
def failingEvent : Event :=
  { Event.zero with
    ID := 1, UpdatedDate := 10, EventType := "FailableTask", MaxAttemps := 1,
    StartAfterDate := 10, Data := [("fail", "true")] }

/-- The event of `TestProcessNextEventWithPassingEvent`, as stored (id 2, saved at 10 ms),
with priority 5. -/
def passingEvent : Event :=
  { Event.zero with
    ID := 2, UpdatedDate := 10, EventType := "FailableTask", MaxAttemps := 1,
    StartAfterDate := 10, Priority := 5, Data := [("fail", "false")] }

/-- An event of priority 9 that may start at 50 ms only. -/
def laterEvent : Event :=
  { Event.zero with
    ID := 3, UpdatedDate := 10, EventType := "FailableTask", MaxAttemps := 1,
    StartAfterDate := 50, Priority := 9 }

/-- Clock readings of a claim at 20 ms. -/
def exampleTimes : ClaimTimes :=
  { filterNow := 20000000, updatedNow := 20000001, startedNow := 20000002 }

/-- A collection of three events. -/
def exampleQueue : List Event := [failingEvent, passingEvent, laterEvent]

/-- The environment of a save at 30 ms. -/
def exampleEnv : SaveEnv := { newID := 77, now := 30000000 }


/-- Two iterations of the worker on the collection of three events. -/
def exampleInputs : List StepInput :=
  [{ defs := exampleDefinitions, times := exampleTimes, env := exampleEnv },
   { defs := exampleDefinitions,
     times := { filterNow := 40000000, updatedNow := 40000000, startedNow := 40000000 },
     env := { newID := 78, now := 45000000 } }]

/-- An event with two allowed attempts whose handler fails. -/
def retryEvent : Event :=
  { Event.zero with
    ID := 5, UpdatedDate := 10, EventType := "FailableTask", MaxAttemps := 2,
    StartAfterDate := 10, Data := [("fail", "true")] }

/-- Three iterations of the worker, at 20 ms, 40 ms and 60 ms. -/
def retryInputs : List StepInput :=
  [{ defs := exampleDefinitions, times := exampleTimes, env := exampleEnv },
   { defs := exampleDefinitions,
     times := { filterNow := 40000000, updatedNow := 40000000, startedNow := 40000000 },
     env := { newID := 78, now := 45000000 } },
   { defs := exampleDefinitions,
     times := { filterNow := 60000000, updatedNow := 60000000, startedNow := 60000000 },
     env := { newID := 79, now := 65000000 } }]

/-- An event whose type has no entry in `TaskDefinitions`. -/
def unknownEvent : Event :=
  { Event.zero with
    ID := 4, UpdatedDate := 10, EventType := "UnregisteredTask", MaxAttemps := 3,
    StartAfterDate := 10 }

/-! ## Well-formed stores -/

/-- The range of a Go `int`. -/
def isInt64 (x : Int) : Prop := -9223372036854775808 ≤ x ∧ x < 9223372036854775808

instance (x : Int) : Decidable (isInt64 x) := by unfold isInt64; infer_instance

/-- A collection as MongoDB and the Go types keep it: `_id` is unique, no document has
the nil id, and the counters are Go integers. -/
def StoreOK (store : List Event) : Prop :=
  (store.map Event.ID).Nodup ∧
    ∀ e ∈ store, e.ID ≠ NilObjectID ∧ isInt64 e.Attempts ∧ isInt64 e.MaxAttemps

instance (store : List Event) : Decidable (StoreOK store) := by unfold StoreOK; infer_instance

/-! ## Strings and numbers of the Go standard library -/

/-- The segments of a list of characters between the occurrences of a separator. -/
def splitChars (sep : Char) : List Char → List (List Char)
  | [] => [[]]
  | c :: cs =>
    if c = sep then [] :: splitChars sep cs
    else
      match splitChars sep cs with
      | [] => [[c]]
      | seg :: rest => (c :: seg) :: rest

/-- The call `strings.Split(s, sep)` for a separator of one ASCII character. -/
def Split (s : String) (sep : Char) : List String :=
  (splitChars sep s.data).map String.mk

/-- Whether a list of characters occurs as a contiguous part of another. -/
def containsChars (sub : List Char) : List Char → Bool
  | [] => sub.isEmpty
  | c :: cs => sub.isPrefixOf (c :: cs) || containsChars sub cs

/-- The call `strings.Contains(s, substr)`. -/
def Contains (s substr : String) : Bool := containsChars substr.data s.data

/-- The value of an ASCII digit. -/
def digitValue (b : UInt8) : Option Nat :=
  if 48 ≤ b.toNat ∧ b.toNat ≤ 57 then some (b.toNat - 48) else none

/-- The number written by a sequence of ASCII digits, after the digits read so far. -/
def parseDigits : Bytes → Nat → Option Nat
  | [], acc => some acc
  | b :: bs, acc =>
    match digitValue b with
    | none => none
    | some v => parseDigits bs (acc * 10 + v)

/-- The function `strconv.Atoi` on the bytes of its argument: both results. An optional
sign and at least one decimal digit; a syntax error gives 0, a value outside the 64-bit
range gives the nearest bound and a range error. -/
def Atoi (s : Bytes) : Int × Option GoError :=
  match s with
  | [] => (0, some (GoError.ErrSyntax s))
  | b :: rest =>
    let neg : Bool := b = 45
    let digits := if b = 45 ∨ b = 43 then rest else s
    if digits = [] then (0, some (GoError.ErrSyntax s))
    else
      match parseDigits digits 0 with
      | none => (0, some (GoError.ErrSyntax s))
      | some n =>
        if neg then
          if n > 9223372036854775808 then (-9223372036854775808, some (GoError.ErrRange s))
          else (-(n : Int), none)
        else
          if n ≥ 9223372036854775808 then (9223372036854775807, some (GoError.ErrRange s))
          else ((n : Int), none)

/-- The decimal digits of a positive number, most significant first. -/
def decimalChars (n : Nat) : List Char :=
  ((Nat.digits 10 n).map Nat.digitChar).reverse

/-- The characters that `%d` prints for a number that is not negative. -/
def natChars (n : Nat) : List Char :=
  match n with
  | 0 => ['0']
  | n + 1 => decimalChars (n + 1)

/-- The verb `%d` of `fmt.Sprintf` on an `int`. -/
def formatInt (i : Int) : String :=
  match i with
  | Int.ofNat n => String.mk (natChars n)
  | Int.negSucc n => String.mk ('-' :: natChars (n + 1))

/-- What the code uses of package `time`. The instants are `Time` values; which calendar
day an instant falls on depends on the time zone of the process. -/
structure Calendar where
  /-- the call `time.Date(year, time.Month(month), day, 0, 0, 0, 0, location)` with the
  location of `time.LoadLocation("UTC")` -/
  Date : Int → Int → Int → Time
  /-- the results of `Year()`, `Month()` and `Day()` on `d.Time()` for a
  `primitive.DateTime` `d` (`time.Unix` gives a time in the local zone) -/
  YearMonthDay : DateTime → Int × Int × Int

/-- The method `Time()` of `primitive.DateTime` as an instant. -/
def DateTime.Time (d : DateTime) : Time := d * 1000000

/-- Days from 1970-01-01 to the day `d` of month `m` (1 to 12) of year `y` in the
proleptic Gregorian calendar. -/
def daysFromCivil (y m d : Int) : Int :=
  let y1 := if m ≤ 2 then y - 1 else y
  let era := y1 / 400
  let yoe := y1 - era * 400
  let mp := (m + 9) % 12
  let doy := (153 * mp + 2) / 5 + d - 1
  let doe := yoe * 365 + yoe / 4 - yoe / 100 + doy
  era * 146097 + doe - 719468

/-- The year, month and day of the day that is `z` days after 1970-01-01. -/
def civilFromDays (z : Int) : Int × Int × Int :=
  let z1 := z + 719468
  let era := z1 / 146097
  let doe := z1 - era * 146097
  let yoe := (doe - doe / 1460 + doe / 36524 - doe / 146096) / 365
  let doy := doe - (365 * yoe + yoe / 4 - yoe / 100)
  let mp := (5 * doy + 2) / 153
  let d := doy - (153 * mp + 2) / 5 + 1
  let m := if mp < 10 then mp + 3 else mp - 9
  (if m ≤ 2 then yoe + era * 400 + 1 else yoe + era * 400, m, d)

/-- The calendar of a process whose local zone is UTC: `time.Date` carries months outside
1 to 12 into the year and counts days on from the first of the month. -/
def utcCalendar : Calendar where
  Date := fun year month day =>
    (daysFromCivil (year + (month - 1) / 12) ((month - 1) % 12 + 1) 1 + (day - 1))
      * 86400000000000
  YearMonthDay := fun d => civilFromDays (d / 86400000)

/-! ## Tiles and settings (`tile_collection.go`, `setting_collection.go`) -/

/-- A `float64`, given by its 64 bits; the modelled code copies such values only. -/
abbrev Float64 := Nat

/-- The struct `Geometry` of `boundary_collection.go`; `Type_` is the field `Type`. -/
structure Geometry where
  Coordinates : List (List (List Float64))
  Type_ : String
  deriving DecidableEq, Repr

/-- The zero value of `Geometry`. -/
def Geometry.zero : Geometry := { Coordinates := [], Type_ := "" }

/-- The struct `TileFile`. -/
structure TileFile where
  FileUse : String
  Band : String
  Version : Int
  Size : Int
  ObjectPath : String
  deriving DecidableEq, Repr

/-- The struct `Tile`. -/
structure Tile where
  ID : ObjectID
  UpdatedDate : DateTime
  Date : DateTime
  MgrsCode : String
  SourceSatellite : String
  Geometry : Geometry
  Files : List TileFile
  deriving DecidableEq, Repr

/-- The zero value of `Tile`. -/
def Tile.zero : Tile :=
  { ID := NilObjectID, UpdatedDate := 0, Date := 0, MgrsCode := "", SourceSatellite := "",
    Geometry := Geometry.zero, Files := [] }

/-- The method `UniqueKey`: `fmt.Sprintf("%d-%d-%d-%s-%s", ...)` on the year, month and
day of `s.Date.Time()` and on the two codes. -/
def Tile.UniqueKey (cal : Calendar) (s : Tile) : String :=
  let date := cal.YearMonthDay s.Date
  formatInt date.1 ++ "-" ++ formatInt date.2.1 ++ "-" ++ formatInt date.2.2 ++ "-"
    ++ s.MgrsCode ++ "-" ++ s.SourceSatellite

/-- The struct `Setting`. -/
structure Setting where
  ID : ObjectID
  UtmZones : List String
  TileFiles : List String
  TileStartDate : DateTime
  deriving DecidableEq, Repr

/-- The first document in the order of `SetSort({date: -1})`: a tile of the latest date;
among equal dates the store's natural order decides. -/
def firstByDate : List Tile → Option Tile
  | [] => none
  | d :: ds =>
    match firstByDate ds with
    | none => some d
    | some b => if d.Date < b.Date then some b else some d

/-- The function `FindTile`: `nil` (here `none`) when no tile matches. -/
def FindTile (tiles : List Tile) (filter : Tile → Bool) : Option Tile :=
  firstByDate (tiles.filter filter)

/-- The call `coll.FindOneAndUpdate(filter, update)` without options: the first matching
document in natural order is updated; the result holds the document as it was before, or
nothing when no document matches (the collection is unchanged then). -/
def findOneAndUpdateFirst {α : Type} (filter : α → Bool) (update : α → α) :
    List α → Option α × List α
  | [] => (none, [])
  | d :: ds =>
    if filter d then (some d, update d :: ds)
    else
      let r := findOneAndUpdateFirst filter update ds
      (r.1, d :: r.2)

/-- The function `InsertFileIntoTile`: the filter is `_id = tile.ID` and
`files.object_path ≠ tileFile.ObjectPath` (no element of `files` has that path), the
update pushes the file; `.Err()` is `mongo.ErrNoDocuments` when no document matches. -/
def InsertFileIntoTile (tiles : List Tile) (tile : Tile) (tileFile : TileFile) :
    List Tile × Option GoError :=
  let r := findOneAndUpdateFirst
    (fun d => d.ID == tile.ID && d.Files.all (fun f => f.ObjectPath != tileFile.ObjectPath))
    (fun d => { d with Files := d.Files ++ [tileFile] }) tiles
  match r.1 with
  | none => (tiles, some GoError.ErrNoDocuments)
  | some _ => (r.2, none)

/-- The function `UpdateTileAttribute`; `now` is its `time.Now()`, `attributeName` its
parameter `attribute`. -/
def UpdateTileAttribute (now : Time) (tiles : List Tile) (tile : Tile)
    (attributeName : String) : List Tile × Option GoError :=
  if attributeName = "geometry" then
    let r := findOneAndUpdateFirst (fun d => d.ID == tile.ID)
      (fun d => { d with UpdatedDate := NewDateTimeFromTime now, Geometry := tile.Geometry })
      tiles
    match r.1 with
    | none => (tiles, some GoError.ErrNoDocuments)
    | some _ => (r.2, none)
  else (tiles, some (GoError.New "attribute not recognized"))

/-! ## Index discovery (`request_index_tasks.go`) -/

/-- The function `recordIsConsumeable`; `none` when the goroutine panics (an index or a
slice bound out of range). The two maps are given by their keys. The date part is sliced
by bytes. -/
def recordIsConsumeable (cal : Calendar) (record : List String)
    (validUtmZones validFiles : List String) (startDate : Time) : Option Bool :=
  -- lines 309-317: `record[1]` is read once for every key of the map
  if validUtmZones = [] then some false
  else
    match record[1]? with
    | none => none
    | some key =>
      if !(validUtmZones.any (fun validUtmZone => Contains key validUtmZone)) then some false
      else if record.length ≠ 4 then some false
      else
        match Split key '/' with
        | [_, k1, k2, _, _, _, k6, k7] =>
          if !(validUtmZones.contains (k1 ++ k2)) then some false
          else if !(validFiles.contains k7) && k7 != k6 ++ ".json" then some false
          else
            match Split k6 '_' with
            | [c0, _, c2, _, c4] =>
              let sourceSatellite := c0 ++ "-" ++ c4
              if sourceSatellite != "S2A-L2A" && sourceSatellite != "S2B-L2A" then some false
              else
                let dateItem := stringBytes c2
                if dateItem.length < 4 then none
                else
                  match Atoi (dateItem.take 4) with
                  | (_, some _) => some false
                  | (year, none) =>
                    if dateItem.length < 6 then none
                    else
                      match Atoi ((dateItem.drop 4).take 2) with
                      | (_, some _) => some false
                      | (month, none) =>
                        match Atoi (dateItem.drop 6) with
                        | (_, some _) => some false
                        | (day, none) =>
                          let date := cal.Date year month day
                          if !(decide (date > startDate)) then some false else some true
            | _ => some false
        | _ => some false

/-- The function `parseTileFromObjectPath`; `none` when the goroutine panics. The errors
of `strconv.Atoi` are dropped, its first result is used. -/
def parseTileFromObjectPath (cal : Calendar) (objectPath : String) : Option Tile :=
  let keyItems := Split objectPath '/'
  match keyItems[1]?, keyItems[2]?, keyItems[3]?, keyItems[6]? with
  | some k1, some k2, some k3, some k6 =>
    let mgrsCode := k1 ++ k2 ++ k3
    let compoundItems := Split k6 '_'
    match compoundItems[0]?, compoundItems[2]?, compoundItems[4]? with
    | some c0, some c2, some c4 =>
      let dateItem := stringBytes c2
      if dateItem.length < 6 then none
      else
        let year := (Atoi (dateItem.take 4)).1
        let month := (Atoi ((dateItem.drop 4).take 2)).1
        let day := (Atoi (dateItem.drop 6)).1
        let date := NewDateTimeFromTime (cal.Date year month day)
        let sourceSatellite := c0 ++ "-" ++ c4
        some { Tile.zero with Date := date, MgrsCode := mgrsCode,
                              SourceSatellite := sourceSatellite }
    | _, _, _ => none
  | _, _, _, _ => none

/-- The function `parseTileFromRecord`. -/
def parseTileFromRecord (cal : Calendar) (record : List String) : Option Tile :=
  match record[1]? with
  | none => none
  | some key => parseTileFromObjectPath cal key

/-- The function `lineFilterRegularExpression`. -/
def lineFilterRegularExpression (setting : Setting) : String :=
  match setting.UtmZones with
  | [] => ""
  | first :: zones =>
    zones.foldl (fun regularExpression zone => regularExpression ++ "|(_" ++ zone ++ ")")
      ("(_" ++ first ++ ")")

/-- What the two functions that read an index file get from the file system and from the
libraries `compress/gzip`, `github.com/alekLukanen/csv-line-filter` and `encoding/csv`. -/
structure IndexFileEnv where
  /-- the error of `os.Open` on a file name -/
  Open : String → Option GoError
  /-- the call `gzip.NewReader` on the file of a name: the error, or the lines of the
  listing that the reader decompresses -/
  NewReader : String → Except GoError (List String)
  /-- the call `csvLineFilter.NewCSVLineFilter` with an expression: the error, or the test
  that tells which lines the reader it returns lets through -/
  NewCSVLineFilter : String → Except GoError (String → Bool)
  /-- the results of the successive calls of `csvReader.Read()` on a reader of the given
  lines, up to `io.EOF`; an error of the stream is the error of a call -/
  Read : List String → List (Except GoError (List String))

/-- The loop of `CreateTilesFromCsvIndexFile`, lines 281-297, on the results of the calls
of `csvReader.Read()`; `tileMap` in the order of insertion. The first error of a call is
returned; `none` when the goroutine panics. -/
def collectTiles (cal : Calendar) (setting : Setting) :
    List (Except GoError (List String)) → List (String × Tile) →
      Option (Except GoError (List (String × Tile)))
  | [], tileMap => some (.ok tileMap)
  | .error err :: _, _ => some (.error err)
  | .ok record :: rest, tileMap =>
    match recordIsConsumeable cal record setting.UtmZones setting.TileFiles
        setting.TileStartDate.Time with
    | none => none
    | some false => collectTiles cal setting rest tileMap
    | some true =>
      match parseTileFromRecord cal record with
      | none => none
      | some tile =>
        if tileMap.any (fun entry => entry.1 == tile.UniqueKey cal) then
          collectTiles cal setting rest tileMap
        else collectTiles cal setting rest (tileMap ++ [(tile.UniqueKey cal, tile)])

/-- The function `CreateTilesFromCsvIndexFile`: the tiles or the error; `none` when the
goroutine panics. Go ranges over the map in an unspecified order, the model returns the
tiles in the order of insertion. -/
def CreateTilesFromCsvIndexFile (cal : Calendar) (env : IndexFileEnv)
    (compressedCsvIndexFileName : String) (setting : Setting) :
    Option (Except GoError (List Tile)) :=
  match env.Open compressedCsvIndexFileName with
  | some err => some (.error err)
  | none =>
    match env.NewReader compressedCsvIndexFileName with
    | .error err => some (.error err)
    | .ok lines =>
      match env.NewCSVLineFilter (lineFilterRegularExpression setting) with
      | .error err => some (.error err)
      | .ok keep =>
        match collectTiles cal setting (env.Read (lines.filter keep)) [] with
        | none => none
        | some (.error err) => some (.error err)
        | some (.ok tileMap) => some (.ok (tileMap.map Prod.snd))

/-! ## The file ingest handler (`request_map_tasks.go`) -/

/-- The struct `MetaData`. -/
structure MetaData where
  Geometry : Geometry
  deriving DecidableEq, Repr

/-- What lines 160-185 of `ParseDataGeometry` give for an object path: the first error of
the temporary directory, the download, the file or `json.Unmarshal`, or the decoded
`MetaData`. -/
inductive Sidecar where
  | failed (err : GoError)
  | decoded (metaData : MetaData)
  deriving DecidableEq, Repr

/-- The function `ParseDataGeometry`: the tile behind the pointer and the error. -/
def ParseDataGeometry (sidecar : String → Sidecar) (tile : Tile) (objectPath : String) :
    Tile × Option GoError :=
  if !(Contains objectPath ".json") then (tile, some (GoError.New "is not a json meta file"))
  else
    match sidecar objectPath with
    | Sidecar.failed err => (tile, some err)
    | Sidecar.decoded metaData =>
      if metaData.Geometry.Type_ != "Polygon" || metaData.Geometry.Coordinates.length < 1
          || (metaData.Geometry.Coordinates.headD []).length < 4 then
        (tile, some (GoError.New "geometry is not valid"))
      else ({ tile with Geometry := metaData.Geometry }, none)

/-- What one call of `RequestMapTask` reads from its environment. -/
structure MapTaskEnv where
  cal : Calendar
  /-- the sidecar files of the image bucket, as `ParseDataGeometry` reads them -/
  sidecar : String → Sidecar
  /-- the `time.Now()` of `UpdateTileAttribute` -/
  attributeNow : Time
  /-- the environment of the `SaveEvent` of line 141 -/
  save : SaveEnv

/-- The result of `RequestMapTask`: the two collections and how the call ended. -/
structure MapTaskResult where
  tiles : List Tile
  events : List Event
  completion : Completion
  deriving DecidableEq

/-- The filter of line 80 on the tile parsed from the object path. -/
def tileKeyFilter (tileInfo : Tile) (d : Tile) : Bool :=
  d.Date == tileInfo.Date && d.MgrsCode == tileInfo.MgrsCode
    && d.SourceSatellite == tileInfo.SourceSatellite

/-- The filter of lines 120-126 on the events. -/
def buildMapEventFilter (mgrsCode : String) (e : Event) : Bool :=
  (e.Data.lookup "mgrsCode" == some mgrsCode) && (e.Started == false)
    && (e.Passed == false) && (e.Failed == false) && (e.EventType == "BuildBoundaryMapTask")

/-- Lines 114-147 of `RequestMapTask`: the build event of the tile is published unless
one is waiting. -/
def publishBuildMapEvent (env : MapTaskEnv) (tiles : List Tile) (events : List Event)
    (tile : Tile) : MapTaskResult :=
  let existingBuildMapEventsCount := CountEvents events (buildMapEventFilter tile.MgrsCode)
  if existingBuildMapEventsCount = 0 then
    let buildMapEvent : Event :=
      { Event.zero with
        EventType := "BuildBoundaryMapTask",
        Priority := 4,
        MaxAttemps := 1,
        Data := [("mgrsCode", tile.MgrsCode)] }
    let r := SaveEvent env.save events buildMapEvent
    { tiles := tiles, events := r.store, completion := .returned r.err }
  else
    { tiles := tiles, events := events, completion := .returned none }

/-- Lines 78-147 of `RequestMapTask`, from the tile file that lines 33-77 built. -/
def storeTileFile (env : MapTaskEnv) (tiles : List Tile) (events : List Event)
    (objectPath fileUse : String) (tileFile : TileFile) : MapTaskResult :=
  match parseTileFromObjectPath env.cal objectPath with
  | none => { tiles := tiles, events := events, completion := .panicked }
  | some tileInfo =>
    match FindTile tiles (tileKeyFilter tileInfo) with
    | none => { tiles := tiles, events := events, completion := .returned none }
    | some tile =>
      match InsertFileIntoTile tiles tile tileFile with
      | (tiles1, some err) =>
        { tiles := tiles1, events := events, completion := .returned (some err) }
      | (tiles1, none) =>
        if fileUse = "jsonMeta" then
          match ParseDataGeometry env.sidecar tile objectPath with
          | (_, some err) =>
            { tiles := tiles1, events := events, completion := .returned (some err) }
          | (tile1, none) =>
            match UpdateTileAttribute env.attributeNow tiles1 tile1 "geometry" with
            | (tiles2, some err) =>
              { tiles := tiles2, events := events, completion := .returned (some err) }
            | (tiles2, none) => publishBuildMapEvent env tiles2 events tile1
        else publishBuildMapEvent env tiles1 events tile

/-- The function `RequestMapTask` on the tile and the event collection (the database
client is there). A missing key of `event.Data` and an empty value (`len(s) == 0`) are
the same error. -/
def RequestMapTask (env : MapTaskEnv) (tiles : List Tile) (events : List Event)
    (event : Event) : MapTaskResult :=
  let fail (err : GoError) : MapTaskResult :=
    { tiles := tiles, events := events, completion := .returned (some err) }
  match event.Data.lookup "objectPath" with
  | none => fail (GoError.New "missing file name on event")
  | some objectPath =>
    if objectPath = "" then fail (GoError.New "missing file name on event")
    else
      match event.Data.lookup "size" with
      | none => fail (GoError.New "missing size on event")
      | some size =>
        if size = "" then fail (GoError.New "missing size on event")
        else
          match Atoi (stringBytes size) with
          | (_, some err) => fail err
          | (sizeValue, none) =>
            match Split objectPath '/' with
            | [_, _, _, _, _, _, k6, k7] =>
              let band := k7
              let fileUse := if k7 = k6 ++ ".json" then "jsonMeta" else "satBand"
              match Split k6 '_' with
              | [_, _, _, c3, _] =>
                match Atoi (stringBytes c3) with
                | (_, some _) => fail (GoError.New "version was not an integer")
                | (version, none) =>
                  let tileFile : TileFile :=
                    { FileUse := fileUse, Band := band, Version := version,
                      Size := sizeValue, ObjectPath := objectPath }
                  storeTileFile env tiles events objectPath fileUse tileFile
              | _ => fail (GoError.New "compound items not equal to 4")
            | _ => fail (GoError.New "number of items not 7")

/-- A tile whose files have pairwise different object paths. -/
def NoDuplicatePaths (t : Tile) : Prop := (t.Files.map TileFile.ObjectPath).Nodup

instance (t : Tile) : Decidable (NoDuplicatePaths t) := by unfold NoDuplicatePaths; infer_instance

/-- A call that writes to the files of the tiles. -/
inductive TileCall where
  | insert (tile : Tile) (tileFile : TileFile)
  | task (env : MapTaskEnv) (event : Event)

/-- The two collections after a call. -/
def applyTileCall (call : TileCall) (state : List Tile × List Event) :
    List Tile × List Event :=
  match call with
  | TileCall.insert tile tileFile => ((InsertFileIntoTile state.1 tile tileFile).1, state.2)
  | TileCall.task env event =>
    ((RequestMapTask env state.1 state.2 event).tiles,
      (RequestMapTask env state.1 state.2 event).events)

/-- The two collections after a sequence of calls. -/
def runTileCalls (calls : List TileCall) (state : List Tile × List Event) :
    List Tile × List Event :=
  calls.foldl (fun st call => applyTileCall call st) state

/-- A geometry of type Polygon with at least one ring and at least four coordinates in
its first ring. -/
def validPolygon (g : Geometry) : Prop :=
  g.Type_ = "Polygon" ∧ ∃ ring rest, g.Coordinates = ring :: rest ∧ 4 ≤ ring.length

/-! ## Concrete inputs of the tile examples -/

/-- The tile of `TestRequestMapTask`, as stored (id 11). -/
def exampleTile : Tile :=
  { Tile.zero with
    ID := 11, Date := NewDateTimeFromTime (utcCalendar.Date 2020 1 29), MgrsCode := "18QZG",
    SourceSatellite := "S2A-L2A" }

/-- The first event of `TestRequestMapTask`, as claimed (id 21). -/
def exampleFileEvent : Event :=
  { Event.zero with
    ID := 21, EventType := "RequestMapTask", MaxAttemps := 1, Priority := 5,
    Data := [("objectPath",
               "sentinel-s2-l2a-cogs/18/Q/ZG/2020/1/S2A_18QZG_20200129_0_L2A/B04.tif"),
             ("size", "99")] }

/-- The tile file that the first event of `TestRequestMapTask` describes. -/
def exampleTileFile : TileFile :=
  { FileUse := "satBand", Band := "B04.tif", Version := 0, Size := 99,
    ObjectPath := "sentinel-s2-l2a-cogs/18/Q/ZG/2020/1/S2A_18QZG_20200129_0_L2A/B04.tif" }

/-- A polygon of five coordinates (the coordinates stand for their bits). -/
def exampleGeometry : Geometry :=
  { Type_ := "Polygon", Coordinates := [[[1, 2], [3, 4], [5, 6], [7, 8], [1, 2]]] }

/-- An environment of `RequestMapTask`: UTC, every sidecar holds the example polygon. -/
def exampleMapTaskEnv : MapTaskEnv :=
  { cal := utcCalendar,
    sidecar := fun _ => Sidecar.decoded { Geometry := exampleGeometry },
    attributeNow := 50000000,
    save := { newID := 31, now := 60000000 } }

/-- The setting of `TestRequestCurrentIndexFilesTask`. -/
def exampleSetting : Setting :=
  { ID := 41, UtmZones := ["39P", "18Q"], TileFiles := ["B04.tif", "B08.tif"],
    TileStartDate := NewDateTimeFromTime (utcCalendar.Date 2018 1 1) }

/-- A row of the index file of `TestRequestCurrentIndexFilesTask`. -/
def exampleRecord : List String :=
  ["sentinel-cogs", "sentinel-s2-l2a-cogs/39/P/UL/2019/9/S2A_39PUL_20190914_0_L2A/B04.tif",
   "99", "etag"]

/-- The tile that `parseTileFromObjectPath` reads from the path of the example event. -/
def exampleTileInfo : Tile :=
  { Tile.zero with
    Date := NewDateTimeFromTime (utcCalendar.Date 2020 1 29), MgrsCode := "18QZG",
    SourceSatellite := "S2A-L2A" }

/-- A tile of the same MGRS code and another day (id 12). -/
def otherDayTile : Tile :=
  { Tile.zero with
    ID := 12, Date := NewDateTimeFromTime (utcCalendar.Date 2020 1 30), MgrsCode := "18QZG",
    SourceSatellite := "S2A-L2A" }

/-- The text is a date `YYYYMMDD`: eight ASCII digits, the year, the month (1 to 12) and
the day (1 to 31). -/
def parsesAsYYYYMMDD (s : String) (year month day : Nat) : Prop :=
  (stringBytes s).length = 8 ∧
    parseDigits ((stringBytes s).take 4) 0 = some year ∧
    parseDigits (((stringBytes s).drop 4).take 2) 0 = some month ∧
    parseDigits ((stringBytes s).drop 6) 0 = some day ∧
    1 ≤ month ∧ month ≤ 12 ∧ 1 ≤ day ∧ day ≤ 31

instance (s : String) (year month day : Nat) : Decidable (parsesAsYYYYMMDD s year month day) := by
  unfold parsesAsYYYYMMDD; infer_instance

/-- The per-row rules of the discovery filter in the words of the specification (4.4,
step 4): the key has exactly 8 segments; segment 1 and segment 2 together are a
configured UTM zone; segment 7 is a configured tile file or segment 6 with `.json`;
segment 6 splits on `_` into exactly 5 parts, the first and the last of which name the
satellite `S2A-L2A` or `S2B-L2A`; the third part parses as `YYYYMMDD` and the date is
strictly after the tile start date. -/
def discoveryRowRules (cal : Calendar) (key : String) (utmZones tileFiles : List String)
    (tileStartDate : DateTime) : Prop :=
  ∃ s0 s1 s2 s3 s4 s5 s6 s7 p0 p1 p2 p3 p4, ∃ year month day : Nat,
    Split key '/' = [s0, s1, s2, s3, s4, s5, s6, s7] ∧
    (s1 ++ s2) ∈ utmZones ∧ (s7 ∈ tileFiles ∨ s7 = s6 ++ ".json") ∧
    Split s6 '_' = [p0, p1, p2, p3, p4] ∧
    (p0 ++ "-" ++ p4 = "S2A-L2A" ∨ p0 ++ "-" ++ p4 = "S2B-L2A") ∧
    parsesAsYYYYMMDD p2 year month day ∧
    tileStartDate.Time < cal.Date year month day

/-- A row of zone 39P whose scene name does not repeat the zone. -/
def strayRecord : List String :=
  ["sentinel-cogs", "sentinel-s2-l2a-cogs/39/P/UL/2019/9/S2A_00AAA_20190914_0_L2A/B04.tif",
   "99", "etag"]

/-- Rows of an index file: two files of one scene, a file of another scene, a row of a
zone that is not configured. -/
def exampleRecords : List (List String) :=
  [exampleRecord,
   ["sentinel-cogs", "sentinel-s2-l2a-cogs/39/P/UL/2019/9/S2A_39PUL_20190914_0_L2A/B08.tif",
    "98", "etag"],
   ["sentinel-cogs", "sentinel-s2-l2a-cogs/18/Q/ZG/2020/1/S2A_18QZG_20200129_0_L2A/B04.tif",
    "97", "etag"],
   ["sentinel-cogs", "sentinel-s2-l2a-cogs/20/Q/ZG/2020/1/S2A_20QZG_20200129_0_L2A/B04.tif",
    "96", "etag"]]

/-! ## The file events of an index file (`request_index_tasks.go`, lines 176-236) -/

/-- The function `parseEventFromRecord`; `none` when the goroutine panics (an index out of
range). -/
def parseEventFromRecord (record : List String) : Option Event :=
  match record[1]?, record[2]? with
  | some key, some size =>
    some { Event.zero with
           EventType := "RequestMapTask",
           MaxAttemps := 1,
           Priority := 5,
           Data := [("objectPath", key), ("size", size)] }
  | _, _ => none

/-- The loop of `CreateTileFileEventsFromCsvIndexFile`, lines 207-221, on the results of
the calls of `csvReader.Read()`. The first error of a call is returned; `none` when the
goroutine panics. -/
def collectEvents (cal : Calendar) (setting : Setting) :
    List (Except GoError (List String)) → List Event → Option (Except GoError (List Event))
  | [], events => some (.ok events)
  | .error err :: _, _ => some (.error err)
  | .ok record :: rest, events =>
    match recordIsConsumeable cal record setting.UtmZones setting.TileFiles
        setting.TileStartDate.Time with
    | none => none
    | some false => collectEvents cal setting rest events
    | some true =>
      match parseEventFromRecord record with
      | none => none
      | some event => collectEvents cal setting rest (events ++ [event])

/-- The function `CreateTileFileEventsFromCsvIndexFile`: the events or the error; `none`
when the goroutine panics. -/
def CreateTileFileEventsFromCsvIndexFile (cal : Calendar) (env : IndexFileEnv)
    (compressedCsvIndexFileName : String) (setting : Setting) :
    Option (Except GoError (List Event)) :=
  match env.Open compressedCsvIndexFileName with
  | some err => some (.error err)
  | none =>
    match env.NewReader compressedCsvIndexFileName with
    | .error err => some (.error err)
    | .ok lines =>
      match env.NewCSVLineFilter (lineFilterRegularExpression setting) with
      | .error err => some (.error err)
      | .ok keep => collectEvents cal setting (env.Read (lines.filter keep)) []

/-- The lines of the index file of the examples: the rows of `exampleRecords` and a row of
a file that is not configured. -/
def exampleIndexLines : List String :=
  ["sentinel-cogs,sentinel-s2-l2a-cogs/39/P/UL/2019/9/S2A_39PUL_20190914_0_L2A/B04.tif,99,etag",
   "sentinel-cogs,sentinel-s2-l2a-cogs/39/P/UL/2019/9/S2A_39PUL_20190914_0_L2A/B08.tif,98,etag",
   "sentinel-cogs,sentinel-s2-l2a-cogs/18/Q/ZG/2020/1/S2A_18QZG_20200129_0_L2A/B04.tif,97,etag",
   "sentinel-cogs,sentinel-s2-l2a-cogs/20/Q/ZG/2020/1/S2A_20QZG_20200129_0_L2A/B04.tif,96,etag",
   "sentinel-cogs,sentinel-s2-l2a-cogs/39/P/UL/2019/9/S2A_39PUL_20190914_0_L2A/B02.tif,95,etag"]

/-- The records that the CSV reader of the examples reads from the lines of
`exampleIndexLines` that the line filter lets through (the row of zone 20Q is not among
them). -/
def exampleReadRecords : List (List String) :=
  [exampleRecord,
   ["sentinel-cogs", "sentinel-s2-l2a-cogs/39/P/UL/2019/9/S2A_39PUL_20190914_0_L2A/B08.tif",
    "98", "etag"],
   ["sentinel-cogs", "sentinel-s2-l2a-cogs/18/Q/ZG/2020/1/S2A_18QZG_20200129_0_L2A/B04.tif",
    "97", "etag"],
   ["sentinel-cogs", "sentinel-s2-l2a-cogs/39/P/UL/2019/9/S2A_39PUL_20190914_0_L2A/B02.tif",
    "95", "etag"]]

/-- A listing in which the second row has three fields. -/
def raggedIndexLines : List String :=
  ["sentinel-cogs,sentinel-s2-l2a-cogs/39/P/UL/2019/9/S2A_39PUL_20190914_0_L2A/B04.tif,99,etag",
   "sentinel-cogs,sentinel-s2-l2a-cogs/39/P/UL/2019/9/S2A_39PUL_20190914_0_L2A/B08.tif,98"]

/-- Two rows of one tile and satellite, of the scenes of 2019-10-27 and 2019-10-28. -/
def autumnIndexLines : List String :=
  ["sentinel-cogs,sentinel-s2-l2a-cogs/39/P/UL/2019/10/S2A_39PUL_20191027_0_L2A/B04.tif,99,etag",
   "sentinel-cogs,sentinel-s2-l2a-cogs/39/P/UL/2019/10/S2A_39PUL_20191028_0_L2A/B04.tif,98,etag"]

/-- The record of the first row of `autumnIndexLines`. -/
def autumnRecord : List String :=
  ["sentinel-cogs", "sentinel-s2-l2a-cogs/39/P/UL/2019/10/S2A_39PUL_20191027_0_L2A/B04.tif",
   "99", "etag"]

/-- The record of the second row of `autumnIndexLines`. -/
def laterAutumnRecord : List String :=
  ["sentinel-cogs", "sentinel-s2-l2a-cogs/39/P/UL/2019/10/S2A_39PUL_20191028_0_L2A/B04.tif",
   "98", "etag"]

/-- The records of the two rows of `autumnIndexLines`. -/
def autumnRecords : List (List String) := [autumnRecord, laterAutumnRecord]

/-- The tile of `autumnRecord`. -/
def autumnTile : Tile :=
  { Tile.zero with
    Date := NewDateTimeFromTime (utcCalendar.Date 2019 10 27), MgrsCode := "39PUL",
    SourceSatellite := "S2A-L2A" }

/-- The tile of `laterAutumnRecord`. -/
def laterAutumnTile : Tile :=
  { Tile.zero with
    Date := NewDateTimeFromTime (utcCalendar.Date 2019 10 28), MgrsCode := "39PUL",
    SourceSatellite := "S2A-L2A" }

/-- How `encoding/csv` reads lines without quotes: the fields between the commas; a line
whose number of fields is not that of the first line gives the error `ErrFieldCount`. -/
def readPlainLines (lines : List String) : List (Except GoError (List String)) :=
  match lines with
  | [] => []
  | first :: _ =>
    lines.map (fun line =>
      if (Split line ',').length = (Split first ',').length then .ok (Split line ',')
      else .error (GoError.External "wrong number of fields"))

/-- The environment of the examples: three files, the line filter of the expression of
`exampleSetting` (a line passes when it holds `_39P` or `_18Q`), and the reader of lines
without quotes. -/
def exampleIndexEnv : IndexFileEnv :=
  { Open := fun name =>
      if name = "index.csv.gz" ∨ name = "ragged.csv.gz" ∨ name = "autumn.csv.gz" then none
      else some (GoError.External "no such file or directory"),
    NewReader := fun name =>
      if name = "index.csv.gz" then .ok exampleIndexLines
      else if name = "ragged.csv.gz" then .ok raggedIndexLines
      else if name = "autumn.csv.gz" then .ok autumnIndexLines
      else .error (GoError.External "invalid header"),
    NewCSVLineFilter := fun expression =>
      if expression = "(_39P)|(_18Q)" then
        .ok (fun line => Contains line "_39P" || Contains line "_18Q")
      else .error (GoError.External "expression outside the examples"),
    Read := readPlainLines }

/-- The calendar of a process whose local zone is `Atlantic/Azores`, for the instants of
the year 2019: the local time is UTC from 2019-03-31 01:00 UTC to 2019-10-27 01:00 UTC and
one hour behind UTC before and after. -/
def azoresCalendar : Calendar where
  Date := utcCalendar.Date
  YearMonthDay := fun d =>
    utcCalendar.YearMonthDay
      (if 1553994000000 ≤ d ∧ d < 1572138000000 then d else d - 3600000)

/-! ## `UpdateOrCreateTile` (`tile_collection.go`, lines 150-188) -/

/-- What one call of `UpdateOrCreateTile` reads from its environment. -/
structure UpsertEnv where
  /-- the `_id` that the server gives to a document that the upsert inserts -/
  insertedID : ObjectID
  /-- the result of `time.Now()` -/
  now : Time

/-- The function `UpdateOrCreateTile`: `FindOneAndUpdate` with `SetUpsert(true)`, the
filter on `date`, `mgrs_code` and `source_satellite`, the update `$set` of
`updated_date`, `geometry` and `files`. The first matching document in natural order is
updated; without a match the server inserts a document made of the filter fields and the
fields of `$set`, and `Decode` returns `mongo.ErrNoDocuments`, for which the function
returns its argument. The results: the collection, the returned tile, the error. -/
def UpdateOrCreateTile (env : UpsertEnv) (tiles : List Tile) (tile : Tile) :
    List Tile × Option Tile × Option GoError :=
  let updatedDate := NewDateTimeFromTime env.now
  let r := findOneAndUpdateFirst (tileKeyFilter tile)
    (fun d => { d with UpdatedDate := updatedDate, Geometry := tile.Geometry,
                       Files := tile.Files }) tiles
  match r.1 with
  | none =>
    (tiles ++ [{ ID := env.insertedID, UpdatedDate := updatedDate, Date := tile.Date,
                 MgrsCode := tile.MgrsCode, SourceSatellite := tile.SourceSatellite,
                 Geometry := tile.Geometry, Files := tile.Files }],
      some tile, none)
  | some updatedTile => (r.2, some updatedTile, none)

/-- Two tiles of the same date, MGRS code and source satellite. -/
def sameNaturalKey (a b : Tile) : Prop :=
  a.Date = b.Date ∧ a.MgrsCode = b.MgrsCode ∧ a.SourceSatellite = b.SourceSatellite

instance (a b : Tile) : Decidable (sameNaturalKey a b) := by
  unfold sameNaturalKey; infer_instance

/-- A tile with `updatedDate` set to zero, to compare tiles up to that field. -/
def withoutUpdatedDate (t : Tile) : Tile := { t with UpdatedDate := 0 }

/-- The tile of `TestRequestMapTask` with a geometry and a file, as a caller passes it. -/
def exampleUpsertTile : Tile :=
  { exampleTileInfo with Geometry := exampleGeometry, Files := [exampleTileFile] }

/-- A row that `recordIsConsumeable` accepts although its size field is not a number. -/
def textSizeRecord : List String :=
  ["sentinel-cogs", "sentinel-s2-l2a-cogs/39/P/UL/2019/9/S2A_39PUL_20190914_0_L2A/B04.tif",
   "n/a", "etag"]

/-- A row that `recordIsConsumeable` accepts although its size field is empty. -/
def emptySizeRecord : List String :=
  ["sentinel-cogs", "sentinel-s2-l2a-cogs/39/P/UL/2019/9/S2A_39PUL_20190914_0_L2A/B04.tif",
   "", "etag"]

/-- A row that `recordIsConsumeable` accepts although the fourth part of its scene name is
not a number. -/
def textVersionRecord : List String :=
  ["sentinel-cogs", "sentinel-s2-l2a-cogs/39/P/UL/2019/9/S2A_39PUL_20190914_x_L2A/B04.tif",
   "99", "etag"]

/-- The event that `postBoundary` (`endpoints/boundary.go`, lines 167-177) publishes for a
new boundary of the MGRS code of the example tile, as stored (id 22). -/
def boundaryBuildEvent : Event :=
  { Event.zero with
    ID := 22, UpdatedDate := 40, EventType := "BuildBoundaryMapTask", MaxAttemps := 1,
    Priority := 5,
    Data := [("mgrsCode", "18QZG"), ("boundaryId", "64b7f0c2a1d3e4f5a6b7c8d9")] }

/-! ## More of the standard library and of the driver -/

/-- The call `strings.HasPrefix(s, prefix)`; the parameter `pre` is the source's `prefix`. -/
def HasPrefix (s pre : String) : Bool := pre.data.isPrefixOf s.data

/-- The call `strings.HasSuffix(s, suffix)`. -/
def HasSuffix (s suffix : String) : Bool := suffix.data.isSuffixOf s.data

/-- A list of characters with the first occurrence of `old` replaced by `new`. -/
def replaceFirstChars (old new : List Char) : List Char → List Char
  | [] => []
  | c :: cs =>
    if old.isPrefixOf (c :: cs) then new ++ (c :: cs).drop old.length
    else c :: replaceFirstChars old new cs

/-- The call `strings.Replace(s, old, new, 1)` for a non-empty `old`. -/
def Replace (s old new : String) : String :=
  String.mk (replaceFirstChars old.data new.data s.data)

/-- The call `filepath.Join(dir, name)` for clean path elements. -/
def Join (dir name : String) : String :=
  if dir = "" then name else if name = "" then dir else dir ++ "/" ++ name

/-- The assignment `m[key] = value` on a Go map, kept as a list of entries in the order
of their first insertion. -/
def mapSet {κ ν : Type} [BEq κ] (m : List (κ × ν)) (key : κ) (value : ν) : List (κ × ν) :=
  match m with
  | [] => [(key, value)]
  | entry :: rest =>
    if entry.1 == key then (key, value) :: rest else entry :: mapSet rest key value

/-- The `n` lowest hexadecimal digits of a number, most significant first, lower case. -/
def hexChars : Nat → Nat → List Char
  | 0, _ => []
  | n + 1, v => hexChars n (v / 16) ++ [Nat.digitChar (v % 16)]

/-- The method `Hex` of `primitive.ObjectID`: the twelve bytes as 24 hexadecimal digits
(`hex.EncodeToString` writes lower case). -/
def ObjectID.Hex (id : ObjectID) : String := String.mk (hexChars 24 id)

/-- The value of a hexadecimal digit; `encoding/hex` reads both cases. -/
def hexValue (c : Char) : Option Nat :=
  if 48 ≤ c.toNat ∧ c.toNat ≤ 57 then some (c.toNat - 48)
  else if 97 ≤ c.toNat ∧ c.toNat ≤ 102 then some (c.toNat - 87)
  else if 65 ≤ c.toNat ∧ c.toNat ≤ 70 then some (c.toNat - 55)
  else none

/-- The number written by hexadecimal digits, after the digits read so far. -/
def parseHex : List Char → Nat → Option Nat
  | [], acc => some acc
  | c :: cs, acc =>
    match hexValue c with
    | none => none
    | some v => parseHex cs (acc * 16 + v)

/-- The function `primitive.ObjectIDFromHex`: a string of 24 bytes that `hex.Decode`
accepts (24 hexadecimal digits, which are 24 characters); `none` is `ErrInvalidHex` or the
error of the decoder. -/
def ObjectIDFromHex (s : String) : Option ObjectID :=
  if s.data.length ≠ 24 then none else parseHex s.data 0

/-! ## Boundaries and rasters (`boundary_collection.go`, `raster_collection.go`) -/

/-- A `float32`, given by its 32 bits; the modelled code copies such values only. -/
abbrev Float32 := Nat

/-- The struct `Boundary`. -/
structure Boundary where
  ID : ObjectID
  UserId : ObjectID
  Name : String
  MgrsCodes : List String
  Geometry : Geometry
  Acres : Float64
  deriving DecidableEq, Repr

/-- The struct `RasterMeta`. -/
structure RasterMeta where
  ImageBounds : List (List Float32)
  RasterMin : Float32
  RasterMax : Float32
  RasterMedian : Float32
  RasterMean : Float32
  RasterPercentCoveredByClouds : Float32
  deriving DecidableEq, Repr

/-- The struct `Raster`; `Type_` is the field `Type`. -/
structure Raster where
  ID : ObjectID
  UserId : ObjectID
  BoundaryId : ObjectID
  Type_ : String
  ImagePath : String
  MetaData : RasterMeta
  TileIds : List ObjectID
  TileDates : List DateTime
  deriving DecidableEq, Repr

/-- The constant `TYPE_NDVI_MAP`. -/
def TYPE_NDVI_MAP : String := "NDVI_MAP"

/-- The constant `S3_IMAGE_PREFIX`. -/
def S3_IMAGE_PREFIX : String := "rasters/images/"

/-- A document of the collection `object_store` (`object_store.go`, lines 179-183),
without the `_id` that the server gives it and that no code reads. -/
structure Object where
  Path : String
  Exists : Bool
  deriving DecidableEq, Repr

/-! ## The raster collection and the object store -/

/-- What the map task changes outside its own memory. -/
inductive Effect where
  /-- the directory that `os.MkdirTemp` made -/
  | MkdirTemp (dir : String)
  /-- a call of `satData.GetObject` on the image bucket -/
  | GetObject (localPath objectPath : String)
  /-- the call of `WriteBoundaryFiles` for the boundaries of these ids -/
  | WriteBoundaryFiles (dir : String) (ids : List ObjectID)
  /-- the call of the NDVI tool -/
  | CallPythonProgram (dir : String)
  /-- the deferred `os.RemoveAll` -/
  | RemoveAll (dir : String)
  deriving DecidableEq, Repr

/-- The state that `BuildBoundaryMapTask` works on: the collections `raster` and
`object_store`, the keys of the blobs in the bucket `OBJECT_STORE_BUCKET`, the number of
calls of `primitive.NewObjectID()` so far, and the effects on the file system and on the
image bucket, in order. -/
structure BuildState where
  rasters : List Raster
  objects : List Object
  bucket : List String
  ids : Nat
  effects : List Effect
  deriving DecidableEq, Repr

/-- What `BuildBoundaryMapTask` reads from outside the document store. An outcome `none`
of type `Option GoError` is success. -/
structure BuildEnv where
  /-- the n-th result of `primitive.NewObjectID()` -/
  NewObjectID : Nat → ObjectID
  /-- the first error of `ObjectStoreSession` or `uploader.Upload` in `PutObject`, for a
  local path and an object path -/
  Upload : String → String → Option GoError
  /-- the first error of `ObjectStoreSession` or `DeleteObjects` in `DeleteObject` -/
  DeleteObjects : String → Option GoError
  /-- the answer of the server to `$geoIntersects` with `$geometry` a tile geometry:
  `none` when it rejects the geometry, else which boundary geometries intersect it -/
  geoIntersects : Geometry → Option (Geometry → Bool)
  /-- the call `os.MkdirTemp(db.TEMP_DIR, "build_boundary_map_task")` made for a tile -/
  MkdirTemp : ObjectID → Except GoError String
  /-- the call `satData.GetObject` on the image bucket, for a local path and an object
  path -/
  GetObject : String → String → Option GoError
  /-- the call `CallPythonProgram` on a directory -/
  CallPythonProgram : String → Option GoError
  /-- the call `os.ReadDir` on a directory after the tool has run: the names of its
  entries -/
  ReadDir : String → Except GoError (List String)
  /-- the file of a path opened, read and passed to `UnmarshalJsonRasterMeta`; `none` for
  the first error -/
  readRasterMeta : String → Option RasterMeta

/-- The function `UpdateOrCreateObject` on the collection (its results are not used by the
callers but for the error, which is `nil`). -/
def UpdateOrCreateObject (objects : List Object) (object : Object) : List Object :=
  let r := findOneAndUpdateFirst (fun d => d.Path == object.Path)
    (fun d => { d with Exists := object.Exists }) objects
  match r.1 with
  | none => objects ++ [object]
  | some _ => r.2

/-- The function `PutObject` (`object_store.go`, lines 79-117): the state and the error. -/
def PutObject (env : BuildEnv) (st : BuildState) (localPath objectPath : String) :
    BuildState × Option GoError :=
  match env.Upload localPath objectPath with
  | some err => (st, some err)
  | none =>
    ({ st with
       bucket := if objectPath ∈ st.bucket then st.bucket else st.bucket ++ [objectPath],
       objects := UpdateOrCreateObject st.objects { Path := objectPath, Exists := true } },
      none)

/-- The function `DeleteObject` (`object_store.go`, lines 146-176). -/
def DeleteObject (env : BuildEnv) (st : BuildState) (objectPath : String) :
    BuildState × Option GoError :=
  match env.DeleteObjects objectPath with
  | some err => (st, some err)
  | none =>
    ({ st with
       bucket := st.bucket.filter (fun key => key != objectPath),
       objects := UpdateOrCreateObject st.objects { Path := objectPath, Exists := false } },
      none)

/-- The method `StoreRasterImage`: the raster behind the pointer, the state, the error. -/
def Raster.StoreRasterImage (env : BuildEnv) (st : BuildState) (obj : Raster)
    (localPath : String) : Raster × BuildState × Option GoError :=
  let fresh := obj.ID = NilObjectID
  let obj := if fresh then { obj with ID := env.NewObjectID st.ids } else obj
  let st := if fresh then { st with ids := st.ids + 1 } else st
  let obj := { obj with ImagePath := S3_IMAGE_PREFIX ++ obj.ID.Hex }
  let r := PutObject env st localPath obj.ImagePath
  (obj, r.1, r.2)

/-- The function `SaveRaster`: `InsertOne` refuses an `_id` that the collection holds. -/
def SaveRaster (env : BuildEnv) (st : BuildState) (raster : Raster) :
    Raster × BuildState × Option GoError :=
  let fresh := raster.ID = NilObjectID
  let raster := if fresh then { raster with ID := env.NewObjectID st.ids } else raster
  let st := if fresh then { st with ids := st.ids + 1 } else st
  if st.rasters.any (fun d => d.ID == raster.ID) then (raster, st, some GoError.DuplicateKey)
  else (raster, { st with rasters := st.rasters ++ [raster] }, none)

/-- The function `FindRasters` without options. -/
def FindRasters (rasters : List Raster) (filter : Raster → Bool) : List Raster :=
  rasters.filter filter

/-- The function `DeleteRaster`: `FindOne` for the image path, `DeleteObject`, then
`DeleteOne`, which removes the first document that matches. -/
def DeleteRaster (env : BuildEnv) (st : BuildState) (filters : Raster → Bool) :
    BuildState × Option GoError :=
  match st.rasters.find? filters with
  | none => (st, some GoError.ErrNoDocuments)
  | some result =>
    match DeleteObject env st result.ImagePath with
    | (st1, some err) => (st1, some err)
    | (st1, none) => ({ st1 with rasters := st1.rasters.eraseP filters }, none)

/-- The loop of `DeleteExistingBoundaryRastersByType`, lines 177-183. -/
def deleteRasters (env : BuildEnv) : BuildState → List Raster → BuildState × Option GoError
  | st, [] => (st, none)
  | st, raster :: rest =>
    match DeleteRaster env st (fun d => d.ID == raster.ID) with
    | (st1, some err) => (st1, some err)
    | (st1, none) => deleteRasters env st1 rest

/-- The filter of `DeleteExistingBoundaryRastersByType`, lines 167-170. -/
def boundaryRasterFilter (boundaryId : ObjectID) (rasterType : String) (d : Raster) : Bool :=
  d.BoundaryId == boundaryId && (rasterType == "" || d.Type_ == rasterType)

/-- The function `DeleteExistingBoundaryRastersByType`. -/
def DeleteExistingBoundaryRastersByType (env : BuildEnv) (st : BuildState)
    (boundaryId : ObjectID) (rasterType : String) : BuildState × Option GoError :=
  deleteRasters env st (FindRasters st.rasters (boundaryRasterFilter boundaryId rasterType))

/-- The body of the loop of `SaveBoundaryRasters`, lines 270-286, for one raster: the
state after it. Every error is logged and ends the iteration. -/
def saveBoundaryRaster (env : BuildEnv) (dataDir : String)
    (rasterImageFiles : List (String × String)) (st : BuildState) (raster : Raster) :
    BuildState :=
  match rasterImageFiles.lookup raster.BoundaryId.Hex with
  | none => st
  | some rasterImagePath =>
    let fullRasterImagePath := Join dataDir rasterImagePath
    match raster.StoreRasterImage env st fullRasterImagePath with
    | (_, st1, some _) => st1
    | (raster1, st1, none) =>
      match DeleteExistingBoundaryRastersByType env st1 raster1.BoundaryId raster1.Type_ with
      | (st2, some _) => st2
      | (st2, none) => (SaveRaster env st2 raster1).2.1

/-- The function `SaveBoundaryRasters`: the state and the error. -/
def SaveBoundaryRasters (env : BuildEnv) (st : BuildState) (dataDir : String)
    (rasters : List Raster) (rasterImageFiles : List (String × String)) :
    BuildState × Option GoError :=
  (rasters.foldl (saveBoundaryRaster env dataDir rasterImageFiles) st, none)

/-! ## The map task (`build_boundary_map_task.go`) -/

/-- The function `FindTiles` with the options of lines 100-102: `SetSort({date: -1})` and
`SetLimit(limit)`. Among tiles of equal dates the natural order decides. -/
def FindTiles (tiles : List Tile) (filter : Tile → Bool) (limit : Nat) : List Tile :=
  ((tiles.filter filter).insertionSort (fun a b => b.Date ≤ a.Date)).take limit

/-- The function `FindBoundaries` without options. -/
def FindBoundaries (boundaries : List Boundary) (filter : Boundary → Bool) : List Boundary :=
  boundaries.filter filter

/-- Lines 128-139: whether a boundary is in the list of a tile already. -/
def boundaryClaimed (boundariesByTileId : List (ObjectID × List Boundary))
    (boundary : Boundary) : Bool :=
  boundariesByTileId.any (fun tileBoundaries =>
    tileBoundaries.2.any (fun tileBoundary => tileBoundary.ID == boundary.ID))

/-- The loop of `FindBoundariesForTile`, lines 115-148, over the tiles; `none` when the
server rejects the geometry of a tile: `coll.Find` then returns an error and no cursor,
and `FindBoundaries` calls `cursor.All` on the nil cursor. -/
def claimBoundaries (env : BuildEnv) (boundaries : List Boundary)
    (boundariesFilter : Boundary → Bool) :
    List Tile → List (ObjectID × List Boundary) → Option (List (ObjectID × List Boundary))
  | [], boundariesByTileId => some boundariesByTileId
  | tile :: rest, boundariesByTileId =>
    match env.geoIntersects tile.Geometry with
    | none => none
    | some intersects =>
      let found := FindBoundaries boundaries
        (fun b => boundariesFilter b && intersects b.Geometry)
      let boundariesNotAlreadyClaimed :=
        found.filter (fun boundary => !(boundaryClaimed boundariesByTileId boundary))
      claimBoundaries env boundaries boundariesFilter rest
        (mapSet boundariesByTileId tile.ID boundariesNotAlreadyClaimed)

/-- The function `FindBoundariesForTile`: the map from tile ids to boundaries, in the
order in which the keys were inserted; `none` when the goroutine panics. -/
def FindBoundariesForTile (env : BuildEnv) (tiles : List Tile) (boundaries : List Boundary)
    (mgrsCode : String) (boundariesFilter : Boundary → Bool) :
    Option (List (ObjectID × List Boundary)) :=
  let recent := FindTiles tiles (fun t => t.MgrsCode == mgrsCode) 10
  if recent.length = 0 then some []
  else claimBoundaries env boundaries boundariesFilter recent []

/-- Lines 157-162 of `SetupAndBuildNDVIMaps`. -/
def latestVersion (files : List TileFile) : Int :=
  files.foldl (fun latestVersion file =>
    if file.Version > latestVersion then file.Version else latestVersion) 0

/-- The three object paths that lines 164-177 select. -/
structure BandPaths where
  band04ObjectPath : String
  band08ObjectPath : String
  bandSCLObjectPath : String
  deriving DecidableEq, Repr

/-- Lines 164-177 of `SetupAndBuildNDVIMaps`. -/
def selectBands (files : List TileFile) : BandPaths :=
  let latestVersion := latestVersion files
  files.foldl (fun paths file =>
    if file.Version = latestVersion then
      if file.Band = "B04.tif" then { paths with band04ObjectPath := file.ObjectPath }
      else if file.Band = "B08.tif" then { paths with band08ObjectPath := file.ObjectPath }
      else if file.Band = "SCL.tif" then { paths with bandSCLObjectPath := file.ObjectPath }
      else paths
    else paths)
    { band04ObjectPath := "", band08ObjectPath := "", bandSCLObjectPath := "" }

/-- The key under which lines 312-324 of `BuildBoundaryRasters` index a file name, for one
of the two prefixes and its suffix. -/
def fileKey (fileName pre suffix : String) : String :=
  Replace (Replace fileName pre "") suffix ""

/-- Lines 310-325 of `BuildBoundaryRasters`: the map `rasterImageFiles`. -/
def indexImageFiles (files : List String) (rasterImagePrefix : String) :
    List (String × String) :=
  files.foldl (fun m fileName =>
    if HasPrefix fileName rasterImagePrefix && HasSuffix fileName ".png" then
      mapSet m (fileKey fileName rasterImagePrefix ".png") fileName
    else m) []

/-- Lines 310-325 of `BuildBoundaryRasters`: the map `rasterMetaFiles`. -/
def indexMetaFiles (files : List String) (rasterImagePrefix rasterMetaPrefix : String) :
    List (String × String) :=
  files.foldl (fun m fileName =>
    if HasPrefix fileName rasterImagePrefix && HasSuffix fileName ".png" then m
    else if HasPrefix fileName rasterMetaPrefix && HasSuffix fileName ".json" then
      mapSet m (fileKey fileName rasterMetaPrefix ".json") fileName
    else m) []

/-- The body of the loop of lines 329-380 for one key of `rasterImageFiles`: the raster,
or `none` when the iteration ends with `continue`. -/
def buildBoundaryRaster (env : BuildEnv) (userIdByBoundaryId : List (ObjectID × ObjectID))
    (rasterMetaFiles : List (String × String)) (tile : Tile) (dataDir boundaryId : String) :
    Option Raster :=
  match ObjectIDFromHex boundaryId with
  | none => none
  | some boundaryObjectId =>
    match rasterMetaFiles.lookup boundaryId with
    | none => none
    | some rasterMetaFile =>
      match env.readRasterMeta (Join dataDir rasterMetaFile) with
      | none => none
      | some rasterMeta =>
        match userIdByBoundaryId.lookup boundaryObjectId with
        | none => none
        | some userId =>
          some { ID := NilObjectID, BoundaryId := boundaryObjectId, UserId := userId,
                 Type_ := TYPE_NDVI_MAP, ImagePath := "", MetaData := rasterMeta,
                 TileIds := [tile.ID], TileDates := [tile.Date] }

/-- The function `BuildBoundaryRasters`: the rasters and the map `rasterImageFiles`, or
the error of `os.ReadDir`. Go ranges over the map in an unspecified order, the model in
the order of insertion. -/
def BuildBoundaryRasters (env : BuildEnv) (boundaries : List Boundary) (tile : Tile)
    (dataDir rasterImagePrefix rasterMetaPrefix : String) :
    Except GoError (List Raster × List (String × String)) :=
  let userIdByBoundaryId :=
    boundaries.foldl (fun m boundary => mapSet m boundary.ID boundary.UserId) []
  match env.ReadDir dataDir with
  | .error err => .error err
  | .ok files =>
    let rasterImageFiles := indexImageFiles files rasterImagePrefix
    let rasterMetaFiles := indexMetaFiles files rasterImagePrefix rasterMetaPrefix
    .ok (rasterImageFiles.filterMap (fun entry =>
          buildBoundaryRaster env userIdByBoundaryId rasterMetaFiles tile dataDir entry.1),
        rasterImageFiles)

/-- The function `BuildNDVIMaps`. -/
def BuildNDVIMaps (env : BuildEnv) (st : BuildState) (boundaries : List Boundary)
    (tile : Tile) (dataDir : String) : BuildState × Option GoError :=
  if boundaries.length = 0 then (st, none)
  else
    let st := { st with effects := st.effects ++
      [Effect.WriteBoundaryFiles dataDir (boundaries.map Boundary.ID),
       Effect.CallPythonProgram dataDir] }
    match env.CallPythonProgram dataDir with
    | some err => (st, some err)
    | none =>
      match BuildBoundaryRasters env boundaries tile dataDir "raster_image_"
          "raster_meta_" with
      | .error err => (st, some err)
      | .ok (rasters, rasterImageFiles) =>
        SaveBoundaryRasters env st dataDir rasters rasterImageFiles

/-- Lines 186-222 of `SetupAndBuildNDVIMaps`, between `os.MkdirTemp` and the deferred
`os.RemoveAll`. -/
def downloadAndBuild (env : BuildEnv) (st : BuildState) (boundaries : List Boundary)
    (tile : Tile) (bands : BandPaths) (dataDir : String) : BuildState × Option GoError :=
  let band04Path := Join dataDir "satData_band04.tif"
  let band08Path := Join dataDir "satData_band08.tif"
  let st := { st with effects := st.effects ++
    [Effect.GetObject band04Path bands.band04ObjectPath] }
  match env.GetObject band04Path bands.band04ObjectPath with
  | some err => (st, some err)
  | none =>
    let st := { st with effects := st.effects ++
      [Effect.GetObject band08Path bands.band08ObjectPath] }
    match env.GetObject band08Path bands.band08ObjectPath with
    | some err => (st, some err)
    | none =>
      if bands.bandSCLObjectPath ≠ "" then
        let bandSCLPath := Join dataDir "satData_bandSCL.tif"
        let st := { st with effects := st.effects ++
          [Effect.GetObject bandSCLPath bands.bandSCLObjectPath] }
        match env.GetObject bandSCLPath bands.bandSCLObjectPath with
        | some err => (st, some err)
        | none => BuildNDVIMaps env st boundaries tile dataDir
      else BuildNDVIMaps env st boundaries tile dataDir

/-- The function `SetupAndBuildNDVIMaps`: the state and the error. -/
def SetupAndBuildNDVIMaps (env : BuildEnv) (st : BuildState) (boundaries : List Boundary)
    (tile : Tile) : BuildState × Option GoError :=
  let bands := selectBands tile.Files
  if bands.band04ObjectPath = "" ∨ bands.band08ObjectPath = "" then
    (st, some (GoError.New "tile did not have files for bands 4 and 8"))
  else
    match env.MkdirTemp tile.ID with
    | .error err => (st, some err)
    | .ok dataDir =>
      let st := { st with effects := st.effects ++ [Effect.MkdirTemp dataDir] }
      let r := downloadAndBuild env st boundaries tile bands dataDir
      ({ r.1 with effects := r.1.effects ++ [Effect.RemoveAll dataDir] }, r.2)

/-- The filter of lines 50-60 of `BuildBoundaryMapTask`: `mgrs_codes` holds the code of
the event and, when the event has a `boundaryId`, `_id` is that id; `none` for a
`boundaryId` that `ObjectIDFromHex` refuses. -/
def boundariesFilter (event : Event) : Option (Boundary → Bool) :=
  match event.Data.lookup "boundaryId" with
  | none => some (fun b => b.MgrsCodes.contains (mapIndex event.Data "mgrsCode"))
  | some boundaryId =>
    match ObjectIDFromHex boundaryId with
    | none => none
    | some boundaryObjectId =>
      some (fun b => b.MgrsCodes.contains (mapIndex event.Data "mgrsCode")
        && b.ID == boundaryObjectId)

/-- The result of `BuildBoundaryMapTask`: the state and how the call ended. -/
structure BuildResult where
  state : BuildState
  completion : Completion
  deriving DecidableEq

/-- The loop of `BuildBoundaryMapTask`, lines 69-89, over the entries of the map (Go
ranges over it in an unspecified order, the model in the order of insertion). A tile that
`FindTile` does not find is a nil pointer, which `SetupAndBuildNDVIMaps` dereferences. -/
def buildTiles (env : BuildEnv) (tiles : List Tile) :
    BuildState → List (ObjectID × List Boundary) → BuildResult
  | st, [] => { state := st, completion := .returned none }
  | st, (tileId, boundaries) :: rest =>
    if boundaries.length = 0 then buildTiles env tiles st rest
    else
      match FindTile tiles (fun t => t.ID == tileId) with
      | none => { state := st, completion := .panicked }
      | some tile =>
        match SetupAndBuildNDVIMaps env st boundaries tile with
        | (st1, some err) => { state := st1, completion := .returned (some err) }
        | (st1, none) => buildTiles env tiles st1 rest

/-- The function `BuildBoundaryMapTask` on the collections `tile` and `boundary`, which
it reads, and on the state that it changes. -/
def BuildBoundaryMapTask (env : BuildEnv) (tiles : List Tile) (boundaries : List Boundary)
    (st : BuildState) (event : Event) : BuildResult :=
  match boundariesFilter event with
  | none =>
    { state := st,
      completion :=
        .returned (some (GoError.External "the provided hex string is not a valid ObjectID")) }
  | some filter =>
    match FindBoundariesForTile env tiles boundaries (mapIndex event.Data "mgrsCode")
        filter with
    | none => { state := st, completion := .panicked }
    | some tileBoundaries => buildTiles env tiles st tileBoundaries

/-! ## Concrete inputs of the map task examples -/

/-- The tile of `TestBuildBoundaryMapTask`, as stored (id 14). -/
def mapTile : Tile :=
  { Tile.zero with
    ID := 14, Date := NewDateTimeFromTime (utcCalendar.Date 2022 7 16), MgrsCode := "14TNR",
    SourceSatellite := "S2A", Geometry := exampleGeometry,
    Files :=
      [{ FileUse := "satBand", Band := "B04.tif", Version := 0, Size := 99,
         ObjectPath := "sentinel-s2-l2a-cogs/14/T/NR/2022/7/S2A_14TNR_20220716_0_L2A/B04.tif" },
       { FileUse := "satBand", Band := "B08.tif", Version := 0, Size := 99,
         ObjectPath :=
           "sentinel-s2-l2a-cogs/14/T/NR/2022/7/S2A_14TNR_20220716_0_L2A/B08.tif" }] }

/-- The same tile with the files of a scene whose sequence number is `-1`, as
`RequestMapTask` stores them for the keys `.../S2A_14TNR_20220716_-1_L2A/B04.tif` and
`.../B08.tif`. -/
def negativeVersionTile : Tile :=
  { mapTile with
    Files :=
      [{ FileUse := "satBand", Band := "B04.tif", Version := -1, Size := 99,
         ObjectPath :=
           "sentinel-s2-l2a-cogs/14/T/NR/2022/7/S2A_14TNR_20220716_-1_L2A/B04.tif" },
       { FileUse := "satBand", Band := "B08.tif", Version := -1, Size := 99,
         ObjectPath :=
           "sentinel-s2-l2a-cogs/14/T/NR/2022/7/S2A_14TNR_20220716_-1_L2A/B08.tif" }] }

/-- A boundary inside the tile (id 51, user 61). -/
def fieldBoundary : Boundary :=
  { ID := 51, UserId := 61, Name := "field", MgrsCodes := ["14TNR"],
    Geometry := { Type_ := "Polygon", Coordinates := [[[2, 3], [4, 5], [6, 7], [2, 3]]] },
    Acres := 0 }

/-- A second boundary inside the tile (id 52, user 61). -/
def meadowBoundary : Boundary :=
  { ID := 52, UserId := 61, Name := "meadow", MgrsCodes := ["14TNR"],
    Geometry := { Type_ := "Polygon", Coordinates := [[[3, 3], [4, 4], [5, 5], [3, 3]]] },
    Acres := 0 }

/-- The meta data that the tool writes in the examples. -/
def exampleRasterMeta : RasterMeta :=
  { ImageBounds := [[1, 2], [3, 4]], RasterMin := 0, RasterMax := 9, RasterMedian := 4,
    RasterMean := 5, RasterPercentCoveredByClouds := 0 }

/-- An environment in which nothing fails: every geometry intersects every geometry, the
tool writes the two files of the boundary 51 and of the boundary 52, and the n-th new id
is 100 + n. -/
def exampleBuildEnv : BuildEnv :=
  { NewObjectID := fun n => 100 + n,
    Upload := fun _ _ => none,
    DeleteObjects := fun _ => none,
    geoIntersects := fun _ => some (fun _ => true),
    MkdirTemp := fun _ => .ok "/tmp/build_boundary_map_task1",
    GetObject := fun _ _ => none,
    CallPythonProgram := fun _ => none,
    ReadDir := fun _ =>
      .ok ["boundary_geometry_000000000000000000000033.json",
           "boundary_geometry_000000000000000000000034.json",
           "raster_image_000000000000000000000033.png",
           "raster_image_000000000000000000000034.png",
           "raster_meta_000000000000000000000033.json",
           "raster_meta_000000000000000000000034.json",
           "satData_band04.tif", "satData_band08.tif"],
    readRasterMeta := fun _ => some exampleRasterMeta }

/-- The state before anything is stored. -/
def emptyBuildState : BuildState :=
  { rasters := [], objects := [], bucket := [], ids := 0, effects := [] }

/-- The event that `RequestMapTask` publishes for the MGRS code of the tile, as claimed
(id 23). -/
def buildMapEvent : Event :=
  { Event.zero with
    ID := 23, EventType := "BuildBoundaryMapTask", Priority := 4, MaxAttemps := 1,
    Data := [("mgrsCode", "14TNR")] }

/-- Whether the geometry of a boundary intersects the geometry of a tile, by the answer of
the server; `false` when the server rejects the geometry of the tile. -/
def intersectsTile (env : BuildEnv) (t : Tile) (b : Boundary) : Bool :=
  match env.geoIntersects t.Geometry with
  | some intersects => intersects b.Geometry
  | none => false

/-- An older tile of the same MGRS code (id 15) and a tile of another code (id 16). -/
def olderMapTile : Tile :=
  { mapTile with ID := 15, Date := NewDateTimeFromTime (utcCalendar.Date 2022 7 11) }

/-- A tile of another MGRS code (id 16). -/
def otherCodeTile : Tile :=
  { mapTile with ID := 16, MgrsCode := "14TNS" }

/-- The raster that `BuildBoundaryRasters` returns for the boundary 51. -/
def fieldRaster : Raster :=
  { ID := NilObjectID, BoundaryId := 51, UserId := 61, Type_ := "NDVI_MAP", ImagePath := "",
    MetaData := exampleRasterMeta, TileIds := [14], TileDates := [mapTile.Date] }

/-- The raster that `BuildBoundaryRasters` returns for the boundary 52. -/
def meadowRaster : Raster :=
  { ID := NilObjectID, BoundaryId := 52, UserId := 61, Type_ := "NDVI_MAP", ImagePath := "",
    MetaData := exampleRasterMeta, TileIds := [14], TileDates := [mapTile.Date] }

/-- The rasters of the two boundaries of the examples. -/
def exampleRasters : List Raster := [fieldRaster, meadowRaster]

/-- The raster of the boundary 52 with the second new id and the image path of that id. -/
def storedMeadowRaster : Raster :=
  { meadowRaster with ID := 101, ImagePath := "rasters/images/000000000000000000000065" }

/-- The state after two new ids and the upload of the image of the boundary 52. -/
def uploadedMeadowState : BuildState :=
  { rasters := [],
    objects := [{ Path := "rasters/images/000000000000000000000065", Exists := true }],
    bucket := ["rasters/images/000000000000000000000065"], ids := 2, effects := [] }

/-- The map `rasterImageFiles` of the scratch directory of the examples. -/
def exampleImageFiles : List (String × String) :=
  [("000000000000000000000033", "raster_image_000000000000000000000033.png"),
   ("000000000000000000000034", "raster_image_000000000000000000000034.png")]

/-- The environment of the examples with an object store that refuses the upload of the
image of the boundary 51 (id 33 in hexadecimal). -/
def failingUploadEnv : BuildEnv :=
  { exampleBuildEnv with
    Upload := fun localPath _ =>
      if localPath = "/tmp/build_boundary_map_task1/raster_image_000000000000000000000033.png"
      then some (GoError.External "upload refused") else none }

/-- The first `n` ids of `primitive.NewObjectID()` are distinct 12-byte values other than
the nil id. -/
def FreshIds (env : BuildEnv) (n : Nat) : Prop :=
  (∀ i < n, ∀ j < n, env.NewObjectID i = env.NewObjectID j → i = j) ∧
    ∀ i < n, env.NewObjectID i < 2 ^ 96 ∧ env.NewObjectID i ≠ NilObjectID

/-- A state in which the ids of the rasters are distinct and no raster has the id, or the
image path of the id, of one of the calls of `primitive.NewObjectID()` still to come
before the `n`-th. -/
def RasterStoreOK (env : BuildEnv) (n : Nat) (st : BuildState) : Prop :=
  (st.rasters.map Raster.ID).Nodup ∧
    ∀ r ∈ st.rasters, ∀ k < n, st.ids ≤ k →
      r.ID ≠ env.NewObjectID k ∧ r.ImagePath ≠ S3_IMAGE_PREFIX ++ (env.NewObjectID k).Hex

/-- What holds of the state `st` of a run that started in the state `st0`. -/
structure RunInv (env : BuildEnv) (st0 st : BuildState) : Prop where
  /-- ids are only taken -/
  ids_le : st0.ids ≤ st.ids
  /-- the ids of the rasters are distinct -/
  nodup : (st.rasters.map Raster.ID).Nodup
  /-- a raster is one of the start or has an id and the image path of the run -/
  rows : ∀ r ∈ st.rasters, r ∈ st0.rasters ∨
    ∃ k, st0.ids ≤ k ∧ k < st.ids ∧ r.ID = env.NewObjectID k ∧
      r.ImagePath = S3_IMAGE_PREFIX ++ r.ID.Hex
  /-- the blob of a raster of the run is in the bucket -/
  blob : ∀ r ∈ st.rasters, r ∉ st0.rasters → r.ImagePath ∈ st.bucket
  /-- a raster of the run is the only raster of its boundary and type -/
  single : ∀ r ∈ st.rasters, r ∉ st0.rasters → ∀ r1 ∈ st.rasters,
    r1.BoundaryId = r.BoundaryId → r1.Type_ = r.Type_ → r1 = r
  /-- the blob of a raster of the start that is no longer stored is gone -/
  gone : ∀ old ∈ st0.rasters, old ∉ st.rasters → old.ImagePath ∉ st.bucket

/-- What holds of the state `st` of a run that started in the state `st0`, as long as no
more than `n` ids have been taken. -/
def RunInvUpTo (env : BuildEnv) (n : Nat) (st0 st : BuildState) : Prop :=
  st0.ids ≤ st.ids ∧ (st.ids ≤ n → RunInv env st0 st)

instance (env : BuildEnv) (n : Nat) : Decidable (FreshIds env n) := by
  unfold FreshIds; infer_instance

instance (env : BuildEnv) (n : Nat) (st : BuildState) : Decidable (RasterStoreOK env n st) := by
  unfold RasterStoreOK; infer_instance

/-- A raster of the boundary 51 stored by an earlier run (id 7). -/
def earlierFieldRaster : Raster :=
  { ID := 7, BoundaryId := 51, UserId := 61, Type_ := "NDVI_MAP",
    ImagePath := "rasters/images/000000000000000000000007",
    MetaData := exampleRasterMeta, TileIds := [15], TileDates := [olderMapTile.Date] }

/-- The state after that earlier run: the raster and its blob. -/
def earlierBuildState : BuildState :=
  { rasters := [earlierFieldRaster],
    objects := [{ Path := "rasters/images/000000000000000000000007", Exists := true }],
    bucket := ["rasters/images/000000000000000000000007"], ids := 0, effects := [] }

/-! ## Lemmas on the store primitives -/

theorem firstByPriority_eq_none {l : List Event} : firstByPriority l = none ↔ l = [] := by
  cases l with
  | nil => simp [firstByPriority]
  | cons d ds =>
    simp only [firstByPriority]
    cases firstByPriority ds with
    | none => simp
    | some b => by_cases h : d.Priority < b.Priority <;> simp [h]

theorem firstByPriority_spec {l : List Event} {b : Event} (h : firstByPriority l = some b) :
    b ∈ l ∧ ∀ x ∈ l, x.Priority ≤ b.Priority := by
  induction l generalizing b with
  | nil => simp [firstByPriority] at h
  | cons d ds ih =>
    simp only [firstByPriority] at h
    cases hds : firstByPriority ds with
    | none =>
      rw [hds] at h
      have hnil : ds = [] := firstByPriority_eq_none.mp hds
      simp only [Option.some.injEq] at h
      subst h; subst hnil
      simp
    | some c =>
      rw [hds] at h
      obtain ⟨hc, hmax⟩ := ih hds
      by_cases hlt : d.Priority < c.Priority
      · simp only [hlt, if_true, Option.some.injEq] at h
        subst h
        refine ⟨List.mem_cons_of_mem _ hc, ?_⟩
        intro x hx
        rcases List.mem_cons.mp hx with rfl | hx
        · exact le_of_lt hlt
        · exact hmax x hx
      · simp only [hlt, if_false, Option.some.injEq] at h
        subst h
        refine ⟨List.mem_cons_self _ _, ?_⟩
        intro x hx
        rcases List.mem_cons.mp hx with rfl | hx
        · exact le_refl _
        · exact le_trans (hmax x hx) (not_lt.mp hlt)

theorem UpdateOne_eq_self_of_not_mem (i : ObjectID) (f : Event → Event) (store : List Event)
    (h : i ∉ store.map Event.ID) : UpdateOne (fun x => x.ID == i) f store = store := by
  induction store with
  | nil => rfl
  | cons d ds ih =>
    simp only [List.map_cons, List.mem_cons, not_or] at h
    have hd : (d.ID == i) = false := by simpa using fun e => h.1 e.symm
    simp only [UpdateOne, hd, Bool.false_eq_true, if_false, ih h.2]

theorem map_ite_eq_self_of_not_mem (i : ObjectID) (f : Event → Event) (store : List Event)
    (h : i ∉ store.map Event.ID) :
    store.map (fun x => if x.ID = i then f x else x) = store := by
  induction store with
  | nil => rfl
  | cons d ds ih =>
    simp only [List.map_cons, List.mem_cons, not_or] at h
    have hd : ¬ d.ID = i := fun e => h.1 e.symm
    simp only [List.map_cons, hd, if_false, ih h.2]

/-- With unique ids, updating the first document of an id is updating the document of
that id. -/
theorem UpdateOne_eq_map (i : ObjectID) (f : Event → Event) (store : List Event)
    (h : (store.map Event.ID).Nodup) :
    UpdateOne (fun x => x.ID == i) f store
      = store.map (fun x => if x.ID = i then f x else x) := by
  induction store with
  | nil => rfl
  | cons d ds ih =>
    simp only [List.map_cons, List.nodup_cons] at h
    by_cases hd : d.ID = i
    · have hni : i ∉ ds.map Event.ID := hd ▸ h.1
      simp only [UpdateOne, hd, beq_self_eq_true, if_true, List.map_cons,
        map_ite_eq_self_of_not_mem i f ds hni]
    · have hb : (d.ID == i) = false := by simpa using hd
      simp only [UpdateOne, hb, Bool.false_eq_true, if_false, List.map_cons, hd, ih h.2]

theorem map_ID_map_ite (i : ObjectID) (f : Event → Event) (store : List Event)
    (hf : ∀ x, x.ID = i → (f x).ID = i) :
    (store.map (fun x => if x.ID = i then f x else x)).map Event.ID = store.map Event.ID := by
  rw [List.map_map]
  apply List.map_congr_left
  intro x _
  by_cases hx : x.ID = i
  · simp [hx, hf x hx]
  · simp [hx]

/-- The document of an id after the document of that id was replaced. -/
theorem find_map_ite (i : ObjectID) (f : Event → Event) (store : List Event) (j : ObjectID)
    (hf : ∀ x, x.ID = i → (f x).ID = i) :
    (store.map (fun x => if x.ID = i then f x else x)).find? (fun d => d.ID == j)
      = (store.find? (fun d => d.ID == j)).map (fun x => if x.ID = i then f x else x) := by
  induction store with
  | nil => rfl
  | cons d ds ih =>
    have hid : (if d.ID = i then f d else d).ID = d.ID := by
      by_cases hd : d.ID = i
      · simp [hd, hf d hd]
      · simp [hd]
    by_cases hj : d.ID = j
    · have hb1 : (d.ID == j) = true := by simpa using hj
      have hb2 : ((if d.ID = i then f d else d).ID == j) = true := by rw [hid]; exact hb1
      simp only [List.map_cons, List.find?_cons, hb1, hb2]
      rfl
    · have hb : (d.ID == j) = false := by simpa using hj
      simp only [List.map_cons, List.find?_cons, hid, hb, ih]

theorem find_append_of_mem (l r : List Event) (j : ObjectID) (h : j ∈ l.map Event.ID) :
    (l ++ r).find? (fun d => d.ID == j) = l.find? (fun d => d.ID == j) := by
  induction l with
  | nil => simp at h
  | cons d ds ih =>
    by_cases hj : d.ID = j
    · simp only [List.cons_append, List.find?_cons, hj, beq_self_eq_true]
    · have hb : (d.ID == j) = false := by simpa using hj
      have hmem : j ∈ ds.map Event.ID := by
        simp only [List.map_cons, List.mem_cons] at h
        rcases h with h | h
        · exact absurd h.symm hj
        · exact h
      simp only [List.cons_append, List.find?_cons, hb, ih hmem]

theorem find_of_mem_nodup (store : List Event) (e : Event) (he : e ∈ store)
    (h : (store.map Event.ID).Nodup) : store.find? (fun d => d.ID == e.ID) = some e := by
  induction store with
  | nil => simp at he
  | cons d ds ih =>
    simp only [List.map_cons, List.nodup_cons] at h
    rcases List.mem_cons.mp he with rfl | he
    · simp only [List.find?_cons, beq_self_eq_true]
    · have hne : d.ID ≠ e.ID := fun heq => h.1 (heq ▸ List.mem_map_of_mem Event.ID he)
      have hb : (d.ID == e.ID) = false := by simpa using hne
      simp only [List.find?_cons, hb, ih he h.2]

/-- The insertions of a handler append documents that the handler published, and keep
the ids unique. -/
theorem publishAll_shape (published store : List Event) :
    ∃ added, publishAll store published = store ++ added ∧ (∀ p ∈ added, p ∈ published) ∧
      ((store.map Event.ID).Nodup → ((store ++ added).map Event.ID).Nodup) := by
  induction published generalizing store with
  | nil => exact ⟨[], by simp [publishAll], by simp, by simp⟩
  | cons p ps ih =>
    by_cases hp : store.any (fun d => d.ID == p.ID) = true
    · obtain ⟨added, h1, h2, h3⟩ := ih store
      refine ⟨added, ?_, fun q hq => List.mem_cons_of_mem _ (h2 q hq), h3⟩
      simp only [publishAll, List.foldl_cons, InsertOne, hp, if_true] at h1 ⊢
      exact h1
    · obtain ⟨added, h1, h2, h3⟩ := ih (store ++ [p])
      refine ⟨p :: added, ?_, ?_, ?_⟩
      · simp only [publishAll, List.foldl_cons, InsertOne, hp, if_false] at h1 ⊢
        simpa using h1
      · intro q hq
        rcases List.mem_cons.mp hq with rfl | hq
        · exact List.mem_cons_self _ _
        · exact List.mem_cons_of_mem _ (h2 q hq)
      · intro hnd
        have hfresh : p.ID ∉ store.map Event.ID := by
          intro hmem
          obtain ⟨d, hd, hdp⟩ := List.mem_map.mp hmem
          exact hp (List.any_eq_true.mpr ⟨d, hd, by simpa using hdp⟩)
        have : ((store ++ [p]).map Event.ID).Nodup := by
          rw [List.map_append, List.nodup_append]
          refine ⟨hnd, by simp, ?_⟩
          intro a ha hb
          simp only [List.map_cons, List.map_nil, List.mem_singleton] at hb
          exact hfresh (hb ▸ ha)
        simpa using h3 this

/-! ## Lemmas on `FindNextEvent` and `ProcessNextEvent` -/

/-- The two ways a call of `FindNextEvent` ends. -/
theorem FindNextEvent_cases (t : ClaimTimes) (store : List Event) :
    (FindNextEvent t store = (none, store) ∧
        ∀ x ∈ store, claimFilter (NewDateTimeFromTime t.filterNow) x = false) ∨
    ∃ event, FindNextEvent t store
        = (some event, UpdateOne (fun x => x.ID == event.ID) (claimUpdate t) store) ∧
      event ∈ store ∧ claimFilter (NewDateTimeFromTime t.filterNow) event = true ∧
      ∀ x ∈ store, claimFilter (NewDateTimeFromTime t.filterNow) x = true →
        x.Priority ≤ event.Priority := by
  cases h : firstByPriority (store.filter (claimFilter (NewDateTimeFromTime t.filterNow))) with
  | none =>
    left
    refine ⟨by simp only [FindNextEvent, FindOneAndUpdate, h], ?_⟩
    have hnil := firstByPriority_eq_none.mp h
    intro x hx
    by_contra hc
    have : x ∈ store.filter (claimFilter (NewDateTimeFromTime t.filterNow)) :=
      List.mem_filter.mpr ⟨hx, by simpa using hc⟩
    rw [hnil] at this
    simp at this
  | some d =>
    right
    obtain ⟨hmem, hmax⟩ := firstByPriority_spec h
    obtain ⟨hd, hf⟩ := List.mem_filter.mp hmem
    refine ⟨d, by simp only [FindNextEvent, FindOneAndUpdate, h], hd, hf, ?_⟩
    intro x hx hxf
    exact hmax x (List.mem_filter.mpr ⟨hx, hxf⟩)

/-- What a claim tells about the event it returns and about the collection. -/
theorem FindNextEvent_some {t : ClaimTimes} {store store1 : List Event} {event : Event}
    (h : FindNextEvent t store = (some event, store1)) :
    event ∈ store ∧ claimFilter (NewDateTimeFromTime t.filterNow) event = true ∧
      (∀ x ∈ store, claimFilter (NewDateTimeFromTime t.filterNow) x = true →
        x.Priority ≤ event.Priority) ∧
      store1 = UpdateOne (fun x => x.ID == event.ID) (claimUpdate t) store := by
  rcases FindNextEvent_cases t store with ⟨h0, _⟩ | ⟨e, h1, h2, h3, h4⟩
  · rw [h0] at h
    simp at h
  · rw [h1] at h
    simp only [Prod.mk.injEq, Option.some.injEq] at h
    obtain ⟨rfl, rfl⟩ := h
    exact ⟨h2, h3, h4, rfl⟩

theorem claimFilter_true {now : DateTime} {e : Event} (h : claimFilter now e = true) :
    e.Started = false ∧ e.Passed = false ∧ e.Failed = false ∧ e.Attempts < e.MaxAttemps ∧
      now > e.StartAfterDate := by
  simpa [claimFilter, and_assoc] using h

theorem wrapInt64_of_isInt64 {x : Int} (h : isInt64 x) : wrapInt64 x = x := by
  unfold isInt64 at h
  unfold wrapInt64
  omega

theorem isInt64_wrapInt64 (x : Int) : isInt64 (wrapInt64 x) := by
  unfold isInt64 wrapInt64
  omega

theorem settle_ID (event : Event) (err : Option Bytes) : (settle event err).ID = event.ID := by
  cases err with
  | none => rfl
  | some text =>
    simp only [settle]
    split <;> rfl

theorem settled_ID (event : Event) (err : Option Bytes) (env : SaveEnv) :
    (settled event err env).ID = event.ID := settle_ID event err

/-- Saving a changed copy of a claimed document: the document of that id is replaced. -/
theorem save_after_claim (t : ClaimTimes) (env : SaveEnv) (store added : List Event)
    (event doc : Event) (hstore : (store.map Event.ID).Nodup)
    (hall : ((UpdateOne (fun x => x.ID == event.ID) (claimUpdate t) store ++ added).map
      Event.ID).Nodup)
    (hmem : event ∈ store) (hnil : event.ID ≠ NilObjectID) (hdoc : doc.ID = event.ID) :
    SaveEvent env (UpdateOne (fun x => x.ID == event.ID) (claimUpdate t) store ++ added) doc
      = { event := { doc with UpdatedDate := NewDateTimeFromTime env.now },
          store := store.map (fun x => if x.ID = event.ID then
              { doc with UpdatedDate := NewDateTimeFromTime env.now } else x) ++ added,
          err := none } := by
  have hnil2 : ¬ doc.ID = NilObjectID := hdoc ▸ hnil
  have hids : (UpdateOne (fun x => x.ID == event.ID) (claimUpdate t) store).map Event.ID
      = store.map Event.ID := by
    rw [UpdateOne_eq_map _ _ _ hstore]
    exact map_ID_map_ite _ _ _ (fun _ h => h)
  have hfresh : event.ID ∉ added.map Event.ID := by
    intro hin
    rw [List.map_append, List.nodup_append] at hall
    exact hall.2.2 (hids ▸ List.mem_map_of_mem Event.ID hmem) hin
  simp only [SaveEvent, hnil2, if_false]
  congr 1
  rw [UpdateOne_eq_map _ _ _ hall, List.map_append, UpdateOne_eq_map _ _ _ hstore,
    List.map_map]
  congr 1
  · apply List.map_congr_left
    intro x _
    by_cases hx : x.ID = event.ID
    · simp [hx, hdoc, claimUpdate, Event.setFrom]
    · simp [hx, hdoc]
  · simpa [hdoc] using map_ite_eq_self_of_not_mem event.ID
      (Event.setFrom { doc with UpdatedDate := NewDateTimeFromTime env.now }) added hfresh

/-- An iteration that finds no event to claim. -/
theorem ProcessNextEvent_none (defs : String → Option TaskDefinition) (t : ClaimTimes)
    (env : SaveEnv) (store store1 : List Event) (h : FindNextEvent t store = (none, store1)) :
    ProcessNextEvent defs t env store
      = { store := store, completion := .returned (some GoError.ErrNoDocuments),
          handled := none } := by
  have hs : store1 = store := by
    rcases FindNextEvent_cases t store with ⟨h0, _⟩ | ⟨e, h1, _⟩
    · rw [h0] at h
      exact (Prod.mk.inj h).2.symm
    · rw [h1] at h
      simp at h
  subst hs
  simp only [ProcessNextEvent, h]

/-- An iteration on an event whose type has a handler. -/
theorem ProcessNextEvent_known (defs : String → Option TaskDefinition) (t : ClaimTimes)
    (env : SaveEnv) (store store1 : List Event) (event : Event) (task : TaskDefinition)
    (hok : StoreOK store) (hclaim : FindNextEvent t store = (some event, store1))
    (hdef : defs event.EventType = some task) :
    ∃ added, ProcessNextEvent defs t env store
        = { store := store.map (fun x => if x.ID = event.ID then
              settled event (task.TaskFunc event store1).err env else x) ++ added,
            completion := .returned none,
            handled := some (event, (task.TaskFunc event store1).err) } ∧
      (∀ p ∈ added, p ∈ (task.TaskFunc event store1).published) ∧
      ((store.map (fun x => if x.ID = event.ID then
          settled event (task.TaskFunc event store1).err env else x) ++ added).map
            Event.ID).Nodup := by
  obtain ⟨hmem, _, _, hs1⟩ := FindNextEvent_some hclaim
  obtain ⟨added, hpub, hsub, hnd⟩ := publishAll_shape (task.TaskFunc event store1).published store1
  have hids : store1.map Event.ID = store.map Event.ID := by
    rw [hs1, UpdateOne_eq_map _ _ _ hok.1]
    exact map_ID_map_ite _ _ _ (fun _ h => h)
  have hall : ((store1 ++ added).map Event.ID).Nodup := hnd (hids ▸ hok.1)
  have hsave := save_after_claim t env store added event
    (settle event (task.TaskFunc event store1).err) hok.1 (hs1 ▸ hall) hmem (hok.2 event hmem).1
    (settle_ID _ _)
  refine ⟨added, ?_, hsub, ?_⟩
  · simp only [ProcessNextEvent, hclaim, hdef, hpub]
    rw [hs1] at hsave ⊢
    rw [hsave]
    rfl
  · rw [List.map_append, map_ID_map_ite _ _ _ (fun _ _ => settled_ID _ _ _)]
    rw [List.map_append, hids] at hall
    exact hall

/-- An iteration on an event whose type has no handler: the event is stored as failed and
the call of the nil `TaskFunc` panics. -/
theorem ProcessNextEvent_unknown (defs : String → Option TaskDefinition) (t : ClaimTimes)
    (env : SaveEnv) (store store1 : List Event) (event : Event)
    (hok : StoreOK store) (hclaim : FindNextEvent t store = (some event, store1))
    (hdef : defs event.EventType = none) :
    ProcessNextEvent defs t env store
      = { store := store.map (fun x => if x.ID = event.ID then poisoned event env else x),
          completion := .panicked, handled := none } := by
  obtain ⟨hmem, _, _, hs1⟩ := FindNextEvent_some hclaim
  have hids : store1.map Event.ID = store.map Event.ID := by
    rw [hs1, UpdateOne_eq_map _ _ _ hok.1]
    exact map_ID_map_ite _ _ _ (fun _ h => h)
  have hall : ((store1 ++ []).map Event.ID).Nodup := by
    rw [List.append_nil, hids]
    exact hok.1
  have hsave := save_after_claim t env store [] event { event with Failed := true } hok.1
    (hs1 ▸ hall) hmem (hok.2 event hmem).1 rfl
  simp only [List.append_nil] at hsave
  simp only [ProcessNextEvent, hclaim, hdef]
  rw [hs1, hsave]
  rfl

/-- After an iteration that ran a handler, the document of the claimed event is the
settled event. -/
theorem stored_after_known (defs : String → Option TaskDefinition) (t : ClaimTimes)
    (env : SaveEnv) (store store1 : List Event) (event : Event) (task : TaskDefinition)
    (hok : StoreOK store) (hclaim : FindNextEvent t store = (some event, store1))
    (hdef : defs event.EventType = some task) :
    RefreshFromDb (ProcessNextEvent defs t env store).store event
      = some (settled event (task.TaskFunc event store1).err env) := by
  obtain ⟨added, hit, _, _⟩ := ProcessNextEvent_known defs t env store store1 event task hok
    hclaim hdef
  obtain ⟨hmem, _, _, _⟩ := FindNextEvent_some hclaim
  have hf : ∀ x : Event, x.ID = event.ID →
      ((fun _ => settled event (task.TaskFunc event store1).err env) x).ID = event.ID :=
    fun _ _ => settled_ID _ _ _
  rw [hit]
  simp only [RefreshFromDb]
  rw [find_append_of_mem, find_map_ite _ _ _ _ hf, find_of_mem_nodup store event hmem hok.1]
  · simp
  · rw [map_ID_map_ite _ _ _ hf]
    exact List.mem_map_of_mem Event.ID hmem

/-- The counter of a claimed event does not overflow. -/
theorem settle_Attempts (now : DateTime) (event : Event) (err : Option Bytes)
    (hf : claimFilter now event = true) (h1 : isInt64 event.Attempts)
    (h2 : isInt64 event.MaxAttemps) : (settle event err).Attempts = event.Attempts + 1 := by
  have hlt := (claimFilter_true hf).2.2.2.1
  have hw : wrapInt64 (event.Attempts + 1) = event.Attempts + 1 := by
    apply wrapInt64_of_isInt64
    unfold isInt64 at *
    omega
  cases err with
  | none => simp only [settle, hw]
  | some text =>
    simp only [settle, hw]
    split <;> rfl

/-- The settled event after a failed handler, field by field. -/
theorem settle_some (event : Event) (text : Bytes) :
    settle event (some text)
      = { event with
          Attempts := wrapInt64 (event.Attempts + 1),
          Errors := event.Errors ++ [if text.length > 250 then text.take 250 else text],
          Started := false,
          Failed := if wrapInt64 (event.Attempts + 1) ≥ event.MaxAttemps then true
            else event.Failed } := by
  by_cases h : wrapInt64 (event.Attempts + 1) ≥ event.MaxAttemps
  · simp only [settle, h, if_true]
  · simp only [settle, h, if_false]

/-! ## Invariants of the worker loop -/

theorem settle_fields (event : Event) (err : Option Bytes) :
    (settle event err).Attempts = wrapInt64 (event.Attempts + 1) ∧
      (settle event err).MaxAttemps = event.MaxAttemps ∧
      (settle event err).EventType = event.EventType ∧
      (settle event err).StartAfterDate = event.StartAfterDate := by
  cases err with
  | none => exact ⟨rfl, rfl, rfl, rfl⟩
  | some text =>
    rw [settle_some]
    exact ⟨rfl, rfl, rfl, rfl⟩

/-- A property of documents that the settlement of claimed events and the insertions of
the handlers preserve holds for all documents after an iteration. -/
theorem ProcessNextEvent_forall (Q : Event → Prop) (defs : String → Option TaskDefinition)
    (t : ClaimTimes) (env : SaveEnv) (store : List Event) (hok : StoreOK store)
    (hQ : ∀ e ∈ store, Q e)
    (hnew : ∀ (task : TaskDefinition) (ev : Event) (s : List Event) (p : Event),
      defs ev.EventType = some task → p ∈ (task.TaskFunc ev s).published → Q p)
    (hsettled : ∀ e ∈ store, ∀ err,
      claimFilter (NewDateTimeFromTime t.filterNow) e = true → Q (settled e err env))
    (hpoisoned : ∀ e ∈ store,
      claimFilter (NewDateTimeFromTime t.filterNow) e = true → Q (poisoned e env)) :
    ∀ e ∈ (ProcessNextEvent defs t env store).store, Q e := by
  rcases FindNextEvent_cases t store with ⟨h0, _⟩ | ⟨event, h1, hmem, hf, _⟩
  · rw [ProcessNextEvent_none defs t env store store h0]
    exact hQ
  · cases hdef : defs event.EventType with
    | none =>
      rw [ProcessNextEvent_unknown defs t env store _ event hok h1 hdef]
      intro e he
      obtain ⟨x, hx, rfl⟩ := List.mem_map.mp he
      by_cases hid : x.ID = event.ID
      · simp only [hid, if_true]
        exact hpoisoned event hmem hf
      · simp only [hid, if_false]
        exact hQ x hx
    | some task =>
      obtain ⟨added, hit, hsub, _⟩ := ProcessNextEvent_known defs t env store _ event task hok
        h1 hdef
      rw [hit]
      intro e he
      rcases List.mem_append.mp he with he | he
      · obtain ⟨x, hx, rfl⟩ := List.mem_map.mp he
        by_cases hid : x.ID = event.ID
        · simp only [hid, if_true]
          exact hsettled event hmem _ hf
        · simp only [hid, if_false]
          exact hQ x hx
      · exact hnew task event _ e hdef (hsub e he)

/-- An iteration keeps the collection well formed. -/
theorem ProcessNextEvent_StoreOK (defs : String → Option TaskDefinition) (t : ClaimTimes)
    (env : SaveEnv) (store : List Event) (hok : StoreOK store)
    (hpub : PublishesNewEvents defs) : StoreOK (ProcessNextEvent defs t env store).store := by
  constructor
  · rcases FindNextEvent_cases t store with ⟨h0, _⟩ | ⟨event, h1, hmem, hf, _⟩
    · rw [ProcessNextEvent_none defs t env store store h0]
      exact hok.1
    · cases hdef : defs event.EventType with
      | none =>
        rw [ProcessNextEvent_unknown defs t env store _ event hok h1 hdef]
        simp only
        rw [map_ID_map_ite event.ID (fun _ => poisoned event env) store (fun _ _ => rfl)]
        exact hok.1
      | some task =>
        obtain ⟨added, hit, _, hnd⟩ := ProcessNextEvent_known defs t env store _ event task
          hok h1 hdef
        rw [hit]
        exact hnd
  · apply ProcessNextEvent_forall _ defs t env store hok hok.2
    · intro task ev s p hdef hp
      obtain ⟨h1, _, _, _, h5, h6, h7⟩ := hpub _ task ev s p hdef hp
      refine ⟨h1, ?_, ?_⟩
      · rw [h5]
        unfold isInt64
        omega
      · unfold isInt64
        omega
    · intro e he err _
      obtain ⟨h1, _, h3⟩ := hok.2 e he
      refine ⟨by rw [settled_ID]; exact h1, ?_, ?_⟩
      · show isInt64 (settle e err).Attempts
        rw [(settle_fields e err).1]
        exact isInt64_wrapInt64 _
      · show isInt64 (settle e err).MaxAttemps
        rw [(settle_fields e err).2.1]
        exact h3
    · intro e he _
      exact hok.2 e he

/-- Every iteration of a run starts from a well-formed collection in which an invariant
of the documents holds. -/
theorem WorkerClient_reachable (Q : Event → Prop) (inputs : List StepInput)
    (store : List Event) (hok : StoreOK store) (hQ : ∀ e ∈ store, Q e)
    (hpub : ∀ i ∈ inputs, PublishesNewEvents i.defs)
    (hnew : ∀ p, NewEvent p → Q p)
    (hsettled : ∀ (e : Event) (err : Option Bytes) (env : SaveEnv) (now : DateTime),
      isInt64 e.Attempts → isInt64 e.MaxAttemps → claimFilter now e = true → Q e →
        Q (settled e err env))
    (hpoisoned : ∀ (e : Event) (env : SaveEnv) (now : DateTime),
      claimFilter now e = true → Q e → Q (poisoned e env)) :
    ∀ it ∈ WorkerClient inputs store, ∃ i ∈ inputs, ∃ s, StoreOK s ∧ (∀ e ∈ s, Q e) ∧
      it = ProcessNextEvent i.defs i.times i.env s := by
  induction inputs generalizing store with
  | nil => simp [WorkerClient]
  | cons i rest ih =>
    intro it hit
    simp only [WorkerClient, List.mem_cons] at hit
    rcases hit with rfl | hit
    · exact ⟨i, List.mem_cons_self _ _, store, hok, hQ, rfl⟩
    · have hpi := hpub i (List.mem_cons_self _ _)
      have hok1 := ProcessNextEvent_StoreOK i.defs i.times i.env store hok hpi
      have hQ1 : ∀ e ∈ (ProcessNextEvent i.defs i.times i.env store).store, Q e := by
        apply ProcessNextEvent_forall Q i.defs i.times i.env store hok hQ
        · intro task ev s p hdef hp
          exact hnew p (hpi _ task ev s p hdef hp)
        · intro e he err hf
          exact hsettled e err i.env _ (hok.2 e he).2.1 (hok.2 e he).2.2 hf (hQ e he)
        · intro e he hf
          exact hpoisoned e i.env _ hf (hQ e he)
      cases hc : (ProcessNextEvent i.defs i.times i.env store).completion with
      | panicked =>
        rw [hc] at hit
        simp at hit
      | returned err =>
        rw [hc] at hit
        obtain ⟨j, hj, s, h1, h2, h3⟩ := ih _ hok1 hQ1
          (fun k hk => hpub k (List.mem_cons_of_mem _ hk)) it hit
        exact ⟨j, List.mem_cons_of_mem _ hj, s, h1, h2, h3⟩

/-- In a run, an invariant of the documents holds after every iteration. -/
theorem WorkerClient_invariant (Q : Event → Prop) (inputs : List StepInput)
    (store : List Event) (hok : StoreOK store) (hQ : ∀ e ∈ store, Q e)
    (hpub : ∀ i ∈ inputs, PublishesNewEvents i.defs)
    (hnew : ∀ p, NewEvent p → Q p)
    (hsettled : ∀ (e : Event) (err : Option Bytes) (env : SaveEnv) (now : DateTime),
      isInt64 e.Attempts → isInt64 e.MaxAttemps → claimFilter now e = true → Q e →
        Q (settled e err env))
    (hpoisoned : ∀ (e : Event) (env : SaveEnv) (now : DateTime),
      claimFilter now e = true → Q e → Q (poisoned e env)) :
    ∀ it ∈ WorkerClient inputs store, StoreOK it.store ∧ ∀ e ∈ it.store, Q e := by
  intro it hit
  obtain ⟨i, hi, s, hs, hQs, rfl⟩ := WorkerClient_reachable Q inputs store hok hQ hpub hnew
    hsettled hpoisoned it hit
  have hpi := hpub i hi
  refine ⟨ProcessNextEvent_StoreOK i.defs i.times i.env s hs hpi, ?_⟩
  apply ProcessNextEvent_forall Q i.defs i.times i.env s hs hQs
  · intro task ev s1 p hdef hp
    exact hnew p (hpi _ task ev s1 p hdef hp)
  · intro e he err hf
    exact hsettled e err i.env _ (hs.2 e he).2.1 (hs.2 e he).2.2 hf (hQs e he)
  · intro e he hf
    exact hpoisoned e i.env _ hf (hQs e he)

/-- The iteration that called a handler claimed the event it passed to the handler. -/
theorem handled_some {defs : String → Option TaskDefinition} {t : ClaimTimes} {env : SaveEnv}
    {store : List Event} {event : Event} {r : Option Bytes}
    (h : (ProcessNextEvent defs t env store).handled = some (event, r)) :
    ∃ store1 task, FindNextEvent t store = (some event, store1) ∧
      defs event.EventType = some task ∧ (task.TaskFunc event store1).err = r := by
  unfold ProcessNextEvent at h
  split at h
  · simp at h
  · rename_i ev store1 hclaim
    split at h
    · rename_i hdef
      simp only at h
      split at h <;> simp at h
    · rename_i task hdef
      simp only [Option.some.injEq, Prod.mk.injEq] at h
      obtain ⟨rfl, rfl⟩ := h
      exact ⟨store1, task, hclaim, hdef, rfl⟩

/-- The table of the examples publishes nothing. -/
theorem exampleDefinitions_publish : PublishesNewEvents exampleDefinitions := by
  intro eventType task event store p hdef hp
  simp only [exampleDefinitions, TaskDefinitions] at hdef
  split_ifs at hdef <;> simp only [Option.some.injEq] at hdef <;> subst hdef <;>
    simp [idleTask, FailableTask] at hp
  split_ifs at hp <;> simp at hp

theorem flagsSet_settled (now : DateTime) (e : Event) (err : Option Bytes) (env : SaveEnv)
    (hf : claimFilter now e = true) : flagsSet (settled e err env) ≤ 1 := by
  obtain ⟨h1, h2, h3, _, _⟩ := claimFilter_true hf
  cases err with
  | none => simp [flagsSet, settled, settle, h1, h3]
  | some text =>
    simp only [flagsSet, settled, settle_some, h2, h3]
    split <;> simp

theorem flagsSet_poisoned (now : DateTime) (e : Event) (env : SaveEnv)
    (hf : claimFilter now e = true) : flagsSet (poisoned e env) ≤ 1 := by
  obtain ⟨h1, h2, _, _, _⟩ := claimFilter_true hf
  simp [flagsSet, poisoned, h1, h2]

/-- A claim sets `Started` on a document that had no flag set. -/
theorem claim_flags (t : ClaimTimes) (store store1 : List Event) (r : Option Event)
    (hids : (store.map Event.ID).Nodup) (hflags : ∀ e ∈ store, flagsSet e ≤ 1)
    (hclaim : FindNextEvent t store = (r, store1)) : ∀ e ∈ store1, flagsSet e ≤ 1 := by
  rcases FindNextEvent_cases t store with ⟨h0, _⟩ | ⟨event, h1, hmem, hf, _⟩
  · rw [h0] at hclaim
    rw [← (Prod.mk.inj hclaim).2]
    exact hflags
  · rw [h1] at hclaim
    rw [← (Prod.mk.inj hclaim).2, UpdateOne_eq_map _ _ _ hids]
    intro e he
    obtain ⟨x, hx, rfl⟩ := List.mem_map.mp he
    by_cases hid : x.ID = event.ID
    · have hxe : x = event := List.inj_on_of_nodup_map hids hx hmem hid
      obtain ⟨_, h2, h3, _, _⟩ := claimFilter_true hf
      simp [hid, hxe, flagsSet, claimUpdate, h2, h3]
    · simp only [hid, if_false]
      exact hflags x hx

/-! ## The life of one event in a run -/

theorem finalStore_cons (store : List Event) (it : Iteration) (rest : List Iteration) :
    finalStore store (it :: rest) = finalStore it.store rest := by
  cases rest with
  | nil => rfl
  | cons r rs =>
    simp only [finalStore, List.getLast?_cons_cons]
    cases h : (r :: rs).getLast? with
    | some x => rfl
    | none => simp at h

theorem RefreshFromDb_congr (store : List Event) {a b : Event} (h : a.ID = b.ID) :
    RefreshFromDb store a = RefreshFromDb store b := by
  simp only [RefreshFromDb, h]

theorem mem_of_RefreshFromDb {store : List Event} {a b : Event}
    (h : RefreshFromDb store a = some b) : b ∈ store ∧ b.ID = a.ID := by
  simp only [RefreshFromDb] at h
  exact ⟨List.mem_of_find?_eq_some h, by simpa using List.find?_some h⟩

/-- What one iteration does to a given document whose type has a handler: nothing, or
it claims the document, runs the handler on it and stores the settled event. -/
theorem step_tracked (defs : String → Option TaskDefinition) (t : ClaimTimes) (env : SaveEnv)
    (store : List Event) (d : Event) (hok : StoreOK store) (hd : d ∈ store)
    (hdef : (defs d.EventType).isSome = true) :
    ((∀ ev r, (ProcessNextEvent defs t env store).handled = some (ev, r) → ev.ID ≠ d.ID) ∧
        RefreshFromDb (ProcessNextEvent defs t env store).store d = some d) ∨
    (∃ r, (ProcessNextEvent defs t env store).handled = some (d, r) ∧
        claimFilter (NewDateTimeFromTime t.filterNow) d = true ∧
        RefreshFromDb (ProcessNextEvent defs t env store).store d = some (settled d r env)) := by
  rcases FindNextEvent_cases t store with ⟨h0, _⟩ | ⟨event, h1, hmem, hf, _⟩
  · left
    rw [ProcessNextEvent_none defs t env store store h0]
    exact ⟨fun ev r h => by simp at h, find_of_mem_nodup store d hd hok.1⟩
  · by_cases hid : event.ID = d.ID
    · have hed : event = d := List.inj_on_of_nodup_map hok.1 hmem hd hid
      subst hed
      obtain ⟨task, htask⟩ := Option.isSome_iff_exists.mp hdef
      right
      obtain ⟨added, hit, _, _⟩ := ProcessNextEvent_known defs t env store _ event task hok
        h1 htask
      refine ⟨_, ?_, hf, stored_after_known defs t env store _ event task hok h1 htask⟩
      rw [hit]
    · left
      have hne : ¬ d.ID = event.ID := fun h => hid h.symm
      cases hdef2 : defs event.EventType with
      | none =>
        rw [ProcessNextEvent_unknown defs t env store _ event hok h1 hdef2]
        refine ⟨fun ev r h => by simp at h, ?_⟩
        simp only [RefreshFromDb]
        rw [find_map_ite event.ID (fun _ => poisoned event env) store d.ID (fun _ _ => rfl),
          find_of_mem_nodup store d hd hok.1]
        simp [hne]
      | some task =>
        obtain ⟨added, hit, _, _⟩ := ProcessNextEvent_known defs t env store _ event task hok
          h1 hdef2
        have hfid : ∀ x : Event, x.ID = event.ID →
            ((fun _ => settled event (task.TaskFunc event
              (UpdateOne (fun x => x.ID == event.ID) (claimUpdate t) store)).err env) x).ID
              = event.ID := fun _ _ => settled_ID _ _ _
        rw [hit]
        refine ⟨?_, ?_⟩
        · intro ev r h
          simp only [Option.some.injEq, Prod.mk.injEq] at h
          rw [← h.1]
          exact hid
        · simp only [RefreshFromDb]
          rw [find_append_of_mem, find_map_ite _ _ _ _ hfid, find_of_mem_nodup store d hd hok.1]
          · simp [hne]
          · rw [map_ID_map_ite _ _ _ hfid]
            exact List.mem_map_of_mem Event.ID hd

theorem timesHandled_cons (id : ObjectID) (it : Iteration) (rest : List Iteration) :
    timesHandled id (it :: rest)
      = (if (match it.handled with
            | some (event, _) => event.ID == id
            | none => false) = true then 1 else 0) + timesHandled id rest := by
  simp only [timesHandled, List.filter_cons]
  split <;> simp [Nat.add_comm]

theorem WorkerClient_cons (i : StepInput) (rest : List StepInput) (store : List Event) :
    WorkerClient (i :: rest) store
      = ProcessNextEvent i.defs i.times i.env store ::
        (match (ProcessNextEvent i.defs i.times i.env store).completion with
          | .panicked => []
          | .returned _ => WorkerClient rest (ProcessNextEvent i.defs i.times i.env store).store) :=
  rfl

/-- The settled event after a failed attempt on a waiting event. -/
theorem Released_settled (n c : Nat) (now : DateTime) (d : Event) (text : Bytes)
    (env : SaveEnv) (hr : Released n c d) (hf : claimFilter now d = true)
    (h1 : isInt64 d.Attempts) (h2 : isInt64 d.MaxAttemps) :
    Released n (c + 1) (settled d (some text) env) := by
  obtain ⟨_, hmax, hatt, _, hpassed, _⟩ := hr
  obtain ⟨_, _, hfailed, hlt, _⟩ := claimFilter_true hf
  have hw : wrapInt64 (d.Attempts + 1) = d.Attempts + 1 := by
    rw [← (settle_fields d (some text)).1]
    exact settle_Attempts now d (some text) hf h1 h2
  have hcn : c + 1 ≤ n := by
    rw [hmax, hatt] at hlt
    omega
  refine ⟨hcn, ?_, ?_, ?_, ?_, ?_⟩
  · show (settle d (some text)).MaxAttemps = (n : Int)
    rw [(settle_fields d (some text)).2.1]
    exact hmax
  · show (settle d (some text)).Attempts = ((c + 1 : Nat) : Int)
    rw [(settle_fields d (some text)).1, hw, hatt]
    simp
  · show (settle d (some text)).Started = false
    rw [settle_some]
  · show (settle d (some text)).Passed = false
    rw [settle_some]
    exact hpassed
  · show (settle d (some text)).Failed = true ↔ c + 1 = n
    rw [settle_some]
    simp only [hw, hfailed]
    by_cases hc : c + 1 = n
    · have : d.Attempts + 1 ≥ d.MaxAttemps := by omega
      simp [this, hc]
    · have : ¬ (d.Attempts + 1 ≥ d.MaxAttemps) := by omega
      simp only [this, if_false, hc]
      simp

/-- The life of a waiting event in a run in which its handler fails whenever it is
called: after the run it waits again, with one more attempt for every call. -/
theorem lifecycle (n : Nat) (inputs : List StepInput) (store : List Event) (d : Event)
    (c : Nat) (hok : StoreOK store) (hd : d ∈ store) (hr : Released n c d)
    (hpub : ∀ i ∈ inputs, PublishesNewEvents i.defs)
    (hhandler : ∀ i ∈ inputs, (i.defs d.EventType).isSome = true)
    (hfails : ∀ it ∈ WorkerClient inputs store, ∀ ev, it.handled = some (ev, none) →
      ev.ID ≠ d.ID) :
    ∃ doc, RefreshFromDb (finalStore store (WorkerClient inputs store)) d = some doc ∧
      doc.StartAfterDate = d.StartAfterDate ∧
      Released n (c + timesHandled d.ID (WorkerClient inputs store)) doc := by
  induction inputs generalizing store d c with
  | nil =>
    refine ⟨d, find_of_mem_nodup store d hd hok.1, rfl, ?_⟩
    simpa [WorkerClient, timesHandled] using hr
  | cons i rest ih =>
    have hpi := hpub i (List.mem_cons_self _ _)
    have hok1 := ProcessNextEvent_StoreOK i.defs i.times i.env store hok hpi
    rw [WorkerClient_cons] at hfails ⊢
    rw [finalStore_cons, timesHandled_cons]
    -- the rest of the run, from a document `d1` of the same id that waits
    have key : ∀ (d1 : Event) (c1 : Nat), d1 ∈ (ProcessNextEvent i.defs i.times i.env store).store →
        d1.ID = d.ID → d1.EventType = d.EventType → d1.StartAfterDate = d.StartAfterDate →
        Released n c1 d1 →
        ∃ doc, RefreshFromDb (finalStore (ProcessNextEvent i.defs i.times i.env store).store
            (match (ProcessNextEvent i.defs i.times i.env store).completion with
              | .panicked => []
              | .returned _ =>
                WorkerClient rest (ProcessNextEvent i.defs i.times i.env store).store)) d
            = some doc ∧
          doc.StartAfterDate = d.StartAfterDate ∧
          Released n (c1 + timesHandled d.ID
            (match (ProcessNextEvent i.defs i.times i.env store).completion with
              | .panicked => []
              | .returned _ =>
                WorkerClient rest (ProcessNextEvent i.defs i.times i.env store).store)) doc := by
      intro d1 c1 hd1 hid1 hty1 hsa1 hr1
      cases hc : (ProcessNextEvent i.defs i.times i.env store).completion with
      | panicked =>
        refine ⟨d1, ?_, hsa1, by simpa [timesHandled] using hr1⟩
        rw [RefreshFromDb_congr _ hid1.symm]
        exact find_of_mem_nodup _ d1 hd1 hok1.1
      | returned err =>
        rw [hc] at hfails
        obtain ⟨doc, h1, h2, h3⟩ := ih (ProcessNextEvent i.defs i.times i.env store).store d1 c1
          hok1 hd1 hr1 (fun k hk => hpub k (List.mem_cons_of_mem _ hk))
          (fun k hk => hty1 ▸ hhandler k (List.mem_cons_of_mem _ hk))
          (fun it hit ev hev => hid1 ▸ hfails it (List.mem_cons_of_mem _ hit) ev hev)
        refine ⟨doc, ?_, h2.trans hsa1, hid1 ▸ h3⟩
        rw [RefreshFromDb_congr _ hid1.symm]
        exact h1
    rcases step_tracked i.defs i.times i.env store d hok hd
        (hhandler i (List.mem_cons_self _ _)) with ⟨hnot, hsame⟩ | ⟨r, hh, hf, hstored⟩
    · have h0 : (match (ProcessNextEvent i.defs i.times i.env store).handled with
          | some (event, _) => event.ID == d.ID
          | none => false) = false := by
        cases hh : (ProcessNextEvent i.defs i.times i.env store).handled with
        | none => rfl
        | some p =>
          obtain ⟨ev, r⟩ := p
          simpa using hnot ev r hh
      obtain ⟨doc, h1, h2, h3⟩ := key d c (mem_of_RefreshFromDb hsame).1 rfl rfl rfl hr
      refine ⟨doc, h1, h2, ?_⟩
      simpa [h0] using h3
    · have h1 : (match (ProcessNextEvent i.defs i.times i.env store).handled with
          | some (event, _) => event.ID == d.ID
          | none => false) = true := by
        rw [hh]
        simp
      cases r with
      | none => exact absurd rfl (hfails _ (List.mem_cons_self _ _) d hh)
      | some text =>
        obtain ⟨hmem1, hid1⟩ := mem_of_RefreshFromDb hstored
        obtain ⟨doc, k1, k2, k3⟩ := key (settled d (some text) i.env) (c + 1) hmem1 hid1
          (settle_fields d (some text)).2.2.1 (settle_fields d (some text)).2.2.2
          (Released_settled n c _ d text i.env hr hf (hok.2 d hd).2.1 (hok.2 d hd).2.2)
        refine ⟨doc, k1, k2, ?_⟩
        simpa [h1, Nat.add_assoc] using k3

/-- The settled event has the priority of the event. -/
theorem settled_Priority (event : Event) (err : Option Bytes) (env : SaveEnv) :
    (settled event err env).Priority = event.Priority := by
  cases err with
  | none => rfl
  | some text =>
    show (settle event (some text)).Priority = event.Priority
    rw [settle_some]

/-- The handlers of the table of the examples insert nothing. -/
theorem exampleDefinitions_publish_nothing (task : TaskDefinition) (ev : Event)
    (s : List Event) (h : exampleDefinitions ev.EventType = some task) :
    (task.TaskFunc ev s).published = [] := by
  simp only [exampleDefinitions, TaskDefinitions] at h
  split_ifs at h <;> simp only [Option.some.injEq] at h <;> subst h <;>
    simp only [idleTask, FailableTask]
  split_ifs <;> rfl

/-- The number of calls of the handler of a waiting event that has the greatest priority
of the collection, in a run whose iterations claim after its start time, whose handlers
publish events of smaller priority only and in which its handler fails whenever it is
called: every iteration calls the handler until the attempts are used up. -/
theorem lifecycle_count (n : Nat) (inputs : List StepInput) (store : List Event) (d : Event)
    (c : Nat) (hok : StoreOK store) (hd : d ∈ store) (hr : Released n c d)
    (hpub : ∀ i ∈ inputs, PublishesNewEvents i.defs)
    (hhandler : ∀ i ∈ inputs, (i.defs d.EventType).isSome = true)
    (hfails : ∀ it ∈ WorkerClient inputs store, ∀ ev, it.handled = some (ev, none) →
      ev.ID ≠ d.ID)
    (htop : ∀ x ∈ store, x.ID ≠ d.ID → x.Priority < d.Priority)
    (hlow : ∀ i ∈ inputs, ∀ (task : TaskDefinition) (ev : Event) (s : List Event) (p : Event),
      i.defs ev.EventType = some task → p ∈ (task.TaskFunc ev s).published →
        p.Priority < d.Priority)
    (hstart : ∀ i ∈ inputs, NewDateTimeFromTime i.times.filterNow > d.StartAfterDate) :
    timesHandled d.ID (WorkerClient inputs store) = min (n - c) inputs.length := by
  induction inputs generalizing store d c with
  | nil => simp [WorkerClient, timesHandled]
  | cons i rest ih =>
    by_cases hc : c = n
    · obtain ⟨doc, _, _, hle, _⟩ := lifecycle n (i :: rest) store d c hok hd hr hpub hhandler
        hfails
      have h0 : n - c = 0 := by omega
      rw [h0, Nat.zero_min]
      omega
    · obtain ⟨hcn, hmax, hatt, hstarted, hpassed, hfl⟩ := hr
      have hr : Released n c d := ⟨hcn, hmax, hatt, hstarted, hpassed, hfl⟩
      have hfailed : d.Failed = false := by
        cases hF : d.Failed with
        | false => rfl
        | true => exact absurd (hfl.mp hF) hc
      have hf : claimFilter (NewDateTimeFromTime i.times.filterNow) d = true := by
        have h1 : d.Attempts < d.MaxAttemps := by
          rw [hatt, hmax]
          have : c < n := Nat.lt_of_le_of_ne hcn hc
          exact_mod_cast this
        have h2 := hstart i (List.mem_cons_self _ _)
        simp [claimFilter, hstarted, hpassed, hfailed, h1, h2]
      rcases FindNextEvent_cases i.times store with ⟨_, hall⟩ | ⟨event, h1, hmem, _, hgreatest⟩
      · rw [hall d hd] at hf
        cases hf
      · have hid : event.ID = d.ID := by
          by_contra hne
          have hlt := htop event hmem hne
          have hle := hgreatest d hd hf
          omega
        have hed : event = d := List.inj_on_of_nodup_map hok.1 hmem hd hid
        subst hed
        obtain ⟨task, htask⟩ := Option.isSome_iff_exists.mp (hhandler i (List.mem_cons_self _ _))
        obtain ⟨added, hit, hadded, _⟩ := ProcessNextEvent_known i.defs i.times i.env store _
          event task hok h1 htask
        have hstored := stored_after_known i.defs i.times i.env store _ event task hok h1 htask
        have hok1 := ProcessNextEvent_StoreOK i.defs i.times i.env store hok
          (hpub i (List.mem_cons_self _ _))
        cases herr : (task.TaskFunc event
            (UpdateOne (fun x => x.ID == event.ID) (claimUpdate i.times) store)).err with
        | none =>
          rw [herr] at hit
          have hin : ProcessNextEvent i.defs i.times i.env store
              ∈ WorkerClient (i :: rest) store := by
            rw [WorkerClient_cons]
            exact List.mem_cons_self _ _
          exact absurd rfl (hfails _ hin event (by rw [hit]))
        | some text =>
          rw [herr] at hit hstored
          obtain ⟨hmem1, hid1⟩ := mem_of_RefreshFromDb hstored
          have hprio : (settled event (some text) i.env).Priority = event.Priority :=
            settled_Priority event (some text) i.env
          have hrel := Released_settled n c _ event text i.env hr hf (hok.2 event hd).2.1
            (hok.2 event hd).2.2
          have hcompl : (ProcessNextEvent i.defs i.times i.env store).completion
              = .returned none := by rw [hit]
          have hhand : (ProcessNextEvent i.defs i.times i.env store).handled
              = some (event, some text) := by rw [hit]
          have hrun : WorkerClient (i :: rest) store
              = ProcessNextEvent i.defs i.times i.env store ::
                WorkerClient rest (ProcessNextEvent i.defs i.times i.env store).store := by
            rw [WorkerClient_cons, hcompl]
          have hrest := ih (ProcessNextEvent i.defs i.times i.env store).store
            (settled event (some text) i.env) (c + 1) hok1 hmem1 hrel
            (fun k hk => hpub k (List.mem_cons_of_mem _ hk))
            (fun k hk => by
              rw [show (settled event (some text) i.env).EventType = event.EventType from
                (settle_fields event (some text)).2.2.1]
              exact hhandler k (List.mem_cons_of_mem _ hk))
            (fun it hin ev hev => by
              rw [hid1]
              exact hfails it (by rw [hrun]; exact List.mem_cons_of_mem _ hin) ev hev)
            (by
              intro x hx hne
              rw [hprio]
              rw [hid1] at hne
              rw [hit] at hx
              rcases List.mem_append.mp hx with hx | hx
              · obtain ⟨y, hy, hxy⟩ := List.mem_map.mp hx
                by_cases hyid : y.ID = event.ID
                · rw [if_pos hyid] at hxy
                  rw [← hxy, settled_ID] at hne
                  exact absurd rfl hne
                · rw [if_neg hyid] at hxy
                  rw [← hxy]
                  exact htop y hy hyid
              · exact hlow i (List.mem_cons_self _ _) task event _ x htask (hadded x hx))
            (fun k hk task1 ev s p h1 h2 => by
              rw [hprio]
              exact hlow k (List.mem_cons_of_mem _ hk) task1 ev s p h1 h2)
            (fun k hk => by
              rw [show (settled event (some text) i.env).StartAfterDate = event.StartAfterDate
                from (settle_fields event (some text)).2.2.2]
              exact hstart k (List.mem_cons_of_mem _ hk))
          rw [hid1] at hrest
          rw [hrun, timesHandled_cons, hhand, hrest]
          simp only [beq_self_eq_true, if_true, List.length_cons]
          omega

/-! ## The claims -/

/-- C1: when the handler of a claimed event returns an error, `ProcessNextEvent` stores
the event with `Attempts` one higher, one string appended to `Errors` (the error text cut
to its first 250 bytes when it is longer), `Started = false`, `Passed = false`, `Data`
unchanged, and `Failed = true` exactly when the new `Attempts` reaches `MaxAttemps`. For a
new event (no attempt, no error yet) with `MaxAttemps = 1` the stored event has
`Attempts = 1`, `Started = false`, `Failed = true` and the message as its only error. -/
theorem failing_handler_settlement (defs : String → Option TaskDefinition) (t : ClaimTimes)
    (env : SaveEnv) (store store1 : List Event) (event : Event) (task : TaskDefinition)
    (text : Bytes) (hok : StoreOK store)
    (hclaim : FindNextEvent t store = (some event, store1))
    (hdef : defs event.EventType = some task)
    (herr : (task.TaskFunc event store1).err = some text) :
    ∃ saved, RefreshFromDb (ProcessNextEvent defs t env store).store event = some saved ∧
      saved.Attempts = event.Attempts + 1 ∧
      saved.Errors = event.Errors ++ [if text.length > 250 then text.take 250 else text] ∧
      saved.Started = false ∧ saved.Passed = false ∧ saved.Data = event.Data ∧
      saved.MaxAttemps = event.MaxAttemps ∧
      (saved.Failed = true ↔ saved.Attempts ≥ saved.MaxAttemps) ∧
      (event.MaxAttemps = 1 → event.Attempts = 0 → event.Errors = [] →
        saved.Attempts = 1 ∧ saved.Started = false ∧ saved.Failed = true ∧
          saved.Errors = [if text.length > 250 then text.take 250 else text]) := by
  obtain ⟨hmem, hf, _, _⟩ := FindNextEvent_some hclaim
  obtain ⟨_, hpassed, hfailed, hlt, _⟩ := claimFilter_true hf
  have hatt := settle_Attempts _ event (some text) hf (hok.2 event hmem).2.1
    (hok.2 event hmem).2.2
  have hw : wrapInt64 (event.Attempts + 1) = event.Attempts + 1 := by
    rw [settle_some] at hatt
    exact hatt
  refine ⟨settled event (some text) env, ?_, ?_⟩
  · rw [stored_after_known defs t env store store1 event task hok hclaim hdef, herr]
  · simp only [settled, settle_some, hw, hpassed, hfailed]
    refine ⟨trivial, trivial, trivial, trivial, trivial, trivial, ?_, ?_⟩
    · by_cases hge : event.Attempts + 1 ≥ event.MaxAttemps
      · simp [hge]
      · simp [hge]
    · intro h1 h0 he
      simp [h1, h0, he]

/-- C1 at the event of `TestProcessNextEventWithFailingEvent`. -/
theorem failing_handler_settlement_witness :
    ∃ saved, RefreshFromDb
        (ProcessNextEvent exampleDefinitions exampleTimes exampleEnv [failingEvent]).store
        failingEvent = some saved ∧
      saved.Attempts = failingEvent.Attempts + 1 ∧
      saved.Errors = failingEvent.Errors ++
        [if (stringBytes "failed task!").length > 250
          then (stringBytes "failed task!").take 250 else stringBytes "failed task!"] ∧
      saved.Started = false ∧ saved.Passed = false ∧ saved.Data = failingEvent.Data ∧
      saved.MaxAttemps = failingEvent.MaxAttemps ∧
      (saved.Failed = true ↔ saved.Attempts ≥ saved.MaxAttemps) ∧
      (failingEvent.MaxAttemps = 1 → failingEvent.Attempts = 0 → failingEvent.Errors = [] →
        saved.Attempts = 1 ∧ saved.Started = false ∧ saved.Failed = true ∧
          saved.Errors = [if (stringBytes "failed task!").length > 250
            then (stringBytes "failed task!").take 250 else stringBytes "failed task!"]) :=
  failing_handler_settlement exampleDefinitions exampleTimes exampleEnv [failingEvent]
    [claimUpdate exampleTimes failingEvent] failingEvent
    { TaskFunc := FailableTask, MaxDuration := 5 * 1000000000 }
    (stringBytes "failed task!") (by decide) (by decide) rfl (by decide)

/-- C2: when the handler of a claimed event returns no error, `ProcessNextEvent` stores
the event with `Attempts` one higher, `Passed = true`, `Failed = false`, `Errors` and
`Data` unchanged, and returns `nil`. -/
theorem passing_handler_settlement (defs : String → Option TaskDefinition) (t : ClaimTimes)
    (env : SaveEnv) (store store1 : List Event) (event : Event) (task : TaskDefinition)
    (hok : StoreOK store) (hclaim : FindNextEvent t store = (some event, store1))
    (hdef : defs event.EventType = some task)
    (herr : (task.TaskFunc event store1).err = none) :
    (∃ saved, RefreshFromDb (ProcessNextEvent defs t env store).store event = some saved ∧
      saved.Attempts = event.Attempts + 1 ∧ saved.Passed = true ∧ saved.Failed = false ∧
      saved.Errors = event.Errors ∧ saved.Data = event.Data) ∧
    (ProcessNextEvent defs t env store).completion = .returned none := by
  obtain ⟨hmem, hf, _, _⟩ := FindNextEvent_some hclaim
  obtain ⟨_, _, hfailed, _, _⟩ := claimFilter_true hf
  have hatt := settle_Attempts _ event none hf (hok.2 event hmem).2.1 (hok.2 event hmem).2.2
  constructor
  · refine ⟨settled event none env, ?_, hatt, rfl, hfailed, rfl, rfl⟩
    rw [stored_after_known defs t env store store1 event task hok hclaim hdef, herr]
  · obtain ⟨added, hit, _, _⟩ := ProcessNextEvent_known defs t env store store1 event task hok
      hclaim hdef
    rw [hit]

/-- C2 at the event of `TestProcessNextEventWithPassingEvent`. -/
theorem passing_handler_settlement_witness :
    (∃ saved, RefreshFromDb
        (ProcessNextEvent exampleDefinitions exampleTimes exampleEnv [passingEvent]).store
        passingEvent = some saved ∧
      saved.Attempts = passingEvent.Attempts + 1 ∧ saved.Passed = true ∧
      saved.Failed = false ∧ saved.Errors = passingEvent.Errors ∧
      saved.Data = passingEvent.Data) ∧
    (ProcessNextEvent exampleDefinitions exampleTimes exampleEnv [passingEvent]).completion
      = .returned none :=
  passing_handler_settlement exampleDefinitions exampleTimes exampleEnv [passingEvent]
    [claimUpdate exampleTimes passingEvent] passingEvent
    { TaskFunc := FailableTask, MaxDuration := 5 * 1000000000 }
    (by decide) (by decide) rfl (by decide)

/-- C3: the event that `FindNextEvent` claims is a document of the collection that
satisfied the whole selector at the call (`Started`, `Passed`, `Failed` all false,
`Attempts < MaxAttemps`, `now > StartAfterDate`), no document satisfying the selector has
a higher priority, and the claim changes that document only. -/
theorem claim_satisfies_selector (t : ClaimTimes) (store store1 : List Event) (event : Event)
    (hids : (store.map Event.ID).Nodup)
    (hclaim : FindNextEvent t store = (some event, store1)) :
    event ∈ store ∧
      event.Started = false ∧ event.Passed = false ∧ event.Failed = false ∧
      event.Attempts < event.MaxAttemps ∧
      NewDateTimeFromTime t.filterNow > event.StartAfterDate ∧
      (∀ x ∈ store, x.Started = false → x.Passed = false → x.Failed = false →
        x.Attempts < x.MaxAttemps → NewDateTimeFromTime t.filterNow > x.StartAfterDate →
        x.Priority ≤ event.Priority) ∧
      store1 = store.map (fun x => if x.ID = event.ID then claimUpdate t x else x) := by
  obtain ⟨hmem, hf, hmax, hs1⟩ := FindNextEvent_some hclaim
  obtain ⟨h1, h2, h3, h4, h5⟩ := claimFilter_true hf
  refine ⟨hmem, h1, h2, h3, h4, h5, ?_, ?_⟩
  · intro x hx x1 x2 x3 x4 x5
    apply hmax x hx
    simp [claimFilter, x1, x2, x3, x4, x5]
  · rw [hs1, UpdateOne_eq_map _ _ _ hids]

/-- C3 at a collection of three events: the one of priority 5 is claimed, the one of
priority 9 is not (its start time has not come). -/
theorem claim_satisfies_selector_witness :
    passingEvent ∈ exampleQueue ∧
      passingEvent.Started = false ∧ passingEvent.Passed = false ∧
      passingEvent.Failed = false ∧
      passingEvent.Attempts < passingEvent.MaxAttemps ∧
      NewDateTimeFromTime exampleTimes.filterNow > passingEvent.StartAfterDate ∧
      (∀ x ∈ exampleQueue, x.Started = false → x.Passed = false → x.Failed = false →
        x.Attempts < x.MaxAttemps →
        NewDateTimeFromTime exampleTimes.filterNow > x.StartAfterDate →
        x.Priority ≤ passingEvent.Priority) ∧
      [failingEvent, claimUpdate exampleTimes passingEvent, laterEvent]
        = exampleQueue.map
            (fun x => if x.ID = passingEvent.ID then claimUpdate exampleTimes x else x) :=
  claim_satisfies_selector exampleTimes exampleQueue
    [failingEvent, claimUpdate exampleTimes passingEvent, laterEvent] passingEvent
    (by decide) (by decide)

/-- C4: of two calls of `FindNextEvent`, each one atomic step, the second on the
collection the first one left, at least one returns no event or the two returned events
have different ids: the first claim stores `Started = true` on its event, and no document
with `Started = true` satisfies the selector, whatever the time. -/
theorem two_claims_are_distinct (t1 t2 : ClaimTimes) (store store1 store2 : List Event)
    (r1 r2 : Option Event) (hids : (store.map Event.ID).Nodup)
    (h1 : FindNextEvent t1 store = (r1, store1))
    (h2 : FindNextEvent t2 store1 = (r2, store2)) :
    (r1 = none ∨ r2 = none ∨ ∃ e1 e2, r1 = some e1 ∧ r2 = some e2 ∧ e1.ID ≠ e2.ID) ∧
    (∀ e1, r1 = some e1 →
      RefreshFromDb store1 e1 = some (claimUpdate t1 e1) ∧
      ∀ now, claimFilter now (claimUpdate t1 e1) = false) := by
  cases r1 with
  | none => exact ⟨Or.inl rfl, fun e1 h => by simp at h⟩
  | some e1 =>
    obtain ⟨hmem1, _, _, hs1⟩ := FindNextEvent_some h1
    rw [UpdateOne_eq_map _ _ _ hids] at hs1
    constructor
    · cases r2 with
      | none => exact Or.inr (Or.inl rfl)
      | some e2 =>
        refine Or.inr (Or.inr ⟨e1, e2, rfl, rfl, ?_⟩)
        obtain ⟨hmem2, hf2, _, _⟩ := FindNextEvent_some h2
        have hstarted := (claimFilter_true hf2).1
        rw [hs1] at hmem2
        obtain ⟨x, _, hx⟩ := List.mem_map.mp hmem2
        by_cases hid : x.ID = e1.ID
        · simp only [hid, if_true] at hx
          rw [← hx] at hstarted
          simp [claimUpdate] at hstarted
        · simp only [hid, if_false] at hx
          rw [← hx]
          exact fun h => hid h.symm
    · intro e hr
      simp only [Option.some.injEq] at hr
      subst hr
      refine ⟨?_, fun now => by simp [claimFilter, claimUpdate]⟩
      rw [hs1]
      simp only [RefreshFromDb]
      rw [find_map_ite e1.ID (claimUpdate t1) store e1.ID (fun _ h => h),
        find_of_mem_nodup store e1 hmem1 hids]
      simp

/-- C4 at a collection of three events: the first claim takes event 2, the second
event 1. -/
theorem two_claims_are_distinct_witness :
    (some passingEvent = none ∨ some failingEvent = none ∨
      ∃ e1 e2, some passingEvent = some e1 ∧ some failingEvent = some e2 ∧ e1.ID ≠ e2.ID) ∧
    (∀ e1, some passingEvent = some e1 →
      RefreshFromDb [failingEvent, claimUpdate exampleTimes passingEvent, laterEvent] e1
        = some (claimUpdate exampleTimes e1) ∧
      ∀ now, claimFilter now (claimUpdate exampleTimes e1) = false) :=
  two_claims_are_distinct exampleTimes exampleTimes exampleQueue
    [failingEvent, claimUpdate exampleTimes passingEvent, laterEvent]
    [claimUpdate exampleTimes failingEvent, claimUpdate exampleTimes passingEvent, laterEvent]
    (some passingEvent) (some failingEvent) (by decide) (by decide) (by decide)

/-- C5: from a collection in which every event has `Attempts ≤ MaxAttemps`, every run of
`ProcessNextEvent` iterations keeps `Attempts ≤ MaxAttemps` for every event, and an event
whose handler failed is stored with `Attempts` one higher and, when that reaches
`MaxAttemps`, with `Failed = true`. -/
theorem attempts_bounded (inputs : List StepInput) (store : List Event)
    (hok : StoreOK store) (hbound : ∀ e ∈ store, e.Attempts ≤ e.MaxAttemps)
    (hpub : ∀ i ∈ inputs, PublishesNewEvents i.defs) :
    ∀ it ∈ WorkerClient inputs store,
      (∀ e ∈ it.store, e.Attempts ≤ e.MaxAttemps) ∧
      (∀ event text, it.handled = some (event, some text) →
        ∃ saved, RefreshFromDb it.store event = some saved ∧
          saved.Attempts = event.Attempts + 1 ∧ saved.MaxAttemps = event.MaxAttemps ∧
          (saved.Attempts = saved.MaxAttemps → saved.Failed = true)) := by
  have hnew : ∀ p, NewEvent p → p.Attempts ≤ p.MaxAttemps := by
    intro p hp
    obtain ⟨_, _, _, _, h5, h6, _⟩ := hp
    rw [h5]
    exact h6
  have hsettled : ∀ (e : Event) (err : Option Bytes) (env : SaveEnv) (now : DateTime),
      isInt64 e.Attempts → isInt64 e.MaxAttemps → claimFilter now e = true →
      e.Attempts ≤ e.MaxAttemps → (settled e err env).Attempts ≤ (settled e err env).MaxAttemps := by
    intro e err env now h1 h2 hf _
    show (settle e err).Attempts ≤ (settle e err).MaxAttemps
    rw [settle_Attempts now e err hf h1 h2, (settle_fields e err).2.1]
    have := (claimFilter_true hf).2.2.2.1
    omega
  have hpoisoned : ∀ (e : Event) (env : SaveEnv) (now : DateTime),
      claimFilter now e = true → e.Attempts ≤ e.MaxAttemps →
      (poisoned e env).Attempts ≤ (poisoned e env).MaxAttemps := fun _ _ _ _ h => h
  intro it hit
  refine ⟨(WorkerClient_invariant _ inputs store hok hbound hpub hnew hsettled hpoisoned
    it hit).2, ?_⟩
  intro event text hh
  obtain ⟨i, _, s, hs, _, rfl⟩ := WorkerClient_reachable _ inputs store hok hbound hpub hnew
    hsettled hpoisoned it hit
  obtain ⟨store1, task, hclaim, hdef, herr⟩ := handled_some hh
  obtain ⟨hmem, hf, _, _⟩ := FindNextEvent_some hclaim
  have hatt := settle_Attempts _ event (some text) hf (hs.2 event hmem).2.1
    (hs.2 event hmem).2.2
  refine ⟨settled event (some text) i.env, ?_, hatt, (settle_fields event (some text)).2.1, ?_⟩
  · rw [stored_after_known i.defs i.times i.env s store1 event task hs hclaim hdef, herr]
  · intro heq
    have heq2 : (settle event (some text)).Attempts = (settle event (some text)).MaxAttemps :=
      heq
    rw [hatt, (settle_fields event (some text)).2.1] at heq2
    have hw : wrapInt64 (event.Attempts + 1) = event.Attempts + 1 := by
      rw [← (settle_fields event (some text)).1]
      exact hatt
    have hge : event.Attempts + 1 ≥ event.MaxAttemps := by omega
    show (settle event (some text)).Failed = true
    rw [settle_some]
    simp only [hw, hge, if_true]

/-- C5 at two iterations on the collection of three events. -/
theorem attempts_bounded_witness :
    (StoreOK exampleQueue ∧ ∀ e ∈ exampleQueue, e.Attempts ≤ e.MaxAttemps) ∧
    ∀ it ∈ WorkerClient exampleInputs exampleQueue,
      (∀ e ∈ it.store, e.Attempts ≤ e.MaxAttemps) ∧
      (∀ event text, it.handled = some (event, some text) →
        ∃ saved, RefreshFromDb it.store event = some saved ∧
          saved.Attempts = event.Attempts + 1 ∧ saved.MaxAttemps = event.MaxAttemps ∧
          (saved.Attempts = saved.MaxAttemps → saved.Failed = true)) :=
  ⟨⟨by decide, by decide⟩,
    attempts_bounded exampleInputs exampleQueue (by decide) (by decide)
      (by
        intro i hi
        simp only [exampleInputs, List.mem_cons, List.mem_singleton, List.not_mem_nil,
          or_false] at hi
        rcases hi with rfl | rfl <;> exact exampleDefinitions_publish)⟩

/-- C8: when every stored event has at most one of the flags `Started`, `Passed`,
`Failed` set, this still holds after a claim by `FindNextEvent`, after every iteration of
a run of `ProcessNextEvent`, and after a claim on the collection such an iteration
leaves. -/
theorem at_most_one_flag (inputs : List StepInput) (store : List Event)
    (hok : StoreOK store) (hflags : ∀ e ∈ store, flagsSet e ≤ 1)
    (hpub : ∀ i ∈ inputs, PublishesNewEvents i.defs) :
    (∀ t r store1, FindNextEvent t store = (r, store1) → ∀ e ∈ store1, flagsSet e ≤ 1) ∧
    ∀ it ∈ WorkerClient inputs store,
      (∀ e ∈ it.store, flagsSet e ≤ 1) ∧
      (∀ t r store1, FindNextEvent t it.store = (r, store1) →
        ∀ e ∈ store1, flagsSet e ≤ 1) := by
  refine ⟨fun t r store1 h => claim_flags t store store1 r hok.1 hflags h, ?_⟩
  intro it hit
  have hinv := WorkerClient_invariant (fun e => flagsSet e ≤ 1) inputs store hok hflags hpub
    (by
      intro p hp
      obtain ⟨_, h2, h3, h4, _⟩ := hp
      simp [flagsSet, h2, h3, h4])
    (fun e err env now _ _ hf _ => flagsSet_settled now e err env hf)
    (fun e env now hf _ => flagsSet_poisoned now e env hf) it hit
  exact ⟨hinv.2, fun t r store1 h => claim_flags t it.store store1 r hinv.1.1 hinv.2 h⟩

/-- C8 at two iterations on the collection of three events. -/
theorem at_most_one_flag_witness :
    (∀ t r store1, FindNextEvent t exampleQueue = (r, store1) →
      ∀ e ∈ store1, flagsSet e ≤ 1) ∧
    ∀ it ∈ WorkerClient exampleInputs exampleQueue,
      (∀ e ∈ it.store, flagsSet e ≤ 1) ∧
      (∀ t r store1, FindNextEvent t it.store = (r, store1) →
        ∀ e ∈ store1, flagsSet e ≤ 1) :=
  at_most_one_flag exampleInputs exampleQueue (by decide) (by decide)
    (by
      intro i hi
      simp only [exampleInputs, List.mem_cons, List.mem_singleton, List.not_mem_nil,
        or_false] at hi
      rcases hi with rfl | rfl <;> exact exampleDefinitions_publish)

/-- C6: an event of `n ≥ 1` allowed attempts that waits in the collection and whose
handler fails whenever it is called. After every run of the worker its handler was called
at most `n` times, the stored event has one attempt per call and is neither started nor
passed, and it is failed exactly when the handler was called `n` times. While there were
fewer than `n` calls the event satisfies the selector of `FindNextEvent` at every time
after its start time; after `n` calls it never does. When the run has left no event that
can be claimed, the handler was called exactly `n` times. When the event has the greatest
priority of the collection, the handlers publish events of smaller priority only and the
iterations claim after its start time, every iteration calls the handler until the
attempts are used up: a run of `m` iterations calls it `min n m` times, so exactly `n`
times when `m ≥ n`. -/
theorem failing_event_lifecycle (n : Nat) (inputs : List StepInput) (store : List Event)
    (event : Event) (hok : StoreOK store) (hmem : event ∈ store) (hn : 1 ≤ n)
    (hmax : event.MaxAttemps = n) (hattempts : event.Attempts = 0)
    (hstarted : event.Started = false) (hpassed : event.Passed = false)
    (hfailed : event.Failed = false)
    (hpub : ∀ i ∈ inputs, PublishesNewEvents i.defs)
    (hhandler : ∀ i ∈ inputs, (i.defs event.EventType).isSome = true)
    (hfails : ∀ it ∈ WorkerClient inputs store, ∀ ev, it.handled = some (ev, none) →
      ev.ID ≠ event.ID) :
    ∃ doc, RefreshFromDb (finalStore store (WorkerClient inputs store)) event = some doc ∧
      timesHandled event.ID (WorkerClient inputs store) ≤ n ∧
      doc.Attempts = timesHandled event.ID (WorkerClient inputs store) ∧
      doc.MaxAttemps = n ∧ doc.Started = false ∧ doc.Passed = false ∧
      (doc.Failed = true ↔ timesHandled event.ID (WorkerClient inputs store) = n) ∧
      (timesHandled event.ID (WorkerClient inputs store) < n →
        ∀ now, now > event.StartAfterDate → claimFilter now doc = true) ∧
      (timesHandled event.ID (WorkerClient inputs store) = n →
        ∀ now, claimFilter now doc = false) ∧
      (∀ now, now > event.StartAfterDate →
        (∀ x ∈ finalStore store (WorkerClient inputs store), claimFilter now x = false) →
        timesHandled event.ID (WorkerClient inputs store) = n) ∧
      ((∀ x ∈ store, x.ID ≠ event.ID → x.Priority < event.Priority) →
        (∀ i ∈ inputs, ∀ (task : TaskDefinition) (ev : Event) (s : List Event) (p : Event),
          i.defs ev.EventType = some task → p ∈ (task.TaskFunc ev s).published →
            p.Priority < event.Priority) →
        (∀ i ∈ inputs, NewDateTimeFromTime i.times.filterNow > event.StartAfterDate) →
        timesHandled event.ID (WorkerClient inputs store) = min n inputs.length) := by
  have hr : Released n 0 event :=
    ⟨Nat.zero_le _, hmax, by simpa using hattempts, hstarted, hpassed, by
      rw [hfailed]
      constructor
      · intro h
        cases h
      · intro h
        omega⟩
  obtain ⟨doc, hdoc, hsa, hle, hm, ha, hs, hp, hfl⟩ := lifecycle n inputs store event 0 hok hmem
    hr hpub hhandler hfails
  rw [Nat.zero_add] at hle ha hfl
  have hclaimable : timesHandled event.ID (WorkerClient inputs store) < n →
      ∀ now, now > event.StartAfterDate → claimFilter now doc = true := by
    intro hlt now hnow
    have hnf : doc.Failed = false := by
      cases hF : doc.Failed with
      | false => rfl
      | true => exact absurd (hfl.mp hF) (Nat.ne_of_lt hlt)
    have h1 : doc.Attempts < doc.MaxAttemps := by
      rw [ha, hm]
      exact_mod_cast hlt
    have h2 : doc.StartAfterDate < now := by
      rw [hsa]
      exact hnow
    simp [claimFilter, hs, hp, hnf, h1, h2]
  refine ⟨doc, hdoc, hle, ha, hm, hs, hp, hfl, hclaimable, ?_, ?_, ?_⟩
  · intro heq now
    have hF : doc.Failed = true := hfl.mpr heq
    simp [claimFilter, hF]
  rotate_left
  · intro htop hlow hstart
    have hcount := lifecycle_count n inputs store event 0 hok hmem hr hpub hhandler hfails htop
      hlow hstart
    rw [Nat.sub_zero] at hcount
    exact hcount
  · intro now hnow hnone
    by_contra hne
    have hlt : timesHandled event.ID (WorkerClient inputs store) < n :=
      Nat.lt_of_le_of_ne hle hne
    have h1 := hclaimable hlt now hnow
    rw [hnone doc (mem_of_RefreshFromDb hdoc).1] at h1
    cases h1

/-- C6 at an event with two allowed attempts and three iterations of the worker at times
after its start time: the handler is called twice, in the first two iterations, and the
stored event has two attempts, is failed and can never be claimed again. -/
theorem failing_event_lifecycle_witness :
    (WorkerClient retryInputs [retryEvent]).map
        (fun it => it.handled.map (fun call => (call.1.ID, call.1.Attempts)))
      = [some (retryEvent.ID, 0), some (retryEvent.ID, 1), none] ∧
    ∃ doc, RefreshFromDb (finalStore [retryEvent] (WorkerClient retryInputs [retryEvent]))
        retryEvent = some doc ∧
      timesHandled retryEvent.ID (WorkerClient retryInputs [retryEvent]) = 2 ∧
      doc.Attempts = 2 ∧ doc.MaxAttemps = 2 ∧ doc.Started = false ∧ doc.Passed = false ∧
      doc.Failed = true ∧ ∀ now, claimFilter now doc = false :=
  ⟨by decide,
    match failing_event_lifecycle 2 retryInputs [retryEvent] retryEvent (by decide) (by decide)
      (by decide) (by decide) (by decide) (by decide) (by decide) (by decide)
      (by
        intro i hi
        simp only [retryInputs, List.mem_cons, List.mem_singleton, List.not_mem_nil,
          or_false] at hi
        rcases hi with rfl | rfl | rfl <;> exact exampleDefinitions_publish)
      (by decide)
      (fun it hit ev hev =>
        absurd (by rw [hev]; rfl)
          ((by decide : ∀ it ∈ WorkerClient retryInputs [retryEvent],
            it.handled.map Prod.snd ≠ some none) it hit)) with
    | ⟨doc, hdoc, _, ha, hm, hs, hp, hfl, _, hnever, _, hcount⟩ =>
      have hc : timesHandled retryEvent.ID (WorkerClient retryInputs [retryEvent]) = 2 :=
        hcount (by decide)
          (by
            intro i hi task ev s p hdef hpub
            simp only [retryInputs, List.mem_cons, List.mem_singleton, List.not_mem_nil,
              or_false] at hi
            rcases hi with rfl | rfl | rfl <;>
              · rw [exampleDefinitions_publish_nothing task ev s hdef] at hpub
                cases hpub)
          (by decide)
      ⟨doc, hdoc, hc, by rw [ha, hc]; rfl, hm, hs, hp, hfl.mpr hc, hnever hc⟩⟩

/-- C7: on a claimed event whose type is not in `TaskDefinitions` the iteration stores
the event with `Failed = true` and then panics: the branch for the unknown type does not
return, and the nil `TaskFunc` is called. -/
theorem unknown_event_type_panics :
    ProcessNextEvent exampleDefinitions exampleTimes exampleEnv [unknownEvent]
      = { store := [{ unknownEvent with Failed := true, UpdatedDate := 30 }],
          completion := .panicked, handled := none } := by
  decide

/-- C9: `FindNextEvent` returns the document as it was before the claim (`Started = false`,
the old `StartedDate`), the collection holds the claimed document (`Started = true`,
`StartedDate` the time of the claim), and the event that `ProcessNextEvent` stores
afterwards has the old `StartedDate` again. -/
theorem claim_returns_document_before_update :
    FindNextEvent exampleTimes [passingEvent]
        = (some passingEvent, [claimUpdate exampleTimes passingEvent]) ∧
      passingEvent.Started = false ∧ passingEvent.StartedDate = 0 ∧
      (claimUpdate exampleTimes passingEvent).Started = true ∧
      (claimUpdate exampleTimes passingEvent).StartedDate = 20 ∧
      (ProcessNextEvent exampleDefinitions exampleTimes exampleEnv [passingEvent]).store
        = [{ passingEvent with Attempts := 1, Passed := true, UpdatedDate := 30,
                               Started := false, StartedDate := 0 }] := by
  decide

theorem activeIndexFilter_iff (e : Event) :
    activeIndexFilter e = true ↔
      (e.EventType = "RequestCurrentIndexFilesTask" ∧ e.Started = false ∧ e.Passed = false ∧
        e.Failed = false ∧ e.Attempts < e.MaxAttemps) := by
  simp [activeIndexFilter, and_assoc]

theorem CountEvents_eq_zero (store : List Event) (filter : Event → Bool) :
    CountEvents store filter = 0 ↔ ∀ e ∈ store, filter e = false := by
  simp [CountEvents, List.filter_eq_nil_iff]

/-- The day arithmetic of line 145: seven days later in nanoseconds is 604800000 later in
milliseconds. -/
theorem NewDateTimeFromTime_add_week (now : Time) :
    NewDateTimeFromTime (now + 7 * 24 * Hour) = NewDateTimeFromTime now + 604800000 := by
  have h : ∀ x : Int, (x + 7 * 24 * 3600000000000) / 1000000 = x / 1000000 + 604800000 := by
    intro x
    omega
  exact h now

/-- C10: `PublishPeriodicIndexEvent` appends exactly one event (type
`RequestCurrentIndexFilesTask`, `MaxAttemps = 1`, `StartAfterDate` seven days after `now`,
all other fields zero but the new id and the update time) when the collection holds no
event of that type with `Started`, `Passed`, `Failed` all false and
`Attempts < MaxAttemps`; otherwise it leaves the collection as it is; and a second call
leaves the collection that the first call left. -/
theorem publish_periodic_index_event (now now2 : Time) (env env2 : SaveEnv)
    (store : List Event) (hfresh : env.newID ∉ store.map Event.ID) :
    ((∀ e ∈ store, ¬ (e.EventType = "RequestCurrentIndexFilesTask" ∧ e.Started = false ∧
          e.Passed = false ∧ e.Failed = false ∧ e.Attempts < e.MaxAttemps)) →
      PublishPeriodicIndexEvent now env store
        = (store ++ [{ Event.zero with
                        ID := env.newID,
                        UpdatedDate := NewDateTimeFromTime env.now,
                        EventType := "RequestCurrentIndexFilesTask",
                        MaxAttemps := 1,
                        StartAfterDate := NewDateTimeFromTime now + 604800000 }], none)) ∧
    ((∃ e ∈ store, e.EventType = "RequestCurrentIndexFilesTask" ∧ e.Started = false ∧
          e.Passed = false ∧ e.Failed = false ∧ e.Attempts < e.MaxAttemps) →
      PublishPeriodicIndexEvent now env store = (store, none)) ∧
    (PublishPeriodicIndexEvent now2 env2 (PublishPeriodicIndexEvent now env store).1).1
      = (PublishPeriodicIndexEvent now env store).1 := by
  have hany : store.any (fun d => d.ID == env.newID) = false := by
    rw [Bool.eq_false_iff]
    intro h
    obtain ⟨d, hd, hdid⟩ := List.any_eq_true.mp h
    exact hfresh (List.mem_map.mpr ⟨d, hd, by simpa using hdid⟩)
  have hinsert : CountEvents store activeIndexFilter = 0 →
      PublishPeriodicIndexEvent now env store
        = (store ++ [{ Event.zero with
                        ID := env.newID,
                        UpdatedDate := NewDateTimeFromTime env.now,
                        EventType := "RequestCurrentIndexFilesTask",
                        MaxAttemps := 1,
                        StartAfterDate := NewDateTimeFromTime now + 604800000 }], none) := by
    intro h0
    simp only [PublishPeriodicIndexEvent, h0, if_true, SaveEvent, Event.zero, InsertOne, hany,
      Bool.false_eq_true, if_false, NewDateTimeFromTime_add_week]
  have hkeep : CountEvents store activeIndexFilter ≠ 0 →
      PublishPeriodicIndexEvent now env store = (store, none) := by
    intro h0
    simp only [PublishPeriodicIndexEvent, h0, if_false]
  refine ⟨?_, ?_, ?_⟩
  · intro hnone
    apply hinsert
    rw [CountEvents_eq_zero]
    intro e he
    rw [Bool.eq_false_iff]
    exact fun h => hnone e he ((activeIndexFilter_iff e).mp h)
  · rintro ⟨e, he, hact⟩
    apply hkeep
    rw [Ne, CountEvents_eq_zero]
    intro hall
    have := hall e he
    rw [(activeIndexFilter_iff e).mpr hact] at this
    cases this
  · by_cases h0 : CountEvents store activeIndexFilter = 0
    · rw [hinsert h0]
      simp only [PublishPeriodicIndexEvent]
      have hcount : CountEvents (store ++ [{ Event.zero with
                        ID := env.newID,
                        UpdatedDate := NewDateTimeFromTime env.now,
                        EventType := "RequestCurrentIndexFilesTask",
                        MaxAttemps := 1,
                        StartAfterDate := NewDateTimeFromTime now + 604800000 }])
          activeIndexFilter ≠ 0 := by
        rw [Ne, CountEvents_eq_zero]
        intro hall
        have := hall _ (List.mem_append_right _ (List.mem_singleton_self _))
        simp [activeIndexFilter, Event.zero] at this
      simp only [hcount, if_false]
    · rw [hkeep h0]
      simp only [PublishPeriodicIndexEvent, h0, if_false]

/-- C10 at the empty collection of `TestPublishPeriodicIndexEvent`. -/
theorem publish_periodic_index_event_witness :
    ((∀ e ∈ ([] : List Event), ¬ (e.EventType = "RequestCurrentIndexFilesTask" ∧
          e.Started = false ∧ e.Passed = false ∧ e.Failed = false ∧
          e.Attempts < e.MaxAttemps)) →
      PublishPeriodicIndexEvent 20000000 exampleEnv []
        = ([] ++ [{ Event.zero with
                        ID := exampleEnv.newID,
                        UpdatedDate := NewDateTimeFromTime exampleEnv.now,
                        EventType := "RequestCurrentIndexFilesTask",
                        MaxAttemps := 1,
                        StartAfterDate := NewDateTimeFromTime 20000000 + 604800000 }],
            none)) ∧
    ((∃ e ∈ ([] : List Event), e.EventType = "RequestCurrentIndexFilesTask" ∧
          e.Started = false ∧ e.Passed = false ∧ e.Failed = false ∧
          e.Attempts < e.MaxAttemps) →
      PublishPeriodicIndexEvent 20000000 exampleEnv [] = ([], none)) ∧
    (PublishPeriodicIndexEvent 90000000 { newID := 78, now := 90000000 }
        (PublishPeriodicIndexEvent 20000000 exampleEnv []).1).1
      = (PublishPeriodicIndexEvent 20000000 exampleEnv []).1 :=
  publish_periodic_index_event 20000000 90000000 exampleEnv { newID := 78, now := 90000000 }
    [] (by decide)

/-! ## Tiles: lemmas -/

theorem findOneAndUpdateFirst_forall {α : Type} (P : α → Prop) (filter : α → Bool)
    (update : α → α) (l : List α) (hP : ∀ d ∈ l, P d)
    (hupdate : ∀ d ∈ l, filter d = true → P (update d)) :
    ∀ d ∈ (findOneAndUpdateFirst filter update l).2, P d := by
  induction l with
  | nil => simp [findOneAndUpdateFirst]
  | cons a as ih =>
    by_cases ha : filter a = true
    · simp only [findOneAndUpdateFirst, ha, if_true]
      intro d hd
      rcases List.mem_cons.mp hd with rfl | hd
      · exact hupdate a (List.mem_cons_self _ _) ha
      · exact hP d (List.mem_cons_of_mem _ hd)
    · simp only [findOneAndUpdateFirst, ha, if_false]
      intro d hd
      rcases List.mem_cons.mp hd with rfl | hd
      · exact hP _ (List.mem_cons_self _ _)
      · exact ih (fun x hx => hP x (List.mem_cons_of_mem _ hx))
          (fun x hx => hupdate x (List.mem_cons_of_mem _ hx)) d hd

theorem findOneAndUpdateFirst_none {α : Type} (filter : α → Bool) (update : α → α)
    (l : List α) (h : (findOneAndUpdateFirst filter update l).1 = none) :
    (∀ d ∈ l, filter d = false) ∧ (findOneAndUpdateFirst filter update l).2 = l := by
  induction l with
  | nil => simp [findOneAndUpdateFirst]
  | cons a as ih =>
    by_cases ha : filter a = true
    · simp [findOneAndUpdateFirst, ha] at h
    · simp only [findOneAndUpdateFirst, ha, Bool.false_eq_true, if_false] at h ⊢
      obtain ⟨h1, h2⟩ := ih h
      refine ⟨?_, by rw [h2]⟩
      intro d hd
      rcases List.mem_cons.mp hd with rfl | hd
      · simpa using ha
      · exact h1 d hd

/-- The files of the tiles after `InsertFileIntoTile` keep pairwise different paths. -/
theorem InsertFileIntoTile_noDuplicates (tiles : List Tile) (tile : Tile)
    (tileFile : TileFile) (h : ∀ t ∈ tiles, NoDuplicatePaths t) :
    ∀ t ∈ (InsertFileIntoTile tiles tile tileFile).1, NoDuplicatePaths t := by
  unfold InsertFileIntoTile
  simp only []
  split
  · exact h
  · apply findOneAndUpdateFirst_forall NoDuplicatePaths _ _ tiles h
    intro d hd hfilter
    simp only [Bool.and_eq_true, List.all_eq_true, bne_iff_ne, ne_eq] at hfilter
    unfold NoDuplicatePaths
    simp only [List.map_append, List.map_cons, List.map_nil]
    rw [List.nodup_append]
    refine ⟨h d hd, List.nodup_singleton _, ?_⟩
    intro p hp hq
    simp only [List.mem_singleton] at hq
    obtain ⟨f, hf, hfp⟩ := List.mem_map.mp hp
    exact hfilter.2 f hf (hfp.trans hq)

/-- The function `UpdateTileAttribute` keeps a property of the files of the tiles. -/
theorem UpdateTileAttribute_files (P : Tile → Prop) (now : Time) (tiles : List Tile)
    (tile : Tile) (attributeName : String) (h : ∀ t ∈ tiles, P t)
    (hP : ∀ (t : Tile) (u : DateTime) (g : Geometry),
      P t → P { t with UpdatedDate := u, Geometry := g }) :
    ∀ t ∈ (UpdateTileAttribute now tiles tile attributeName).1, P t := by
  unfold UpdateTileAttribute
  simp only []
  split
  · split
    · exact h
    · exact findOneAndUpdateFirst_forall P _ _ tiles h (fun d hd _ => hP d _ _ (h d hd))
  · exact h

/-- The tiles after lines 78-147 are the given ones, or those after the insertion of the
file, or those after the update of the geometry that follows it. -/
theorem storeTileFile_tiles (env : MapTaskEnv) (tiles : List Tile) (events : List Event)
    (objectPath fileUse : String) (tileFile : TileFile) :
    (storeTileFile env tiles events objectPath fileUse tileFile).tiles = tiles ∨
    ∃ tile, (storeTileFile env tiles events objectPath fileUse tileFile).tiles
        = (InsertFileIntoTile tiles tile tileFile).1 ∨
      ∃ tile1, (storeTileFile env tiles events objectPath fileUse tileFile).tiles
        = (UpdateTileAttribute env.attributeNow (InsertFileIntoTile tiles tile tileFile).1
            tile1 "geometry").1 := by
  unfold storeTileFile
  split
  · exact Or.inl rfl
  · split
    · exact Or.inl rfl
    · rename_i tile _
      right
      refine ⟨tile, ?_⟩
      split
      · rename_i tiles1 err hins
        left
        simp [hins]
      · rename_i tiles1 hins
        split
        · split
          · left
            simp [hins]
          · rename_i tile1 _
            right
            refine ⟨tile1, ?_⟩
            split
            · rename_i tiles2 err hupd
              simp [hins, hupd]
            · rename_i tiles2 hupd
              simp [hins, hupd, publishBuildMapEvent]
              split <;> rfl
        · left
          simp only [hins, publishBuildMapEvent]
          split <;> rfl

/-- The tiles after `RequestMapTask`: as after lines 78-147 for some tile file, or the
given ones. -/
theorem RequestMapTask_tiles (env : MapTaskEnv) (tiles : List Tile) (events : List Event)
    (event : Event) :
    (RequestMapTask env tiles events event).tiles = tiles ∨
    ∃ objectPath fileUse tileFile, (RequestMapTask env tiles events event).tiles
      = (storeTileFile env tiles events objectPath fileUse tileFile).tiles := by
  unfold RequestMapTask
  simp only
  repeat' split
  all_goals first
    | exact Or.inl rfl
    | exact Or.inr ⟨_, _, _, rfl⟩

/-- The function `RequestMapTask` keeps the paths of the files of every tile pairwise
different. -/
theorem RequestMapTask_noDuplicates (env : MapTaskEnv) (tiles : List Tile)
    (events : List Event) (event : Event) (h : ∀ t ∈ tiles, NoDuplicatePaths t) :
    ∀ t ∈ (RequestMapTask env tiles events event).tiles, NoDuplicatePaths t := by
  rcases RequestMapTask_tiles env tiles events event with h0 | ⟨objectPath, fileUse, tileFile, h1⟩
  · rw [h0]
    exact h
  · rw [h1]
    rcases storeTileFile_tiles env tiles events objectPath fileUse tileFile with
      h2 | ⟨tile, h2 | ⟨tile1, h2⟩⟩
    · rw [h2]
      exact h
    · rw [h2]
      exact InsertFileIntoTile_noDuplicates tiles tile tileFile h
    · rw [h2]
      exact UpdateTileAttribute_files NoDuplicatePaths _ _ _ _
        (InsertFileIntoTile_noDuplicates tiles tile tileFile h) (fun _ _ _ ht => ht)

/-- C11: when no tile holds two files of the same object path, no tile does after any
sequence of `InsertFileIntoTile` and `RequestMapTask` calls, whatever their arguments: for
every tile and every path `P` at most one file of the tile has the path `P`. -/
theorem insert_file_keeps_paths_unique (calls : List TileCall) (tiles : List Tile)
    (events : List Event) (h : ∀ t ∈ tiles, NoDuplicatePaths t) :
    ∀ t ∈ (runTileCalls calls (tiles, events)).1, ∀ P : String,
      (t.Files.filter (fun f => f.ObjectPath == P)).length ≤ 1 := by
  have hinv : ∀ t ∈ (runTileCalls calls (tiles, events)).1, NoDuplicatePaths t := by
    unfold runTileCalls
    induction calls generalizing tiles events with
    | nil => exact h
    | cons call rest ih =>
      simp only [List.foldl_cons]
      cases call with
      | insert tile tileFile =>
        exact ih _ _ (InsertFileIntoTile_noDuplicates tiles tile tileFile h)
      | task env event =>
        exact ih _ _ (RequestMapTask_noDuplicates env tiles events event h)
  intro t ht P
  have hnd := hinv t ht
  unfold NoDuplicatePaths at hnd
  have hcount : (t.Files.map TileFile.ObjectPath).count P ≤ 1 :=
    List.nodup_iff_count_le_one.mp hnd P
  simp only [List.count, List.countP_eq_length_filter, List.filter_map,
    List.length_map] at hcount
  exact hcount

/-- C11 at three calls that all reference the path of the example file. -/
theorem insert_file_keeps_paths_unique_witness :
    (∀ t ∈ [exampleTile], NoDuplicatePaths t) ∧
    ∀ t ∈ (runTileCalls
        [TileCall.task exampleMapTaskEnv exampleFileEvent,
         TileCall.insert exampleTile exampleTileFile,
         TileCall.task exampleMapTaskEnv exampleFileEvent]
        ([exampleTile], [exampleFileEvent])).1, ∀ P : String,
      (t.Files.filter (fun f => f.ObjectPath == P)).length ≤ 1 :=
  ⟨by decide,
    insert_file_keeps_paths_unique
      [TileCall.task exampleMapTaskEnv exampleFileEvent,
       TileCall.insert exampleTile exampleTileFile,
       TileCall.task exampleMapTaskEnv exampleFileEvent]
      [exampleTile] [exampleFileEvent] (by decide)⟩

/-- C12: a second `RequestMapTask` for a path that the tile already holds leaves the files
of the tile as they are, but returns `mongo.ErrNoDocuments`: `InsertFileIntoTile` returns
the `.Err()` of a `FindOneAndUpdate` whose filter excludes the tile. -/
theorem repeated_file_event_returns_error :
    (RequestMapTask exampleMapTaskEnv [exampleTile] [exampleFileEvent] exampleFileEvent).tiles
        = [{ exampleTile with Files := [exampleTileFile] }] ∧
      (RequestMapTask exampleMapTaskEnv [exampleTile] [exampleFileEvent]
        exampleFileEvent).completion = .returned none ∧
      (RequestMapTask exampleMapTaskEnv [{ exampleTile with Files := [exampleTileFile] }]
        [exampleFileEvent] exampleFileEvent).tiles
        = [{ exampleTile with Files := [exampleTileFile] }] ∧
      (RequestMapTask exampleMapTaskEnv [{ exampleTile with Files := [exampleTileFile] }]
        [exampleFileEvent] exampleFileEvent).completion
        = .returned (some GoError.ErrNoDocuments) := by
  decide

/-- C16: for a sidecar that decodes, `ParseDataGeometry` sets the geometry of the tile to
the decoded geometry and returns no error when that geometry is a valid polygon (and the
object path contains `.json`); for every other decoded geometry it returns an error and
leaves the tile as it is. -/
theorem parse_data_geometry (sidecar : String → Sidecar) (tile : Tile) (objectPath : String)
    (metaData : MetaData) (hdecoded : sidecar objectPath = Sidecar.decoded metaData) :
    (Contains objectPath ".json" = true → validPolygon metaData.Geometry →
      ParseDataGeometry sidecar tile objectPath
        = ({ tile with Geometry := metaData.Geometry }, none)) ∧
    (¬ validPolygon metaData.Geometry →
      ∃ err, ParseDataGeometry sidecar tile objectPath = (tile, some err)) := by
  constructor
  · rintro hjson ⟨htype, ring, rest, hcoords, hlen⟩
    have h4 : ¬ ring.length < 4 := by omega
    simp [ParseDataGeometry, hjson, hdecoded, htype, hcoords, h4]
  · intro hinvalid
    by_cases hjson : Contains objectPath ".json" = true
    · by_cases hcond : (metaData.Geometry.Type_ != "Polygon"
          || decide (metaData.Geometry.Coordinates.length < 1)
          || decide ((metaData.Geometry.Coordinates.headD []).length < 4)) = true
      · exact ⟨_, by simp only [ParseDataGeometry, hjson, hdecoded, hcond]; rfl⟩
      · exfalso
        apply hinvalid
        simp only [Bool.or_eq_true, bne_iff_ne, ne_eq, decide_eq_true_eq, not_or, not_not,
          not_lt] at hcond
        obtain ⟨⟨htype, hlen1⟩, hlen4⟩ := hcond
        cases hc : metaData.Geometry.Coordinates with
        | nil => simp [hc] at hlen1
        | cons ring rest =>
          refine ⟨htype, ring, rest, hc, ?_⟩
          simpa [hc] using hlen4
    · exact ⟨GoError.New "is not a json meta file", by simp [ParseDataGeometry, hjson]⟩

/-- C16 at a sidecar with a polygon of five coordinates. -/
theorem parse_data_geometry_witness :
    (Contains "sentinel-s2-l2a-cogs/14/T/NR/2022/7/S2A_14TNR_20220716_0_L2A/S2A_14TNR_20220716_0_L2A.json"
        ".json" = true → validPolygon exampleGeometry →
      ParseDataGeometry exampleMapTaskEnv.sidecar exampleTile
          "sentinel-s2-l2a-cogs/14/T/NR/2022/7/S2A_14TNR_20220716_0_L2A/S2A_14TNR_20220716_0_L2A.json"
        = ({ exampleTile with Geometry := exampleGeometry }, none)) ∧
    (¬ validPolygon exampleGeometry →
      ∃ err, ParseDataGeometry exampleMapTaskEnv.sidecar exampleTile
          "sentinel-s2-l2a-cogs/14/T/NR/2022/7/S2A_14TNR_20220716_0_L2A/S2A_14TNR_20220716_0_L2A.json"
        = (exampleTile, some err)) :=
  parse_data_geometry exampleMapTaskEnv.sidecar exampleTile
    "sentinel-s2-l2a-cogs/14/T/NR/2022/7/S2A_14TNR_20220716_0_L2A/S2A_14TNR_20220716_0_L2A.json"
    { Geometry := exampleGeometry } rfl

/-! ## The file ingest handler: lemmas -/

theorem firstByDate_mem {l : List Tile} {b : Tile} (h : firstByDate l = some b) : b ∈ l := by
  induction l generalizing b with
  | nil => simp [firstByDate] at h
  | cons d ds ih =>
    simp only [firstByDate] at h
    cases hds : firstByDate ds with
    | none =>
      rw [hds] at h
      simp only [Option.some.injEq] at h
      subst h
      exact List.mem_cons_self _ _
    | some c =>
      rw [hds] at h
      by_cases hlt : d.Date < c.Date
      · simp only [hlt, if_true, Option.some.injEq] at h
        subst h
        exact List.mem_cons_of_mem _ (ih hds)
      · simp only [hlt, if_false, Option.some.injEq] at h
        subst h
        exact List.mem_cons_self _ _

/-- A tile that `FindTile` returns is in the collection and matches the filter. -/
theorem FindTile_some {tiles : List Tile} {filter : Tile → Bool} {tile : Tile}
    (h : FindTile tiles filter = some tile) : tile ∈ tiles ∧ filter tile = true :=
  List.mem_filter.mp (firstByDate_mem h)

/-- With unique ids, the first document of an id that passes a test which the document of
that id passes is that document. -/
theorem findOneAndUpdateFirst_eq_map (q : Tile → Bool) (update : Tile → Tile)
    (tiles : List Tile) (tile : Tile) (hids : (tiles.map Tile.ID).Nodup)
    (hmem : tile ∈ tiles) (hq : q tile = true) :
    findOneAndUpdateFirst (fun d => d.ID == tile.ID && q d) update tiles
      = (some tile, tiles.map (fun d => if d.ID = tile.ID then update d else d)) := by
  induction tiles with
  | nil => simp at hmem
  | cons a as ih =>
    simp only [List.map_cons, List.nodup_cons] at hids
    by_cases ha : a.ID = tile.ID
    · have hat : a = tile := by
        rcases List.mem_cons.mp hmem with h | h
        · exact h.symm
        · exact absurd (ha ▸ List.mem_map_of_mem Tile.ID h) hids.1
      subst hat
      have hrest : as.map (fun d => if d.ID = a.ID then update d else d) = as := by
        rw [List.map_congr_left (g := id)]
        · simp
        · intro d hd
          have : ¬ d.ID = a.ID := fun h => hids.1 (h ▸ List.mem_map_of_mem Tile.ID hd)
          simp [this]
      simp only [findOneAndUpdateFirst, beq_self_eq_true, hq, Bool.and_self, if_true,
        List.map_cons, hrest]
    · have hmem2 : tile ∈ as := by
        rcases List.mem_cons.mp hmem with h | h
        · exact absurd (h ▸ rfl) ha
        · exact h
      have hb : (a.ID == tile.ID) = false := by simpa using ha
      simp only [findOneAndUpdateFirst, hb, Bool.false_and, Bool.false_eq_true, if_false,
        ih hids.2 hmem2, List.map_cons, ha]

/-- An update that keeps an attribute of every document keeps the attributes of the
collection. -/
theorem findOneAndUpdateFirst_map {α β : Type} (f : α → β) (filter : α → Bool)
    (update : α → α) (l : List α) (hf : ∀ d, f (update d) = f d) :
    (findOneAndUpdateFirst filter update l).2.map f = l.map f := by
  induction l with
  | nil => rfl
  | cons a as ih =>
    by_cases ha : filter a = true
    · simp only [findOneAndUpdateFirst, ha, if_true, List.map_cons, hf]
    · simp only [findOneAndUpdateFirst, ha, Bool.false_eq_true, if_false, List.map_cons, ih]

theorem UpdateTileAttribute_map {β : Type} (f : Tile → β) (now : Time) (tiles : List Tile)
    (tile : Tile) (attributeName : String)
    (hf : ∀ (t : Tile) (u : DateTime) (g : Geometry),
      f { t with UpdatedDate := u, Geometry := g } = f t) :
    (UpdateTileAttribute now tiles tile attributeName).1.map f = tiles.map f := by
  unfold UpdateTileAttribute
  simp only []
  split
  · split
    · rfl
    · exact findOneAndUpdateFirst_map f _ _ tiles (fun d => hf d _ _)
  · rfl

/-- A `ParseDataGeometry` without error changes the geometry of the tile only. -/
theorem ParseDataGeometry_ok {sidecar : String → Sidecar} {tile tile1 : Tile}
    {objectPath : String} (h : ParseDataGeometry sidecar tile objectPath = (tile1, none)) :
    ∃ g, tile1 = { tile with Geometry := g } := by
  unfold ParseDataGeometry at h
  split at h
  · simp at h
  · split at h
    · simp at h
    · split at h
      · simp at h
      · simp only [Prod.mk.injEq, and_true] at h
        exact ⟨_, h.symm⟩

/-- The event of a well-formed object path and size reaches lines 78-147 with the tile
file that lines 33-77 build. -/
theorem RequestMapTask_parsed (env : MapTaskEnv) (tiles : List Tile) (events : List Event)
    (event : Event) (objectPath size : String) (sizeValue version : Int)
    (k0 k1 k2 k3 k4 k5 k6 k7 c0 c1 c2 c3 c4 : String)
    (hpath : event.Data.lookup "objectPath" = some objectPath)
    (hsize : event.Data.lookup "size" = some size)
    (hsizeInt : Atoi (stringBytes size) = (sizeValue, none))
    (hsegs : Split objectPath '/' = [k0, k1, k2, k3, k4, k5, k6, k7])
    (hparts : Split k6 '_' = [c0, c1, c2, c3, c4])
    (hversion : Atoi (stringBytes c3) = (version, none)) :
    RequestMapTask env tiles events event
      = storeTileFile env tiles events objectPath
          (if k7 = k6 ++ ".json" then "jsonMeta" else "satBand")
          { FileUse := if k7 = k6 ++ ".json" then "jsonMeta" else "satBand", Band := k7,
            Version := version, Size := sizeValue, ObjectPath := objectPath } := by
  have hne : ¬ objectPath = "" := by
    intro h
    rw [h] at hsegs
    have : Split "" '/' = [""] := by decide
    rw [this] at hsegs
    simp at hsegs
  have hne2 : ¬ size = "" := by
    intro h
    rw [h] at hsizeInt
    have : Atoi (stringBytes "") = (0, some (GoError.ErrSyntax [])) := by decide
    rw [this] at hsizeInt
    simp at hsizeInt
  simp only [RequestMapTask, hpath, hne, if_false, hsize, hne2, hsizeInt, hsegs, hparts,
    hversion]

/-- When lines 33-77 found a tile and the call returned `nil`, the call ended in lines
114-147 for a tile of the same MGRS code. -/
theorem storeTileFile_success (env : MapTaskEnv) (tiles : List Tile) (events : List Event)
    (objectPath fileUse : String) (tileFile : TileFile) (tileInfo tile : Tile)
    (hparse : parseTileFromObjectPath env.cal objectPath = some tileInfo)
    (hfind : FindTile tiles (tileKeyFilter tileInfo) = some tile)
    (hsucc : (storeTileFile env tiles events objectPath fileUse tileFile).completion
      = .returned none) :
    ∃ tiles1 tile1, tile1.MgrsCode = tile.MgrsCode ∧
      storeTileFile env tiles events objectPath fileUse tileFile
        = publishBuildMapEvent env tiles1 events tile1 := by
  simp only [storeTileFile, hparse, hfind] at hsucc ⊢
  cases hins : InsertFileIntoTile tiles tile tileFile with
  | mk tiles1 err1 =>
    cases err1 with
    | some e => simp [hins] at hsucc
    | none =>
      simp only [hins] at hsucc ⊢
      by_cases hjson : fileUse = "jsonMeta"
      · simp only [hjson, if_true] at hsucc ⊢
        cases hgeo : ParseDataGeometry env.sidecar tile objectPath with
        | mk tile1 err2 =>
          cases err2 with
          | some e => simp [hgeo] at hsucc
          | none =>
            simp only [hgeo] at hsucc ⊢
            obtain ⟨g, hg⟩ := ParseDataGeometry_ok hgeo
            cases hupd : UpdateTileAttribute env.attributeNow tiles1 tile1 "geometry" with
            | mk tiles2 err3 =>
              cases err3 with
              | some e => simp [hupd] at hsucc
              | none =>
                simp only [hupd]
                exact ⟨tiles2, tile1, by rw [hg], rfl⟩
      · simp only [hjson, if_false]
        exact ⟨tiles1, tile, rfl, rfl⟩

/-- A call of `RequestMapTask` returns an error of lines 33-77 and changes nothing, or it
goes through lines 78-147 with the object path of the event. -/
theorem RequestMapTask_cases (env : MapTaskEnv) (tiles : List Tile) (events : List Event)
    (event : Event) :
    (∃ err, RequestMapTask env tiles events event
        = { tiles := tiles, events := events, completion := .returned (some err) }) ∨
    ∃ objectPath fileUse tileFile, event.Data.lookup "objectPath" = some objectPath ∧
      RequestMapTask env tiles events event
        = storeTileFile env tiles events objectPath fileUse tileFile := by
  unfold RequestMapTask
  simp only
  cases hpath : event.Data.lookup "objectPath" with
  | none => exact Or.inl ⟨_, rfl⟩
  | some objectPath =>
    simp only
    repeat' split
    all_goals first
      | exact Or.inl ⟨_, rfl⟩
      | exact Or.inr ⟨_, _, _, rfl, rfl⟩

/-- The event filter of lines 120-126, condition by condition. -/
theorem buildMapEventFilter_iff (mgrsCode : String) (e : Event) :
    buildMapEventFilter mgrsCode e = true ↔
      (e.EventType = "BuildBoundaryMapTask" ∧ e.Data.lookup "mgrsCode" = some mgrsCode ∧
        e.Started = false ∧ e.Passed = false ∧ e.Failed = false) := by
  simp only [buildMapEventFilter, Bool.and_eq_true, beq_iff_eq]
  tauto

/-- C13: when `RequestMapTask` returns `nil` for an event whose tile exists, with MGRS
code `M`, it has appended exactly one event (type `BuildBoundaryMapTask`, priority 4,
`MaxAttemps = 1`, data `mgrsCode: M`) if no event of that type and code with `Started`,
`Passed`, `Failed` all false was stored, and otherwise it has left the event collection as
it was; so at most one such event is stored afterwards when at most one was before. -/
theorem build_event_coalesced (env : MapTaskEnv) (tiles : List Tile) (events : List Event)
    (event : Event) (objectPath : String) (tileInfo tile : Tile)
    (hpath : event.Data.lookup "objectPath" = some objectPath)
    (hparse : parseTileFromObjectPath env.cal objectPath = some tileInfo)
    (hfind : FindTile tiles (tileKeyFilter tileInfo) = some tile)
    (hsucc : (RequestMapTask env tiles events event).completion = .returned none) :
    ((∀ e ∈ events, ¬ (e.EventType = "BuildBoundaryMapTask" ∧
          e.Data.lookup "mgrsCode" = some tile.MgrsCode ∧
          e.Started = false ∧ e.Passed = false ∧ e.Failed = false)) →
      (RequestMapTask env tiles events event).events
        = events ++ [{ Event.zero with
                        ID := env.save.newID,
                        UpdatedDate := NewDateTimeFromTime env.save.now,
                        EventType := "BuildBoundaryMapTask",
                        Priority := 4,
                        MaxAttemps := 1,
                        Data := [("mgrsCode", tile.MgrsCode)] }]) ∧
    ((∃ e ∈ events, e.EventType = "BuildBoundaryMapTask" ∧
          e.Data.lookup "mgrsCode" = some tile.MgrsCode ∧
          e.Started = false ∧ e.Passed = false ∧ e.Failed = false) →
      (RequestMapTask env tiles events event).events = events) ∧
    (CountEvents events (buildMapEventFilter tile.MgrsCode) ≤ 1 →
      CountEvents (RequestMapTask env tiles events event).events
        (buildMapEventFilter tile.MgrsCode) ≤ 1) := by
  rcases RequestMapTask_cases env tiles events event with ⟨err, h0⟩ |
    ⟨objectPath1, fileUse, tileFile, hpath1, h1⟩
  · rw [h0] at hsucc
    simp at hsucc
  · rw [hpath] at hpath1
    simp only [Option.some.injEq] at hpath1
    subst hpath1
    rw [h1] at hsucc
    obtain ⟨tiles1, tile1, hcode, h2⟩ := storeTileFile_success env tiles events objectPath
      fileUse tileFile tileInfo tile hparse hfind hsucc
    rw [h2] at hsucc
    rw [h1, h2, ← hcode]
    by_cases hcount : CountEvents events (buildMapEventFilter tile1.MgrsCode) = 0
    · -- no event waits: one is inserted
      have hany : events.any (fun d => d.ID == env.save.newID) = false := by
        rw [Bool.eq_false_iff]
        intro hdup
        simp [publishBuildMapEvent, hcount, SaveEvent, Event.zero, NilObjectID, InsertOne,
          hdup] at hsucc
      have hev : (publishBuildMapEvent env tiles1 events tile1).events
          = events ++ [{ Event.zero with
                        ID := env.save.newID,
                        UpdatedDate := NewDateTimeFromTime env.save.now,
                        EventType := "BuildBoundaryMapTask",
                        Priority := 4,
                        MaxAttemps := 1,
                        Data := [("mgrsCode", tile1.MgrsCode)] }] := by
        simp [publishBuildMapEvent, hcount, SaveEvent, Event.zero, NilObjectID, InsertOne,
          hany]
      refine ⟨fun _ => hev, ?_, ?_⟩
      · rintro ⟨e, he, hact⟩
        rw [CountEvents_eq_zero] at hcount
        have := hcount e he
        rw [(buildMapEventFilter_iff _ e).mpr hact] at this
        cases this
      · intro _
        rw [hev]
        simp only [CountEvents, List.filter_append, List.length_append] at hcount ⊢
        rw [hcount]
        simp only [zero_add]
        exact List.length_filter_le _ _
    · have hev : (publishBuildMapEvent env tiles1 events tile1).events = events := by
        simp [publishBuildMapEvent, hcount]
      refine ⟨?_, fun _ => hev, fun h => by rw [hev]; exact h⟩
      intro hnone
      exfalso
      apply hcount
      rw [CountEvents_eq_zero]
      intro e he
      rw [Bool.eq_false_iff]
      exact fun h => hnone e he ((buildMapEventFilter_iff _ e).mp h)

theorem publishBuildMapEvent_tiles (env : MapTaskEnv) (tiles : List Tile)
    (events : List Event) (tile : Tile) :
    (publishBuildMapEvent env tiles events tile).tiles = tiles := by
  unfold publishBuildMapEvent
  simp only []
  split <;> rfl

/-- The tiles after lines 78-147 when the tile was found and the file inserted: those
after the insertion, or those after the update of the geometry that follows it. -/
theorem storeTileFile_inserted (env : MapTaskEnv) (tiles tiles1 : List Tile)
    (events : List Event) (objectPath fileUse : String) (tileFile : TileFile)
    (tileInfo tile : Tile)
    (hparse : parseTileFromObjectPath env.cal objectPath = some tileInfo)
    (hfind : FindTile tiles (tileKeyFilter tileInfo) = some tile)
    (hins : InsertFileIntoTile tiles tile tileFile = (tiles1, none)) :
    (storeTileFile env tiles events objectPath fileUse tileFile).tiles = tiles1 ∨
    ∃ tile1, (storeTileFile env tiles events objectPath fileUse tileFile).tiles
      = (UpdateTileAttribute env.attributeNow tiles1 tile1 "geometry").1 := by
  simp only [storeTileFile, hparse, hfind, hins]
  by_cases hjson : fileUse = "jsonMeta"
  · simp only [hjson, if_true]
    cases hgeo : ParseDataGeometry env.sidecar tile objectPath with
    | mk tile1 err2 =>
      cases err2 with
      | some e => exact Or.inl rfl
      | none =>
        right
        refine ⟨tile1, ?_⟩
        simp only
        cases hupd : UpdateTileAttribute env.attributeNow tiles1 tile1 "geometry" with
        | mk tiles2 err3 =>
          cases err3 with
          | some e => rfl
          | none => exact publishBuildMapEvent_tiles env tiles2 events tile1
  · simp only [hjson, if_false]
    exact Or.inl (publishBuildMapEvent_tiles env tiles1 events tile)

/-- C13 at the first event of `TestRequestMapTask`. -/
theorem build_event_coalesced_witness :
    ((∀ e ∈ [exampleFileEvent], ¬ (e.EventType = "BuildBoundaryMapTask" ∧
          e.Data.lookup "mgrsCode" = some exampleTile.MgrsCode ∧
          e.Started = false ∧ e.Passed = false ∧ e.Failed = false)) →
      (RequestMapTask exampleMapTaskEnv [exampleTile] [exampleFileEvent]
          exampleFileEvent).events
        = [exampleFileEvent] ++ [{ Event.zero with
                        ID := exampleMapTaskEnv.save.newID,
                        UpdatedDate := NewDateTimeFromTime exampleMapTaskEnv.save.now,
                        EventType := "BuildBoundaryMapTask",
                        Priority := 4,
                        MaxAttemps := 1,
                        Data := [("mgrsCode", exampleTile.MgrsCode)] }]) ∧
    ((∃ e ∈ [exampleFileEvent], e.EventType = "BuildBoundaryMapTask" ∧
          e.Data.lookup "mgrsCode" = some exampleTile.MgrsCode ∧
          e.Started = false ∧ e.Passed = false ∧ e.Failed = false) →
      (RequestMapTask exampleMapTaskEnv [exampleTile] [exampleFileEvent]
          exampleFileEvent).events = [exampleFileEvent]) ∧
    (CountEvents [exampleFileEvent] (buildMapEventFilter exampleTile.MgrsCode) ≤ 1 →
      CountEvents (RequestMapTask exampleMapTaskEnv [exampleTile] [exampleFileEvent]
          exampleFileEvent).events
        (buildMapEventFilter exampleTile.MgrsCode) ≤ 1) :=
  build_event_coalesced exampleMapTaskEnv [exampleTile] [exampleFileEvent] exampleFileEvent
    "sentinel-s2-l2a-cogs/18/Q/ZG/2020/1/S2A_18QZG_20200129_0_L2A/B04.tif" exampleTileInfo
    exampleTile (by decide) (by decide) (by decide) (by decide)

/-- C15: for an event whose object path has eight segments and a scene name of five
parts with an integer fourth part, whose size is an integer, and whose tile exists and
does not hold the path yet, `RequestMapTask` appends the tile file (file use `jsonMeta`
when segment 7 is segment 6 with `.json`, else `satBand`; band segment 7; version and size
the integers; the object path) at the end of the files of that tile and leaves all other
files of all tiles as they are. -/
theorem tile_file_appended (env : MapTaskEnv) (tiles : List Tile) (events : List Event)
    (event : Event) (objectPath size : String) (sizeValue version : Int)
    (k0 k1 k2 k3 k4 k5 k6 k7 c0 c1 c2 c3 c4 : String) (tileInfo tile : Tile)
    (hids : (tiles.map Tile.ID).Nodup)
    (hpath : event.Data.lookup "objectPath" = some objectPath)
    (hsize : event.Data.lookup "size" = some size)
    (hsizeInt : Atoi (stringBytes size) = (sizeValue, none))
    (hsegs : Split objectPath '/' = [k0, k1, k2, k3, k4, k5, k6, k7])
    (hparts : Split k6 '_' = [c0, c1, c2, c3, c4])
    (hversion : Atoi (stringBytes c3) = (version, none))
    (hparse : parseTileFromObjectPath env.cal objectPath = some tileInfo)
    (hfind : FindTile tiles (tileKeyFilter tileInfo) = some tile)
    (hnew : ∀ f ∈ tile.Files, f.ObjectPath ≠ objectPath) :
    (RequestMapTask env tiles events event).tiles.map Tile.Files
        = tiles.map (fun d => if d.ID = tile.ID then
            d.Files ++ [{ FileUse := if k7 = k6 ++ ".json" then "jsonMeta" else "satBand",
                          Band := k7, Version := version, Size := sizeValue,
                          ObjectPath := objectPath }]
          else d.Files) ∧
      (RequestMapTask env tiles events event).tiles.map Tile.ID = tiles.map Tile.ID := by
  obtain ⟨hmem, _⟩ := FindTile_some hfind
  have hq : (tile.Files.all (fun f => f.ObjectPath != objectPath)) = true := by
    simpa using hnew
  have hins : InsertFileIntoTile tiles tile
        { FileUse := if k7 = k6 ++ ".json" then "jsonMeta" else "satBand",
          Band := k7, Version := version, Size := sizeValue, ObjectPath := objectPath }
      = (tiles.map (fun d => if d.ID = tile.ID then
            { d with Files := d.Files ++
              [{ FileUse := if k7 = k6 ++ ".json" then "jsonMeta" else "satBand",
                 Band := k7, Version := version, Size := sizeValue,
                 ObjectPath := objectPath }] }
          else d), none) := by
    simp only [InsertFileIntoTile]
    rw [findOneAndUpdateFirst_eq_map
      (fun d => d.Files.all (fun f => f.ObjectPath != objectPath)) _ tiles tile hids hmem hq]
  have hfiles : ∀ l : List Tile,
      l = tiles.map (fun d => if d.ID = tile.ID then
            { d with Files := d.Files ++
              [{ FileUse := if k7 = k6 ++ ".json" then "jsonMeta" else "satBand",
                 Band := k7, Version := version, Size := sizeValue,
                 ObjectPath := objectPath }] }
          else d) →
      l.map Tile.Files = tiles.map (fun d => if d.ID = tile.ID then
            d.Files ++ [{ FileUse := if k7 = k6 ++ ".json" then "jsonMeta" else "satBand",
                          Band := k7, Version := version, Size := sizeValue,
                          ObjectPath := objectPath }]
          else d.Files) ∧ l.map Tile.ID = tiles.map Tile.ID := by
    intro l hl
    subst hl
    simp only [List.map_map]
    constructor
    · apply List.map_congr_left
      intro d _
      by_cases hd : d.ID = tile.ID <;> simp [hd]
    · apply List.map_congr_left
      intro d _
      by_cases hd : d.ID = tile.ID <;> simp [hd]
  rw [RequestMapTask_parsed env tiles events event objectPath size sizeValue version
    k0 k1 k2 k3 k4 k5 k6 k7 c0 c1 c2 c3 c4 hpath hsize hsizeInt hsegs hparts hversion]
  rcases storeTileFile_inserted env tiles _ events objectPath _ _ tileInfo tile hparse hfind
    hins with h1 | ⟨tile1, h1⟩
  · rw [h1]
    exact hfiles _ rfl
  · rw [h1, UpdateTileAttribute_map Tile.Files _ _ _ _ (fun _ _ _ => rfl),
      UpdateTileAttribute_map Tile.ID _ _ _ _ (fun _ _ _ => rfl)]
    exact hfiles _ rfl

/-- C15 at the first event of `TestRequestMapTask`. -/
theorem tile_file_appended_witness :
    (RequestMapTask exampleMapTaskEnv [exampleTile, otherDayTile] [exampleFileEvent]
        exampleFileEvent).tiles.map Tile.Files
        = [exampleTile, otherDayTile].map (fun d => if d.ID = exampleTile.ID then
            d.Files ++ [{ FileUse := if "B04.tif" = "S2A_18QZG_20200129_0_L2A" ++ ".json"
                            then "jsonMeta" else "satBand",
                          Band := "B04.tif", Version := 0, Size := 99,
                          ObjectPath :=
                            "sentinel-s2-l2a-cogs/18/Q/ZG/2020/1/S2A_18QZG_20200129_0_L2A/B04.tif" }]
          else d.Files) ∧
      (RequestMapTask exampleMapTaskEnv [exampleTile, otherDayTile] [exampleFileEvent]
        exampleFileEvent).tiles.map Tile.ID = [exampleTile, otherDayTile].map Tile.ID :=
  tile_file_appended exampleMapTaskEnv [exampleTile, otherDayTile] [exampleFileEvent]
    exampleFileEvent "sentinel-s2-l2a-cogs/18/Q/ZG/2020/1/S2A_18QZG_20200129_0_L2A/B04.tif"
    "99" 99 0 "sentinel-s2-l2a-cogs" "18" "Q" "ZG" "2020" "1" "S2A_18QZG_20200129_0_L2A"
    "B04.tif" "S2A" "18QZG" "20200129" "0" "L2A" exampleTileInfo exampleTile
    (by decide) (by decide) (by decide) (by decide) (by decide) (by decide) (by decide)
    (by decide) (by decide) (by decide)

/-! ## Index discovery: lemmas -/

/-- What `recordIsConsumeable` has checked when it returns `true`. -/
theorem accepted_components {cal : Calendar} {record validUtmZones validFiles : List String}
    {startDate : Time}
    (h : recordIsConsumeable cal record validUtmZones validFiles startDate = some true) :
    ∃ f0 key f2 f3 k0 k1 k2 k3 k4 k5 k6 k7 c0 c1 c2 c3 c4 year month day,
      record = [f0, key, f2, f3] ∧
      Split key '/' = [k0, k1, k2, k3, k4, k5, k6, k7] ∧
      (k1 ++ k2) ∈ validUtmZones ∧ (k7 ∈ validFiles ∨ k7 = k6 ++ ".json") ∧
      Split k6 '_' = [c0, c1, c2, c3, c4] ∧
      (c0 ++ "-" ++ c4 = "S2A-L2A" ∨ c0 ++ "-" ++ c4 = "S2B-L2A") ∧
      6 ≤ (stringBytes c2).length ∧
      Atoi ((stringBytes c2).take 4) = (year, none) ∧
      Atoi (((stringBytes c2).drop 4).take 2) = (month, none) ∧
      Atoi ((stringBytes c2).drop 6) = (day, none) ∧
      startDate < cal.Date year month day := by
  unfold recordIsConsumeable at h
  split at h
  · simp at h
  · split at h
    · simp at h
    · rename_i key hkey
      split at h
      · simp at h
      · split at h
        · simp at h
        · rename_i hlen
          split at h
          · rename_i k0 k1 k2 k3 k4 k5 k6 k7 hsegs
            split at h
            · simp at h
            · rename_i hzone
              split at h
              · simp at h
              · rename_i hfile
                split at h
                · rename_i c0 c1 c2 c3 c4 hparts
                  simp only at h
                  split at h
                  · simp at h
                  · rename_i hsat
                    split at h
                    · simp at h
                    · rename_i hlen4
                      split at h
                      · simp at h
                      · rename_i year hyear
                        split at h
                        · simp at h
                        · rename_i hlen6
                          split at h
                          · simp at h
                          · rename_i month hmonth
                            split at h
                            · simp at h
                            · rename_i day hday
                              split at h
                              · simp at h
                              · rename_i hdate
                                have hrec : ∃ f0 f2 f3, record = [f0, key, f2, f3] := by
                                  match record, hkey, hlen with
                                  | [a, b, c, d], hk, _ =>
                                    simp at hk
                                    exact ⟨a, c, d, by rw [hk]⟩
                                  | [], hk, _ => simp at hk
                                  | [_], hk, _ => simp at hk
                                  | [_, _], _, hl => simp at hl
                                  | [_, _, _], _, hl => simp at hl
                                  | _ :: _ :: _ :: _ :: _ :: _, _, hl => simp at hl
                                obtain ⟨f0, f2, f3, hrec⟩ := hrec
                                refine ⟨f0, key, f2, f3, k0, k1, k2, k3, k4, k5, k6, k7,
                                  c0, c1, c2, c3, c4, year, month, day, hrec, hsegs, ?_, ?_,
                                  hparts, ?_, ?_, hyear, hmonth, hday, ?_⟩
                                · simpa using hzone
                                · simp only [Bool.and_eq_true, Bool.not_eq_true',
                                    not_and, bne_iff_ne, ne_eq] at hfile
                                  by_cases hk7 : k7 ∈ validFiles
                                  · exact Or.inl hk7
                                  · right
                                    by_contra hne
                                    exact hfile (by simpa using hk7) hne
                                · simp only [Bool.and_eq_true, bne_iff_ne, ne_eq,
                                    not_and, not_not] at hsat
                                  by_cases hA : c0 ++ "-" ++ c4 = "S2A-L2A"
                                  · exact Or.inl hA
                                  · exact Or.inr (hsat hA)
                                · omega
                                · simpa using hdate
                · simp at h
          · simp at h

/-- C17: a record that `recordIsConsumeable` accepts has exactly 4 fields; its key has
exactly 8 segments; segment 1 with segment 2 is a configured UTM zone; segment 7 is a
configured tile file or segment 6 with `.json`; segment 6 has exactly 5 parts, the first
and the last of which give `S2A-L2A` or `S2B-L2A`; and the date read from the third part
is strictly after the start date. -/
theorem accepted_record_satisfies_rules (cal : Calendar)
    (record validUtmZones validFiles : List String) (startDate : Time)
    (h : recordIsConsumeable cal record validUtmZones validFiles startDate = some true) :
    ∃ f0 key f2 f3 k0 k1 k2 k3 k4 k5 k6 k7 c0 c1 c2 c3 c4 year month day,
      record = [f0, key, f2, f3] ∧
      Split key '/' = [k0, k1, k2, k3, k4, k5, k6, k7] ∧
      (k1 ++ k2) ∈ validUtmZones ∧ (k7 ∈ validFiles ∨ k7 = k6 ++ ".json") ∧
      Split k6 '_' = [c0, c1, c2, c3, c4] ∧
      (c0 ++ "-" ++ c4 = "S2A-L2A" ∨ c0 ++ "-" ++ c4 = "S2B-L2A") ∧
      6 ≤ (stringBytes c2).length ∧
      Atoi ((stringBytes c2).take 4) = (year, none) ∧
      Atoi (((stringBytes c2).drop 4).take 2) = (month, none) ∧
      Atoi ((stringBytes c2).drop 6) = (day, none) ∧
      startDate < cal.Date year month day :=
  accepted_components h

/-- C17 at a row of the index file of `TestRequestCurrentIndexFilesTask`. -/
theorem accepted_record_satisfies_rules_witness :
    ∃ f0 key f2 f3 k0 k1 k2 k3 k4 k5 k6 k7 c0 c1 c2 c3 c4 year month day,
      exampleRecord = [f0, key, f2, f3] ∧
      Split key '/' = [k0, k1, k2, k3, k4, k5, k6, k7] ∧
      (k1 ++ k2) ∈ exampleSetting.UtmZones ∧
      (k7 ∈ exampleSetting.TileFiles ∨ k7 = k6 ++ ".json") ∧
      Split k6 '_' = [c0, c1, c2, c3, c4] ∧
      (c0 ++ "-" ++ c4 = "S2A-L2A" ∨ c0 ++ "-" ++ c4 = "S2B-L2A") ∧
      6 ≤ (stringBytes c2).length ∧
      Atoi ((stringBytes c2).take 4) = (year, none) ∧
      Atoi (((stringBytes c2).drop 4).take 2) = (month, none) ∧
      Atoi ((stringBytes c2).drop 6) = (day, none) ∧
      exampleSetting.TileStartDate.Time < utcCalendar.Date year month day :=
  accepted_record_satisfies_rules utcCalendar exampleRecord exampleSetting.UtmZones
    exampleSetting.TileFiles exampleSetting.TileStartDate.Time (by decide)

theorem digitValue_some {b : UInt8} {v : Nat} (h : digitValue b = some v) :
    v ≤ 9 ∧ b ≠ 45 ∧ b ≠ 43 := by
  unfold digitValue at h
  split at h
  · rename_i hb
    simp only [Option.some.injEq] at h
    refine ⟨by omega, ?_, ?_⟩
    · intro h45
      rw [h45] at hb
      exact absurd hb (by decide)
    · intro h43
      rw [h43] at hb
      exact absurd hb (by decide)
  · simp at h

/-- The number written by at most `k` digits after `acc` is below `(acc + 1) * 10 ^ k`. -/
theorem parseDigits_lt (bs : Bytes) (acc n : Nat) (h : parseDigits bs acc = some n) :
    n < (acc + 1) * 10 ^ bs.length := by
  induction bs generalizing acc with
  | nil =>
    simp only [parseDigits, Option.some.injEq] at h
    simp
    omega
  | cons b bs ih =>
    simp only [parseDigits] at h
    cases hv : digitValue b with
    | none => simp [hv] at h
    | some v =>
      simp only [hv] at h
      have h1 := ih _ h
      have hv9 := (digitValue_some hv).1
      have h2 : (acc * 10 + v + 1) * 10 ^ bs.length ≤ (acc + 1) * 10 * 10 ^ bs.length :=
        Nat.mul_le_mul_right _ (by omega)
      calc n < (acc * 10 + v + 1) * 10 ^ bs.length := h1
        _ ≤ (acc + 1) * 10 * 10 ^ bs.length := h2
        _ = (acc + 1) * 10 ^ (b :: bs).length := by
          rw [List.length_cons, pow_succ]
          ring

/-- The function `strconv.Atoi` on at most 18 digits without a sign. -/
theorem Atoi_digits (bs : Bytes) (n : Nat) (h : parseDigits bs 0 = some n) (hne : bs ≠ [])
    (hlen : bs.length ≤ 18) : Atoi bs = ((n : Int), none) := by
  cases bs with
  | nil => exact absurd rfl hne
  | cons b rest =>
    have hb : ∃ v, digitValue b = some v := by
      simp only [parseDigits] at h
      cases hv : digitValue b with
      | none => simp [hv] at h
      | some v => exact ⟨v, rfl⟩
    obtain ⟨v, hv⟩ := hb
    obtain ⟨_, h45, h43⟩ := digitValue_some hv
    have hbound := parseDigits_lt _ _ _ h
    have hpow : 10 ^ (b :: rest).length ≤ 10 ^ 18 := Nat.pow_le_pow_right (by norm_num) hlen
    have hn : ¬ n ≥ 9223372036854775808 := by
      have : n < 10 ^ 18 := by
        calc n < (0 + 1) * 10 ^ (b :: rest).length := hbound
          _ = 10 ^ (b :: rest).length := by ring
          _ ≤ 10 ^ 18 := hpow
      norm_num at this
      omega
    simp [Atoi, h45, h43, h, hn]

/-- C18, as stated, fails: a row of zone 39P with a valid file, satellite and date whose
key holds `39/P` but nowhere the text `39P` satisfies all per-row rules and is rejected by
the substring test of lines 309-317. -/
theorem row_rules_do_not_suffice :
    discoveryRowRules utcCalendar
        "sentinel-s2-l2a-cogs/39/P/UL/2019/9/S2A_00AAA_20190914_0_L2A/B04.tif"
        exampleSetting.UtmZones exampleSetting.TileFiles exampleSetting.TileStartDate ∧
      strayRecord.length = 4 ∧
      recordIsConsumeable utcCalendar strayRecord exampleSetting.UtmZones
        exampleSetting.TileFiles exampleSetting.TileStartDate.Time = some false :=
  ⟨⟨"sentinel-s2-l2a-cogs", "39", "P", "UL", "2019", "9", "S2A_00AAA_20190914_0_L2A",
      "B04.tif", "S2A", "00AAA", "20190914", "0", "L2A", 2019, 9, 14,
      by decide, by decide, by decide, by decide, by decide, by decide, by decide⟩,
    by decide, by decide⟩

/-- C18, amended: a 4-field record that satisfies all per-row rules of the discovery
filter and whose key contains one of the configured UTM zones as a substring is accepted
by `recordIsConsumeable`. -/
theorem rows_with_zone_text_accepted (cal : Calendar) (f0 key f2 f3 : String)
    (utmZones tileFiles : List String) (tileStartDate : DateTime)
    (hrules : discoveryRowRules cal key utmZones tileFiles tileStartDate)
    (hzone : ∃ zone ∈ utmZones, Contains key zone = true) :
    recordIsConsumeable cal [f0, key, f2, f3] utmZones tileFiles tileStartDate.Time
      = some true := by
  obtain ⟨s0, s1, s2, s3, s4, s5, s6, s7, p0, p1, p2, p3, p4, year, month, day, hsegs,
    hutm, hfile, hparts, hsat, ⟨hlen, hy, hm, hd, _⟩, hdate⟩ := hrules
  obtain ⟨zone, hzmem, hzc⟩ := hzone
  have hne : ¬ utmZones = [] := by
    intro h
    rw [h] at hzmem
    simp at hzmem
  have hany : (utmZones.any fun validUtmZone => Contains key validUtmZone) = true :=
    List.any_eq_true.mpr ⟨zone, hzmem, hzc⟩
  have hcontains : utmZones.contains (s1 ++ s2) = true := by simpa using hutm
  have hfile2 : ¬ (s7 ∉ tileFiles ∧ ¬ s7 = s6 ++ ".json") := by
    rcases hfile with h | h
    · exact fun hn => hn.1 h
    · exact fun hn => hn.2 h
  have hsat2 : (p0 ++ "-" ++ p4 != "S2A-L2A" && p0 ++ "-" ++ p4 != "S2B-L2A") = false := by
    rcases hsat with h | h <;> simp [h]
  have hyear : Atoi ((stringBytes p2).take 4) = ((year : Int), none) := by
    apply Atoi_digits _ _ hy
    · intro h
      have := congrArg List.length h
      simp [hlen] at this
    · simp only [List.length_take]
      omega
  have hmonth : Atoi (((stringBytes p2).drop 4).take 2) = ((month : Int), none) := by
    apply Atoi_digits _ _ hm
    · intro h
      have := congrArg List.length h
      simp [hlen] at this
    · simp only [List.length_take, List.length_drop]
      omega
  have hday : Atoi ((stringBytes p2).drop 6) = ((day : Int), none) := by
    apply Atoi_digits _ _ hd
    · intro h
      have := congrArg List.length h
      simp [hlen] at this
    · simp only [List.length_drop]
      omega
  have h4 : ¬ (stringBytes p2).length < 4 := by omega
  have h6 : ¬ (stringBytes p2).length < 6 := by omega
  have hgt : cal.Date year month day > tileStartDate.Time := hdate
  simp [recordIsConsumeable, hne, hany, hsegs, hcontains, hutm, hfile2, hparts, hsat2, h4,
    hyear, h6, hmonth, hday, hgt]

/-- C18 amended, at a row of the index file of `TestRequestCurrentIndexFilesTask`. -/
theorem rows_with_zone_text_accepted_witness :
    discoveryRowRules utcCalendar
        "sentinel-s2-l2a-cogs/39/P/UL/2019/9/S2A_39PUL_20190914_0_L2A/B04.tif"
        exampleSetting.UtmZones exampleSetting.TileFiles exampleSetting.TileStartDate ∧
      recordIsConsumeable utcCalendar
        ["sentinel-cogs",
          "sentinel-s2-l2a-cogs/39/P/UL/2019/9/S2A_39PUL_20190914_0_L2A/B04.tif", "99",
          "etag"]
        exampleSetting.UtmZones exampleSetting.TileFiles exampleSetting.TileStartDate.Time
        = some true :=
  have hrules : discoveryRowRules utcCalendar
      "sentinel-s2-l2a-cogs/39/P/UL/2019/9/S2A_39PUL_20190914_0_L2A/B04.tif"
      exampleSetting.UtmZones exampleSetting.TileFiles exampleSetting.TileStartDate :=
    ⟨"sentinel-s2-l2a-cogs", "39", "P", "UL", "2019", "9", "S2A_39PUL_20190914_0_L2A",
      "B04.tif", "S2A", "39PUL", "20190914", "0", "L2A", 2019, 9, 14,
      by decide, by decide, by decide, by decide, by decide, by decide, by decide⟩
  ⟨hrules,
    rows_with_zone_text_accepted utcCalendar "sentinel-cogs"
      "sentinel-s2-l2a-cogs/39/P/UL/2019/9/S2A_39PUL_20190914_0_L2A/B04.tif" "99" "etag"
      exampleSetting.UtmZones exampleSetting.TileFiles exampleSetting.TileStartDate hrules
      ⟨"39P", by decide, by decide⟩⟩

/-- C19: `recordIsConsumeable` panics on a record of one field (line 311 reads `record[1]`
before line 319 checks the length) and on a date part of four or of two characters (lines
347 and 351 slice it unchecked), and it accepts a date part of seven characters. -/
theorem malformed_rows_panic :
    recordIsConsumeable utcCalendar ["sentinel-cogs"] exampleSetting.UtmZones
        exampleSetting.TileFiles exampleSetting.TileStartDate.Time = none ∧
      recordIsConsumeable utcCalendar
        ["sentinel-cogs",
          "sentinel-s2-l2a-cogs/39/P/UL/2019/9/S2A_39PUL_2019_0_L2A/B04.tif", "99", "etag"]
        exampleSetting.UtmZones exampleSetting.TileFiles exampleSetting.TileStartDate.Time
        = none ∧
      recordIsConsumeable utcCalendar
        ["sentinel-cogs",
          "sentinel-s2-l2a-cogs/39/P/UL/2019/9/S2A_39PUL_19_0_L2A/B04.tif", "99", "etag"]
        exampleSetting.UtmZones exampleSetting.TileFiles exampleSetting.TileStartDate.Time
        = none ∧
      recordIsConsumeable utcCalendar
        ["sentinel-cogs",
          "sentinel-s2-l2a-cogs/39/P/UL/2019/9/S2A_39PUL_2019091_0_L2A/B04.tif", "99",
          "etag"]
        exampleSetting.UtmZones exampleSetting.TileFiles exampleSetting.TileStartDate.Time
        = some true := by
  decide

/-! ## The unique key of a tile: lemmas -/

theorem digitChar_injective_lt :
    ∀ a < 10, ∀ b < 10, Nat.digitChar a = Nat.digitChar b → a = b := by
  decide

theorem digitChar_ne_dash : ∀ a < 10, Nat.digitChar a ≠ '-' := by
  decide

theorem map_digitChar_injective (l1 l2 : List Nat) (h1 : ∀ x ∈ l1, x < 10)
    (h2 : ∀ x ∈ l2, x < 10) (h : l1.map Nat.digitChar = l2.map Nat.digitChar) : l1 = l2 := by
  induction l1 generalizing l2 with
  | nil =>
    cases l2 with
    | nil => rfl
    | cons b bs => simp at h
  | cons a as ih =>
    cases l2 with
    | nil => simp at h
    | cons b bs =>
      simp only [List.map_cons, List.cons.injEq] at h
      have hab := digitChar_injective_lt a (h1 a (List.mem_cons_self _ _)) b
        (h2 b (List.mem_cons_self _ _)) h.1
      have hrest := ih bs (fun x hx => h1 x (List.mem_cons_of_mem _ hx))
        (fun x hx => h2 x (List.mem_cons_of_mem _ hx)) h.2
      rw [hab, hrest]

theorem decimalChars_injective (a b : Nat) (h : decimalChars a = decimalChars b) : a = b := by
  unfold decimalChars at h
  have h1 := List.reverse_injective h
  have h2 := map_digitChar_injective _ _
    (fun x hx => Nat.digits_lt_base (by norm_num) hx)
    (fun x hx => Nat.digits_lt_base (by norm_num) hx) h1
  exact Nat.digits.injective 10 h2

theorem decimalChars_ne_dash (n : Nat) : ∀ c ∈ decimalChars n, c ≠ '-' := by
  intro c hc
  unfold decimalChars at hc
  rw [List.mem_reverse, List.mem_map] at hc
  obtain ⟨d, hd, rfl⟩ := hc
  exact digitChar_ne_dash d (Nat.digits_lt_base (by norm_num) hd)

theorem decimalChars_ne_nil (n : Nat) : decimalChars (n + 1) ≠ [] := by
  unfold decimalChars
  intro h
  rw [List.reverse_eq_nil_iff, List.map_eq_nil_iff] at h
  exact (Nat.digits_ne_nil_iff_ne_zero.mpr (Nat.succ_ne_zero n)) h

/-- Two texts split at their first `-` in the same way. -/
theorem append_dash_inj (u v x y : List Char) (hu : ∀ c ∈ u, c ≠ '-')
    (hv : ∀ c ∈ v, c ≠ '-') (h : u ++ '-' :: x = v ++ '-' :: y) : u = v ∧ x = y := by
  induction u generalizing v with
  | nil =>
    cases v with
    | nil =>
      simp only [List.nil_append, List.cons.injEq, true_and] at h
      exact ⟨rfl, h⟩
    | cons b bs =>
      simp only [List.nil_append, List.cons_append, List.cons.injEq] at h
      exact absurd h.1.symm (hv b (List.mem_cons_self _ _))
  | cons a as ih =>
    cases v with
    | nil =>
      simp only [List.nil_append, List.cons_append, List.cons.injEq] at h
      exact absurd h.1 (hu a (List.mem_cons_self _ _))
    | cons b bs =>
      simp only [List.cons_append, List.cons.injEq] at h
      obtain ⟨h1, h2⟩ := ih bs (fun c hc => hu c (List.mem_cons_of_mem _ hc))
        (fun c hc => hv c (List.mem_cons_of_mem _ hc)) h.2
      exact ⟨by rw [h.1, h1], h2⟩

theorem natChars_ne_dash (n : Nat) : ∀ c ∈ natChars n, c ≠ '-' := by
  cases n with
  | zero =>
    intro c hc
    simp only [natChars, List.mem_singleton] at hc
    rw [hc]
    decide
  | succ m => exact decimalChars_ne_dash (m + 1)

theorem natChars_ne_nil (n : Nat) : natChars n ≠ [] := by
  cases n with
  | zero => simp [natChars]
  | succ m => exact decimalChars_ne_nil m

/-- A positive number is not printed as `0`. -/
theorem decimalChars_succ_ne_zero (m : Nat) : decimalChars (m + 1) ≠ ['0'] := by
  intro h
  unfold decimalChars at h
  have h1 : (Nat.digits 10 (m + 1)).map Nat.digitChar = ['0'] := by
    have := congrArg List.reverse h
    simpa using this
  have hlt : ∀ x ∈ Nat.digits 10 (m + 1), x < 10 :=
    fun x hx => Nat.digits_lt_base (by norm_num) hx
  have h2 : Nat.digits 10 (m + 1) = [0] :=
    map_digitChar_injective _ [0] hlt (by simp) (by simpa using h1)
  have h3 := Nat.getLast_digit_ne_zero 10 (Nat.succ_ne_zero m)
  have hlast : ∀ (l : List Nat) (hl : l ≠ []), l = [0] → l.getLast hl = 0 := by
    intro l hl hl0
    subst hl0
    rfl
  exact h3 (hlast _ _ h2)

theorem natChars_injective (a b : Nat) (h : natChars a = natChars b) : a = b := by
  cases a with
  | zero =>
    cases b with
    | zero => rfl
    | succ n => exact absurd h.symm (decimalChars_succ_ne_zero n)
  | succ m =>
    cases b with
    | zero => exact absurd h (decimalChars_succ_ne_zero m)
    | succ n => exact decimalChars_injective _ _ h

/-- A number printed by `%d` and followed by `-` can be read back. -/
theorem formatInt_dash_inj (a b : Int) (x y : List Char)
    (h : (formatInt a).data ++ '-' :: x = (formatInt b).data ++ '-' :: y) : a = b ∧ x = y := by
  cases a with
  | ofNat m =>
    cases b with
    | ofNat n =>
      obtain ⟨h1, h2⟩ := append_dash_inj _ _ x y (natChars_ne_dash m) (natChars_ne_dash n) h
      exact ⟨by rw [natChars_injective m n h1], h2⟩
    | negSucc n =>
      exfalso
      simp only [formatInt, List.cons_append] at h
      cases hm : natChars m with
      | nil => exact natChars_ne_nil m hm
      | cons c cs =>
        rw [hm] at h
        simp only [List.cons_append, List.cons.injEq] at h
        exact natChars_ne_dash m c (by rw [hm]; exact List.mem_cons_self _ _) h.1
  | negSucc m =>
    cases b with
    | ofNat n =>
      exfalso
      simp only [formatInt, List.cons_append] at h
      cases hn : natChars n with
      | nil => exact natChars_ne_nil n hn
      | cons c cs =>
        rw [hn] at h
        simp only [List.cons_append, List.cons.injEq] at h
        exact natChars_ne_dash n c (by rw [hn]; exact List.mem_cons_self _ _) h.1.symm
    | negSucc n =>
      simp only [formatInt, List.cons_append, List.cons.injEq, true_and] at h
      obtain ⟨h1, h2⟩ := append_dash_inj _ _ x y (natChars_ne_dash (m + 1))
        (natChars_ne_dash (n + 1)) h
      have := natChars_injective _ _ h1
      exact ⟨by rw [Nat.succ_injective this], h2⟩

/-- The characters of the unique key of a tile. -/
theorem UniqueKey_data (cal : Calendar) (t : Tile) :
    (t.UniqueKey cal).data
      = (formatInt (cal.YearMonthDay t.Date).1).data ++ '-' ::
          ((formatInt (cal.YearMonthDay t.Date).2.1).data ++ '-' ::
            ((formatInt (cal.YearMonthDay t.Date).2.2).data ++ '-' ::
              (t.MgrsCode.data ++ '-' :: t.SourceSatellite.data))) := by
  simp [Tile.UniqueKey, String.data_append, List.append_assoc]

/-- Tiles of the two satellites with equal unique keys have the same calendar day, the
same MGRS code and the same source satellite. -/
theorem UniqueKey_inj (cal : Calendar) (a b : Tile)
    (ha : a.SourceSatellite = "S2A-L2A" ∨ a.SourceSatellite = "S2B-L2A")
    (hb : b.SourceSatellite = "S2A-L2A" ∨ b.SourceSatellite = "S2B-L2A")
    (h : a.UniqueKey cal = b.UniqueKey cal) :
    cal.YearMonthDay a.Date = cal.YearMonthDay b.Date ∧ a.MgrsCode = b.MgrsCode ∧
      a.SourceSatellite = b.SourceSatellite := by
  have hdata := congrArg String.data h
  rw [UniqueKey_data, UniqueKey_data] at hdata
  obtain ⟨hy, h1⟩ := formatInt_dash_inj _ _ _ _ hdata
  obtain ⟨hm, h2⟩ := formatInt_dash_inj _ _ _ _ h1
  obtain ⟨hd, h3⟩ := formatInt_dash_inj _ _ _ _ h2
  have hlen : ('-' :: a.SourceSatellite.data).length = ('-' :: b.SourceSatellite.data).length := by
    rcases ha with ha | ha <;> rcases hb with hb | hb <;> rw [ha, hb] <;> rfl
  obtain ⟨h4, h5⟩ := List.append_inj' h3 hlen
  simp only [List.cons.injEq, true_and] at h5
  refine ⟨?_, String.ext h4, String.ext h5⟩
  exact Prod.ext hy (Prod.ext hm hd)

/-- The unique key depends on the date, the MGRS code and the source satellite only. -/
theorem UniqueKey_congr (cal : Calendar) (a b : Tile) (hd : a.Date = b.Date)
    (hm : a.MgrsCode = b.MgrsCode) (hs : a.SourceSatellite = b.SourceSatellite) :
    a.UniqueKey cal = b.UniqueKey cal := by
  simp only [Tile.UniqueKey, hd, hm, hs]

/-! ## The tiles of an index file: lemmas -/

/-- The tile that `parseTileFromRecord` reads from an accepted record. -/
theorem accepted_parse {cal : Calendar} {record validUtmZones validFiles : List String}
    {startDate : Time}
    (h : recordIsConsumeable cal record validUtmZones validFiles startDate = some true) :
    ∃ f0 key f2 f3 k0 k1 k2 k3 k4 k5 k6 k7 c0 c1 c2 c3 c4 year month day,
      record = [f0, key, f2, f3] ∧
      Split key '/' = [k0, k1, k2, k3, k4, k5, k6, k7] ∧
      Split k6 '_' = [c0, c1, c2, c3, c4] ∧
      (c0 ++ "-" ++ c4 = "S2A-L2A" ∨ c0 ++ "-" ++ c4 = "S2B-L2A") ∧
      Atoi ((stringBytes c2).take 4) = (year, none) ∧
      Atoi (((stringBytes c2).drop 4).take 2) = (month, none) ∧
      Atoi ((stringBytes c2).drop 6) = (day, none) ∧
      parseTileFromRecord cal record
        = some { Tile.zero with
                  Date := NewDateTimeFromTime (cal.Date year month day),
                  MgrsCode := k1 ++ k2 ++ k3,
                  SourceSatellite := c0 ++ "-" ++ c4 } := by
  obtain ⟨f0, key, f2, f3, k0, k1, k2, k3, k4, k5, k6, k7, c0, c1, c2, c3, c4, year, month,
    day, hrec, hsegs, _, _, hparts, hsat, hlen, hy, hm, hd, _⟩ := accepted_components h
  refine ⟨f0, key, f2, f3, k0, k1, k2, k3, k4, k5, k6, k7, c0, c1, c2, c3, c4, year, month,
    day, hrec, hsegs, hparts, hsat, hy, hm, hd, ?_⟩
  have h6 : ¬ (stringBytes c2).length < 6 := by omega
  subst hrec
  simp [parseTileFromRecord, parseTileFromObjectPath, hsegs, hparts, h6, hy, hm, hd]

/-- The loop of `CreateTilesFromCsvIndexFile` on records that do not make it panic: it
ends; every new entry is the tile of an accepted record under its unique key; the keys
stay different; the old entries stay; the key of every accepted record is present. -/
theorem collectTiles_spec (cal : Calendar) (setting : Setting) (records : List (List String))
    (tileMap : List (String × Tile))
    (hnopanic : ∀ r ∈ records, recordIsConsumeable cal r setting.UtmZones setting.TileFiles
      setting.TileStartDate.Time ≠ none) :
    ∃ out, collectTiles cal setting (records.map Except.ok) tileMap = some (.ok out) ∧
      (∀ e ∈ out, e ∈ tileMap ∨ ∃ r ∈ records,
        recordIsConsumeable cal r setting.UtmZones setting.TileFiles
          setting.TileStartDate.Time = some true ∧
        parseTileFromRecord cal r = some e.2 ∧ e.1 = e.2.UniqueKey cal) ∧
      ((tileMap.map Prod.fst).Nodup → (out.map Prod.fst).Nodup) ∧
      (∀ e ∈ tileMap, e ∈ out) ∧
      (∀ r ∈ records,
        recordIsConsumeable cal r setting.UtmZones setting.TileFiles
          setting.TileStartDate.Time = some true →
        ∃ t, parseTileFromRecord cal r = some t ∧ ∃ e ∈ out, e.1 = t.UniqueKey cal) := by
  induction records generalizing tileMap with
  | nil =>
    exact ⟨tileMap, rfl, fun e he => Or.inl he, fun h => h, fun e he => he,
      fun r hr => by simp at hr⟩
  | cons record rest ih =>
    have hrest : ∀ r ∈ rest, recordIsConsumeable cal r setting.UtmZones setting.TileFiles
        setting.TileStartDate.Time ≠ none :=
      fun r hr => hnopanic r (List.mem_cons_of_mem _ hr)
    cases hacc : recordIsConsumeable cal record setting.UtmZones setting.TileFiles
        setting.TileStartDate.Time with
    | none => exact absurd hacc (hnopanic record (List.mem_cons_self _ _))
    | some accepted =>
      cases accepted with
      | false =>
        obtain ⟨out, h1, h2, h3, h4, h5⟩ := ih tileMap hrest
        refine ⟨out, by simp only [List.map_cons, collectTiles, hacc, h1], ?_, h3, h4, ?_⟩
        · intro e he
          rcases h2 e he with h | ⟨r, hr, hrr⟩
          · exact Or.inl h
          · exact Or.inr ⟨r, List.mem_cons_of_mem _ hr, hrr⟩
        · intro r hr hracc
          rcases List.mem_cons.mp hr with rfl | hr
          · rw [hacc] at hracc
            simp at hracc
          · exact h5 r hr hracc
      | true =>
        obtain ⟨tile, hparse⟩ : ∃ tile, parseTileFromRecord cal record = some tile := by
          obtain ⟨_, _, _, _, _, _, _, _, _, _, _, _, _, _, _, _, _, _, _, _, _, _, _, _, _,
            _, _, hp⟩ := accepted_parse hacc
          exact ⟨_, hp⟩
        by_cases hkey : (tileMap.any fun entry => entry.1 == Tile.UniqueKey cal tile) = true
        · obtain ⟨out, h1, h2, h3, h4, h5⟩ := ih tileMap hrest
          refine ⟨out, by simp only [List.map_cons, collectTiles, hacc, hparse, hkey, if_true,
            h1], ?_, h3, h4, ?_⟩
          · intro e he
            rcases h2 e he with h | ⟨r, hr, hrr⟩
            · exact Or.inl h
            · exact Or.inr ⟨r, List.mem_cons_of_mem _ hr, hrr⟩
          · intro r hr hracc
            rcases List.mem_cons.mp hr with rfl | hr
            · obtain ⟨e, he, hek⟩ := List.any_eq_true.mp hkey
              exact ⟨_, hparse, e, h4 e he, by simpa using hek⟩
            · exact h5 r hr hracc
        · obtain ⟨out, h1, h2, h3, h4, h5⟩ := ih (tileMap ++ [(Tile.UniqueKey cal tile, tile)])
            hrest
          refine ⟨out, by simp only [List.map_cons, collectTiles, hacc, hparse, hkey,
            Bool.false_eq_true, if_false, h1], ?_, ?_, ?_, ?_⟩
          · intro e he
            rcases h2 e he with h | ⟨r, hr, hrr⟩
            · rcases List.mem_append.mp h with h | h
              · exact Or.inl h
              · simp only [List.mem_singleton] at h
                subst h
                exact Or.inr ⟨record, List.mem_cons_self _ _, hacc, hparse, rfl⟩
            · exact Or.inr ⟨r, List.mem_cons_of_mem _ hr, hrr⟩
          · intro hnd
            apply h3
            rw [List.map_append, List.nodup_append]
            refine ⟨hnd, by simp, ?_⟩
            intro k hk hk2
            simp only [List.map_cons, List.map_nil, List.mem_singleton] at hk2
            apply hkey
            obtain ⟨e, he, hek⟩ := List.mem_map.mp hk
            exact List.any_eq_true.mpr ⟨e, he, by simp [hek, hk2]⟩
          · intro e he
            exact h4 e (List.mem_append_left _ he)
          · intro r hr hracc
            rcases List.mem_cons.mp hr with rfl | hr
            · exact ⟨_, hparse, _, h4 _ (List.mem_append_right _ (List.mem_singleton_self _)),
                rfl⟩
            · exact h5 r hr hracc

/-- The tiles of a listing that is read without an error, on records that do not make
`recordIsConsumeable` panic: `CreateTilesFromCsvIndexFile` returns tiles such that every
tile is the tile of an accepted row among the records that the CSV reader reads from the
lines that the line filter lets through (MGRS code segments 1, 2 and 3 of the key, source
satellite the first and the last part of the scene name joined by `-`, date the
`time.Date` of the year, month and day read from the third part, nothing else set, so no
files); no two returned tiles have the same date, MGRS code and source satellite; and the
date, MGRS code and source satellite of every accepted row are those of a returned tile,
provided that accepted rows of different dates fall on different calendar days in the
zone of the process. -/
theorem tiles_of_index_file (cal : Calendar) (env : IndexFileEnv)
    (compressedCsvIndexFileName : String) (lines : List String) (keep : String → Bool)
    (records : List (List String)) (setting : Setting)
    (hopen : env.Open compressedCsvIndexFileName = none)
    (hgzip : env.NewReader compressedCsvIndexFileName = .ok lines)
    (hfilter : env.NewCSVLineFilter (lineFilterRegularExpression setting) = .ok keep)
    (hread : env.Read (lines.filter keep) = records.map Except.ok)
    (hnopanic : ∀ r ∈ records, recordIsConsumeable cal r setting.UtmZones setting.TileFiles
      setting.TileStartDate.Time ≠ none)
    (hdays : ∀ r1 ∈ records, ∀ r2 ∈ records,
      recordIsConsumeable cal r1 setting.UtmZones setting.TileFiles
        setting.TileStartDate.Time = some true →
      recordIsConsumeable cal r2 setting.UtmZones setting.TileFiles
        setting.TileStartDate.Time = some true →
      (parseTileFromRecord cal r1).map (fun t => cal.YearMonthDay t.Date)
        = (parseTileFromRecord cal r2).map (fun t => cal.YearMonthDay t.Date) →
      (parseTileFromRecord cal r1).map Tile.Date
        = (parseTileFromRecord cal r2).map Tile.Date) :
    ∃ tiles, CreateTilesFromCsvIndexFile cal env compressedCsvIndexFileName setting
        = some (.ok tiles) ∧
      (∀ t ∈ tiles, ∃ r ∈ records,
        ∃ f0 key f2 f3 k0 k1 k2 k3 k4 k5 k6 k7 c0 c1 c2 c3 c4 year month day,
          recordIsConsumeable cal r setting.UtmZones setting.TileFiles
            setting.TileStartDate.Time = some true ∧
          r = [f0, key, f2, f3] ∧
          Split key '/' = [k0, k1, k2, k3, k4, k5, k6, k7] ∧
          Split k6 '_' = [c0, c1, c2, c3, c4] ∧
          Atoi ((stringBytes c2).take 4) = (year, none) ∧
          Atoi (((stringBytes c2).drop 4).take 2) = (month, none) ∧
          Atoi ((stringBytes c2).drop 6) = (day, none) ∧
          t = { Tile.zero with
                Date := NewDateTimeFromTime (cal.Date year month day),
                MgrsCode := k1 ++ k2 ++ k3,
                SourceSatellite := c0 ++ "-" ++ c4 }) ∧
      tiles.Pairwise (fun a b => ¬ (a.Date = b.Date ∧ a.MgrsCode = b.MgrsCode ∧
        a.SourceSatellite = b.SourceSatellite)) ∧
      (∀ r ∈ records,
        recordIsConsumeable cal r setting.UtmZones setting.TileFiles
          setting.TileStartDate.Time = some true →
        ∃ t1, parseTileFromRecord cal r = some t1 ∧
          ∃ t ∈ tiles, t.Date = t1.Date ∧ t.MgrsCode = t1.MgrsCode ∧
            t.SourceSatellite = t1.SourceSatellite) ∧
      (∀ t ∈ tiles, t.Files = []) := by
  obtain ⟨out, h1, h2, h3, _, h5⟩ := collectTiles_spec cal setting records [] hnopanic
  -- every entry is the tile of an accepted record under its unique key
  have hentry : ∀ e ∈ out, ∃ r ∈ records,
      recordIsConsumeable cal r setting.UtmZones setting.TileFiles
        setting.TileStartDate.Time = some true ∧
      parseTileFromRecord cal r = some e.2 ∧ e.1 = e.2.UniqueKey cal := by
    intro e he
    rcases h2 e he with h | h
    · simp at h
    · exact h
  -- the tile of an accepted record is of one of the two satellites
  have hsat : ∀ r t, recordIsConsumeable cal r setting.UtmZones setting.TileFiles
        setting.TileStartDate.Time = some true → parseTileFromRecord cal r = some t →
      (t.SourceSatellite = "S2A-L2A" ∨ t.SourceSatellite = "S2B-L2A") ∧ t.Files = [] := by
    intro r t hacc hp
    obtain ⟨_, _, _, _, _, _, _, _, _, _, _, _, c0, _, _, _, c4, _, _, _, _, _, _, hs, _, _,
      _, hp2⟩ := accepted_parse hacc
    rw [hp] at hp2
    simp only [Option.some.injEq] at hp2
    rw [hp2]
    exact ⟨hs, rfl⟩
  refine ⟨out.map Prod.snd, by simp only [CreateTilesFromCsvIndexFile, hopen, hgzip, hfilter,
    hread, h1], ?_, ?_, ?_, ?_⟩
  · intro t ht
    obtain ⟨e, he, rfl⟩ := List.mem_map.mp ht
    obtain ⟨r, hr, hacc, hp, _⟩ := hentry e he
    obtain ⟨f0, key, f2, f3, k0, k1, k2, k3, k4, k5, k6, k7, c0, c1, c2, c3, c4, year, month,
      day, hrec, hsegs, hparts, _, hy, hm, hd, hp2⟩ := accepted_parse hacc
    rw [hp] at hp2
    simp only [Option.some.injEq] at hp2
    exact ⟨r, hr, f0, key, f2, f3, k0, k1, k2, k3, k4, k5, k6, k7, c0, c1, c2, c3, c4, year,
      month, day, hacc, hrec, hsegs, hparts, hy, hm, hd, hp2⟩
  · rw [List.pairwise_map]
    have hnd : out.Pairwise (fun a b => a.1 ≠ b.1) := by
      have := h3 (by simp)
      rwa [List.Nodup, List.pairwise_map] at this
    refine List.Pairwise.imp_of_mem ?_ hnd
    intro a b ha hb hne hsame
    obtain ⟨_, _, _, _, hka⟩ := hentry a ha
    obtain ⟨_, _, _, _, hkb⟩ := hentry b hb
    apply hne
    rw [hka, hkb]
    exact UniqueKey_congr cal a.2 b.2 hsame.1 hsame.2.1 hsame.2.2
  · intro r hr hacc
    obtain ⟨t1, hp1, e, he, hk⟩ := h5 r hr hacc
    obtain ⟨r0, hr0, hacc0, hp0, hk0⟩ := hentry e he
    have hkeys : e.2.UniqueKey cal = t1.UniqueKey cal := by rw [← hk0, hk]
    obtain ⟨hday, hmgrs, hsatEq⟩ := UniqueKey_inj cal e.2 t1 (hsat r0 e.2 hacc0 hp0).1
      (hsat r t1 hacc hp1).1 hkeys
    have hdate := hdays r0 hr0 r hr hacc0 hacc (by rw [hp0, hp1]; simp [hday])
    rw [hp0, hp1] at hdate
    simp only [Option.map_some', Option.some.injEq] at hdate
    exact ⟨t1, hp1, e.2, List.mem_map_of_mem _ he, hdate, hmgrs, hsatEq⟩
  · intro t ht
    obtain ⟨e, he, rfl⟩ := List.mem_map.mp ht
    obtain ⟨r, _, hacc, hp, _⟩ := hentry e he
    exact (hsat r e.2 hacc hp).2

/-- The tiles of the index file of the examples, for a process in UTC. -/
theorem tiles_of_example_index_file :
    ∃ tiles, CreateTilesFromCsvIndexFile utcCalendar exampleIndexEnv "index.csv.gz"
        exampleSetting = some (.ok tiles) ∧
      (∀ t ∈ tiles, ∃ r ∈ exampleReadRecords,
        ∃ f0 key f2 f3 k0 k1 k2 k3 k4 k5 k6 k7 c0 c1 c2 c3 c4 year month day,
          recordIsConsumeable utcCalendar r exampleSetting.UtmZones exampleSetting.TileFiles
            exampleSetting.TileStartDate.Time = some true ∧
          r = [f0, key, f2, f3] ∧
          Split key '/' = [k0, k1, k2, k3, k4, k5, k6, k7] ∧
          Split k6 '_' = [c0, c1, c2, c3, c4] ∧
          Atoi ((stringBytes c2).take 4) = (year, none) ∧
          Atoi (((stringBytes c2).drop 4).take 2) = (month, none) ∧
          Atoi ((stringBytes c2).drop 6) = (day, none) ∧
          t = { Tile.zero with
                Date := NewDateTimeFromTime (utcCalendar.Date year month day),
                MgrsCode := k1 ++ k2 ++ k3,
                SourceSatellite := c0 ++ "-" ++ c4 }) ∧
      tiles.Pairwise (fun a b => ¬ (a.Date = b.Date ∧ a.MgrsCode = b.MgrsCode ∧
        a.SourceSatellite = b.SourceSatellite)) ∧
      (∀ r ∈ exampleReadRecords,
        recordIsConsumeable utcCalendar r exampleSetting.UtmZones exampleSetting.TileFiles
          exampleSetting.TileStartDate.Time = some true →
        ∃ t1, parseTileFromRecord utcCalendar r = some t1 ∧
          ∃ t ∈ tiles, t.Date = t1.Date ∧ t.MgrsCode = t1.MgrsCode ∧
            t.SourceSatellite = t1.SourceSatellite) ∧
      (∀ t ∈ tiles, t.Files = []) :=
  tiles_of_index_file utcCalendar exampleIndexEnv "index.csv.gz" exampleIndexLines
    (fun line => Contains line "_39P" || Contains line "_18Q") exampleReadRecords
    exampleSetting (by decide) (by decide) (by rfl) (by decide) (by decide) (by decide)

/-- The loop of `CreateTilesFromCsvIndexFile` returns the first error of the CSV reader
when the records before it do not make it panic. -/
theorem collectTiles_error (cal : Calendar) (setting : Setting) (err : GoError)
    (rest : List (Except GoError (List String))) :
    ∀ (pre : List (List String)) (tileMap : List (String × Tile)),
      (∀ r ∈ pre, recordIsConsumeable cal r setting.UtmZones setting.TileFiles
        setting.TileStartDate.Time ≠ none) →
      collectTiles cal setting (pre.map Except.ok ++ .error err :: rest) tileMap
        = some (.error err) := by
  intro pre
  induction pre with
  | nil => intro tileMap _; simp [collectTiles]
  | cons record more ih =>
    intro tileMap hnopanic
    have hmore : ∀ r ∈ more, recordIsConsumeable cal r setting.UtmZones setting.TileFiles
        setting.TileStartDate.Time ≠ none :=
      fun r hr => hnopanic r (List.mem_cons_of_mem _ hr)
    cases hacc : recordIsConsumeable cal record setting.UtmZones setting.TileFiles
        setting.TileStartDate.Time with
    | none => exact absurd hacc (hnopanic record (List.mem_cons_self _ _))
    | some accepted =>
      cases accepted with
      | false =>
        simp only [List.map_cons, List.cons_append, collectTiles, hacc]
        exact ih tileMap hmore
      | true =>
        obtain ⟨tile, hparse⟩ : ∃ tile, parseTileFromRecord cal record = some tile := by
          obtain ⟨_, _, _, _, _, _, _, _, _, _, _, _, _, _, _, _, _, _, _, _, _, _, _, _, _,
            _, _, hp⟩ := accepted_parse hacc
          exact ⟨_, hp⟩
        simp only [List.map_cons, List.cons_append, collectTiles, hacc, hparse]
        split
        · exact ih tileMap hmore
        · exact ih _ hmore

/-- What `CreateTilesFromCsvIndexFile` returns when the file cannot be opened or
decompressed, when the line filter cannot be made, and when the CSV reader returns an
error after records that do not make `recordIsConsumeable` panic: that error. -/
theorem CreateTilesFromCsvIndexFile_errors (cal : Calendar) (env : IndexFileEnv)
    (compressedCsvIndexFileName : String) (setting : Setting) (err : GoError) :
    (env.Open compressedCsvIndexFileName = some err →
      CreateTilesFromCsvIndexFile cal env compressedCsvIndexFileName setting
        = some (.error err)) ∧
    (env.Open compressedCsvIndexFileName = none →
      env.NewReader compressedCsvIndexFileName = .error err →
      CreateTilesFromCsvIndexFile cal env compressedCsvIndexFileName setting
        = some (.error err)) ∧
    (∀ lines, env.Open compressedCsvIndexFileName = none →
      env.NewReader compressedCsvIndexFileName = .ok lines →
      env.NewCSVLineFilter (lineFilterRegularExpression setting) = .error err →
      CreateTilesFromCsvIndexFile cal env compressedCsvIndexFileName setting
        = some (.error err)) ∧
    (∀ lines keep (pre : List (List String)) rest,
      env.Open compressedCsvIndexFileName = none →
      env.NewReader compressedCsvIndexFileName = .ok lines →
      env.NewCSVLineFilter (lineFilterRegularExpression setting) = .ok keep →
      env.Read (lines.filter keep) = pre.map Except.ok ++ .error err :: rest →
      (∀ r ∈ pre, recordIsConsumeable cal r setting.UtmZones setting.TileFiles
        setting.TileStartDate.Time ≠ none) →
      CreateTilesFromCsvIndexFile cal env compressedCsvIndexFileName setting
        = some (.error err)) := by
  refine ⟨?_, ?_, ?_, ?_⟩
  · intro h
    simp only [CreateTilesFromCsvIndexFile, h]
  · intro h1 h2
    simp only [CreateTilesFromCsvIndexFile, h1, h2]
  · intro lines h1 h2 h3
    simp only [CreateTilesFromCsvIndexFile, h1, h2, h3]
  · intro lines keep pre rest h1 h2 h3 h4 h5
    simp only [CreateTilesFromCsvIndexFile, h1, h2, h3, h4,
      collectTiles_error cal setting err rest pre [] h5]

/-- The listing with a row of three fields after a row of four: the CSV reader returns an
error at the second row, and so does `CreateTilesFromCsvIndexFile`, with no tile for the
first row. -/
theorem ragged_index_file_gives_no_tiles :
    CreateTilesFromCsvIndexFile utcCalendar exampleIndexEnv "ragged.csv.gz" exampleSetting
      = some (.error (GoError.External "wrong number of fields")) := by
  decide

/-- The tiles of a listing of two accepted rows: the tile of the first row, and the tile
of the second row unless it has the unique key of the first. -/
theorem CreateTilesFromCsvIndexFile_two (cal : Calendar) (env : IndexFileEnv)
    (compressedCsvIndexFileName : String) (setting : Setting) (lines : List String)
    (keep : String → Bool) (r1 r2 : List String) (t1 t2 : Tile)
    (hopen : env.Open compressedCsvIndexFileName = none)
    (hgzip : env.NewReader compressedCsvIndexFileName = .ok lines)
    (hfilter : env.NewCSVLineFilter (lineFilterRegularExpression setting) = .ok keep)
    (hread : env.Read (lines.filter keep) = [.ok r1, .ok r2])
    (h1 : recordIsConsumeable cal r1 setting.UtmZones setting.TileFiles
      setting.TileStartDate.Time = some true)
    (h2 : recordIsConsumeable cal r2 setting.UtmZones setting.TileFiles
      setting.TileStartDate.Time = some true)
    (p1 : parseTileFromRecord cal r1 = some t1) (p2 : parseTileFromRecord cal r2 = some t2) :
    CreateTilesFromCsvIndexFile cal env compressedCsvIndexFileName setting
      = some (.ok (if t1.UniqueKey cal = t2.UniqueKey cal then [t1] else [t1, t2])) := by
  by_cases hkey : t1.UniqueKey cal = t2.UniqueKey cal
  · simp [CreateTilesFromCsvIndexFile, hopen, hgzip, hfilter, hread, collectTiles, h1, h2, p1,
      p2, hkey]
  · simp [CreateTilesFromCsvIndexFile, hopen, hgzip, hfilter, hread, collectTiles, h1, h2, p1,
      p2, hkey]

/-- C20: in a process whose local zone is `Atlantic/Azores`, for a listing of two accepted
rows of the tile 39PUL and the satellite S2A-L2A with the dates 2019-10-27 and 2019-10-28,
`CreateTilesFromCsvIndexFile` returns the tile of 2019-10-27 only: the instants 2019-10-27
00:00 UTC and 2019-10-28 00:00 UTC are both on the local day 2019-10-27, so the two tiles
have the same `UniqueKey` and the second is dropped. A process in UTC returns both. -/
theorem local_day_key_drops_tile :
    exampleIndexEnv.Read (autumnIndexLines.filter
      (fun line => Contains line "_39P" || Contains line "_18Q"))
        = autumnRecords.map Except.ok ∧
    (∀ r ∈ autumnRecords, recordIsConsumeable azoresCalendar r exampleSetting.UtmZones
      exampleSetting.TileFiles exampleSetting.TileStartDate.Time = some true) ∧
    autumnRecords.map (parseTileFromRecord azoresCalendar)
      = [some autumnTile, some laterAutumnTile] ∧
    autumnTile.Date ≠ laterAutumnTile.Date ∧
    azoresCalendar.YearMonthDay autumnTile.Date = (2019, 10, 27) ∧
    azoresCalendar.YearMonthDay laterAutumnTile.Date = (2019, 10, 27) ∧
    CreateTilesFromCsvIndexFile azoresCalendar exampleIndexEnv "autumn.csv.gz" exampleSetting
      = some (.ok [autumnTile]) ∧
    CreateTilesFromCsvIndexFile utcCalendar exampleIndexEnv "autumn.csv.gz" exampleSetting
      = some (.ok [autumnTile, laterAutumnTile]) := by
  have hsame : autumnTile.UniqueKey azoresCalendar = laterAutumnTile.UniqueKey azoresCalendar := by
    have hday : azoresCalendar.YearMonthDay autumnTile.Date
        = azoresCalendar.YearMonthDay laterAutumnTile.Date := by decide
    simp only [Tile.UniqueKey, hday]
    rfl
  have hother : autumnTile.UniqueKey utcCalendar ≠ laterAutumnTile.UniqueKey utcCalendar := by
    intro h
    have hday := (UniqueKey_inj utcCalendar autumnTile laterAutumnTile (Or.inl rfl)
      (Or.inl rfl) h).1
    revert hday
    decide
  refine ⟨by decide, by decide, by decide, by decide, by decide, by decide, ?_, ?_⟩
  · rw [CreateTilesFromCsvIndexFile_two azoresCalendar exampleIndexEnv "autumn.csv.gz"
      exampleSetting autumnIndexLines (fun line => Contains line "_39P" || Contains line "_18Q")
      autumnRecord laterAutumnRecord autumnTile laterAutumnTile (by decide) (by decide) (by rfl) (by decide) (by decide)
      (by decide) (by decide) (by decide), if_pos hsame]
  · rw [CreateTilesFromCsvIndexFile_two utcCalendar exampleIndexEnv "autumn.csv.gz"
      exampleSetting autumnIndexLines (fun line => Contains line "_39P" || Contains line "_18Q")
      autumnRecord laterAutumnRecord autumnTile laterAutumnTile (by decide) (by decide) (by rfl) (by decide) (by decide)
      (by decide) (by decide) (by decide), if_neg hother]

/-! ## The file events of an index file: lemmas -/

/-- The loop of `CreateTileFileEventsFromCsvIndexFile` returns the first error of the CSV
reader when the records before it do not make it panic. -/
theorem collectEvents_error (cal : Calendar) (setting : Setting) (err : GoError)
    (rest : List (Except GoError (List String))) :
    ∀ (pre : List (List String)) (events : List Event),
      (∀ r ∈ pre, recordIsConsumeable cal r setting.UtmZones setting.TileFiles
        setting.TileStartDate.Time ≠ none) →
      collectEvents cal setting (pre.map Except.ok ++ .error err :: rest) events
        = some (.error err) := by
  intro pre
  induction pre with
  | nil => intro events _; simp [collectEvents]
  | cons record more ih =>
    intro events hnopanic
    have hmore : ∀ r ∈ more, recordIsConsumeable cal r setting.UtmZones setting.TileFiles
        setting.TileStartDate.Time ≠ none :=
      fun r hr => hnopanic r (List.mem_cons_of_mem _ hr)
    cases hacc : recordIsConsumeable cal record setting.UtmZones setting.TileFiles
        setting.TileStartDate.Time with
    | none => exact absurd hacc (hnopanic record (List.mem_cons_self _ _))
    | some accepted =>
      cases accepted with
      | false =>
        simp only [List.map_cons, List.cons_append, collectEvents, hacc]
        exact ih events hmore
      | true =>
        obtain ⟨f0, key, size, f3, _, _, _, _, _, _, _, _, _, _, _, _, _, _, _, _, hrec, _⟩ :=
          accepted_components hacc
        subst hrec
        simp only [List.map_cons, List.cons_append, collectEvents, hacc, parseEventFromRecord,
          List.getElem?_cons_succ, List.getElem?_cons_zero]
        exact ih _ hmore

/-- What `CreateTileFileEventsFromCsvIndexFile` returns when the file cannot be opened or
decompressed, when the line filter cannot be made, and when the CSV reader returns an
error after records that do not make `recordIsConsumeable` panic: that error, and no
event. -/
theorem CreateTileFileEventsFromCsvIndexFile_errors (cal : Calendar) (env : IndexFileEnv)
    (compressedCsvIndexFileName : String) (setting : Setting) (err : GoError) :
    (env.Open compressedCsvIndexFileName = some err →
      CreateTileFileEventsFromCsvIndexFile cal env compressedCsvIndexFileName setting
        = some (.error err)) ∧
    (env.Open compressedCsvIndexFileName = none →
      env.NewReader compressedCsvIndexFileName = .error err →
      CreateTileFileEventsFromCsvIndexFile cal env compressedCsvIndexFileName setting
        = some (.error err)) ∧
    (∀ lines, env.Open compressedCsvIndexFileName = none →
      env.NewReader compressedCsvIndexFileName = .ok lines →
      env.NewCSVLineFilter (lineFilterRegularExpression setting) = .error err →
      CreateTileFileEventsFromCsvIndexFile cal env compressedCsvIndexFileName setting
        = some (.error err)) ∧
    (∀ lines keep (pre : List (List String)) rest,
      env.Open compressedCsvIndexFileName = none →
      env.NewReader compressedCsvIndexFileName = .ok lines →
      env.NewCSVLineFilter (lineFilterRegularExpression setting) = .ok keep →
      env.Read (lines.filter keep) = pre.map Except.ok ++ .error err :: rest →
      (∀ r ∈ pre, recordIsConsumeable cal r setting.UtmZones setting.TileFiles
        setting.TileStartDate.Time ≠ none) →
      CreateTileFileEventsFromCsvIndexFile cal env compressedCsvIndexFileName setting
        = some (.error err)) := by
  refine ⟨?_, ?_, ?_, ?_⟩
  · intro h
    simp only [CreateTileFileEventsFromCsvIndexFile, h]
  · intro h1 h2
    simp only [CreateTileFileEventsFromCsvIndexFile, h1, h2]
  · intro lines h1 h2 h3
    simp only [CreateTileFileEventsFromCsvIndexFile, h1, h2, h3]
  · intro lines keep pre rest h1 h2 h3 h4 h5
    simp only [CreateTileFileEventsFromCsvIndexFile, h1, h2, h3, h4,
      collectEvents_error cal setting err rest pre [] h5]

/-- The listing with a row of three fields after a row of four: the CSV reader returns an
error at the second row, and so does `CreateTileFileEventsFromCsvIndexFile`, with no event
for the first row. -/
theorem ragged_index_file_gives_no_events :
    CreateTileFileEventsFromCsvIndexFile utcCalendar exampleIndexEnv "ragged.csv.gz"
      exampleSetting = some (.error (GoError.External "wrong number of fields")) := by
  decide

/-- The first match of `findOneAndUpdateFirst` splits the collection. -/
theorem findOneAndUpdateFirst_some {α : Type} (filter : α → Bool) (update : α → α)
    (l : List α) (d : α) (h : (findOneAndUpdateFirst filter update l).1 = some d) :
    ∃ pre post, l = pre ++ d :: post ∧ filter d = true ∧ (∀ x ∈ pre, filter x = false) ∧
      (findOneAndUpdateFirst filter update l).2 = pre ++ update d :: post := by
  induction l with
  | nil => simp [findOneAndUpdateFirst] at h
  | cons a as ih =>
    by_cases ha : filter a = true
    · simp only [findOneAndUpdateFirst, ha, if_true, Option.some.injEq] at h ⊢
      subst h
      exact ⟨[], as, rfl, ha, by simp, rfl⟩
    · simp only [findOneAndUpdateFirst, ha, Bool.false_eq_true, if_false] at h ⊢
      obtain ⟨pre, post, hl, hd, hpre, hres⟩ := ih h
      refine ⟨a :: pre, post, by rw [hl]; rfl, hd, ?_, by rw [hres]; rfl⟩
      intro x hx
      rcases List.mem_cons.mp hx with rfl | hx
      · simpa using ha
      · exact hpre x hx

/-- The filter of `UpdateOrCreateTile` holds exactly for the tiles of the same natural
key. -/
theorem tileKeyFilter_iff (tile d : Tile) :
    tileKeyFilter tile d = true ↔ sameNaturalKey d tile := by
  simp [tileKeyFilter, sameNaturalKey, and_assoc]

/-- What `UpdateOrCreateTile` does to the collection. -/
theorem UpdateOrCreateTile_cases (env : UpsertEnv) (tiles : List Tile) (tile : Tile) :
    ((∀ d ∈ tiles, ¬ sameNaturalKey d tile) ∧
      (UpdateOrCreateTile env tiles tile).1
        = tiles ++ [{ ID := env.insertedID, UpdatedDate := NewDateTimeFromTime env.now,
                      Date := tile.Date, MgrsCode := tile.MgrsCode,
                      SourceSatellite := tile.SourceSatellite, Geometry := tile.Geometry,
                      Files := tile.Files }]) ∨
    (∃ pre d post, tiles = pre ++ d :: post ∧ sameNaturalKey d tile ∧
      (∀ x ∈ pre, ¬ sameNaturalKey x tile) ∧
      (UpdateOrCreateTile env tiles tile).1
        = pre ++ { d with UpdatedDate := NewDateTimeFromTime env.now,
                          Geometry := tile.Geometry, Files := tile.Files } :: post) := by
  cases hfind : (findOneAndUpdateFirst (tileKeyFilter tile)
      (fun d => { d with UpdatedDate := NewDateTimeFromTime env.now,
                         Geometry := tile.Geometry, Files := tile.Files }) tiles).1 with
  | none =>
    left
    obtain ⟨hnone, _⟩ := findOneAndUpdateFirst_none _ _ _ hfind
    refine ⟨?_, by simp only [UpdateOrCreateTile, hfind]⟩
    intro d hd hsame
    have := hnone d hd
    rw [(tileKeyFilter_iff tile d).mpr hsame] at this
    exact absurd this (by decide)
  | some d =>
    right
    obtain ⟨pre, post, hl, hd, hpre, hres⟩ := findOneAndUpdateFirst_some _ _ _ _ hfind
    refine ⟨pre, d, post, hl, (tileKeyFilter_iff tile d).mp hd, ?_, ?_⟩
    · intro x hx hsame
      have := hpre x hx
      rw [(tileKeyFilter_iff tile x).mpr hsame] at this
      exact absurd this (by decide)
    · simp only [UpdateOrCreateTile, hfind]
      exact hres

/-- The first match behind documents that do not match. -/
theorem findOneAndUpdateFirst_append {α : Type} (filter : α → Bool) (update : α → α)
    (pre post : List α) (d : α) (hpre : ∀ x ∈ pre, filter x = false)
    (hd : filter d = true) :
    findOneAndUpdateFirst filter update (pre ++ d :: post)
      = (some d, pre ++ update d :: post) := by
  induction pre with
  | nil => simp [findOneAndUpdateFirst, hd]
  | cons a as ih =>
    have ha : filter a = false := hpre a (List.mem_cons_self _ _)
    have ih1 := ih (fun x hx => hpre x (List.mem_cons_of_mem _ hx))
    show findOneAndUpdateFirst filter update (a :: (as ++ d :: post)) = _
    simp only [findOneAndUpdateFirst, ha, Bool.false_eq_true, if_false, ih1, List.cons_append]

/-- A second `UpdateOrCreateTile` of the same tile changes `updatedDate` only. -/
theorem UpdateOrCreateTile_twice (env1 env2 : UpsertEnv) (tiles : List Tile) (tile : Tile) :
    (UpdateOrCreateTile env2 (UpdateOrCreateTile env1 tiles tile).1 tile).1.map
        withoutUpdatedDate
      = (UpdateOrCreateTile env1 tiles tile).1.map withoutUpdatedDate := by
  have hfilter : ∀ x, ¬ sameNaturalKey x tile → tileKeyFilter tile x = false := by
    intro x hx
    cases h : tileKeyFilter tile x with
    | false => rfl
    | true => exact absurd ((tileKeyFilter_iff tile x).mp h) hx
  rcases UpdateOrCreateTile_cases env1 tiles tile with ⟨hnone, h1⟩ | ⟨pre, d, post, hl, hd, hpre, h1⟩
  · rw [h1]
    have h2 := findOneAndUpdateFirst_append (tileKeyFilter tile)
      (fun d => { d with UpdatedDate := NewDateTimeFromTime env2.now,
                         Geometry := tile.Geometry, Files := tile.Files })
      tiles [] { ID := env1.insertedID, UpdatedDate := NewDateTimeFromTime env1.now,
                 Date := tile.Date, MgrsCode := tile.MgrsCode,
                 SourceSatellite := tile.SourceSatellite, Geometry := tile.Geometry,
                 Files := tile.Files }
      (fun x hx => hfilter x (hnone x hx))
      ((tileKeyFilter_iff tile _).mpr ⟨rfl, rfl, rfl⟩)
    simp only [UpdateOrCreateTile, h2, List.map_append, List.map_cons, List.map_nil,
      withoutUpdatedDate]
  · rw [h1]
    have h2 := findOneAndUpdateFirst_append (tileKeyFilter tile)
      (fun d => { d with UpdatedDate := NewDateTimeFromTime env2.now,
                         Geometry := tile.Geometry, Files := tile.Files })
      pre post { d with UpdatedDate := NewDateTimeFromTime env1.now,
                        Geometry := tile.Geometry, Files := tile.Files }
      (fun x hx => hfilter x (hpre x hx))
      ((tileKeyFilter_iff tile _).mpr ⟨hd.1, hd.2.1, hd.2.2⟩)
    simp only [UpdateOrCreateTile, h2, List.map_append, List.map_cons, withoutUpdatedDate]

/-- C22: on a collection that holds at most one tile for every date, MGRS code and source
satellite, `UpdateOrCreateTile` leaves a collection that does so too; when no tile has the
key of the argument it appends the tile (with the `_id` of the server and `updatedDate`
now), otherwise it sets `updatedDate`, `geometry` and `files` of the tile of that key and
leaves every other tile and every other field as it is; and a second call with the same
tile gives the same tiles up to `updatedDate` as the first. It returns no error. -/
theorem upsert_keeps_natural_key (env env2 : UpsertEnv) (tiles : List Tile) (tile : Tile)
    (hunique : tiles.Pairwise (fun a b => ¬ sameNaturalKey a b)) :
    (UpdateOrCreateTile env tiles tile).1.Pairwise (fun a b => ¬ sameNaturalKey a b) ∧
    (UpdateOrCreateTile env tiles tile).2.2 = none ∧
    ((∀ d ∈ tiles, ¬ sameNaturalKey d tile) →
      (UpdateOrCreateTile env tiles tile).1
        = tiles ++ [{ ID := env.insertedID, UpdatedDate := NewDateTimeFromTime env.now,
                      Date := tile.Date, MgrsCode := tile.MgrsCode,
                      SourceSatellite := tile.SourceSatellite, Geometry := tile.Geometry,
                      Files := tile.Files }]) ∧
    ((∃ d ∈ tiles, sameNaturalKey d tile) →
      (UpdateOrCreateTile env tiles tile).1
        = tiles.map (fun x => if sameNaturalKey x tile then
            { x with UpdatedDate := NewDateTimeFromTime env.now, Geometry := tile.Geometry,
                     Files := tile.Files }
          else x)) ∧
    (UpdateOrCreateTile env2 (UpdateOrCreateTile env tiles tile).1 tile).1.map
        withoutUpdatedDate
      = (UpdateOrCreateTile env tiles tile).1.map withoutUpdatedDate := by
  have herr : (UpdateOrCreateTile env tiles tile).2.2 = none := by
    simp only [UpdateOrCreateTile]
    split <;> rfl
  refine ⟨?_, herr, ?_, ?_, UpdateOrCreateTile_twice env env2 tiles tile⟩
  · rcases UpdateOrCreateTile_cases env tiles tile with ⟨hnone, h1⟩ | ⟨pre, d, post, hl, hd, hpre, h1⟩
    · rw [h1, List.pairwise_append]
      refine ⟨hunique, List.pairwise_singleton _ _, ?_⟩
      intro a ha b hb hsame
      rw [List.mem_singleton] at hb
      subst hb
      exact hnone a ha ⟨hsame.1, hsame.2.1, hsame.2.2⟩
    · rw [h1]
      rw [hl] at hunique
      rw [List.pairwise_append] at hunique ⊢
      obtain ⟨hp, hq, hr⟩ := hunique
      rw [List.pairwise_cons] at hq ⊢
      refine ⟨hp, ⟨fun b hb hsame => hq.1 b hb ⟨hsame.1, hsame.2.1, hsame.2.2⟩, hq.2⟩, ?_⟩
      intro a ha b hb hsame
      rcases List.mem_cons.mp hb with rfl | hb
      · exact hr a ha d (List.mem_cons_self _ _) ⟨hsame.1, hsame.2.1, hsame.2.2⟩
      · exact hr a ha b (List.mem_cons_of_mem _ hb) hsame
  · intro hnone
    rcases UpdateOrCreateTile_cases env tiles tile with ⟨_, h1⟩ | ⟨pre, d, post, hl, hd, _, _⟩
    · exact h1
    · exact absurd hd (hnone d (by rw [hl]; simp))
  · rintro ⟨d0, hd0, hsame0⟩
    rcases UpdateOrCreateTile_cases env tiles tile with ⟨hnone, _⟩ | ⟨pre, d, post, hl, hd, hpre, h1⟩
    · exact absurd hsame0 (hnone d0 hd0)
    · rw [h1, hl]
      rw [hl, List.pairwise_append, List.pairwise_cons] at hunique
      obtain ⟨_, ⟨hq, _⟩, _⟩ := hunique
      have hpost : ∀ x ∈ post, ¬ sameNaturalKey x tile := by
        intro x hx hsame
        exact hq x hx ⟨hd.1.trans hsame.1.symm, hd.2.1.trans hsame.2.1.symm,
          hd.2.2.trans hsame.2.2.symm⟩
      have hmap : ∀ l : List Tile, (∀ x ∈ l, ¬ sameNaturalKey x tile) →
          l.map (fun x => if sameNaturalKey x tile then
            { x with UpdatedDate := NewDateTimeFromTime env.now, Geometry := tile.Geometry,
                     Files := tile.Files }
          else x) = l := by
        intro l hl2
        conv_rhs => rw [← List.map_id l]
        exact List.map_congr_left (fun x hx => by simp [hl2 x hx])
      rw [List.map_append, List.map_cons, hmap pre hpre, hmap post hpost, if_pos hd]

/-- C22 at a collection of two tiles and the first of them with a geometry and a file. -/
theorem upsert_keeps_natural_key_witness :
    [exampleTile, otherDayTile].Pairwise (fun a b => ¬ sameNaturalKey a b) ∧
    (UpdateOrCreateTile { insertedID := 13, now := 70000000 } [exampleTile, otherDayTile]
        exampleUpsertTile).1
      = [{ exampleTile with UpdatedDate := 70, Geometry := exampleGeometry,
                            Files := [exampleTileFile] }, otherDayTile] :=
  ⟨by decide,
    ((upsert_keeps_natural_key { insertedID := 13, now := 70000000 }
        { insertedID := 14, now := 80000000 } [exampleTile, otherDayTile] exampleUpsertTile
        (by decide)).2.2.2.1 ⟨exampleTile, by decide, by decide⟩).trans (by decide)⟩

/-! ## Discovery and ingest together -/

/-- C29: `recordIsConsumeable` accepts rows whose size field is not a number or is empty,
and rows whose scene name has a fourth part that is not a number; `RequestMapTask` on the
event that `parseEventFromRecord` builds for such a row returns the size-conversion error
of `strconv.Atoi`, "missing size on event" or "version was not an integer" before it looks
for the tile. -/
theorem accepted_rows_fail_ingest :
    recordIsConsumeable utcCalendar textSizeRecord exampleSetting.UtmZones
        exampleSetting.TileFiles exampleSetting.TileStartDate.Time = some true ∧
      (parseEventFromRecord textSizeRecord).map
          (fun e => (RequestMapTask exampleMapTaskEnv [] [] e).completion)
        = some (.returned (some (GoError.ErrSyntax (stringBytes "n/a")))) ∧
      recordIsConsumeable utcCalendar emptySizeRecord exampleSetting.UtmZones
        exampleSetting.TileFiles exampleSetting.TileStartDate.Time = some true ∧
      (parseEventFromRecord emptySizeRecord).map
          (fun e => (RequestMapTask exampleMapTaskEnv [] [] e).completion)
        = some (.returned (some (GoError.New "missing size on event"))) ∧
      recordIsConsumeable utcCalendar textVersionRecord exampleSetting.UtmZones
        exampleSetting.TileFiles exampleSetting.TileStartDate.Time = some true ∧
      (parseEventFromRecord textVersionRecord).map
          (fun e => (RequestMapTask exampleMapTaskEnv [] [] e).completion)
        = some (.returned (some (GoError.New "version was not an integer"))) := by
  decide

/-- C30, as stated, fails: while the build event that `postBoundary` published for one
boundary of the MGRS code waits, `RequestMapTask` stores the new file of the tile, returns
`nil` and publishes nothing: the count of lines 120-126 does not look at `boundaryId`. The
only waiting build event of the code is then the one restricted to that boundary. -/
theorem restricted_build_event_blocks_rebuild :
    (RequestMapTask exampleMapTaskEnv [exampleTile] [boundaryBuildEvent]
        exampleFileEvent).completion = .returned none ∧
      (RequestMapTask exampleMapTaskEnv [exampleTile] [boundaryBuildEvent]
        exampleFileEvent).tiles = [{ exampleTile with Files := [exampleTileFile] }] ∧
      (RequestMapTask exampleMapTaskEnv [exampleTile] [boundaryBuildEvent]
        exampleFileEvent).events = [boundaryBuildEvent] ∧
      ∀ e ∈ (RequestMapTask exampleMapTaskEnv [exampleTile] [boundaryBuildEvent]
          exampleFileEvent).events,
        buildMapEventFilter "18QZG" e = true →
          e.Data.lookup "boundaryId" = some "64b7f0c2a1d3e4f5a6b7c8d9" := by
  decide

/-- The events after a call of `RequestMapTask` that returns `nil` for an event whose tile
exists: the build event of the MGRS code is appended when none waits, and nothing is
changed otherwise. -/
theorem RequestMapTask_build_event (env : MapTaskEnv) (tiles : List Tile)
    (events : List Event) (event : Event) (objectPath : String) (tileInfo tile : Tile)
    (hpath : event.Data.lookup "objectPath" = some objectPath)
    (hparse : parseTileFromObjectPath env.cal objectPath = some tileInfo)
    (hfind : FindTile tiles (tileKeyFilter tileInfo) = some tile)
    (hsucc : (RequestMapTask env tiles events event).completion = .returned none) :
    (CountEvents events (buildMapEventFilter tile.MgrsCode) = 0 ∧
      (RequestMapTask env tiles events event).events
        = events ++ [{ Event.zero with
                        ID := env.save.newID,
                        UpdatedDate := NewDateTimeFromTime env.save.now,
                        EventType := "BuildBoundaryMapTask",
                        Priority := 4,
                        MaxAttemps := 1,
                        Data := [("mgrsCode", tile.MgrsCode)] }]) ∨
    (CountEvents events (buildMapEventFilter tile.MgrsCode) ≠ 0 ∧
      (RequestMapTask env tiles events event).events = events) := by
  rcases RequestMapTask_cases env tiles events event with ⟨err, h0⟩ |
    ⟨objectPath1, fileUse, tileFile, hpath1, h1⟩
  · rw [h0] at hsucc
    simp at hsucc
  · rw [hpath] at hpath1
    simp only [Option.some.injEq] at hpath1
    subst hpath1
    rw [h1] at hsucc
    obtain ⟨tiles1, tile1, hcode, h2⟩ := storeTileFile_success env tiles events objectPath
      fileUse tileFile tileInfo tile hparse hfind hsucc
    rw [h2] at hsucc
    rw [h1, h2, ← hcode]
    by_cases hcount : CountEvents events (buildMapEventFilter tile1.MgrsCode) = 0
    · left
      refine ⟨hcount, ?_⟩
      have hany : events.any (fun d => d.ID == env.save.newID) = false := by
        rw [Bool.eq_false_iff]
        intro hdup
        simp [publishBuildMapEvent, hcount, SaveEvent, Event.zero, NilObjectID, InsertOne,
          hdup] at hsucc
      simp [publishBuildMapEvent, hcount, SaveEvent, Event.zero, NilObjectID, InsertOne,
        hany]
    · right
      refine ⟨hcount, ?_⟩
      simp [publishBuildMapEvent, hcount]

/-- C30, amended: when `RequestMapTask` returns `nil` for an event whose tile exists, with
MGRS code `M`, the event collection holds a `BuildBoundaryMapTask` event of the code `M`
with `Started`, `Passed`, `Failed` all false; it holds such an event without a
`boundaryId` exactly when no such event was stored before the call (the call then appends
one with the data `mgrsCode: M` only) or one without a `boundaryId` was; and when such an
event was stored before, with or without a `boundaryId`, the call appends nothing. -/
theorem build_event_waits_after_ingest (env : MapTaskEnv) (tiles : List Tile)
    (events : List Event) (event : Event) (objectPath : String) (tileInfo tile : Tile)
    (hpath : event.Data.lookup "objectPath" = some objectPath)
    (hparse : parseTileFromObjectPath env.cal objectPath = some tileInfo)
    (hfind : FindTile tiles (tileKeyFilter tileInfo) = some tile)
    (hsucc : (RequestMapTask env tiles events event).completion = .returned none) :
    (∃ e ∈ (RequestMapTask env tiles events event).events,
      buildMapEventFilter tile.MgrsCode e = true) ∧
    ((∃ e ∈ (RequestMapTask env tiles events event).events,
        buildMapEventFilter tile.MgrsCode e = true ∧ e.Data.lookup "boundaryId" = none) ↔
      ((∀ e ∈ events, buildMapEventFilter tile.MgrsCode e = false) ∨
        ∃ e ∈ events, buildMapEventFilter tile.MgrsCode e = true ∧
          e.Data.lookup "boundaryId" = none)) ∧
    ((∀ e ∈ events, buildMapEventFilter tile.MgrsCode e = false) →
      ∃ e ∈ (RequestMapTask env tiles events event).events,
        buildMapEventFilter tile.MgrsCode e = true ∧ e.Data = [("mgrsCode", tile.MgrsCode)]) ∧
    ((∃ e ∈ events, buildMapEventFilter tile.MgrsCode e = true) →
      (RequestMapTask env tiles events event).events = events) := by
  have hnew : buildMapEventFilter tile.MgrsCode
      { Event.zero with
        ID := env.save.newID,
        UpdatedDate := NewDateTimeFromTime env.save.now,
        EventType := "BuildBoundaryMapTask",
        Priority := 4,
        MaxAttemps := 1,
        Data := [("mgrsCode", tile.MgrsCode)] } = true := by
    simp [buildMapEventFilter, Event.zero, List.lookup]
  rcases RequestMapTask_build_event env tiles events event objectPath tileInfo tile hpath
    hparse hfind hsucc with ⟨hcount, hev⟩ | ⟨hcount, hev⟩
  · rw [hev]
    have hnone := (CountEvents_eq_zero _ _).mp hcount
    refine ⟨⟨_, List.mem_append_right _ (List.mem_singleton_self _), hnew⟩, ?_, ?_, ?_⟩
    · constructor
      · exact fun _ => Or.inl hnone
      · intro _
        refine ⟨_, List.mem_append_right _ (List.mem_singleton_self _), hnew, ?_⟩
        simp [List.lookup]
    · intro _
      exact ⟨_, List.mem_append_right _ (List.mem_singleton_self _), hnew, rfl⟩
    · rintro ⟨e, he, hf⟩
      rw [hnone e he] at hf
      cases hf
  · rw [hev]
    have hsome : ∃ e ∈ events, buildMapEventFilter tile.MgrsCode e = true := by
      by_contra hno
      apply hcount
      rw [CountEvents_eq_zero]
      intro e he
      rw [Bool.eq_false_iff]
      exact fun h => hno ⟨e, he, h⟩
    have hnot : ¬ ∀ e ∈ events, buildMapEventFilter tile.MgrsCode e = false := by
      intro hall
      obtain ⟨e, he, hf⟩ := hsome
      rw [hall e he] at hf
      cases hf
    refine ⟨hsome, ?_, fun hall => absurd hall hnot, fun _ => rfl⟩
    constructor
    · exact fun h => Or.inr h
    · rintro (h | h)
      · exact absurd h hnot
      · exact h

/-- The amended C30 at the first event of `TestRequestMapTask`, when no build event waits:
the call appends the build event of the code 18QZG, which has no `boundaryId`. -/
theorem build_event_waits_after_ingest_witness :
    (RequestMapTask exampleMapTaskEnv [exampleTile] [exampleFileEvent]
      exampleFileEvent).completion = .returned none ∧
    (∀ e ∈ [exampleFileEvent], buildMapEventFilter exampleTile.MgrsCode e = false) ∧
    (∃ e ∈ (RequestMapTask exampleMapTaskEnv [exampleTile] [exampleFileEvent]
        exampleFileEvent).events,
      buildMapEventFilter exampleTile.MgrsCode e = true) ∧
    ((∃ e ∈ (RequestMapTask exampleMapTaskEnv [exampleTile] [exampleFileEvent]
          exampleFileEvent).events,
        buildMapEventFilter exampleTile.MgrsCode e = true ∧
          e.Data.lookup "boundaryId" = none) ↔
      ((∀ e ∈ [exampleFileEvent], buildMapEventFilter exampleTile.MgrsCode e = false) ∨
        ∃ e ∈ [exampleFileEvent], buildMapEventFilter exampleTile.MgrsCode e = true ∧
          e.Data.lookup "boundaryId" = none)) ∧
    ((∀ e ∈ [exampleFileEvent], buildMapEventFilter exampleTile.MgrsCode e = false) →
      ∃ e ∈ (RequestMapTask exampleMapTaskEnv [exampleTile] [exampleFileEvent]
          exampleFileEvent).events,
        buildMapEventFilter exampleTile.MgrsCode e = true ∧
          e.Data = [("mgrsCode", exampleTile.MgrsCode)]) ∧
    ((∃ e ∈ [exampleFileEvent], buildMapEventFilter exampleTile.MgrsCode e = true) →
      (RequestMapTask exampleMapTaskEnv [exampleTile] [exampleFileEvent]
        exampleFileEvent).events = [exampleFileEvent]) :=
  ⟨by decide, by decide,
    build_event_waits_after_ingest exampleMapTaskEnv [exampleTile] [exampleFileEvent]
      exampleFileEvent
      "sentinel-s2-l2a-cogs/18/Q/ZG/2020/1/S2A_18QZG_20200129_0_L2A/B04.tif" exampleTileInfo
      exampleTile (by decide) (by decide) (by decide) (by decide)⟩

/-! ## The map task: the bands of a tile -/

/-- C28: for a tile whose files all have the version `-1`, the version that
`SetupAndBuildNDVIMaps` selects band files with is 0, the initial value of line 157, and
not the maximum `-1` of the versions; no path is selected. -/
theorem latest_version_starts_at_zero :
    negativeVersionTile.Files ≠ [] ∧
      (∀ f ∈ negativeVersionTile.Files, f.Version ≤ -1) ∧
      (∃ f ∈ negativeVersionTile.Files, f.Version = -1) ∧
      latestVersion negativeVersionTile.Files = 0 ∧
      selectBands negativeVersionTile.Files
        = { band04ObjectPath := "", band08ObjectPath := "", bandSCLObjectPath := "" } := by
  decide

/-- C24: the files of the tile are a `B04.tif` and a `B08.tif` entry of the latest version
`-1`, with object paths that are not empty, and `SetupAndBuildNDVIMaps` returns "tile did
not have files for bands 4 and 8" (the bands are looked for at version 0, as in C28);
`BuildBoundaryMapTask` returns that error. Nothing is downloaded or written. -/
theorem bands_of_negative_version_not_found :
    (∀ f ∈ negativeVersionTile.Files, f.ObjectPath ≠ "" ∧ f.Version = -1) ∧
      (∃ f ∈ negativeVersionTile.Files, f.Band = "B04.tif") ∧
      (∃ f ∈ negativeVersionTile.Files, f.Band = "B08.tif") ∧
      SetupAndBuildNDVIMaps exampleBuildEnv emptyBuildState [fieldBoundary]
          negativeVersionTile
        = (emptyBuildState,
            some (GoError.New "tile did not have files for bands 4 and 8")) ∧
      BuildBoundaryMapTask exampleBuildEnv [negativeVersionTile] [fieldBoundary]
          emptyBuildState buildMapEvent
        = { state := emptyBuildState,
            completion :=
              .returned (some (GoError.New "tile did not have files for bands 4 and 8")) } := by
  decide

/-- The version of line 157-162 is not negative and bounds the versions of the files; it
is the version of a file or zero. -/
theorem latestVersion_spec (files : List TileFile) :
    0 ≤ latestVersion files ∧ (∀ f ∈ files, f.Version ≤ latestVersion files) ∧
      (latestVersion files = 0 ∨ ∃ f ∈ files, f.Version = latestVersion files) := by
  have key : ∀ (l : List TileFile) (v : Int),
      v ≤ l.foldl (fun latestVersion file =>
          if file.Version > latestVersion then file.Version else latestVersion) v ∧
      (∀ f ∈ l, f.Version ≤ l.foldl (fun latestVersion file =>
          if file.Version > latestVersion then file.Version else latestVersion) v) ∧
      (l.foldl (fun latestVersion file =>
          if file.Version > latestVersion then file.Version else latestVersion) v = v ∨
        ∃ f ∈ l, f.Version = l.foldl (fun latestVersion file =>
          if file.Version > latestVersion then file.Version else latestVersion) v) := by
    intro l
    induction l with
    | nil => intro v; simp
    | cons a as ih =>
      intro v
      simp only [List.foldl_cons]
      by_cases hv : a.Version > v
      · simp only [hv, if_true]
        obtain ⟨h1, h2, h3⟩ := ih a.Version
        refine ⟨by omega, ?_, ?_⟩
        · intro f hf
          rcases List.mem_cons.mp hf with rfl | hf
          · exact h1
          · exact h2 f hf
        · rcases h3 with h3 | ⟨f, hf, h3⟩
          · exact Or.inr ⟨a, List.mem_cons_self _ _, h3.symm⟩
          · exact Or.inr ⟨f, List.mem_cons_of_mem _ hf, h3⟩
      · simp only [hv, if_false]
        obtain ⟨h1, h2, h3⟩ := ih v
        refine ⟨h1, ?_, ?_⟩
        · intro f hf
          rcases List.mem_cons.mp hf with rfl | hf
          · omega
          · exact h2 f hf
        · rcases h3 with h3 | ⟨f, hf, h3⟩
          · exact Or.inl h3
          · exact Or.inr ⟨f, List.mem_cons_of_mem _ hf, h3⟩
  obtain ⟨h1, h2, h3⟩ := key files 0
  exact ⟨h1, h2, h3⟩

/-- When a file has a version that is not negative, the version of lines 157-162 is the
greatest version of the files. -/
theorem latestVersion_eq_max (files : List TileFile) (h : ∃ f ∈ files, 0 ≤ f.Version) :
    (∀ f ∈ files, f.Version ≤ latestVersion files) ∧
      ∃ f ∈ files, f.Version = latestVersion files := by
  obtain ⟨h1, h2, h3⟩ := latestVersion_spec files
  refine ⟨h2, ?_⟩
  rcases h3 with h3 | h3
  · obtain ⟨f, hf, hpos⟩ := h
    have := h2 f hf
    exact ⟨f, hf, by omega⟩
  · exact h3

/-- The loop of lines 167-177 from any start: a path that no file of the version and the
band sets keeps its value, and a path that some file sets is the object path of such a
file. -/
theorem selectBands_fold (v : Int) (step : BandPaths → TileFile → BandPaths)
    (hstep : step = fun paths file =>
      if file.Version = v then
        if file.Band = "B04.tif" then { paths with band04ObjectPath := file.ObjectPath }
        else if file.Band = "B08.tif" then { paths with band08ObjectPath := file.ObjectPath }
        else if file.Band = "SCL.tif" then { paths with bandSCLObjectPath := file.ObjectPath }
        else paths
      else paths) :
    ∀ (files : List TileFile) (acc : BandPaths),
      ((∀ f ∈ files, ¬ (f.Version = v ∧ f.Band = "B04.tif")) →
        (files.foldl step acc).band04ObjectPath = acc.band04ObjectPath) ∧
      ((∃ f ∈ files, f.Version = v ∧ f.Band = "B04.tif") →
        ∃ f ∈ files, f.Version = v ∧ f.Band = "B04.tif" ∧
          (files.foldl step acc).band04ObjectPath = f.ObjectPath) ∧
      ((∀ f ∈ files, ¬ (f.Version = v ∧ f.Band = "B08.tif")) →
        (files.foldl step acc).band08ObjectPath = acc.band08ObjectPath) ∧
      ((∃ f ∈ files, f.Version = v ∧ f.Band = "B08.tif") →
        ∃ f ∈ files, f.Version = v ∧ f.Band = "B08.tif" ∧
          (files.foldl step acc).band08ObjectPath = f.ObjectPath) ∧
      ((∀ f ∈ files, ¬ (f.Version = v ∧ f.Band = "SCL.tif")) →
        (files.foldl step acc).bandSCLObjectPath = acc.bandSCLObjectPath) ∧
      ((∃ f ∈ files, f.Version = v ∧ f.Band = "SCL.tif") →
        ∃ f ∈ files, f.Version = v ∧ f.Band = "SCL.tif" ∧
          (files.foldl step acc).bandSCLObjectPath = f.ObjectPath) := by
  intro files
  induction files with
  | nil => intro acc; simp
  | cons a as ih =>
    intro acc
    obtain ⟨i1, i2, i3, i4, i5, i6⟩ := ih (step acc a)
    have e48 : ("B04.tif" : String) ≠ "B08.tif" := by decide
    have e4S : ("B04.tif" : String) ≠ "SCL.tif" := by decide
    have e8S : ("B08.tif" : String) ≠ "SCL.tif" := by decide
    have s04 : ¬ (a.Version = v ∧ a.Band = "B04.tif") →
        (step acc a).band04ObjectPath = acc.band04ObjectPath := by
      intro h
      rw [hstep]
      by_cases hv : a.Version = v
      · have hb : a.Band ≠ "B04.tif" := fun hb => h ⟨hv, hb⟩
        simp only [hv, hb, if_true, if_false]
        split
        · rfl
        · split <;> rfl
      · simp only [hv, if_false]
    have t04 : a.Version = v ∧ a.Band = "B04.tif" →
        (step acc a).band04ObjectPath = a.ObjectPath := by
      rintro ⟨hv, hb⟩
      rw [hstep]
      simp only [hv, hb, if_true]
    have s08 : ¬ (a.Version = v ∧ a.Band = "B08.tif") →
        (step acc a).band08ObjectPath = acc.band08ObjectPath := by
      intro h
      rw [hstep]
      by_cases hv : a.Version = v
      · have hb : a.Band ≠ "B08.tif" := fun hb => h ⟨hv, hb⟩
        simp only [hv, hb, if_true, if_false]
        split
        · rfl
        · split <;> rfl
      · simp only [hv, if_false]
    have t08 : a.Version = v ∧ a.Band = "B08.tif" →
        (step acc a).band08ObjectPath = a.ObjectPath := by
      rintro ⟨hv, hb⟩
      rw [hstep]
      have hb4 : a.Band ≠ "B04.tif" := by rw [hb]; exact e48.symm
      simp only [hv, if_true]
      rw [if_neg hb4, if_pos hb]
    have sSCL : ¬ (a.Version = v ∧ a.Band = "SCL.tif") →
        (step acc a).bandSCLObjectPath = acc.bandSCLObjectPath := by
      intro h
      rw [hstep]
      by_cases hv : a.Version = v
      · have hb : a.Band ≠ "SCL.tif" := fun hb => h ⟨hv, hb⟩
        simp only [hv, hb, if_true, if_false]
        split
        · rfl
        · split <;> rfl
      · simp only [hv, if_false]
    have tSCL : a.Version = v ∧ a.Band = "SCL.tif" →
        (step acc a).bandSCLObjectPath = a.ObjectPath := by
      rintro ⟨hv, hb⟩
      rw [hstep]
      have hb4 : a.Band ≠ "B04.tif" := by rw [hb]; exact e4S.symm
      have hb8 : a.Band ≠ "B08.tif" := by rw [hb]; exact e8S.symm
      simp only [hv, if_true]
      rw [if_neg hb4, if_neg hb8, if_pos hb]
    simp only [List.foldl_cons]
    refine ⟨?_, ?_, ?_, ?_, ?_, ?_⟩
    · intro h
      rw [i1 (fun f hf => h f (List.mem_cons_of_mem _ hf)), s04 (h a (List.mem_cons_self _ _))]
    · intro h
      by_cases hrest : ∃ f ∈ as, f.Version = v ∧ f.Band = "B04.tif"
      · obtain ⟨f, hf, h1, h2, h3⟩ := i2 hrest
        exact ⟨f, List.mem_cons_of_mem _ hf, h1, h2, h3⟩
      · have hnone : ∀ f ∈ as, ¬ (f.Version = v ∧ f.Band = "B04.tif") :=
          fun f hf hp => hrest ⟨f, hf, hp⟩
        obtain ⟨f, hf, hp⟩ := h
        rcases List.mem_cons.mp hf with rfl | hf
        · exact ⟨f, List.mem_cons_self _ _, hp.1, hp.2, by rw [i1 hnone, t04 hp]⟩
        · exact absurd hp (hnone f hf)
    · intro h
      rw [i3 (fun f hf => h f (List.mem_cons_of_mem _ hf)), s08 (h a (List.mem_cons_self _ _))]
    · intro h
      by_cases hrest : ∃ f ∈ as, f.Version = v ∧ f.Band = "B08.tif"
      · obtain ⟨f, hf, h1, h2, h3⟩ := i4 hrest
        exact ⟨f, List.mem_cons_of_mem _ hf, h1, h2, h3⟩
      · have hnone : ∀ f ∈ as, ¬ (f.Version = v ∧ f.Band = "B08.tif") :=
          fun f hf hp => hrest ⟨f, hf, hp⟩
        obtain ⟨f, hf, hp⟩ := h
        rcases List.mem_cons.mp hf with rfl | hf
        · exact ⟨f, List.mem_cons_self _ _, hp.1, hp.2, by rw [i3 hnone, t08 hp]⟩
        · exact absurd hp (hnone f hf)
    · intro h
      rw [i5 (fun f hf => h f (List.mem_cons_of_mem _ hf)), sSCL (h a (List.mem_cons_self _ _))]
    · intro h
      by_cases hrest : ∃ f ∈ as, f.Version = v ∧ f.Band = "SCL.tif"
      · obtain ⟨f, hf, h1, h2, h3⟩ := i6 hrest
        exact ⟨f, List.mem_cons_of_mem _ hf, h1, h2, h3⟩
      · have hnone : ∀ f ∈ as, ¬ (f.Version = v ∧ f.Band = "SCL.tif") :=
          fun f hf hp => hrest ⟨f, hf, hp⟩
        obtain ⟨f, hf, hp⟩ := h
        rcases List.mem_cons.mp hf with rfl | hf
        · exact ⟨f, List.mem_cons_self _ _, hp.1, hp.2, by rw [i5 hnone, tSCL hp]⟩
        · exact absurd hp (hnone f hf)

/-- The paths that `SetupAndBuildNDVIMaps` selects are object paths of files of the
version of lines 157-162 and of the band; on a tile whose files have object paths that are
not empty, the path of a band is empty exactly when no file has that version and band. -/
theorem selectBands_spec (files : List TileFile) :
    ((selectBands files).band04ObjectPath ≠ "" →
      ∃ f ∈ files, f.Version = latestVersion files ∧ f.Band = "B04.tif" ∧
        (selectBands files).band04ObjectPath = f.ObjectPath) ∧
    ((selectBands files).band08ObjectPath ≠ "" →
      ∃ f ∈ files, f.Version = latestVersion files ∧ f.Band = "B08.tif" ∧
        (selectBands files).band08ObjectPath = f.ObjectPath) ∧
    ((selectBands files).bandSCLObjectPath ≠ "" →
      ∃ f ∈ files, f.Version = latestVersion files ∧ f.Band = "SCL.tif" ∧
        (selectBands files).bandSCLObjectPath = f.ObjectPath) ∧
    ((∀ f ∈ files, f.ObjectPath ≠ "") →
      ((selectBands files).band04ObjectPath = "" ↔
        ∀ f ∈ files, ¬ (f.Version = latestVersion files ∧ f.Band = "B04.tif")) ∧
      ((selectBands files).band08ObjectPath = "" ↔
        ∀ f ∈ files, ¬ (f.Version = latestVersion files ∧ f.Band = "B08.tif"))) := by
  obtain ⟨i1, i2, i3, i4, i5, i6⟩ := selectBands_fold (latestVersion files) _ rfl files
    { band04ObjectPath := "", band08ObjectPath := "", bandSCLObjectPath := "" }
  refine ⟨?_, ?_, ?_, ?_⟩
  · intro h
    by_cases hex : ∃ f ∈ files, f.Version = latestVersion files ∧ f.Band = "B04.tif"
    · exact i2 hex
    · exact absurd (i1 (fun f hf hp => hex ⟨f, hf, hp⟩)) h
  · intro h
    by_cases hex : ∃ f ∈ files, f.Version = latestVersion files ∧ f.Band = "B08.tif"
    · exact i4 hex
    · exact absurd (i3 (fun f hf hp => hex ⟨f, hf, hp⟩)) h
  · intro h
    by_cases hex : ∃ f ∈ files, f.Version = latestVersion files ∧ f.Band = "SCL.tif"
    · exact i6 hex
    · exact absurd (i5 (fun f hf hp => hex ⟨f, hf, hp⟩)) h
  · intro hpaths
    constructor
    · constructor
      · intro hempty f hf hp
        obtain ⟨g, hg, _, _, hpath⟩ := i2 ⟨f, hf, hp⟩
        exact hpaths g hg (by rw [← hpath]; exact hempty)
      · intro hnone
        exact i1 hnone
    · constructor
      · intro hempty f hf hp
        obtain ⟨g, hg, _, _, hpath⟩ := i4 ⟨f, hf, hp⟩
        exact hpaths g hg (by rw [← hpath]; exact hempty)
      · intro hnone
        exact i3 hnone

/-- On a tile whose files have object paths that are not empty, `SetupAndBuildNDVIMaps`
returns "tile did not have files for bands 4 and 8", with the state as it was, when no
file of the version of lines 157-162 is a `B04.tif` or none is a `B08.tif`; otherwise it
goes on to `os.MkdirTemp`. -/
theorem SetupAndBuildNDVIMaps_bands (env : BuildEnv) (st : BuildState)
    (boundaries : List Boundary) (tile : Tile) (hpaths : ∀ f ∈ tile.Files, f.ObjectPath ≠ "") :
    (((∀ f ∈ tile.Files, ¬ (f.Version = latestVersion tile.Files ∧ f.Band = "B04.tif")) ∨
        (∀ f ∈ tile.Files, ¬ (f.Version = latestVersion tile.Files ∧ f.Band = "B08.tif"))) →
      SetupAndBuildNDVIMaps env st boundaries tile
        = (st, some (GoError.New "tile did not have files for bands 4 and 8"))) ∧
    (((∃ f ∈ tile.Files, f.Version = latestVersion tile.Files ∧ f.Band = "B04.tif") ∧
        (∃ f ∈ tile.Files, f.Version = latestVersion tile.Files ∧ f.Band = "B08.tif")) →
      SetupAndBuildNDVIMaps env st boundaries tile
        = match env.MkdirTemp tile.ID with
          | .error err => (st, some err)
          | .ok dataDir =>
            ({ (downloadAndBuild env
                  { st with effects := st.effects ++ [Effect.MkdirTemp dataDir] }
                  boundaries tile (selectBands tile.Files) dataDir).1 with
                effects := (downloadAndBuild env
                  { st with effects := st.effects ++ [Effect.MkdirTemp dataDir] }
                  boundaries tile (selectBands tile.Files) dataDir).1.effects
                    ++ [Effect.RemoveAll dataDir] },
              (downloadAndBuild env
                { st with effects := st.effects ++ [Effect.MkdirTemp dataDir] }
                boundaries tile (selectBands tile.Files) dataDir).2)) := by
  obtain ⟨_, _, _, hiff⟩ := selectBands_spec tile.Files
  obtain ⟨h4, h8⟩ := hiff hpaths
  constructor
  · intro h
    have hempty : (selectBands tile.Files).band04ObjectPath = "" ∨
        (selectBands tile.Files).band08ObjectPath = "" := by
      rcases h with h | h
      · exact Or.inl (h4.mpr h)
      · exact Or.inr (h8.mpr h)
    simp only [SetupAndBuildNDVIMaps, hempty, if_true]
  · rintro ⟨⟨f, hf, hp⟩, ⟨g, hg, hq⟩⟩
    have hne : ¬ ((selectBands tile.Files).band04ObjectPath = "" ∨
        (selectBands tile.Files).band08ObjectPath = "") := by
      rintro (h | h)
      · exact h4.mp h f hf hp
      · exact h8.mp h g hg hq
    simp only [SetupAndBuildNDVIMaps, hne, if_false]

/-! ## The map task: the boundaries of the tiles -/

/-- Setting a key that the map does not hold appends the entry. -/
theorem mapSet_of_not_mem {κ ν : Type} [BEq κ] [LawfulBEq κ] (m : List (κ × ν)) (key : κ)
    (value : ν) (h : key ∉ m.map Prod.fst) : mapSet m key value = m ++ [(key, value)] := by
  induction m with
  | nil => rfl
  | cons entry rest ih =>
    have hne : (entry.1 == key) = false := by
      rw [beq_eq_false_iff_ne]
      intro heq
      exact h (by simp [heq])
    have hrest : key ∉ rest.map Prod.fst := fun hmem => h (by simp [hmem])
    simp only [mapSet, hne, Bool.false_eq_true, if_false, ih hrest, List.cons_append]

/-- A boundary is claimed when a list of the map holds a boundary of its id. -/
theorem boundaryClaimed_iff (m : List (ObjectID × List Boundary)) (b : Boundary) :
    boundaryClaimed m b = true ↔ ∃ e ∈ m, ∃ b1 ∈ e.2, b1.ID = b.ID := by
  simp [boundaryClaimed]

/-- The loop of `FindBoundariesForTile` from a map that holds the lists of the tiles
`pre`: what holds of the map holds after the tiles `rest`. -/
theorem claimBoundaries_spec (env : BuildEnv) (boundaries : List Boundary)
    (filter : Boundary → Bool) (hb : (boundaries.map Boundary.ID).Nodup) :
    ∀ (rest pre : List Tile) (m : List (ObjectID × List Boundary)),
      ((pre ++ rest).map Tile.ID).Nodup →
      (∀ t ∈ rest, env.geoIntersects t.Geometry ≠ none) →
      m.map Prod.fst = pre.map Tile.ID →
      (∀ e ∈ m, ∀ b ∈ e.2, b ∈ boundaries ∧ filter b = true ∧
        ∃ t ∈ pre, t.ID = e.1 ∧ intersectsTile env t b = true) →
      m.Pairwise (fun e1 e2 => ∀ b1 ∈ e1.2, ∀ b2 ∈ e2.2, b1.ID ≠ b2.ID) →
      (∀ b ∈ boundaries, filter b = true →
        ∀ t, pre.find? (fun t => intersectsTile env t b) = some t →
          ∃ bs, (t.ID, bs) ∈ m ∧ b ∈ bs) →
      ∃ out, claimBoundaries env boundaries filter rest m = some out ∧
        out.map Prod.fst = (pre ++ rest).map Tile.ID ∧
        (∀ e ∈ out, ∀ b ∈ e.2, b ∈ boundaries ∧ filter b = true ∧
          ∃ t ∈ pre ++ rest, t.ID = e.1 ∧ intersectsTile env t b = true) ∧
        out.Pairwise (fun e1 e2 => ∀ b1 ∈ e1.2, ∀ b2 ∈ e2.2, b1.ID ≠ b2.ID) ∧
        (∀ b ∈ boundaries, filter b = true →
          ∀ t, (pre ++ rest).find? (fun t => intersectsTile env t b) = some t →
            ∃ bs, (t.ID, bs) ∈ out ∧ b ∈ bs) := by
  intro rest
  induction rest with
  | nil =>
    intro pre m _ _ hkeys hmem hpair hfirst
    exact ⟨m, rfl, by simpa using hkeys, by simpa using hmem, hpair, by simpa using hfirst⟩
  | cons t rest ih =>
    intro pre m hnodup hgeo hkeys hmem hpair hfirst
    obtain ⟨intersects, hint⟩ : ∃ f, env.geoIntersects t.Geometry = some f := by
      cases h : env.geoIntersects t.Geometry with
      | none => exact absurd h (hgeo t (List.mem_cons_self _ _))
      | some f => exact ⟨f, rfl⟩
    have hintersects : ∀ b : Boundary, intersectsTile env t b = intersects b.Geometry := by
      intro b
      simp only [intersectsTile, hint]
    have happend : pre ++ t :: rest = (pre ++ [t]) ++ rest := by simp
    have hfresh : t.ID ∉ m.map Prod.fst := by
      rw [hkeys]
      intro hin
      rw [List.map_append, List.map_cons] at hnodup
      exact (List.nodup_append.mp hnodup).2.2 hin (List.mem_cons_self _ _)
    -- a boundary that the map holds intersects a tile of `pre`
    have hclaimed : ∀ b ∈ boundaries, boundaryClaimed m b = true →
        ∃ t1 ∈ pre, intersectsTile env t1 b = true := by
      intro b hbmem hcl
      obtain ⟨e, he, b1, hb1, hid⟩ := (boundaryClaimed_iff m b).mp hcl
      obtain ⟨hb1mem, _, t1, ht1, _, hi⟩ := hmem e he b1 hb1
      have : b1 = b := List.inj_on_of_nodup_map hb hb1mem hbmem hid
      exact ⟨t1, ht1, by rw [← this]; exact hi⟩
    obtain ⟨out, hout, h1, h2, h3, h4⟩ := ih (pre ++ [t])
      (m ++ [(t.ID, (FindBoundaries boundaries
          (fun b => filter b && intersects b.Geometry)).filter
            (fun boundary => !(boundaryClaimed m boundary)))])
      (by rw [← happend]; exact hnodup)
      (fun t1 ht1 => hgeo t1 (List.mem_cons_of_mem _ ht1))
      (by simp [hkeys])
      (by
        intro e he b hbe
        rcases List.mem_append.mp he with he | he
        · obtain ⟨q1, q2, t1, ht1, q3, q4⟩ := hmem e he b hbe
          exact ⟨q1, q2, t1, List.mem_append_left _ ht1, q3, q4⟩
        · rw [List.mem_singleton] at he
          subst he
          simp only [FindBoundaries, List.mem_filter, Bool.and_eq_true, Bool.not_eq_true'] at hbe
          exact ⟨hbe.1.1, hbe.1.2.1, t, by simp, rfl, by rw [hintersects]; exact hbe.1.2.2⟩)
      (by
        rw [List.pairwise_append]
        refine ⟨hpair, List.pairwise_singleton _ _, ?_⟩
        intro e1 he1 e2 he2 b1 hb1 b2 hb2 hid
        rw [List.mem_singleton] at he2
        subst he2
        simp only [FindBoundaries, List.mem_filter, Bool.and_eq_true, Bool.not_eq_true'] at hb2
        have hcl : boundaryClaimed m b2 = true :=
          (boundaryClaimed_iff m b2).mpr ⟨e1, he1, b1, hb1, hid⟩
        rw [hcl] at hb2
        exact absurd hb2.2 (by decide))
      (by
        intro b hbmem hfilter t1 hfind
        rw [List.find?_append] at hfind
        cases hpre : pre.find? (fun t => intersectsTile env t b) with
        | some t0 =>
          rw [hpre] at hfind
          simp only [Option.or, Option.some.injEq] at hfind
          subst hfind
          obtain ⟨bs, hbs, hbin⟩ := hfirst b hbmem hfilter t0 hpre
          exact ⟨bs, List.mem_append_left _ hbs, hbin⟩
        | none =>
          rw [hpre] at hfind
          simp only [Option.or, List.find?_cons, List.find?_nil] at hfind
          cases hti : intersectsTile env t b with
          | false => rw [hti] at hfind; simp at hfind
          | true =>
            rw [hti] at hfind
            simp only [Option.some.injEq] at hfind
            subst hfind
            refine ⟨_, List.mem_append_right _ (List.mem_singleton_self _), ?_⟩
            simp only [FindBoundaries, List.mem_filter, Bool.and_eq_true, Bool.not_eq_true']
            refine ⟨⟨hbmem, hfilter, by rw [← hintersects]; exact hti⟩, ?_⟩
            cases hcl : boundaryClaimed m b with
            | false => rfl
            | true =>
              obtain ⟨t1, ht1, hi⟩ := hclaimed b hbmem hcl
              have := List.find?_eq_none.mp hpre t1 ht1
              exact absurd hi this)
    refine ⟨out, ?_, by rw [happend]; exact h1, by rw [happend]; exact h2, h3,
      by rw [happend]; exact h4⟩
    simp only [claimBoundaries, hint]
    rw [mapSet_of_not_mem m t.ID _ hfresh]
    exact hout

/-- The tiles that `FindTiles` returns: at most `limit` tiles of the collection that match
the filter, latest date first, none of them older than a matching tile that is left out;
distinct ids stay distinct. -/
theorem FindTiles_spec (tiles : List Tile) (filter : Tile → Bool) (limit : Nat) :
    (FindTiles tiles filter limit).length ≤ limit ∧
      (∀ t ∈ FindTiles tiles filter limit, t ∈ tiles ∧ filter t = true) ∧
      (FindTiles tiles filter limit).Pairwise (fun a b => b.Date ≤ a.Date) ∧
      (∀ t ∈ tiles, filter t = true → t ∉ FindTiles tiles filter limit →
        ∀ r ∈ FindTiles tiles filter limit, t.Date ≤ r.Date) ∧
      ((tiles.map Tile.ID).Nodup → ((FindTiles tiles filter limit).map Tile.ID).Nodup) := by
  haveI : IsTotal Tile (fun a b => b.Date ≤ a.Date) := ⟨fun a b => le_total b.Date a.Date⟩
  haveI : IsTrans Tile (fun a b => b.Date ≤ a.Date) :=
    ⟨fun a b c hab hbc => le_trans hbc hab⟩
  have hsorted : ((tiles.filter filter).insertionSort (fun a b => b.Date ≤ a.Date)).Pairwise
      (fun a b => b.Date ≤ a.Date) :=
    List.sorted_insertionSort (fun a b : Tile => b.Date ≤ a.Date) (tiles.filter filter)
  have hperm := List.perm_insertionSort (fun a b : Tile => b.Date ≤ a.Date)
    (tiles.filter filter)
  refine ⟨?_, ?_, ?_, ?_, ?_⟩
  · simp only [FindTiles, List.length_take]
    omega
  · intro t ht
    have h1 := List.mem_of_mem_take ht
    have h2 := (hperm.mem_iff).mp h1
    exact ⟨(List.mem_filter.mp h2).1, (List.mem_filter.mp h2).2⟩
  · exact hsorted.sublist (List.take_sublist _ _)
  · intro t ht hf hnot r hr
    have hmem : t ∈ (tiles.filter filter).insertionSort (fun a b => b.Date ≤ a.Date) :=
      (hperm.mem_iff).mpr (List.mem_filter.mpr ⟨ht, hf⟩)
    rw [← List.take_append_drop limit
      ((tiles.filter filter).insertionSort (fun a b => b.Date ≤ a.Date))] at hmem hsorted
    rcases List.mem_append.mp hmem with h | h
    · exact absurd h hnot
    · exact (List.pairwise_append.mp hsorted).2.2 r hr t h
  · intro hnodup
    have h1 : ((tiles.filter filter).map Tile.ID).Nodup :=
      hnodup.sublist ((List.filter_sublist _).map _)
    have h2 : (((tiles.filter filter).insertionSort (fun a b => b.Date ≤ a.Date)).map
        Tile.ID).Nodup := ((hperm.map Tile.ID).nodup_iff).mpr h1
    exact h2.sublist ((List.take_sublist _ _).map _)

/-- C23: when the server answers the intersection queries of the tiles, on tiles and
boundaries of distinct ids, `FindBoundariesForTile` returns a map whose keys are the ids of
`recent`, the at most 10 tiles of the MGRS code with the latest dates, latest first. A
boundary of the collection that matches the boundary filter and intersects a tile of
`recent` is in the list of the first tile of `recent` that it intersects and in no other
list; every boundary of a list matches the filter and is there for that reason; and when
the filter comes from an event with a `boundaryId`, every boundary of the map has that
id. -/
theorem boundaries_go_to_most_recent_tile (env : BuildEnv) (tiles recent : List Tile)
    (boundaries : List Boundary) (mgrsCode : String) (filter : Boundary → Bool)
    (hrecent : recent = FindTiles tiles (fun t => t.MgrsCode == mgrsCode) 10)
    (htiles : (tiles.map Tile.ID).Nodup) (hb : (boundaries.map Boundary.ID).Nodup)
    (hgeo : ∀ t ∈ recent, env.geoIntersects t.Geometry ≠ none) :
    ∃ m, FindBoundariesForTile env tiles boundaries mgrsCode filter = some m ∧
      recent.length ≤ 10 ∧
      (∀ t ∈ recent, t ∈ tiles ∧ t.MgrsCode = mgrsCode) ∧
      recent.Pairwise (fun a b => b.Date ≤ a.Date) ∧
      (∀ t ∈ tiles, t.MgrsCode = mgrsCode → t ∉ recent → ∀ r ∈ recent, t.Date ≤ r.Date) ∧
      m.map Prod.fst = recent.map Tile.ID ∧ (m.map Prod.fst).Nodup ∧
      (∀ b ∈ boundaries, filter b = true →
        ∀ t, recent.find? (fun t => intersectsTile env t b) = some t →
          (∃ bs, (t.ID, bs) ∈ m ∧ b ∈ bs) ∧
          ∀ e ∈ m, (∃ b1 ∈ e.2, b1.ID = b.ID) → e.1 = t.ID) ∧
      (∀ e ∈ m, ∀ b ∈ e.2, b ∈ boundaries ∧ filter b = true ∧
        ∃ t, recent.find? (fun t => intersectsTile env t b) = some t ∧ t.ID = e.1) ∧
      (∀ e1 ∈ m, ∀ e2 ∈ m, ∀ b1 ∈ e1.2, ∀ b2 ∈ e2.2, b1.ID = b2.ID → e1 = e2) ∧
      (∀ (event : Event) (hex : String) (id : ObjectID),
        boundariesFilter event = some filter → event.Data.lookup "boundaryId" = some hex →
        ObjectIDFromHex hex = some id → ∀ e ∈ m, ∀ b ∈ e.2, b.ID = id) := by
  obtain ⟨f1, f2, f3, f4, f5⟩ := FindTiles_spec tiles (fun t => t.MgrsCode == mgrsCode) 10
  rw [← hrecent] at f1 f2 f3 f4 f5
  have hids := f5 htiles
  obtain ⟨m, hm, h1, h2, h3, h4⟩ := claimBoundaries_spec env boundaries filter hb recent [] []
    (by simpa using hids) hgeo rfl (by simp) List.Pairwise.nil (by simp)
  simp only [List.nil_append] at h1 h2 h4
  have hkeys : (m.map Prod.fst).Nodup := by rw [h1]; exact hids
  -- two entries that hold boundaries of one id are one entry
  have hsame : ∀ e1 ∈ m, ∀ e2 ∈ m, ∀ b1 ∈ e1.2, ∀ b2 ∈ e2.2, b1.ID = b2.ID → e1 = e2 := by
    intro e1 he1 e2 he2 b1 hb1 b2 hb2 hid
    by_contra hne
    have hsymm : Symmetric (fun e1 e2 : ObjectID × List Boundary =>
        ∀ b1 ∈ e1.2, ∀ b2 ∈ e2.2, b1.ID ≠ b2.ID) :=
      fun x y hxy b1 hb1 b2 hb2 heq => hxy b2 hb2 b1 hb1 heq.symm
    exact h3.forall hsymm he1 he2 hne b1 hb1 b2 hb2 hid
  have hfirst : ∀ b ∈ boundaries, filter b = true →
      ∀ t, recent.find? (fun t => intersectsTile env t b) = some t →
        (∃ bs, (t.ID, bs) ∈ m ∧ b ∈ bs) ∧
        ∀ e ∈ m, (∃ b1 ∈ e.2, b1.ID = b.ID) → e.1 = t.ID := by
    intro b hbmem hfilter t hfind
    obtain ⟨bs, hbs, hbin⟩ := h4 b hbmem hfilter t hfind
    refine ⟨⟨bs, hbs, hbin⟩, ?_⟩
    rintro e he ⟨b1, hb1, hid⟩
    have := hsame e he (t.ID, bs) hbs b1 hb1 b hbin hid
    rw [this]
  refine ⟨m, ?_, f1, ?_, f3, ?_, h1, hkeys, hfirst, ?_, hsame, ?_⟩
  · simp only [FindBoundariesForTile, ← hrecent]
    split
    · rename_i hlen
      have : recent = [] := List.eq_nil_of_length_eq_zero hlen
      rw [this] at hm
      simpa [claimBoundaries] using hm.symm
    · exact hm
  · intro t ht
    exact ⟨(f2 t ht).1, by simpa using (f2 t ht).2⟩
  · intro t ht hcode
    exact f4 t ht (by simpa using hcode)
  · intro e he b hbe
    obtain ⟨q1, q2, t, ht, q3, q4⟩ := h2 e he b hbe
    refine ⟨q1, q2, ?_⟩
    cases hfind : recent.find? (fun t => intersectsTile env t b) with
    | none => exact absurd q4 (by simpa using List.find?_eq_none.mp hfind t ht)
    | some t0 =>
      refine ⟨t0, rfl, ?_⟩
      exact ((hfirst b q1 q2 t0 hfind).2 e he ⟨b, hbe, rfl⟩).symm
  · intro event hex id hfilter hlookup hdecode e he b hbe
    obtain ⟨_, q2, _⟩ := h2 e he b hbe
    simp only [boundariesFilter, hlookup, hdecode, Option.some.injEq] at hfilter
    rw [← hfilter] at q2
    exact eq_of_beq (Bool.and_eq_true _ _ ▸ q2).2

/-- C23 at two tiles of the code `14TNR`, a tile of another code and two boundaries that
both tiles cover. -/
theorem boundaries_go_to_most_recent_tile_witness :
    ([mapTile, olderMapTile]
        = FindTiles [olderMapTile, otherCodeTile, mapTile] (fun t => t.MgrsCode == "14TNR") 10 ∧
      ([olderMapTile, otherCodeTile, mapTile].map Tile.ID).Nodup ∧
      ([fieldBoundary, meadowBoundary].map Boundary.ID).Nodup ∧
      ∀ t ∈ [mapTile, olderMapTile], exampleBuildEnv.geoIntersects t.Geometry ≠ none) ∧
    ∃ m, FindBoundariesForTile exampleBuildEnv [olderMapTile, otherCodeTile, mapTile]
        [fieldBoundary, meadowBoundary] "14TNR" (fun b => b.MgrsCodes.contains "14TNR")
          = some m ∧
      [mapTile, olderMapTile].length ≤ 10 ∧
      (∀ t ∈ [mapTile, olderMapTile],
        t ∈ [olderMapTile, otherCodeTile, mapTile] ∧ t.MgrsCode = "14TNR") ∧
      [mapTile, olderMapTile].Pairwise (fun a b => b.Date ≤ a.Date) ∧
      (∀ t ∈ [olderMapTile, otherCodeTile, mapTile], t.MgrsCode = "14TNR" →
        t ∉ [mapTile, olderMapTile] → ∀ r ∈ [mapTile, olderMapTile], t.Date ≤ r.Date) ∧
      m.map Prod.fst = [mapTile, olderMapTile].map Tile.ID ∧ (m.map Prod.fst).Nodup ∧
      (∀ b ∈ [fieldBoundary, meadowBoundary], b.MgrsCodes.contains "14TNR" = true →
        ∀ t, [mapTile, olderMapTile].find? (fun t => intersectsTile exampleBuildEnv t b)
            = some t →
          (∃ bs, (t.ID, bs) ∈ m ∧ b ∈ bs) ∧
          ∀ e ∈ m, (∃ b1 ∈ e.2, b1.ID = b.ID) → e.1 = t.ID) ∧
      (∀ e ∈ m, ∀ b ∈ e.2, b ∈ [fieldBoundary, meadowBoundary] ∧
        b.MgrsCodes.contains "14TNR" = true ∧
        ∃ t, [mapTile, olderMapTile].find? (fun t => intersectsTile exampleBuildEnv t b)
            = some t ∧ t.ID = e.1) ∧
      (∀ e1 ∈ m, ∀ e2 ∈ m, ∀ b1 ∈ e1.2, ∀ b2 ∈ e2.2, b1.ID = b2.ID → e1 = e2) ∧
      (∀ (event : Event) (hex : String) (id : ObjectID),
        boundariesFilter event = some (fun b => b.MgrsCodes.contains "14TNR") →
        event.Data.lookup "boundaryId" = some hex →
        ObjectIDFromHex hex = some id → ∀ e ∈ m, ∀ b ∈ e.2, b.ID = id) :=
  ⟨⟨by decide, by decide, by decide, by intro t _; simp [exampleBuildEnv]⟩,
    boundaries_go_to_most_recent_tile exampleBuildEnv [olderMapTile, otherCodeTile, mapTile]
      [mapTile, olderMapTile] [fieldBoundary, meadowBoundary] "14TNR"
      (fun b => b.MgrsCodes.contains "14TNR") (by decide) (by decide) (by decide)
      (by intro t _; simp [exampleBuildEnv])⟩

/-! ## Object ids in hexadecimal and file names: lemmas -/

/-- The digits that `Hex` writes are read back. -/
theorem hexValue_digitChar : ∀ d, d < 16 → hexValue (Nat.digitChar d) = some d := by
  decide

/-- No digit that `Hex` writes is a dot. -/
theorem digitChar_ne_dot : ∀ d, d < 16 → Nat.digitChar d ≠ '.' := by
  decide

/-- The digits of `hexChars` are as many as asked for. -/
theorem hexChars_length (n v : Nat) : (hexChars n v).length = n := by
  induction n generalizing v with
  | zero => rfl
  | succ n ih => simp [hexChars, ih]

/-- No digit of `hexChars` is a dot. -/
theorem hexChars_ne_dot (n v : Nat) : ∀ c ∈ hexChars n v, c ≠ '.' := by
  induction n generalizing v with
  | zero => simp [hexChars]
  | succ n ih =>
    intro c hc
    simp only [hexChars, List.mem_append, List.mem_singleton] at hc
    rcases hc with hc | hc
    · exact ih _ c hc
    · rw [hc]
      exact digitChar_ne_dot _ (Nat.mod_lt _ (by decide))

/-- Reading digits after digits. -/
theorem parseHex_append (l : List Char) (c : Char) (acc : Nat) :
    parseHex (l ++ [c]) acc
      = (parseHex l acc).bind (fun a => (hexValue c).map (fun v => a * 16 + v)) := by
  induction l generalizing acc with
  | nil =>
    simp only [List.nil_append, parseHex, Option.some_bind]
    cases hexValue c <;> rfl
  | cons d ds ih =>
    simp only [List.cons_append, parseHex]
    cases hexValue d with
    | none => rfl
    | some v => exact ih _

/-- The digits of `hexChars` are read back as the number below `16 ^ n`. -/
theorem parseHex_hexChars (n v : Nat) : parseHex (hexChars n v) 0 = some (v % 16 ^ n) := by
  induction n generalizing v with
  | zero => simp [hexChars, parseHex, Nat.mod_one]
  | succ n ih =>
    simp only [hexChars, parseHex_append, ih, Option.some_bind,
      hexValue_digitChar _ (Nat.mod_lt v (by decide : 16 > 0)), Option.map_some',
      Option.some.injEq]
    rw [pow_succ, Nat.mul_comm (16 ^ n) 16, Nat.mod_mul]
    omega

/-- The hexadecimal form of an object id is read back by `ObjectIDFromHex`. -/
theorem ObjectIDFromHex_Hex (id : ObjectID) (h : id < 2 ^ 96) :
    ObjectIDFromHex id.Hex = some id := by
  have h16 : id < 16 ^ 24 := by
    have h2 : (16 : Nat) ^ 24 = 2 ^ 96 := by norm_num
    rw [h2]
    exact h
  simp only [ObjectIDFromHex, ObjectID.Hex, hexChars_length, ne_eq, not_true_eq_false,
    if_false, parseHex_hexChars, Nat.mod_eq_of_lt h16]

/-- The first occurrence of a text at the front of a list is removed from there. -/
theorem replaceFirstChars_front (old rest : List Char) (hne : old ≠ []) :
    replaceFirstChars old [] (old ++ rest) = rest := by
  cases old with
  | nil => exact absurd rfl hne
  | cons o os =>
    have hpre : (o :: os).isPrefixOf (o :: (os ++ rest)) = true := by
      rw [← List.cons_append, List.isPrefixOf_iff_prefix]
      exact List.prefix_append _ _
    show replaceFirstChars (o :: os) [] (o :: (os ++ rest)) = rest
    rw [replaceFirstChars, if_pos hpre]
    simp

/-- The first occurrence of a text behind characters that are not its first one is at the
end. -/
theorem replaceFirstChars_back (o : Char) (os front : List Char)
    (hfront : ∀ c ∈ front, c ≠ o) :
    replaceFirstChars (o :: os) [] (front ++ o :: os) = front := by
  induction front with
  | nil =>
    have := replaceFirstChars_front (o :: os) [] (by simp)
    simpa using this
  | cons c cs ih =>
    have hc : c ≠ o := hfront c (List.mem_cons_self _ _)
    have hpre : (o :: os).isPrefixOf (c :: (cs ++ o :: os)) = false := by
      simp [List.isPrefixOf, Ne.symm hc]
    show replaceFirstChars (o :: os) [] (c :: (cs ++ o :: os)) = c :: cs
    rw [replaceFirstChars, hpre, if_neg (by decide),
      ih (fun d hd => hfront d (List.mem_cons_of_mem _ hd))]

/-- The key of a file name made of the prefix, a text without the first character of the
suffix, and the suffix is that text. -/
theorem fileKey_of_parts (pre text suffix : String) (o : Char) (os : List Char)
    (hpre : pre.data ≠ []) (hsuffix : suffix.data = o :: os)
    (htext : ∀ c ∈ text.data, c ≠ o) :
    fileKey (pre ++ text ++ suffix) pre suffix = text := by
  have h1 : Replace (pre ++ text ++ suffix) pre "" = text ++ suffix := by
    apply String.ext
    simp only [Replace, String.data_append, List.append_assoc]
    exact replaceFirstChars_front pre.data _ hpre
  have h2 : Replace (text ++ suffix) suffix "" = text := by
    apply String.ext
    simp only [Replace, String.data_append, hsuffix]
    exact replaceFirstChars_back o os text.data htext
  rw [fileKey, h1, h2]

/-- The key of the image file of an object id is its hexadecimal form. -/
theorem fileKey_image (id : ObjectID) :
    fileKey ("raster_image_" ++ id.Hex ++ ".png") "raster_image_" ".png" = id.Hex :=
  fileKey_of_parts "raster_image_" id.Hex ".png" '.' ['p', 'n', 'g'] (by decide) rfl
    (hexChars_ne_dot 24 id)

/-- The key of the meta file of an object id is its hexadecimal form. -/
theorem fileKey_meta (id : ObjectID) :
    fileKey ("raster_meta_" ++ id.Hex ++ ".json") "raster_meta_" ".json" = id.Hex :=
  fileKey_of_parts "raster_meta_" id.Hex ".json" '.' ['j', 's', 'o', 'n'] (by decide) rfl
    (hexChars_ne_dot 24 id)

/-- A name made of a prefix, a text and a suffix has the prefix and the suffix. -/
theorem hasPrefix_hasSuffix_of_parts (pre text suffix : String) :
    HasPrefix (pre ++ text ++ suffix) pre = true ∧
      HasSuffix (pre ++ text ++ suffix) suffix = true := by
  constructor
  · simp only [HasPrefix, String.data_append, List.append_assoc, List.isPrefixOf_iff_prefix]
    exact List.prefix_append _ _
  · simp only [HasSuffix, String.data_append, List.isSuffixOf_iff_suffix]
    exact List.suffix_append _ _

/-- A meta file is not taken for an image file. -/
theorem meta_name_not_image (text suffix : String) :
    HasPrefix ("raster_meta_" ++ text ++ suffix) "raster_image_" = false := by
  have h : ("raster_meta_" : String).data
      = ['r', 'a', 's', 't', 'e', 'r', '_', 'm', 'e', 't', 'a', '_'] := rfl
  have h2 : ("raster_image_" : String).data
      = ['r', 'a', 's', 't', 'e', 'r', '_', 'i', 'm', 'a', 'g', 'e', '_'] := rfl
  simp [HasPrefix, String.data_append, h, h2, List.isPrefixOf]

/-! ## Go maps as lists of entries: lemmas -/

/-- The keys after `m[key] = value`. -/
theorem mapSet_keys {κ ν : Type} [BEq κ] [LawfulBEq κ] [DecidableEq κ] (m : List (κ × ν))
    (key : κ) (value : ν) :
    (mapSet m key value).map Prod.fst
      = if key ∈ m.map Prod.fst then m.map Prod.fst else m.map Prod.fst ++ [key] := by
  induction m with
  | nil => simp [mapSet]
  | cons entry rest ih =>
    by_cases he : entry.1 = key
    · simp [mapSet, he]
    · have hne : (entry.1 == key) = false := by rw [beq_eq_false_iff_ne]; exact he
      simp only [mapSet, hne, Bool.false_eq_true, if_false, List.map_cons, ih,
        List.mem_cons]
      by_cases hk : key ∈ rest.map Prod.fst
      · simp [hk]
      · simp [hk, Ne.symm he]

/-- An entry after `m[key] = value` is the new entry or an old one. -/
theorem mapSet_mem {κ ν : Type} [BEq κ] (m : List (κ × ν)) (key : κ) (value : ν)
    (e : κ × ν) (h : e ∈ mapSet m key value) : e = (key, value) ∨ e ∈ m := by
  induction m with
  | nil => simpa [mapSet] using h
  | cons entry rest ih =>
    simp only [mapSet] at h
    split at h
    · rcases List.mem_cons.mp h with h | h
      · exact Or.inl h
      · exact Or.inr (List.mem_cons_of_mem _ h)
    · rcases List.mem_cons.mp h with h | h
      · exact Or.inr (by rw [h]; exact List.mem_cons_self _ _)
      · rcases ih h with h | h
        · exact Or.inl h
        · exact Or.inr (List.mem_cons_of_mem _ h)

/-- A loop that sets `m[key x] = val x` for the elements that pass a test: the keys stay
distinct, every entry is an old one or comes from an element, and every element that
passes the test has its key in the map. -/
theorem foldl_mapSet_spec {α κ ν : Type} [BEq κ] [LawfulBEq κ] [DecidableEq κ]
    (p : α → Bool) (key : α → κ) (val : α → ν) :
    ∀ (xs : List α) (m : List (κ × ν)), (m.map Prod.fst).Nodup →
      ((xs.foldl (fun m x => if p x then mapSet m (key x) (val x) else m) m).map
          Prod.fst).Nodup ∧
      (∀ e ∈ xs.foldl (fun m x => if p x then mapSet m (key x) (val x) else m) m,
        e ∈ m ∨ ∃ x ∈ xs, p x = true ∧ e = (key x, val x)) ∧
      (∀ k ∈ m.map Prod.fst,
        k ∈ (xs.foldl (fun m x => if p x then mapSet m (key x) (val x) else m) m).map
          Prod.fst) ∧
      (∀ x ∈ xs, p x = true →
        key x ∈ (xs.foldl (fun m x => if p x then mapSet m (key x) (val x) else m) m).map
          Prod.fst) := by
  intro xs
  induction xs with
  | nil => intro m hm; simp [hm]
  | cons a as ih =>
    intro m hm
    simp only [List.foldl_cons]
    by_cases hp : p a = true
    · simp only [hp, if_true]
      have hkeys := mapSet_keys m (key a) (val a)
      have hnodup : ((mapSet m (key a) (val a)).map Prod.fst).Nodup := by
        rw [hkeys]
        split
        · exact hm
        · rename_i hnot
          exact List.Nodup.append hm (List.nodup_singleton _) (by simpa using hnot)
      have hsub : ∀ k ∈ m.map Prod.fst, k ∈ (mapSet m (key a) (val a)).map Prod.fst := by
        intro k hk
        rw [hkeys]
        split
        · exact hk
        · exact List.mem_append_left _ hk
      have hself : key a ∈ (mapSet m (key a) (val a)).map Prod.fst := by
        rw [hkeys]
        split
        · assumption
        · simp
      obtain ⟨h1, h2, h3, h4⟩ := ih (mapSet m (key a) (val a)) hnodup
      refine ⟨h1, ?_, fun k hk => h3 k (hsub k hk), ?_⟩
      · intro e he
        rcases h2 e he with h | ⟨x, hx, hpx, hex⟩
        · rcases mapSet_mem m _ _ e h with h | h
          · exact Or.inr ⟨a, List.mem_cons_self _ _, hp, h⟩
          · exact Or.inl h
        · exact Or.inr ⟨x, List.mem_cons_of_mem _ hx, hpx, hex⟩
      · intro x hx hpx
        rcases List.mem_cons.mp hx with rfl | hx
        · exact h3 _ hself
        · exact h4 x hx hpx
    · simp only [hp, Bool.false_eq_true, if_false]
      obtain ⟨h1, h2, h3, h4⟩ := ih m hm
      refine ⟨h1, ?_, h3, ?_⟩
      · intro e he
        rcases h2 e he with h | ⟨x, hx, hpx, hex⟩
        · exact Or.inl h
        · exact Or.inr ⟨x, List.mem_cons_of_mem _ hx, hpx, hex⟩
      · intro x hx hpx
        rcases List.mem_cons.mp hx with rfl | hx
        · exact absurd hpx hp
        · exact h4 x hx hpx

/-- A value that `lookup` finds is the value of an entry. -/
theorem mem_of_lookup {κ ν : Type} [BEq κ] [LawfulBEq κ] (m : List (κ × ν)) (k : κ) (v : ν)
    (h : m.lookup k = some v) : (k, v) ∈ m := by
  induction m with
  | nil => simp at h
  | cons e rest ih =>
    obtain ⟨k1, v1⟩ := e
    by_cases hk : k = k1
    · subst hk
      simp only [List.lookup_cons, beq_self_eq_true, Option.some.injEq] at h
      rw [h]
      exact List.mem_cons_self _ _
    · have hne : (k == k1) = false := by rw [beq_eq_false_iff_ne]; exact hk
      simp only [List.lookup_cons, hne] at h
      exact List.mem_cons_of_mem _ (ih h)

/-- In a map of distinct keys, `lookup` finds the value of every entry. -/
theorem lookup_of_mem {κ ν : Type} [BEq κ] [LawfulBEq κ] (m : List (κ × ν)) (k : κ) (v : ν)
    (hm : (m.map Prod.fst).Nodup) (h : (k, v) ∈ m) : m.lookup k = some v := by
  induction m with
  | nil => simp at h
  | cons e rest ih =>
    obtain ⟨k1, v1⟩ := e
    rw [List.map_cons, List.nodup_cons] at hm
    rcases List.mem_cons.mp h with h | h
    · simp only [Prod.mk.injEq] at h
      rw [h.1, h.2]
      simp [List.lookup_cons]
    · have hk : k ≠ k1 := by
        intro heq
        exact hm.1 (List.mem_map.mpr ⟨(k, v), h, heq⟩)
      have hne : (k == k1) = false := by rw [beq_eq_false_iff_ne]; exact hk
      simp only [List.lookup_cons, hne]
      exact ih hm.2 h

/-! ## The map task: the rasters of the scratch directory -/

/-- The map `rasterImageFiles`: distinct keys; every entry is an image file of the
directory under its key; every image file has its key in the map. -/
theorem indexImageFiles_spec (files : List String) (pre : String) :
    ((indexImageFiles files pre).map Prod.fst).Nodup ∧
      (∀ e ∈ indexImageFiles files pre, e.2 ∈ files ∧ HasPrefix e.2 pre = true ∧
        HasSuffix e.2 ".png" = true ∧ fileKey e.2 pre ".png" = e.1) ∧
      (∀ n ∈ files, HasPrefix n pre = true → HasSuffix n ".png" = true →
        fileKey n pre ".png" ∈ (indexImageFiles files pre).map Prod.fst) := by
  obtain ⟨h1, h2, _, h4⟩ := foldl_mapSet_spec
    (fun n : String => HasPrefix n pre && HasSuffix n ".png")
    (fun n => fileKey n pre ".png") (fun n => n) files [] List.nodup_nil
  refine ⟨h1, ?_, ?_⟩
  · intro e he
    rcases h2 e he with h | ⟨x, hx, hp, hex⟩
    · simp at h
    · rw [Bool.and_eq_true] at hp
      rw [hex]
      exact ⟨hx, hp.1, hp.2, rfl⟩
  · intro n hn hpre hsuf
    exact h4 n hn (by rw [Bool.and_eq_true]; exact ⟨hpre, hsuf⟩)

/-- The map `rasterMetaFiles`: distinct keys; every entry is a meta file of the directory
under its key; every meta file that is not taken for an image file has its key in the
map. -/
theorem indexMetaFiles_spec (files : List String) (imagePre metaPre : String) :
    ((indexMetaFiles files imagePre metaPre).map Prod.fst).Nodup ∧
      (∀ e ∈ indexMetaFiles files imagePre metaPre, e.2 ∈ files ∧
        HasPrefix e.2 metaPre = true ∧ HasSuffix e.2 ".json" = true ∧
        fileKey e.2 metaPre ".json" = e.1) ∧
      (∀ n ∈ files, HasPrefix n imagePre = false → HasPrefix n metaPre = true →
        HasSuffix n ".json" = true →
        fileKey n metaPre ".json" ∈ (indexMetaFiles files imagePre metaPre).map Prod.fst) := by
  have hform : indexMetaFiles files imagePre metaPre
      = files.foldl (fun m n =>
          if (!(HasPrefix n imagePre && HasSuffix n ".png")
              && (HasPrefix n metaPre && HasSuffix n ".json")) = true then
            mapSet m (fileKey n metaPre ".json") n
          else m) [] := by
    unfold indexMetaFiles
    congr 1
    funext m n
    by_cases h1 : (HasPrefix n imagePre && HasSuffix n ".png") = true
    · simp [h1]
    · simp only [h1, Bool.false_eq_true, if_false, Bool.not_eq_true] at *
      simp [h1]
  obtain ⟨h1, h2, _, h4⟩ := foldl_mapSet_spec
    (fun n : String => !(HasPrefix n imagePre && HasSuffix n ".png")
      && (HasPrefix n metaPre && HasSuffix n ".json"))
    (fun n => fileKey n metaPre ".json") (fun n => n) files [] List.nodup_nil
  rw [hform]
  refine ⟨h1, ?_, ?_⟩
  · intro e he
    rcases h2 e he with h | ⟨x, hx, hp, hex⟩
    · simp at h
    · simp only [Bool.and_eq_true] at hp
      rw [hex]
      exact ⟨hx, hp.2.1, hp.2.2, rfl⟩
  · intro n hn himage hpre hsuf
    exact h4 n hn (by simp [himage, hpre, hsuf])

/-- The map `userIdByBoundaryId` of boundaries of distinct ids: the user id of a boundary
is found under its id, and what is found under an id is the user id of the boundary of
that id. -/
theorem userIdByBoundaryId_spec (boundaries : List Boundary)
    (hids : (boundaries.map Boundary.ID).Nodup) :
    (∀ b ∈ boundaries,
      (boundaries.foldl (fun m boundary => mapSet m boundary.ID boundary.UserId) []).lookup
        b.ID = some b.UserId) ∧
    (∀ (id userId : ObjectID),
      (boundaries.foldl (fun m boundary => mapSet m boundary.ID boundary.UserId) []).lookup
        id = some userId → ∃ b ∈ boundaries, b.ID = id ∧ b.UserId = userId) := by
  have hform : boundaries.foldl (fun m boundary => mapSet m boundary.ID boundary.UserId) []
      = boundaries.foldl (fun (m : List (ObjectID × ObjectID)) boundary =>
          if (fun _ : Boundary => true) boundary = true then
            mapSet m boundary.ID boundary.UserId
          else m) [] := by
    congr 1
  obtain ⟨h1, h2, _, h4⟩ := foldl_mapSet_spec (fun _ : Boundary => true) Boundary.ID
    Boundary.UserId boundaries [] List.nodup_nil
  rw [hform]
  have hentry : ∀ e ∈ boundaries.foldl (fun (m : List (ObjectID × ObjectID)) boundary =>
      if (fun _ : Boundary => true) boundary = true then
        mapSet m boundary.ID boundary.UserId
      else m) [], ∃ b ∈ boundaries, b.ID = e.1 ∧ b.UserId = e.2 := by
    intro e he
    rcases h2 e he with h | ⟨x, hx, _, hex⟩
    · simp at h
    · exact ⟨x, hx, by rw [hex], by rw [hex]⟩
  constructor
  · intro b hbmem
    obtain ⟨e, he, hkey⟩ := List.mem_map.mp (h4 b hbmem rfl)
    obtain ⟨b1, hb1, hid, huser⟩ := hentry e he
    have hsame : b1 = b := List.inj_on_of_nodup_map hids hb1 hbmem (hid.trans hkey)
    apply lookup_of_mem _ _ _ h1
    have : e = (b.ID, b.UserId) := by
      rw [← hsame]
      exact Prod.ext hid.symm huser.symm
    rw [← this]
    exact he
  · intro id userId hlookup
    obtain ⟨b, hbmem, hid, huser⟩ := hentry _ (mem_of_lookup _ _ _ hlookup)
    exact ⟨b, hbmem, hid, huser⟩

/-- What the body of the loop of `BuildBoundaryRasters` has found when it builds a
raster. -/
theorem buildBoundaryRaster_some (env : BuildEnv)
    (userIdByBoundaryId : List (ObjectID × ObjectID))
    (rasterMetaFiles : List (String × String)) (tile : Tile) (dataDir boundaryId : String)
    (r : Raster)
    (h : buildBoundaryRaster env userIdByBoundaryId rasterMetaFiles tile dataDir boundaryId
      = some r) :
    ∃ rasterMetaFile rasterMeta userId,
      ObjectIDFromHex boundaryId = some r.BoundaryId ∧
      rasterMetaFiles.lookup boundaryId = some rasterMetaFile ∧
      env.readRasterMeta (Join dataDir rasterMetaFile) = some rasterMeta ∧
      userIdByBoundaryId.lookup r.BoundaryId = some userId ∧
      r = { ID := NilObjectID, BoundaryId := r.BoundaryId, UserId := userId,
            Type_ := TYPE_NDVI_MAP, ImagePath := "", MetaData := rasterMeta,
            TileIds := [tile.ID], TileDates := [tile.Date] } := by
  unfold buildBoundaryRaster at h
  cases h1 : ObjectIDFromHex boundaryId with
  | none => simp [h1] at h
  | some boundaryObjectId =>
    cases h2 : rasterMetaFiles.lookup boundaryId with
    | none => simp [h1, h2] at h
    | some rasterMetaFile =>
      cases h3 : env.readRasterMeta (Join dataDir rasterMetaFile) with
      | none => simp [h1, h2, h3] at h
      | some rasterMeta =>
        cases h4 : userIdByBoundaryId.lookup boundaryObjectId with
        | none => simp [h1, h2, h3, h4] at h
        | some userId =>
          simp only [h1, h2, h3, h4, Option.some.injEq] at h
          subst h
          exact ⟨rasterMetaFile, rasterMeta, userId, rfl, rfl, h3, h4, rfl⟩

/-- Among the results of a partial function on a map of distinct keys, only the result of
one entry passes a test that, of the results, only those of the key of that entry pass. -/
theorem filterMap_filter_unique {κ ν β : Type} (l : List (κ × ν)) (f : κ × ν → Option β)
    (q : β → Bool) (e0 : κ × ν) (r0 : β) (hnodup : (l.map Prod.fst).Nodup) (he0 : e0 ∈ l)
    (hf : f e0 = some r0) (hq : q r0 = true)
    (hother : ∀ e ∈ l, ∀ r, f e = some r → q r = true → e.1 = e0.1) :
    (l.filterMap f).filter q = [r0] := by
  have hnone : ∀ l1 : List (κ × ν), (∀ e ∈ l1, e.1 ≠ e0.1) → (∀ e ∈ l1, e ∈ l) →
      (l1.filterMap f).filter q = [] := by
    intro l1 hkeys hsub
    rw [List.filter_eq_nil_iff]
    intro r hr hqr
    obtain ⟨e, he, hfe⟩ := List.mem_filterMap.mp hr
    exact hkeys e he (hother e (hsub e he) r hfe hqr)
  obtain ⟨l1, l2, hl⟩ := List.append_of_mem he0
  have hmem1 : ∀ e ∈ l1, e ∈ l := fun e he => by rw [hl]; exact List.mem_append_left _ he
  have hmem2 : ∀ e ∈ l2, e ∈ l := fun e he => by
    rw [hl]; exact List.mem_append_right _ (List.mem_cons_of_mem _ he)
  rw [hl, List.map_append, List.map_cons] at hnodup
  obtain ⟨_, hn2, hdisj⟩ := List.nodup_append.mp hnodup
  have hk1 : ∀ e ∈ l1, e.1 ≠ e0.1 := by
    intro e he heq
    exact hdisj (List.mem_map.mpr ⟨e, he, rfl⟩) (by rw [heq]; exact List.mem_cons_self _ _)
  have hk2 : ∀ e ∈ l2, e.1 ≠ e0.1 := by
    intro e he heq
    exact (List.nodup_cons.mp hn2).1 (by rw [← heq]; exact List.mem_map.mpr ⟨e, he, rfl⟩)
  rw [hl, List.filterMap_append, List.filter_append, hnone l1 hk1 hmem1,
    List.filterMap_cons, hf, List.filter_cons, hq, if_pos rfl, hnone l2 hk2 hmem2]
  rfl

/-- C27: on a scratch directory in which the image and meta files whose ids
`ObjectIDFromHex` reads are named by the `Hex` of the id (as the tool names them after the
boundary files), for boundaries of distinct 12-byte ids, `BuildBoundaryRasters` returns,
with the map of the image files, exactly one raster for every boundary that has both a
file `raster_image_<id>.png` and a file `raster_meta_<id>.json` that parses, and every
raster it returns is the raster of such a boundary: `BoundaryId` the id, `UserId` the user
of the boundary, type `NDVI_MAP`, `TileIds = [tile.ID]`, `TileDates = [tile.Date]`, the
meta data parsed from the file, no id and no image path yet. -/
theorem rasters_of_scratch_directory (env : BuildEnv) (boundaries : List Boundary)
    (tile : Tile) (dataDir : String) (files : List String)
    (hdir : env.ReadDir dataDir = .ok files)
    (hids : (boundaries.map Boundary.ID).Nodup)
    (hrange : ∀ b ∈ boundaries, b.ID < 2 ^ 96)
    (himage : ∀ n ∈ files, HasPrefix n "raster_image_" = true → HasSuffix n ".png" = true →
      ∀ id, ObjectIDFromHex (fileKey n "raster_image_" ".png") = some id →
        n = "raster_image_" ++ id.Hex ++ ".png")
    (hmeta : ∀ n ∈ files, HasPrefix n "raster_meta_" = true → HasSuffix n ".json" = true →
      ∀ id, ObjectIDFromHex (fileKey n "raster_meta_" ".json") = some id →
        n = "raster_meta_" ++ id.Hex ++ ".json") :
    ∃ rasters rasterImageFiles,
      BuildBoundaryRasters env boundaries tile dataDir "raster_image_" "raster_meta_"
        = .ok (rasters, rasterImageFiles) ∧
      (∀ b ∈ boundaries, ∀ rasterMeta,
        ("raster_image_" ++ b.ID.Hex ++ ".png") ∈ files →
        ("raster_meta_" ++ b.ID.Hex ++ ".json") ∈ files →
        env.readRasterMeta (Join dataDir ("raster_meta_" ++ b.ID.Hex ++ ".json"))
          = some rasterMeta →
        rasters.filter (fun r => r.BoundaryId == b.ID)
            = [{ ID := NilObjectID, BoundaryId := b.ID, UserId := b.UserId,
                 Type_ := "NDVI_MAP", ImagePath := "", MetaData := rasterMeta,
                 TileIds := [tile.ID], TileDates := [tile.Date] }] ∧
          rasterImageFiles.lookup b.ID.Hex = some ("raster_image_" ++ b.ID.Hex ++ ".png")) ∧
      (∀ r ∈ rasters, ∃ b ∈ boundaries, ∃ rasterMeta,
        ("raster_image_" ++ b.ID.Hex ++ ".png") ∈ files ∧
        ("raster_meta_" ++ b.ID.Hex ++ ".json") ∈ files ∧
        env.readRasterMeta (Join dataDir ("raster_meta_" ++ b.ID.Hex ++ ".json"))
          = some rasterMeta ∧
        r = { ID := NilObjectID, BoundaryId := b.ID, UserId := b.UserId,
              Type_ := "NDVI_MAP", ImagePath := "", MetaData := rasterMeta,
              TileIds := [tile.ID], TileDates := [tile.Date] }) := by
  obtain ⟨i1, i2, i3⟩ := indexImageFiles_spec files "raster_image_"
  obtain ⟨m1, m2, m3⟩ := indexMetaFiles_spec files "raster_image_" "raster_meta_"
  obtain ⟨u1, u2⟩ := userIdByBoundaryId_spec boundaries hids
  -- an entry of the image map whose key reads as an id is the image file of that id
  have hentry : ∀ e ∈ indexImageFiles files "raster_image_", ∀ id,
      ObjectIDFromHex e.1 = some id →
        e = (id.Hex, "raster_image_" ++ id.Hex ++ ".png") ∧
        ("raster_image_" ++ id.Hex ++ ".png") ∈ files := by
    intro e he id hid
    obtain ⟨q1, q2, q3, q4⟩ := i2 e he
    have hname := himage e.2 q1 q2 q3 id (by rw [q4]; exact hid)
    refine ⟨Prod.ext ?_ hname, by rw [← hname]; exact q1⟩
    rw [← q4, hname]
    exact fileKey_image id
  have hmetaEntry : ∀ k n, (indexMetaFiles files "raster_image_" "raster_meta_").lookup k
      = some n → ∀ id, ObjectIDFromHex k = some id →
        n = "raster_meta_" ++ id.Hex ++ ".json" ∧ n ∈ files := by
    intro k n hlookup id hid
    obtain ⟨q1, q2, q3, q4⟩ := m2 (k, n) (mem_of_lookup _ _ _ hlookup)
    exact ⟨hmeta n q1 q2 q3 id (by rw [q4]; exact hid), q1⟩
  refine ⟨(indexImageFiles files "raster_image_").filterMap (fun entry =>
      buildBoundaryRaster env
        (boundaries.foldl (fun m boundary => mapSet m boundary.ID boundary.UserId) [])
        (indexMetaFiles files "raster_image_" "raster_meta_") tile dataDir entry.1),
    indexImageFiles files "raster_image_", by simp only [BuildBoundaryRasters, hdir], ?_, ?_⟩
  · intro b hbmem rasterMeta hI hM hread
    have hhex : ObjectIDFromHex b.ID.Hex = some b.ID := ObjectIDFromHex_Hex b.ID (hrange b hbmem)
    -- the entry of the image file
    have hkeyI : b.ID.Hex ∈ (indexImageFiles files "raster_image_").map Prod.fst := by
      have := i3 _ hI (hasPrefix_hasSuffix_of_parts _ _ _).1
        (hasPrefix_hasSuffix_of_parts _ _ _).2
      rwa [fileKey_image] at this
    obtain ⟨e0, he0, hk0⟩ := List.mem_map.mp hkeyI
    have he0eq := (hentry e0 he0 b.ID (by rw [hk0]; exact hhex)).1
    -- the entry of the meta file
    have hkeyM : b.ID.Hex ∈ (indexMetaFiles files "raster_image_" "raster_meta_").map
        Prod.fst := by
      have := m3 _ hM (meta_name_not_image _ _) (hasPrefix_hasSuffix_of_parts _ _ _).1
        (hasPrefix_hasSuffix_of_parts _ _ _).2
      rwa [fileKey_meta] at this
    obtain ⟨eM, heM, hkM⟩ := List.mem_map.mp hkeyM
    have hlookM : (indexMetaFiles files "raster_image_" "raster_meta_").lookup b.ID.Hex
        = some eM.2 := lookup_of_mem _ _ _ m1 (by rw [← hkM]; exact heM)
    have hnameM := (hmetaEntry _ _ hlookM b.ID hhex).1
    have hbuild : buildBoundaryRaster env
        (boundaries.foldl (fun m boundary => mapSet m boundary.ID boundary.UserId) [])
        (indexMetaFiles files "raster_image_" "raster_meta_") tile dataDir e0.1
        = some { ID := NilObjectID, BoundaryId := b.ID, UserId := b.UserId,
                 Type_ := "NDVI_MAP", ImagePath := "", MetaData := rasterMeta,
                 TileIds := [tile.ID], TileDates := [tile.Date] } := by
      rw [hk0]
      simp only [buildBoundaryRaster, hhex, hlookM, hnameM, hread, u1 b hbmem,
        TYPE_NDVI_MAP]
    constructor
    · apply filterMap_filter_unique _ _ _ e0 _ i1 he0 hbuild (by simp)
      intro e he r hr hq
      obtain ⟨_, _, _, hid, _⟩ := buildBoundaryRaster_some _ _ _ _ _ _ _ hr
      have hrid : r.BoundaryId = b.ID := eq_of_beq hq
      rw [hrid] at hid
      rw [(hentry e he b.ID hid).1, he0eq]
    · apply lookup_of_mem _ _ _ i1
      rw [← he0eq]
      exact he0
  · intro r hr
    obtain ⟨e, he, hbuild⟩ := List.mem_filterMap.mp hr
    obtain ⟨rasterMetaFile, rasterMeta, userId, hid, hlook, hread, huser, hr2⟩ :=
      buildBoundaryRaster_some _ _ _ _ _ _ _ hbuild
    obtain ⟨b, hbmem, hbid, hbuser⟩ := u2 _ _ huser
    obtain ⟨hnameM, hmemM⟩ := hmetaEntry _ _ hlook r.BoundaryId hid
    refine ⟨b, hbmem, rasterMeta, ?_, ?_, ?_, ?_⟩
    · rw [hbid]
      exact (hentry e he r.BoundaryId hid).2
    · rw [hbid, ← hnameM]
      exact hmemM
    · rw [hbid, ← hnameM]
      exact hread
    · rw [hr2, hbid, hbuser]
      rfl

/-- C27 at the scratch directory of two boundaries: the two rasters. -/
theorem rasters_of_scratch_directory_witness :
    (exampleBuildEnv.ReadDir "/tmp/build_boundary_map_task1"
        = .ok ["boundary_geometry_000000000000000000000033.json",
               "boundary_geometry_000000000000000000000034.json",
               "raster_image_000000000000000000000033.png",
               "raster_image_000000000000000000000034.png",
               "raster_meta_000000000000000000000033.json",
               "raster_meta_000000000000000000000034.json",
               "satData_band04.tif", "satData_band08.tif"] ∧
      ([fieldBoundary, meadowBoundary].map Boundary.ID).Nodup ∧
      (∀ b ∈ [fieldBoundary, meadowBoundary], b.ID < 2 ^ 96)) ∧
    ∃ rasters rasterImageFiles,
      BuildBoundaryRasters exampleBuildEnv [fieldBoundary, meadowBoundary] mapTile
          "/tmp/build_boundary_map_task1" "raster_image_" "raster_meta_"
        = .ok (rasters, rasterImageFiles) ∧
      rasters.filter (fun r => r.BoundaryId == fieldBoundary.ID)
        = [{ ID := NilObjectID, BoundaryId := 51, UserId := 61, Type_ := "NDVI_MAP",
             ImagePath := "", MetaData := exampleRasterMeta, TileIds := [14],
             TileDates := [mapTile.Date] }] ∧
      ∀ r ∈ rasters, r.BoundaryId = 51 ∨ r.BoundaryId = 52 :=
  ⟨⟨rfl, by decide, by decide⟩,
    match rasters_of_scratch_directory exampleBuildEnv [fieldBoundary, meadowBoundary]
        mapTile "/tmp/build_boundary_map_task1" _ rfl (by decide) (by decide)
        (by decide) (by decide) with
    | ⟨rasters, rasterImageFiles, h1, h2, h3⟩ =>
      ⟨rasters, rasterImageFiles, h1,
        (h2 fieldBoundary (by decide) exampleRasterMeta (by decide) (by decide) rfl).1,
        fun r hr =>
          match h3 r hr with
          | ⟨b, hb, _, _, _, _, hr2⟩ => by
            rw [hr2]
            have : b = fieldBoundary ∨ b = meadowBoundary := by simpa using hb
            rcases this with h | h <;> rw [h]
            · exact Or.inl rfl
            · exact Or.inr rfl⟩⟩

/-! ## The raster collection: lemmas -/

/-- In a collection of distinct ids, `DeleteOne({_id: id})` removes the document of that
id and nothing else. -/
theorem eraseP_id_mem (l : List Raster) (x : Raster) (hn : (l.map Raster.ID).Nodup)
    (hx : x ∈ l) (y : Raster) :
    y ∈ l.eraseP (fun d => d.ID == x.ID) ↔ y ∈ l ∧ y.ID ≠ x.ID := by
  obtain ⟨a, l1, l2, hnot, hpa, hl, he⟩ :=
    List.exists_of_eraseP (p := fun d : Raster => d.ID == x.ID) hx (by simp)
  have ha : a.ID = x.ID := eq_of_beq hpa
  rw [he]
  constructor
  · intro hy
    have hyl : y ∈ l := by
      rw [hl]
      rcases List.mem_append.mp hy with h | h
      · exact List.mem_append_left _ h
      · exact List.mem_append_right _ (List.mem_cons_of_mem _ h)
    refine ⟨hyl, ?_⟩
    rw [hl, List.map_append, List.map_cons] at hn
    rcases List.mem_append.mp hy with h | h
    · intro heq
      exact hnot y h (by simp [heq])
    · intro heq
      have hn2 := (List.nodup_append.mp hn).2.1
      exact (List.nodup_cons.mp hn2).1
        (by rw [ha, ← heq]; exact List.mem_map.mpr ⟨y, h, rfl⟩)
  · rintro ⟨hy, hne⟩
    rw [hl] at hy
    rcases List.mem_append.mp hy with h | h
    · exact List.mem_append_left _ h
    · rcases List.mem_cons.mp h with h | h
      · exact absurd (by rw [h, ha]) hne
      · exact List.mem_append_right _ h

/-- What `DeleteRaster` by id does on a collection of distinct ids: nothing and an error,
or the document of the id and its blob are removed. -/
theorem DeleteRaster_spec (env : BuildEnv) (st : BuildState) (id : ObjectID)
    (hn : (st.rasters.map Raster.ID).Nodup) :
    (DeleteRaster env st (fun d => d.ID == id)).1.ids = st.ids ∧
    (DeleteRaster env st (fun d => d.ID == id)).1.effects = st.effects ∧
    (((DeleteRaster env st (fun d => d.ID == id)).1.rasters = st.rasters ∧
        (DeleteRaster env st (fun d => d.ID == id)).1.bucket = st.bucket ∧
        (DeleteRaster env st (fun d => d.ID == id)).2 ≠ none) ∨
      (∃ result ∈ st.rasters, result.ID = id ∧
        (∀ y, y ∈ (DeleteRaster env st (fun d => d.ID == id)).1.rasters
          ↔ y ∈ st.rasters ∧ y.ID ≠ id) ∧
        (DeleteRaster env st (fun d => d.ID == id)).1.rasters.Sublist st.rasters ∧
        (DeleteRaster env st (fun d => d.ID == id)).1.bucket
          = st.bucket.filter (fun key => key != result.ImagePath) ∧
        (DeleteRaster env st (fun d => d.ID == id)).2 = none)) := by
  cases hfind : st.rasters.find? (fun d => d.ID == id) with
  | none => simp [DeleteRaster, hfind]
  | some result =>
    have hmem : result ∈ st.rasters := List.mem_of_find?_eq_some hfind
    have hid : result.ID = id := by
      have := List.find?_some hfind
      exact eq_of_beq this
    cases hdel : env.DeleteObjects result.ImagePath with
    | some err => simp [DeleteRaster, hfind, DeleteObject, hdel]
    | none =>
      have heq : DeleteRaster env st (fun d => d.ID == id)
          = ({ st with
               bucket := st.bucket.filter (fun key => key != result.ImagePath),
               objects := UpdateOrCreateObject st.objects
                 { Path := result.ImagePath, Exists := false },
               rasters := st.rasters.eraseP (fun d => d.ID == id) }, none) := by
        simp only [DeleteRaster, hfind, DeleteObject, hdel]
      rw [heq]
      refine ⟨rfl, rfl, Or.inr ⟨result, hmem, hid, ?_, List.eraseP_sublist _, rfl, rfl⟩⟩
      intro y
      have := eraseP_id_mem st.rasters result hn hmem y
      rw [hid] at this
      exact this

/-- The loop of `DeleteExistingBoundaryRastersByType` on a collection of distinct ids:
documents are only removed, and only documents of the list; blobs are only removed, and
only blobs of removed documents; the blob of every removed document is gone; without an
error every document of the list is gone. -/
theorem deleteRasters_spec (env : BuildEnv) :
    ∀ (found : List Raster) (st : BuildState), (st.rasters.map Raster.ID).Nodup →
      (deleteRasters env st found).1.ids = st.ids ∧
      (deleteRasters env st found).1.effects = st.effects ∧
      (deleteRasters env st found).1.rasters.Sublist st.rasters ∧
      (∀ y ∈ st.rasters, y.ID ∉ found.map Raster.ID →
        y ∈ (deleteRasters env st found).1.rasters) ∧
      (∀ p ∈ (deleteRasters env st found).1.bucket, p ∈ st.bucket) ∧
      (∀ p ∈ st.bucket, p ∉ (deleteRasters env st found).1.bucket →
        ∃ y ∈ st.rasters, y ∉ (deleteRasters env st found).1.rasters ∧ y.ImagePath = p) ∧
      (∀ y ∈ st.rasters, y ∉ (deleteRasters env st found).1.rasters →
        y.ID ∈ found.map Raster.ID ∧ y.ImagePath ∉ (deleteRasters env st found).1.bucket) ∧
      ((deleteRasters env st found).2 = none →
        ∀ y ∈ st.rasters, y.ID ∈ found.map Raster.ID →
          y ∉ (deleteRasters env st found).1.rasters) := by
  intro found
  induction found with
  | nil =>
    intro st _
    refine ⟨rfl, rfl, List.Sublist.refl _, fun y hy _ => hy, fun p hp => hp,
      fun p hp hnot => absurd hp hnot, fun y hy hnot => absurd hy hnot,
      fun _ y _ hyid => by simp at hyid⟩
  | cons x rest ih =>
    intro st hn
    obtain ⟨d1, d2, d3⟩ := DeleteRaster_spec env st x.ID hn
    cases hD : DeleteRaster env st (fun d => d.ID == x.ID) with
    | mk st1 err =>
      rw [hD] at d1 d2 d3
      simp only at d1 d2 d3
      cases err with
      | some e =>
        rcases d3 with ⟨q1, q2, _⟩ | ⟨_, _, _, _, _, _, q⟩
        · simp only [deleteRasters, hD]
          refine ⟨d1, d2, by rw [q1], ?_, ?_, ?_, ?_, by simp⟩
          · intro y hy _; rw [q1]; exact hy
          · intro p hp; rw [← q2]; exact hp
          · intro p hp hnot; rw [q2] at hnot; exact absurd hp hnot
          · intro y hy hnot; rw [q1] at hnot; exact absurd hy hnot
        · simp at q
      | none =>
        rcases d3 with ⟨_, _, q⟩ | ⟨result, hres, hid, hiff, hsub, hbucket, _⟩
        · simp at q
        · have hn1 : (st1.rasters.map Raster.ID).Nodup := hn.sublist (hsub.map _)
          obtain ⟨i1, i2, i3, i4, i5, i6, i7, i8⟩ := ih st1 hn1
          simp only [deleteRasters, hD]
          refine ⟨by rw [i1, d1], by rw [i2, d2], i3.trans hsub, ?_, ?_, ?_, ?_, ?_⟩
          · intro y hy hnot
            simp only [List.map_cons, List.mem_cons, not_or] at hnot
            exact i4 y ((hiff y).mpr ⟨hy, hnot.1⟩) hnot.2
          · intro p hp
            have := i5 p hp
            rw [hbucket] at this
            exact (List.mem_filter.mp this).1
          · intro p hp hnot
            by_cases hp1 : p ∈ st1.bucket
            · obtain ⟨y, hy, hy2, hy3⟩ := i6 p hp1 hnot
              exact ⟨y, ((hiff y).mp hy).1, hy2, hy3⟩
            · rw [hbucket, List.mem_filter, not_and] at hp1
              have hpe : p = result.ImagePath := by simpa using hp1 hp
              refine ⟨result, hres, ?_, hpe.symm⟩
              intro hin
              exact ((hiff result).mp (i3.subset hin)).2 hid
          · intro y hy hnot
            by_cases hy1 : y ∈ st1.rasters
            · obtain ⟨q1, q2⟩ := i7 y hy1 hnot
              exact ⟨List.mem_map.mpr (by
                obtain ⟨z, hz, hzid⟩ := List.mem_map.mp q1
                exact ⟨z, List.mem_cons_of_mem _ hz, hzid⟩), q2⟩
            · have hyid : y.ID = x.ID := by
                by_contra hne
                exact hy1 ((hiff y).mpr ⟨hy, hne⟩)
              have hyres : y = result :=
                List.inj_on_of_nodup_map hn hy hres (hyid.trans hid.symm)
              refine ⟨by simp [hyid], ?_⟩
              intro hin
              have := i5 _ hin
              rw [hbucket, hyres] at this
              simpa using (List.mem_filter.mp this).2
          · intro herr y hy hyid
            by_cases hy1 : y ∈ st1.rasters
            · have hne := ((hiff y).mp hy1).2
              simp only [List.map_cons, List.mem_cons] at hyid
              rcases hyid with h | h
              · exact absurd h hne
              · exact i8 herr y hy1 h
            · exact fun hin => hy1 (i3.subset hin)

/-- What `DeleteExistingBoundaryRastersByType` does on a collection of distinct ids. -/
theorem DeleteExisting_spec (env : BuildEnv) (st : BuildState) (boundaryId : ObjectID)
    (rasterType : String) (hn : (st.rasters.map Raster.ID).Nodup) :
    (DeleteExistingBoundaryRastersByType env st boundaryId rasterType).1.ids = st.ids ∧
    (DeleteExistingBoundaryRastersByType env st boundaryId rasterType).1.effects
      = st.effects ∧
    (DeleteExistingBoundaryRastersByType env st boundaryId rasterType).1.rasters.Sublist
      st.rasters ∧
    (∀ y ∈ st.rasters, boundaryRasterFilter boundaryId rasterType y = false →
      y ∈ (DeleteExistingBoundaryRastersByType env st boundaryId rasterType).1.rasters) ∧
    (∀ p ∈ (DeleteExistingBoundaryRastersByType env st boundaryId rasterType).1.bucket,
      p ∈ st.bucket) ∧
    (∀ p ∈ st.bucket,
      p ∉ (DeleteExistingBoundaryRastersByType env st boundaryId rasterType).1.bucket →
      ∃ y ∈ st.rasters,
        y ∉ (DeleteExistingBoundaryRastersByType env st boundaryId rasterType).1.rasters ∧
        y.ImagePath = p) ∧
    (∀ y ∈ st.rasters,
      y ∉ (DeleteExistingBoundaryRastersByType env st boundaryId rasterType).1.rasters →
      boundaryRasterFilter boundaryId rasterType y = true ∧
      y.ImagePath
        ∉ (DeleteExistingBoundaryRastersByType env st boundaryId rasterType).1.bucket) ∧
    ((DeleteExistingBoundaryRastersByType env st boundaryId rasterType).2 = none →
      ∀ y ∈ st.rasters, boundaryRasterFilter boundaryId rasterType y = true →
        y ∉ (DeleteExistingBoundaryRastersByType env st boundaryId rasterType).1.rasters) := by
  have hfound : ∀ y ∈ st.rasters,
      (y.ID ∈ (FindRasters st.rasters (boundaryRasterFilter boundaryId rasterType)).map
          Raster.ID ↔ boundaryRasterFilter boundaryId rasterType y = true) := by
    intro y hy
    constructor
    · intro hin
      obtain ⟨z, hz, hzid⟩ := List.mem_map.mp hin
      obtain ⟨hz1, hz2⟩ := List.mem_filter.mp hz
      have : z = y := List.inj_on_of_nodup_map hn hz1 hy hzid
      rw [← this]
      exact hz2
    · intro hf
      exact List.mem_map.mpr ⟨y, List.mem_filter.mpr ⟨hy, hf⟩, rfl⟩
  obtain ⟨i1, i2, i3, i4, i5, i6, i7, i8⟩ := deleteRasters_spec env
    (FindRasters st.rasters (boundaryRasterFilter boundaryId rasterType)) st hn
  refine ⟨i1, i2, i3, ?_, i5, i6, ?_, ?_⟩
  · intro y hy hf
    apply i4 y hy
    rw [hfound y hy, hf]
    decide
  · intro y hy hnot
    obtain ⟨q1, q2⟩ := i7 y hy hnot
    exact ⟨(hfound y hy).mp q1, q2⟩
  · intro herr y hy hf
    exact i8 herr y hy ((hfound y hy).mpr hf)

/-- What `StoreRasterImage` does: the raster gets an id, if it had none, and the image
path of its id; the blob of that path is in the bucket when there is no error, and the
bucket is as before otherwise; the collection of rasters is not touched. -/
theorem StoreRasterImage_spec (env : BuildEnv) (st : BuildState) (obj : Raster)
    (localPath : String) :
    (obj.StoreRasterImage env st localPath).2.1.rasters = st.rasters ∧
    (obj.StoreRasterImage env st localPath).2.1.effects = st.effects ∧
    (obj.StoreRasterImage env st localPath).1
      = { obj with
          ID := if obj.ID = NilObjectID then env.NewObjectID st.ids else obj.ID,
          ImagePath := S3_IMAGE_PREFIX
            ++ (if obj.ID = NilObjectID then env.NewObjectID st.ids else obj.ID).Hex } ∧
    (obj.StoreRasterImage env st localPath).2.1.ids
      = (if obj.ID = NilObjectID then st.ids + 1 else st.ids) ∧
    ((obj.StoreRasterImage env st localPath).2.2 ≠ none →
      (obj.StoreRasterImage env st localPath).2.1.bucket = st.bucket) ∧
    ((obj.StoreRasterImage env st localPath).2.2 = none →
      ∀ p, p ∈ (obj.StoreRasterImage env st localPath).2.1.bucket
        ↔ p ∈ st.bucket ∨ p = (obj.StoreRasterImage env st localPath).1.ImagePath) := by
  by_cases hnil : obj.ID = NilObjectID
  · cases hup : env.Upload localPath
        (S3_IMAGE_PREFIX ++ (env.NewObjectID st.ids).Hex) with
    | some err =>
      simp [Raster.StoreRasterImage, PutObject, hnil, hup]
    | none =>
      simp only [Raster.StoreRasterImage, PutObject, hnil, hup, if_true, decide_True,
        ne_eq, not_true_eq_false, false_implies, true_implies, true_and]
      intro p
      split <;> rename_i hin
      · constructor
        · exact fun h => Or.inl h
        · rintro (h | h)
          · exact h
          · rw [h]; exact hin
      · simp
  · cases hup : env.Upload localPath (S3_IMAGE_PREFIX ++ obj.ID.Hex) with
    | some err =>
      simp [Raster.StoreRasterImage, PutObject, hnil, hup]
    | none =>
      simp only [Raster.StoreRasterImage, PutObject, hnil, hup, if_false, decide_False,
        ne_eq, not_true_eq_false, false_implies, true_implies, true_and]
      intro p
      split <;> rename_i hin
      · constructor
        · exact fun h => Or.inl h
        · rintro (h | h)
          · exact h
          · rw [h]; exact hin
      · simp

/-- What `SaveRaster` does for a raster that has an id: the raster is appended unless a
document has its id. -/
theorem SaveRaster_spec (env : BuildEnv) (st : BuildState) (raster : Raster)
    (hid : raster.ID ≠ NilObjectID) :
    (raster.ID ∉ st.rasters.map Raster.ID ∧
      SaveRaster env st raster
        = (raster, { st with rasters := st.rasters ++ [raster] }, none)) ∨
    (raster.ID ∈ st.rasters.map Raster.ID ∧
      SaveRaster env st raster = (raster, st, some GoError.DuplicateKey)) := by
  by_cases hdup : raster.ID ∈ st.rasters.map Raster.ID
  · right
    refine ⟨hdup, ?_⟩
    have hany : st.rasters.any (fun d => d.ID == raster.ID) = true := by
      obtain ⟨z, hz, hzid⟩ := List.mem_map.mp hdup
      exact List.any_eq_true.mpr ⟨z, hz, by simp [hzid]⟩
    simp [SaveRaster, hid, hany]
  · left
    refine ⟨hdup, ?_⟩
    have hany : st.rasters.any (fun d => d.ID == raster.ID) = false := by
      rw [Bool.eq_false_iff]
      intro h
      obtain ⟨z, hz, hzid⟩ := List.any_eq_true.mp h
      exact hdup (List.mem_map.mpr ⟨z, hz, eq_of_beq hzid⟩)
    simp [SaveRaster, hid, hany]

/-- What `SaveRaster` does for any raster: the collection stays as it is, or the raster
that the call returns, of an id that no document has, is appended. -/
theorem SaveRaster_general (env : BuildEnv) (st : BuildState) (raster : Raster) :
    (SaveRaster env st raster).2.1.bucket = st.bucket ∧
    (((SaveRaster env st raster).2.1.rasters = st.rasters ∧
        (SaveRaster env st raster).2.2 ≠ none) ∨
      ((SaveRaster env st raster).2.1.rasters = st.rasters ++ [(SaveRaster env st raster).1] ∧
        (SaveRaster env st raster).1.ID ∉ st.rasters.map Raster.ID ∧
        (SaveRaster env st raster).2.2 = none)) ∧
    (SaveRaster env st raster).1.BoundaryId = raster.BoundaryId ∧
    (SaveRaster env st raster).1.Type_ = raster.Type_ ∧
    (SaveRaster env st raster).1.ImagePath = raster.ImagePath ∧
    (SaveRaster env st raster).1.MetaData = raster.MetaData := by
  have hany : ∀ id : ObjectID, st.rasters.any (fun d => d.ID == id) = true
      ↔ id ∈ st.rasters.map Raster.ID := by
    intro id
    rw [List.any_eq_true, List.mem_map]
    constructor
    · rintro ⟨z, hz, hzid⟩
      exact ⟨z, hz, eq_of_beq hzid⟩
    · rintro ⟨z, hz, hzid⟩
      exact ⟨z, hz, by rw [hzid]; exact beq_self_eq_true _⟩
  by_cases hnil : raster.ID = NilObjectID
  · by_cases hdup : st.rasters.any (fun d => d.ID == env.NewObjectID st.ids) = true
    · simp [SaveRaster, hnil, hdup]
    · have hnot := (hany (env.NewObjectID st.ids)).not.mp hdup
      simp only [Bool.not_eq_true] at hdup
      simp only [SaveRaster, hnil, if_true, hdup, Bool.false_eq_true, if_false, ne_eq,
        not_true_eq_false, and_false, false_or, and_self, and_true, true_and]
      exact hnot
  · by_cases hdup : st.rasters.any (fun d => d.ID == raster.ID) = true
    · simp [SaveRaster, hnil, hdup]
    · have hnot := (hany raster.ID).not.mp hdup
      simp only [Bool.not_eq_true] at hdup
      simp only [SaveRaster, hnil, if_false, hdup, Bool.false_eq_true, ne_eq,
        not_true_eq_false, and_false, false_or, and_self, and_true, true_and]
      exact hnot

/-- One iteration of the loop of `SaveBoundaryRasters` on a collection of distinct ids
leaves the ids distinct and keeps every raster of another boundary. -/
theorem saveBoundaryRaster_keeps (env : BuildEnv) (dataDir : String)
    (rasterImageFiles : List (String × String)) (st : BuildState) (raster : Raster)
    (hn : (st.rasters.map Raster.ID).Nodup) :
    ((saveBoundaryRaster env dataDir rasterImageFiles st raster).rasters.map Raster.ID).Nodup ∧
    (∀ y ∈ st.rasters, y.BoundaryId ≠ raster.BoundaryId →
      y ∈ (saveBoundaryRaster env dataDir rasterImageFiles st raster).rasters) := by
  cases hlook : rasterImageFiles.lookup raster.BoundaryId.Hex with
  | none =>
    have hres : saveBoundaryRaster env dataDir rasterImageFiles st raster = st := by
      simp only [saveBoundaryRaster, hlook]
    rw [hres]
    exact ⟨hn, fun y hy _ => hy⟩
  | some rasterImagePath =>
    obtain ⟨s1, _, s3, _, _, _⟩ := StoreRasterImage_spec env st raster
      (Join dataDir rasterImagePath)
    cases hS : raster.StoreRasterImage env st (Join dataDir rasterImagePath) with
    | mk raster1 rest =>
      cases rest with
      | mk st1 err =>
        rw [hS] at s1 s3
        simp only at s1 s3
        have hb1 : raster1.BoundaryId = raster.BoundaryId := by rw [s3]
        cases err with
        | some e =>
          have hres : saveBoundaryRaster env dataDir rasterImageFiles st raster = st1 := by
            simp only [saveBoundaryRaster, hlook, hS]
          rw [hres, s1]
          exact ⟨hn, fun y hy _ => hy⟩
        | none =>
          have hn1 : (st1.rasters.map Raster.ID).Nodup := by rw [s1]; exact hn
          obtain ⟨_, _, d3, d4, _, _, _, _⟩ := DeleteExisting_spec env st1 raster1.BoundaryId
            raster1.Type_ hn1
          cases hD : DeleteExistingBoundaryRastersByType env st1 raster1.BoundaryId
              raster1.Type_ with
          | mk st2 err2 =>
            rw [hD] at d3 d4
            simp only at d3 d4
            have hn2 : (st2.rasters.map Raster.ID).Nodup := hn1.sublist (d3.map _)
            have hkeep : ∀ y ∈ st.rasters, y.BoundaryId ≠ raster.BoundaryId →
                y ∈ st2.rasters := by
              intro y hy hne
              apply d4 y (by rw [s1]; exact hy)
              simp [boundaryRasterFilter, hb1, hne]
            cases err2 with
            | some e =>
              have hres : saveBoundaryRaster env dataDir rasterImageFiles st raster = st2 := by
                simp only [saveBoundaryRaster, hlook, hS, hD]
              rw [hres]
              exact ⟨hn2, hkeep⟩
            | none =>
              have hres : saveBoundaryRaster env dataDir rasterImageFiles st raster
                  = (SaveRaster env st2 raster1).2.1 := by
                simp only [saveBoundaryRaster, hlook, hS, hD]
              rw [hres]
              obtain ⟨_, g2, _⟩ := SaveRaster_general env st2 raster1
              rcases g2 with ⟨g, _⟩ | ⟨g, gid, _⟩
              · rw [g]
                exact ⟨hn2, hkeep⟩
              · rw [g]
                refine ⟨?_, fun y hy hne => List.mem_append_left _ (hkeep y hy hne)⟩
                rw [List.map_append, List.map_singleton]
                exact List.Nodup.append hn2 (List.nodup_singleton _) (by simpa using gid)

/-- The loop of `SaveBoundaryRasters` on a collection of distinct ids leaves the ids
distinct and keeps every raster whose boundary is not the boundary of a raster of the
list. -/
theorem saveBoundaryRasters_keeps (env : BuildEnv) (dataDir : String)
    (rasterImageFiles : List (String × String)) :
    ∀ (rasters : List Raster) (st : BuildState), (st.rasters.map Raster.ID).Nodup →
      (((rasters.foldl (saveBoundaryRaster env dataDir rasterImageFiles) st).rasters.map
          Raster.ID).Nodup ∧
        ∀ y ∈ st.rasters, (∀ r ∈ rasters, r.BoundaryId ≠ y.BoundaryId) →
          y ∈ (rasters.foldl (saveBoundaryRaster env dataDir rasterImageFiles) st).rasters) := by
  intro rasters
  induction rasters with
  | nil => intro st hn; exact ⟨hn, fun y hy _ => hy⟩
  | cons raster rest ih =>
    intro st hn
    obtain ⟨k1, k2⟩ := saveBoundaryRaster_keeps env dataDir rasterImageFiles st raster hn
    obtain ⟨i1, i2⟩ := ih _ k1
    refine ⟨i1, ?_⟩
    intro y hy hne
    exact i2 y (k2 y hy (Ne.symm (hne raster (List.mem_cons_self _ _))))
      (fun r hr => hne r (List.mem_cons_of_mem _ hr))

/-- C26: `SaveBoundaryRasters` returns `nil` for every input, and whatever happens to the
other rasters of the list, a raster of the list whose upload, deletion of old rasters and
insert succeed is in the collection after its iteration; on a collection of distinct ids
it is in the collection that the call leaves when no later raster of the list is of the
same boundary. -/
theorem save_loop_goes_on (env : BuildEnv) (st : BuildState) (dataDir : String)
    (rasters : List Raster) (rasterImageFiles : List (String × String)) :
    (SaveBoundaryRasters env st dataDir rasters rasterImageFiles).2 = none ∧
    ∀ (pre post : List Raster) (raster r1 r2 : Raster) (rasterImagePath : String)
      (s1 s2 s3 : BuildState),
      rasters = pre ++ raster :: post →
      rasterImageFiles.lookup raster.BoundaryId.Hex = some rasterImagePath →
      raster.StoreRasterImage env
          (SaveBoundaryRasters env st dataDir pre rasterImageFiles).1
          (Join dataDir rasterImagePath) = (r1, s1, none) →
      DeleteExistingBoundaryRastersByType env s1 r1.BoundaryId r1.Type_ = (s2, none) →
      SaveRaster env s2 r1 = (r2, s3, none) →
      (SaveBoundaryRasters env st dataDir (pre ++ [raster]) rasterImageFiles).1 = s3 ∧
        r2 ∈ s3.rasters ∧ r2.BoundaryId = raster.BoundaryId ∧ r2.Type_ = raster.Type_ ∧
        r2.MetaData = raster.MetaData ∧ r2.ImagePath = S3_IMAGE_PREFIX ++ r1.ID.Hex ∧
        ((st.rasters.map Raster.ID).Nodup →
          (∀ r ∈ post, r.BoundaryId ≠ raster.BoundaryId) →
          r2 ∈ (SaveBoundaryRasters env st dataDir rasters rasterImageFiles).1.rasters) := by
  refine ⟨rfl, ?_⟩
  intro pre post raster r1 r2 rasterImagePath s1 s2 s3 hsplit hlook hstore hdelete hsave
  have hstep : saveBoundaryRaster env dataDir rasterImageFiles
      (pre.foldl (saveBoundaryRaster env dataDir rasterImageFiles) st) raster = s3 := by
    simp only [SaveBoundaryRasters] at hstore
    simp only [saveBoundaryRaster, hlook, hstore, hdelete, hsave]
  obtain ⟨_, g2, g3, g4, g5, g6⟩ := SaveRaster_general env s2 r1
  rw [hsave] at g2 g3 g4 g5 g6
  simp only at g2 g3 g4 g5 g6
  obtain ⟨_, _, q3, _, _, _⟩ := StoreRasterImage_spec env
    (SaveBoundaryRasters env st dataDir pre rasterImageFiles).1 raster
    (Join dataDir rasterImagePath)
  rw [hstore] at q3
  simp only at q3
  have hmem : r2 ∈ s3.rasters := by
    rcases g2 with ⟨_, g⟩ | ⟨g, _, _⟩
    · exact absurd rfl g
    · rw [g]; simp
  have hpath : r1.ImagePath = S3_IMAGE_PREFIX ++ r1.ID.Hex := by rw [q3]
  refine ⟨?_, hmem, by rw [g3, q3], by rw [g4, q3], by rw [g6, q3], by rw [g5, hpath], ?_⟩
  · simp only [SaveBoundaryRasters, List.foldl_append, List.foldl_cons, List.foldl_nil]
    exact hstep
  · intro hn hpost
    simp only [SaveBoundaryRasters, hsplit, List.foldl_append, List.foldl_cons, hstep]
    have hn3 : (s3.rasters.map Raster.ID).Nodup := by
      rw [← hstep]
      exact (saveBoundaryRaster_keeps env dataDir rasterImageFiles _ raster
        (saveBoundaryRasters_keeps env dataDir rasterImageFiles pre st hn).1).1
    apply (saveBoundaryRasters_keeps env dataDir rasterImageFiles post s3 hn3).2 r2 hmem
    intro r hr
    rw [g3, q3]
    exact hpost r hr

/-- C26 at two rasters and an object store that refuses the image of the first: the second
is stored. -/
theorem save_loop_goes_on_witness :
    (SaveBoundaryRasters failingUploadEnv emptyBuildState "/tmp/build_boundary_map_task1"
        exampleRasters exampleImageFiles).2 = none ∧
      storedMeadowRaster ∈ (SaveBoundaryRasters failingUploadEnv emptyBuildState
        "/tmp/build_boundary_map_task1" exampleRasters exampleImageFiles).1.rasters ∧
      ∀ r ∈ (SaveBoundaryRasters failingUploadEnv emptyBuildState
          "/tmp/build_boundary_map_task1" exampleRasters exampleImageFiles).1.rasters,
        r.BoundaryId ≠ 51 :=
  ⟨(save_loop_goes_on failingUploadEnv emptyBuildState "/tmp/build_boundary_map_task1"
      exampleRasters exampleImageFiles).1,
    ((save_loop_goes_on failingUploadEnv emptyBuildState "/tmp/build_boundary_map_task1"
      exampleRasters exampleImageFiles).2 [fieldRaster] [] meadowRaster storedMeadowRaster
      storedMeadowRaster "raster_image_000000000000000000000034.png" uploadedMeadowState
      uploadedMeadowState { uploadedMeadowState with rasters := [storedMeadowRaster] }
      (by decide) (by decide) (by decide) (by decide) (by decide)).2.2.2.2.2.2
      (by decide) (by decide),
    by decide⟩

/-! ## The rasters of a run: lemmas -/

/-- Different 12-byte ids have different hexadecimal forms. -/
theorem Hex_injective (a b : ObjectID) (ha : a < 2 ^ 96) (hb : b < 2 ^ 96)
    (h : a.Hex = b.Hex) : a = b := by
  have h1 := ObjectIDFromHex_Hex a ha
  rw [h, ObjectIDFromHex_Hex b hb] at h1
  exact (Option.some.inj h1).symm

/-- Different 12-byte ids have different image paths. -/
theorem imagePath_injective (a b : ObjectID) (ha : a < 2 ^ 96) (hb : b < 2 ^ 96)
    (h : S3_IMAGE_PREFIX ++ a.Hex = S3_IMAGE_PREFIX ++ b.Hex) : a = b := by
  apply Hex_injective a b ha hb
  have := congrArg String.data h
  simp only [String.data_append] at this
  exact String.ext (List.append_cancel_left this)

/-- The function `DeleteRaster` takes no id. -/
theorem DeleteRaster_ids (env : BuildEnv) (st : BuildState) (filters : Raster → Bool) :
    (DeleteRaster env st filters).1.ids = st.ids := by
  cases hfind : st.rasters.find? filters with
  | none => simp only [DeleteRaster, hfind]
  | some result =>
    cases hdel : env.DeleteObjects result.ImagePath with
    | some err => simp only [DeleteRaster, hfind, DeleteObject, hdel]
    | none => simp only [DeleteRaster, hfind, DeleteObject, hdel]

/-- The loop of `DeleteExistingBoundaryRastersByType` takes no id. -/
theorem deleteRasters_ids (env : BuildEnv) :
    ∀ (found : List Raster) (st : BuildState), (deleteRasters env st found).1.ids = st.ids := by
  intro found
  induction found with
  | nil => intro st; rfl
  | cons raster rest ih =>
    intro st
    have h1 := DeleteRaster_ids env st (fun d => d.ID == raster.ID)
    cases hD : DeleteRaster env st (fun d => d.ID == raster.ID) with
    | mk st1 err =>
      rw [hD] at h1
      cases err with
      | some e =>
        have hres : deleteRasters env st (raster :: rest) = (st1, some e) := by
          simp only [deleteRasters, hD]
        rw [hres]
        exact h1
      | none =>
        have hres : deleteRasters env st (raster :: rest) = deleteRasters env st1 rest := by
          simp only [deleteRasters, hD]
        rw [hres, ih st1]
        exact h1

/-- The function `SaveRaster` takes at most ids. -/
theorem SaveRaster_ids (env : BuildEnv) (st : BuildState) (raster : Raster) :
    st.ids ≤ (SaveRaster env st raster).2.1.ids := by
  by_cases hnil : raster.ID = NilObjectID
  · simp only [SaveRaster, hnil, if_true, decide_True]
    split <;> simp
  · simp only [SaveRaster, hnil, if_false, decide_False]
    split <;> simp

/-- One iteration of the loop of `SaveBoundaryRasters` takes at most ids, and takes one
for a raster without an id whose image file is known. -/
theorem saveBoundaryRaster_ids (env : BuildEnv) (dataDir : String)
    (rasterImageFiles : List (String × String)) (st : BuildState) (raster : Raster) :
    st.ids ≤ (saveBoundaryRaster env dataDir rasterImageFiles st raster).ids ∧
    (rasterImageFiles.lookup raster.BoundaryId.Hex ≠ none → raster.ID = NilObjectID →
      st.ids + 1 ≤ (saveBoundaryRaster env dataDir rasterImageFiles st raster).ids) := by
  cases hlook : rasterImageFiles.lookup raster.BoundaryId.Hex with
  | none =>
    have hres : saveBoundaryRaster env dataDir rasterImageFiles st raster = st := by
      simp only [saveBoundaryRaster, hlook]
    rw [hres]
    exact ⟨le_refl _, fun h => absurd rfl h⟩
  | some rasterImagePath =>
    obtain ⟨_, _, _, s4, _, _⟩ := StoreRasterImage_spec env st raster
      (Join dataDir rasterImagePath)
    cases hS : raster.StoreRasterImage env st (Join dataDir rasterImagePath) with
    | mk raster1 rest =>
      cases rest with
      | mk st1 err =>
        rw [hS] at s4
        simp only at s4
        have hkey : ∀ s : BuildState, st1.ids ≤ s.ids →
            st.ids ≤ s.ids ∧ (some rasterImagePath ≠ none → raster.ID = NilObjectID →
              st.ids + 1 ≤ s.ids) := by
          intro s hs
          constructor
          · split at s4 <;> omega
          · intro _ hnil
            rw [if_pos hnil] at s4
            omega
        cases err with
        | some e =>
          have hres : saveBoundaryRaster env dataDir rasterImageFiles st raster = st1 := by
            simp only [saveBoundaryRaster, hlook, hS]
          rw [hres]
          exact hkey st1 (le_refl _)
        | none =>
          have d1 := deleteRasters_ids env
            (FindRasters st1.rasters (boundaryRasterFilter raster1.BoundaryId raster1.Type_)) st1
          cases hD : DeleteExistingBoundaryRastersByType env st1 raster1.BoundaryId
              raster1.Type_ with
          | mk st2 err2 =>
            have d2 : st2.ids = st1.ids := by
              have := congrArg (fun x => x.1.ids) hD
              simp only [DeleteExistingBoundaryRastersByType] at this
              rw [← this]
              exact d1
            cases err2 with
            | some e =>
              have hres : saveBoundaryRaster env dataDir rasterImageFiles st raster = st2 := by
                simp only [saveBoundaryRaster, hlook, hS, hD]
              rw [hres]
              exact hkey st2 (by omega)
            | none =>
              have hres : saveBoundaryRaster env dataDir rasterImageFiles st raster
                  = (SaveRaster env st2 raster1).2.1 := by
                simp only [saveBoundaryRaster, hlook, hS, hD]
              rw [hres]
              have := SaveRaster_ids env st2 raster1
              exact hkey _ (by omega)

/-- The invariant holds at the start. -/
theorem RunInv_refl (env : BuildEnv) (n : Nat) (st0 : BuildState)
    (h0 : RasterStoreOK env n st0) : RunInv env st0 st0 :=
  { ids_le := le_refl _
    nodup := h0.1
    rows := fun _ hr => Or.inl hr
    blob := fun _ hr hnot => absurd hr hnot
    single := fun _ hr hnot => absurd hr hnot
    gone := fun _ hold hnot => absurd hold hnot }

/-- The ids still to come are new for every state of the run. -/
theorem RunInv_fresh (env : BuildEnv) (n : Nat) (st0 st : BuildState) (hf : FreshIds env n)
    (h0 : RasterStoreOK env n st0) (inv : RunInv env st0 st) :
    ∀ r ∈ st.rasters, ∀ m < n, st.ids ≤ m →
      r.ID ≠ env.NewObjectID m ∧ r.ImagePath ≠ S3_IMAGE_PREFIX ++ (env.NewObjectID m).Hex := by
  intro r hr m hmn hm
  rcases inv.rows r hr with hold | ⟨k, _, hk, hid, hpath⟩
  · exact h0.2 r hold m hmn (le_trans inv.ids_le hm)
  · have hkn : k ≠ m := by omega
    have hk1 : k < n := by omega
    have hne : env.NewObjectID k ≠ env.NewObjectID m := fun h => hkn (hf.1 k hk1 m hmn h)
    refine ⟨by rw [hid]; exact hne, ?_⟩
    rw [hpath, hid]
    intro h
    exact hne (imagePath_injective _ _ (hf.2 k hk1).1 (hf.2 m hmn).1 h)

/-- A raster of the run and another raster have different image paths. -/
theorem RunInv_paths (env : BuildEnv) (n : Nat) (st0 st : BuildState) (hf : FreshIds env n)
    (h0 : RasterStoreOK env n st0) (inv : RunInv env st0 st) (hn : st.ids ≤ n)
    (r d : Raster) (hr : r ∈ st.rasters) (hnew : r ∉ st0.rasters) (hd : d ∈ st.rasters)
    (hne : d ≠ r) : d.ImagePath ≠ r.ImagePath := by
  rcases inv.rows r hr with hold | ⟨k, hk0, hk, hid, hpath⟩
  · exact absurd hold hnew
  · rcases inv.rows d hd with hdold | ⟨k1, _, hk1, hid1, hpath1⟩
    · rw [hpath, hid]
      exact (h0.2 d hdold k (by omega) hk0).2
    · intro h
      rw [hpath, hpath1] at h
      have hids : d.ID = r.ID := by
        apply imagePath_injective _ _ _ _ h
        · rw [hid1]; exact (hf.2 k1 (by omega)).1
        · rw [hid]; exact (hf.2 k (by omega)).1
      exact hne (List.inj_on_of_nodup_map inv.nodup hd hr hids)

/-- The invariant after a step that leaves the rasters, takes ids and adds at most blobs
of new ids. -/
theorem RunInv_upload (env : BuildEnv) (n : Nat) (st0 st s1 : BuildState)
    (h0 : RasterStoreOK env n st0) (inv : RunInv env st0 st)
    (hr : s1.rasters = st.rasters) (hi : st.ids ≤ s1.ids)
    (hb : ∀ p ∈ st.bucket, p ∈ s1.bucket)
    (hb2 : ∀ p ∈ s1.bucket, p ∈ st.bucket ∨
      ∃ k < n, st0.ids ≤ k ∧ p = S3_IMAGE_PREFIX ++ (env.NewObjectID k).Hex) :
    RunInv env st0 s1 :=
  { ids_le := le_trans inv.ids_le hi
    nodup := by rw [hr]; exact inv.nodup
    rows := by
      intro r hrm
      rw [hr] at hrm
      rcases inv.rows r hrm with h | ⟨k, h1, h2, h3, h4⟩
      · exact Or.inl h
      · exact Or.inr ⟨k, h1, by omega, h3, h4⟩
    blob := by
      intro r hrm hnew
      rw [hr] at hrm
      exact hb _ (inv.blob r hrm hnew)
    single := by
      intro r hrm hnew r1 hr1
      rw [hr] at hrm hr1
      exact inv.single r hrm hnew r1 hr1
    gone := by
      intro old hold hnot hin
      rw [hr] at hnot
      rcases hb2 _ hin with h | ⟨k, hk, hk0, h⟩
      · exact inv.gone old hold hnot h
      · exact (h0.2 old hold k hk hk0).2 h }

/-- The invariant after `DeleteExistingBoundaryRastersByType`, however it ends. -/
theorem RunInv_delete (env : BuildEnv) (n : Nat) (st0 s1 : BuildState) (hf : FreshIds env n)
    (h0 : RasterStoreOK env n st0) (inv : RunInv env st0 s1) (hn : s1.ids ≤ n)
    (boundaryId : ObjectID) (rasterType : String) :
    RunInv env st0 (DeleteExistingBoundaryRastersByType env s1 boundaryId rasterType).1 := by
  obtain ⟨d1, _, d3, _, d5, d6, d7, _⟩ := DeleteExisting_spec env s1 boundaryId rasterType
    inv.nodup
  exact
    { ids_le := by rw [d1]; exact inv.ids_le
      nodup := inv.nodup.sublist (d3.map _)
      rows := by
        intro r hr
        rcases inv.rows r (d3.subset hr) with h | ⟨k, h1, h2, h3, h4⟩
        · exact Or.inl h
        · exact Or.inr ⟨k, h1, by rw [d1]; exact h2, h3, h4⟩
      blob := by
        intro r hr hnew
        by_contra hnot
        obtain ⟨y, hy, hy2, hy3⟩ := d6 _ (inv.blob r (d3.subset hr) hnew) hnot
        have hne : y ≠ r := fun h => hy2 (by rw [h]; exact hr)
        exact RunInv_paths env n st0 s1 hf h0 inv hn r y (d3.subset hr) hnew hy hne hy3
      single := by
        intro r hr hnew r1 hr1
        exact inv.single r (d3.subset hr) hnew r1 (d3.subset hr1)
      gone := by
        intro old hold hnot
        by_cases hin : old ∈ s1.rasters
        · exact (d7 old hin hnot).2
        · exact fun h => inv.gone old hold hin (d5 _ h) }

/-- The invariant after the insert of a raster with a new id whose blob is in the bucket
and whose boundary and type no stored raster has. -/
theorem RunInv_insert (env : BuildEnv) (st0 s2 : BuildState) (inv : RunInv env st0 s2)
    (r1 : Raster) (n : Nat) (hn0 : st0.ids ≤ n) (hn : n < s2.ids)
    (hid : r1.ID = env.NewObjectID n) (hpath : r1.ImagePath = S3_IMAGE_PREFIX ++ r1.ID.Hex)
    (hfresh : r1.ID ∉ s2.rasters.map Raster.ID) (hblob : r1.ImagePath ∈ s2.bucket)
    (hnone : ∀ y ∈ s2.rasters, ¬ (y.BoundaryId = r1.BoundaryId ∧ y.Type_ = r1.Type_)) :
    RunInv env st0 { s2 with rasters := s2.rasters ++ [r1] } :=
  { ids_le := inv.ids_le
    nodup := by
      show ((s2.rasters ++ [r1]).map Raster.ID).Nodup
      rw [List.map_append, List.map_singleton]
      exact List.Nodup.append inv.nodup (List.nodup_singleton _) (by simpa using hfresh)
    rows := by
      intro r hr
      rcases List.mem_append.mp hr with h | h
      · exact inv.rows r h
      · rw [List.mem_singleton] at h
        subst h
        exact Or.inr ⟨n, hn0, hn, hid, hpath⟩
    blob := by
      intro r hr hnew
      rcases List.mem_append.mp hr with h | h
      · exact inv.blob r h hnew
      · rw [List.mem_singleton] at h
        subst h
        exact hblob
    single := by
      intro r hr hnew r2 hr2 hb ht
      rcases List.mem_append.mp hr with h | h
      · rcases List.mem_append.mp hr2 with h2 | h2
        · exact inv.single r h hnew r2 h2 hb ht
        · rw [List.mem_singleton] at h2
          subst h2
          exact absurd ⟨hb.symm, ht.symm⟩ (hnone r h)
      · rw [List.mem_singleton] at h
        subst h
        rcases List.mem_append.mp hr2 with h2 | h2
        · exact absurd ⟨hb, ht⟩ (hnone r2 h2)
        · rw [List.mem_singleton] at h2
          exact h2
    gone := by
      intro old hold hnot
      exact inv.gone old hold (fun h => hnot (List.mem_append_left _ h)) }

/-- One iteration of the loop of `SaveBoundaryRasters` on a raster without an id keeps the
invariant. -/
theorem RunInv_step (env : BuildEnv) (n : Nat) (st0 st : BuildState) (hf : FreshIds env n)
    (h0 : RasterStoreOK env n st0) (inv : RunInvUpTo env n st0 st) (dataDir : String)
    (rasterImageFiles : List (String × String)) (raster : Raster)
    (hnil : raster.ID = NilObjectID) :
    RunInvUpTo env n st0 (saveBoundaryRaster env dataDir rasterImageFiles st raster) := by
  obtain ⟨hmono, htaken⟩ := saveBoundaryRaster_ids env dataDir rasterImageFiles st raster
  refine ⟨le_trans inv.1 hmono, fun hN => ?_⟩
  have inv := inv.2 (le_trans hmono hN)
  revert htaken hN
  cases hlook : rasterImageFiles.lookup raster.BoundaryId.Hex with
  | none =>
    have hres : saveBoundaryRaster env dataDir rasterImageFiles st raster = st := by
      simp only [saveBoundaryRaster, hlook]
    rw [hres]
    exact fun _ _ => inv
  | some rasterImagePath =>
    intro htaken hN
    have hlt : st.ids < n := by
      have := htaken (by simp) hnil
      omega
    clear htaken hN
    obtain ⟨s1, _, s3, s4, s5, s6⟩ := StoreRasterImage_spec env st raster
      (Join dataDir rasterImagePath)
    cases hS : raster.StoreRasterImage env st (Join dataDir rasterImagePath) with
    | mk raster1 rest =>
      cases rest with
      | mk st1 err =>
        rw [hS] at s1 s3 s4 s5 s6
        simp only [hnil, if_true] at s1 s3 s4 s5 s6
        have hid1 : raster1.ID = env.NewObjectID st.ids := by rw [s3]
        have hpath1 : raster1.ImagePath = S3_IMAGE_PREFIX ++ (env.NewObjectID st.ids).Hex := by
          rw [s3]
        have hfresh := RunInv_fresh env n st0 st hf h0 inv
        have inv1 : RunInv env st0 st1 := by
          apply RunInv_upload env n st0 st st1 h0 inv s1 (by omega)
          · intro p hp
            cases err with
            | some e => rw [s5 (by simp)]; exact hp
            | none => exact (s6 rfl p).mpr (Or.inl hp)
          · intro p hp
            cases err with
            | some e => rw [s5 (by simp)] at hp; exact Or.inl hp
            | none =>
              rcases (s6 rfl p).mp hp with h | h
              · exact Or.inl h
              · exact Or.inr ⟨st.ids, hlt, inv.ids_le, by rw [h, hpath1]⟩
        cases err with
        | some e =>
          have hres : saveBoundaryRaster env dataDir rasterImageFiles st raster = st1 := by
            simp only [saveBoundaryRaster, hlook, hS]
          rw [hres]
          exact inv1
        | none =>
          have inv2 := RunInv_delete env n st0 st1 hf h0 inv1 (by omega) raster1.BoundaryId
            raster1.Type_
          obtain ⟨d1, _, d3, _, _, d6, _, d8⟩ := DeleteExisting_spec env st1
            raster1.BoundaryId raster1.Type_ inv1.nodup
          cases hD : DeleteExistingBoundaryRastersByType env st1 raster1.BoundaryId
              raster1.Type_ with
          | mk st2 err2 =>
            rw [hD] at inv2 d1 d3 d6 d8
            simp only at inv2 d1 d3 d6 d8
            cases err2 with
            | some e =>
              have hres : saveBoundaryRaster env dataDir rasterImageFiles st raster = st2 := by
                simp only [saveBoundaryRaster, hlook, hS, hD]
              rw [hres]
              exact inv2
            | none =>
              have hres : saveBoundaryRaster env dataDir rasterImageFiles st raster
                  = (SaveRaster env st2 raster1).2.1 := by
                simp only [saveBoundaryRaster, hlook, hS, hD]
              rw [hres]
              have hne : raster1.ID ≠ NilObjectID := by
                rw [hid1]; exact (hf.2 st.ids hlt).2
              have hnot : raster1.ID ∉ st2.rasters.map Raster.ID := by
                intro hin
                obtain ⟨z, hz, hzid⟩ := List.mem_map.mp hin
                have hz1 : z ∈ st.rasters := by rw [← s1]; exact d3.subset hz
                exact (hfresh z hz1 st.ids hlt (le_refl _)).1 (by rw [hzid, hid1])
              rcases SaveRaster_spec env st2 raster1 hne with ⟨_, hsave⟩ | ⟨hin, _⟩
              · rw [hsave]
                apply RunInv_insert env st0 st2 inv2 raster1 st.ids inv.ids_le
                  (by rw [d1, s4]; omega) hid1 (by rw [hpath1, hid1]) hnot
                · have hin1 : raster1.ImagePath ∈ st1.bucket := (s6 rfl _).mpr (Or.inr rfl)
                  by_contra hout
                  obtain ⟨y, hy, _, hyp⟩ := d6 _ hin1 hout
                  have hy1 : y ∈ st.rasters := by rw [← s1]; exact hy
                  exact (hfresh y hy1 st.ids hlt (le_refl _)).2 (by rw [hyp, hpath1])
                · intro y hy hkey
                  refine d8 rfl y (d3.subset hy) ?_ hy
                  simp [boundaryRasterFilter, hkey.1, hkey.2]
              · exact absurd hin hnot

/-- The loop of `SaveBoundaryRasters` on rasters without an id keeps the invariant. -/
theorem RunInv_loop (env : BuildEnv) (n : Nat) (st0 : BuildState) (hf : FreshIds env n)
    (h0 : RasterStoreOK env n st0) (dataDir : String)
    (rasterImageFiles : List (String × String)) :
    ∀ (rasters : List Raster) (st : BuildState), RunInvUpTo env n st0 st →
      (∀ r ∈ rasters, r.ID = NilObjectID) →
      RunInvUpTo env n st0
        (rasters.foldl (saveBoundaryRaster env dataDir rasterImageFiles) st) := by
  intro rasters
  induction rasters with
  | nil => intro st inv _; exact inv
  | cons raster rest ih =>
    intro st inv hnil
    exact ih _ (RunInv_step env n st0 st hf h0 inv dataDir rasterImageFiles raster
      (hnil raster (List.mem_cons_self _ _))) (fun r hr => hnil r (List.mem_cons_of_mem _ hr))

/-- A change of the log of effects keeps the invariant. -/
theorem RunInv_effects (env : BuildEnv) (n : Nat) (st0 st : BuildState)
    (h0 : RasterStoreOK env n st0) (inv : RunInvUpTo env n st0 st) (effects : List Effect) :
    RunInvUpTo env n st0 { st with effects := effects } :=
  ⟨inv.1, fun hN => RunInv_upload env n st0 st _ h0 (inv.2 hN) rfl (le_refl _)
    (fun _ hp => hp) (fun _ hp => Or.inl hp)⟩

/-- The rasters of `BuildBoundaryRasters` have no id. -/
theorem BuildBoundaryRasters_nil (env : BuildEnv) (boundaries : List Boundary) (tile : Tile)
    (dataDir rasterImagePrefix rasterMetaPrefix : String) (rasters : List Raster)
    (rasterImageFiles : List (String × String))
    (h : BuildBoundaryRasters env boundaries tile dataDir rasterImagePrefix rasterMetaPrefix
      = .ok (rasters, rasterImageFiles)) :
    ∀ r ∈ rasters, r.ID = NilObjectID := by
  unfold BuildBoundaryRasters at h
  cases hdir : env.ReadDir dataDir with
  | error err => simp [hdir] at h
  | ok files =>
    simp only [hdir, Except.ok.injEq, Prod.mk.injEq] at h
    intro r hr
    rw [← h.1] at hr
    obtain ⟨entry, _, hb⟩ := List.mem_filterMap.mp hr
    obtain ⟨_, _, _, _, _, _, _, heq⟩ := buildBoundaryRaster_some env _ _ tile dataDir
      entry.1 r hb
    rw [heq]

/-- The function `BuildNDVIMaps` keeps the invariant. -/
theorem RunInv_BuildNDVIMaps (env : BuildEnv) (n : Nat) (st0 st : BuildState)
    (hf : FreshIds env n) (h0 : RasterStoreOK env n st0) (inv : RunInvUpTo env n st0 st)
    (boundaries : List Boundary) (tile : Tile) (dataDir : String) :
    RunInvUpTo env n st0 (BuildNDVIMaps env st boundaries tile dataDir).1 := by
  unfold BuildNDVIMaps
  split
  · exact inv
  · have inv1 := RunInv_effects env n st0 st h0 inv (st.effects ++
      [Effect.WriteBoundaryFiles dataDir (boundaries.map Boundary.ID),
       Effect.CallPythonProgram dataDir])
    simp only []
    cases hpy : env.CallPythonProgram dataDir with
    | some err => exact inv1
    | none =>
      cases hb : BuildBoundaryRasters env boundaries tile dataDir "raster_image_"
          "raster_meta_" with
      | error err => exact inv1
      | ok res =>
        obtain ⟨rasters, rasterImageFiles⟩ := res
        exact RunInv_loop env n st0 hf h0 dataDir rasterImageFiles rasters _ inv1
          (BuildBoundaryRasters_nil env boundaries tile dataDir _ _ rasters rasterImageFiles hb)

/-- Lines 186-222 of `SetupAndBuildNDVIMaps` keep the invariant. -/
theorem RunInv_downloadAndBuild (env : BuildEnv) (n : Nat) (st0 st : BuildState)
    (hf : FreshIds env n) (h0 : RasterStoreOK env n st0) (inv : RunInvUpTo env n st0 st)
    (boundaries : List Boundary) (tile : Tile) (bands : BandPaths) (dataDir : String) :
    RunInvUpTo env n st0 (downloadAndBuild env st boundaries tile bands dataDir).1 := by
  unfold downloadAndBuild
  simp only []
  have inv1 := RunInv_effects env n st0 st h0 inv (st.effects ++
    [Effect.GetObject (Join dataDir "satData_band04.tif") bands.band04ObjectPath])
  split
  · exact inv1
  · have inv2 := RunInv_effects env n st0 _ h0 inv1 ((st.effects ++
      [Effect.GetObject (Join dataDir "satData_band04.tif") bands.band04ObjectPath]) ++
      [Effect.GetObject (Join dataDir "satData_band08.tif") bands.band08ObjectPath])
    split
    · exact inv2
    · split
      · have inv3 := RunInv_effects env n st0 _ h0 inv2 (((st.effects ++
          [Effect.GetObject (Join dataDir "satData_band04.tif") bands.band04ObjectPath]) ++
          [Effect.GetObject (Join dataDir "satData_band08.tif") bands.band08ObjectPath]) ++
          [Effect.GetObject (Join dataDir "satData_bandSCL.tif") bands.bandSCLObjectPath])
        split
        · exact inv3
        · exact RunInv_BuildNDVIMaps env n st0 _ hf h0 inv3 boundaries tile dataDir
      · exact RunInv_BuildNDVIMaps env n st0 _ hf h0 inv2 boundaries tile dataDir

/-- The function `SetupAndBuildNDVIMaps` keeps the invariant. -/
theorem RunInv_SetupAndBuildNDVIMaps (env : BuildEnv) (n : Nat) (st0 st : BuildState)
    (hf : FreshIds env n) (h0 : RasterStoreOK env n st0) (inv : RunInvUpTo env n st0 st)
    (boundaries : List Boundary) (tile : Tile) :
    RunInvUpTo env n st0 (SetupAndBuildNDVIMaps env st boundaries tile).1 := by
  unfold SetupAndBuildNDVIMaps
  simp only []
  split
  · exact inv
  · split
    · exact inv
    · rename_i dataDir _
      exact RunInv_effects env n st0 _ h0
        (RunInv_downloadAndBuild env n st0 _ hf h0
          (RunInv_effects env n st0 st h0 inv (st.effects ++ [Effect.MkdirTemp dataDir]))
          boundaries tile (selectBands tile.Files) dataDir) _

/-- The loop of `BuildBoundaryMapTask` keeps the invariant. -/
theorem RunInv_buildTiles (env : BuildEnv) (n : Nat) (st0 : BuildState)
    (hf : FreshIds env n) (h0 : RasterStoreOK env n st0) (tiles : List Tile) :
    ∀ (entries : List (ObjectID × List Boundary)) (st : BuildState),
      RunInvUpTo env n st0 st → RunInvUpTo env n st0 (buildTiles env tiles st entries).state := by
  intro entries
  induction entries with
  | nil => intro st inv; exact inv
  | cons entry rest ih =>
    intro st inv
    obtain ⟨tileId, boundaries⟩ := entry
    by_cases hlen : boundaries.length = 0
    · have hres : buildTiles env tiles st ((tileId, boundaries) :: rest)
          = buildTiles env tiles st rest := by
        simp only [buildTiles, hlen, if_true]
      rw [hres]
      exact ih st inv
    · cases hfind : FindTile tiles (fun t => t.ID == tileId) with
      | none =>
        have hres : buildTiles env tiles st ((tileId, boundaries) :: rest)
            = { state := st, completion := .panicked } := by
          simp only [buildTiles, hlen, if_false, hfind]
        rw [hres]
        exact inv
      | some tile =>
        have inv1 := RunInv_SetupAndBuildNDVIMaps env n st0 st hf h0 inv boundaries tile
        cases hS : SetupAndBuildNDVIMaps env st boundaries tile with
        | mk st1 err =>
          rw [hS] at inv1
          cases err with
          | some e =>
            have hres : buildTiles env tiles st ((tileId, boundaries) :: rest)
                = { state := st1, completion := .returned (some e) } := by
              simp only [buildTiles, hlen, if_false, hfind, hS]
            rw [hres]
            exact inv1
          | none =>
            have hres : buildTiles env tiles st ((tileId, boundaries) :: rest)
                = buildTiles env tiles st1 rest := by
              simp only [buildTiles, hlen, if_false, hfind, hS]
            rw [hres]
            exact ih st1 inv1

/-- The function `BuildBoundaryMapTask` keeps the invariant. -/
theorem RunInv_BuildBoundaryMapTask (env : BuildEnv) (n : Nat) (st0 : BuildState)
    (hf : FreshIds env n) (h0 : RasterStoreOK env n st0) (tiles : List Tile)
    (boundaries : List Boundary) (event : Event) :
    RunInvUpTo env n st0 (BuildBoundaryMapTask env tiles boundaries st0 event).state := by
  have inv : RunInvUpTo env n st0 st0 := ⟨le_refl _, fun _ => RunInv_refl env n st0 h0⟩
  unfold BuildBoundaryMapTask
  split
  · exact inv
  · split
    · exact inv
    · exact RunInv_buildTiles env n st0 hf h0 tiles _ st0 inv

/-! ## The rasters of a run: the claim -/

/-- C25, as stated, fails: in a run on an empty raster collection in which the object store
refuses the upload of the image of the boundary 51, `BuildBoundaryRasters` produces a
raster for the boundary 51 and for the boundary 52, the run returns `nil`, and the raster
collection holds no row of the boundary 51 and the type `NDVI_MAP`. -/
theorem failed_upload_leaves_no_raster :
    BuildBoundaryRasters failingUploadEnv [fieldBoundary, meadowBoundary] mapTile
        "/tmp/build_boundary_map_task1" "raster_image_" "raster_meta_"
      = .ok ([fieldRaster, meadowRaster], exampleImageFiles) ∧
    fieldRaster.BoundaryId = 51 ∧ fieldRaster.Type_ = TYPE_NDVI_MAP ∧
    (BuildBoundaryMapTask failingUploadEnv [mapTile] [fieldBoundary, meadowBoundary]
        emptyBuildState buildMapEvent).completion = .returned none ∧
    ∀ r ∈ (BuildBoundaryMapTask failingUploadEnv [mapTile] [fieldBoundary, meadowBoundary]
        emptyBuildState buildMapEvent).state.rasters,
      ¬ (r.BoundaryId = 51 ∧ r.Type_ = TYPE_NDVI_MAP) :=
  ⟨by rfl, by decide, by decide, by decide, by decide⟩

/-- C25, amended: after a run of `BuildBoundaryMapTask`, however it ends, for every raster
that the run has stored in the collection (a row that the collection did not hold at the
start), the collection holds no other row of its boundary and type, its image path is
`rasters/images/` followed by the hex of its id, the blob of that path is in the bucket,
and every row of that boundary and type that the collection held at the start is deleted
and so is its blob. The ids that `primitive.NewObjectID()` returns in the run are supposed
distinct, other than the nil id and the ids of the stored rasters, and their image paths
other than those of the stored rasters. -/
theorem stored_rasters_replace_earlier (env : BuildEnv) (tiles : List Tile)
    (boundaries : List Boundary) (st0 : BuildState) (event : Event) (n : Nat)
    (hn : (BuildBoundaryMapTask env tiles boundaries st0 event).state.ids ≤ n)
    (hf : FreshIds env n) (h0 : RasterStoreOK env n st0) :
    ∀ r ∈ (BuildBoundaryMapTask env tiles boundaries st0 event).state.rasters,
      r ∉ st0.rasters →
      (∀ r1 ∈ (BuildBoundaryMapTask env tiles boundaries st0 event).state.rasters,
        r1.BoundaryId = r.BoundaryId → r1.Type_ = r.Type_ → r1 = r) ∧
      r.ImagePath = S3_IMAGE_PREFIX ++ r.ID.Hex ∧
      r.ImagePath ∈ (BuildBoundaryMapTask env tiles boundaries st0 event).state.bucket ∧
      ∀ old ∈ st0.rasters, old.BoundaryId = r.BoundaryId → old.Type_ = r.Type_ →
        old ∉ (BuildBoundaryMapTask env tiles boundaries st0 event).state.rasters ∧
        old.ImagePath ∉ (BuildBoundaryMapTask env tiles boundaries st0 event).state.bucket := by
  have inv := (RunInv_BuildBoundaryMapTask env n st0 hf h0 tiles boundaries event).2 hn
  intro r hr hnew
  refine ⟨inv.single r hr hnew, ?_, inv.blob r hr hnew, ?_⟩
  · rcases inv.rows r hr with h | ⟨_, _, _, _, h⟩
    · exact absurd h hnew
    · exact h
  · intro old hold hb ht
    have hout : old ∉ (BuildBoundaryMapTask env tiles boundaries st0 event).state.rasters := by
      intro hin
      have := inv.single r hr hnew old hin hb ht
      exact hnew (this ▸ hold)
    exact ⟨hout, inv.gone old hold hout⟩

/-- The amended C25 on the run of the examples that starts with a raster of the boundary
51 of an earlier run: the run returns `nil` and stores a raster for the boundary 51 and
one for the boundary 52. -/
theorem stored_rasters_replace_earlier_witness :
    (BuildBoundaryMapTask exampleBuildEnv [mapTile] [fieldBoundary, meadowBoundary]
        earlierBuildState buildMapEvent).state.ids ≤ 2 ∧
    FreshIds exampleBuildEnv 2 ∧ RasterStoreOK exampleBuildEnv 2 earlierBuildState ∧
    (BuildBoundaryMapTask exampleBuildEnv [mapTile] [fieldBoundary, meadowBoundary]
        earlierBuildState buildMapEvent).completion = .returned none ∧
    ((BuildBoundaryMapTask exampleBuildEnv [mapTile] [fieldBoundary, meadowBoundary]
        earlierBuildState buildMapEvent).state.rasters.map Raster.BoundaryId = [51, 52]) ∧
    ∀ r ∈ (BuildBoundaryMapTask exampleBuildEnv [mapTile] [fieldBoundary, meadowBoundary]
        earlierBuildState buildMapEvent).state.rasters,
      r ∉ earlierBuildState.rasters →
      (∀ r1 ∈ (BuildBoundaryMapTask exampleBuildEnv [mapTile] [fieldBoundary, meadowBoundary]
          earlierBuildState buildMapEvent).state.rasters,
        r1.BoundaryId = r.BoundaryId → r1.Type_ = r.Type_ → r1 = r) ∧
      r.ImagePath = S3_IMAGE_PREFIX ++ r.ID.Hex ∧
      r.ImagePath ∈ (BuildBoundaryMapTask exampleBuildEnv [mapTile]
        [fieldBoundary, meadowBoundary] earlierBuildState buildMapEvent).state.bucket ∧
      ∀ old ∈ earlierBuildState.rasters, old.BoundaryId = r.BoundaryId →
        old.Type_ = r.Type_ →
        old ∉ (BuildBoundaryMapTask exampleBuildEnv [mapTile] [fieldBoundary, meadowBoundary]
          earlierBuildState buildMapEvent).state.rasters ∧
        old.ImagePath ∉ (BuildBoundaryMapTask exampleBuildEnv [mapTile]
          [fieldBoundary, meadowBoundary] earlierBuildState buildMapEvent).state.bucket :=
  ⟨by decide, by decide, by decide, by decide, by decide,
    stored_rasters_replace_earlier exampleBuildEnv [mapTile] [fieldBoundary, meadowBoundary]
      earlierBuildState buildMapEvent 2 (by decide) (by decide) (by decide)⟩

end Sentinel
